import Mathlib

/-!
V4L2 memory-to-memory streaming example (`m2m.c`): a shallow embedding

The C program keeps its device handle, buffer pools and flags in file-scope
variables and talks to the driver through `ioctl`, `select`, `mmap`, ...
Here the file-scope variables are the fields of `State`, every call into the
environment takes its answer from a script of device responses (`State.script`)
and is recorded, together with the answer, in `State.trace`.  A function of the
program is a state transformer `M α`; it either returns (`Result.ok`) or stops
(`Result.halt`) because the program called `exit`, failed an `assert`, ran into
undefined behaviour, or because the script of responses is used up.
-/

namespace M2M

/-! ## Constants and plain data -/

/-- Number of planes per buffer, `#define FMT_NUM_PLANES 1`. -/
def FMT_NUM_PLANES : Nat := 1

/-- The value `MAP_FAILED`, `(void *) -1` on a 64-bit target. -/
def MAP_FAILED : Nat := 2 ^ 64 - 1

/-- The memory strategy, `enum io_method`. -/
inductive io_method where
  | IO_METHOD_READ
  | IO_METHOD_MMAP
  | IO_METHOD_USERPTR
  deriving DecidableEq, Repr

/-- The stream types of `enum v4l2_buf_type` the program uses. -/
inductive v4l2_buf_type where
  | V4L2_BUF_TYPE_VIDEO_CAPTURE
  | V4L2_BUF_TYPE_VIDEO_OUTPUT
  | V4L2_BUF_TYPE_VIDEO_CAPTURE_MPLANE
  | V4L2_BUF_TYPE_VIDEO_OUTPUT_MPLANE
  deriving DecidableEq, Repr

/-- The memory kinds of `enum v4l2_memory` the program uses. -/
inductive v4l2_memory where
  | V4L2_MEMORY_MMAP
  | V4L2_MEMORY_USERPTR
  deriving DecidableEq, Repr

/-- The `errno` values the program distinguishes; `EOTHER` is any other. -/
inductive Errno where
  | EINTR
  | EAGAIN
  | EINVAL
  | EIO
  | EOTHER
  deriving DecidableEq, Repr

/-- The event types `handle_event` distinguishes; `OTHER` is any other. -/
inductive v4l2_event_type where
  | V4L2_EVENT_EOS
  | V4L2_EVENT_SOURCE_CHANGE
  | OTHER
  deriving DecidableEq, Repr

/-- One pool entry of a single-planar pool, `struct buffer`. -/
structure buffer where
  start : Nat
  length : Nat
  deriving DecidableEq, Repr

/-- One pool entry of a multi-planar pool, `struct buffer_mp`: two arrays of
`FMT_NUM_PLANES` entries. -/
structure buffer_mp where
  start : List Nat
  length : List Nat
  deriving DecidableEq, Repr

/-- One plane descriptor, the fields of `struct v4l2_plane` the program reads. -/
structure v4l2_plane where
  bytesused : Nat := 0
  length : Nat := 0
  mem_offset : Nat := 0
  deriving DecidableEq, Repr

/-- The fields of `struct v4l2_buffer` the program uses.  A value built with
only some fields given is the structure after `CLEAR`. -/
structure v4l2_buffer where
  type : v4l2_buf_type
  memory : v4l2_memory
  index : Nat := 0
  bytesused : Nat := 0
  length : Nat := 0
  offset : Nat := 0
  userptr : Nat := 0
  planes : List v4l2_plane := []
  deriving DecidableEq, Repr

/-- The fields of `struct v4l2_requestbuffers` the program uses. -/
structure v4l2_requestbuffers where
  count : Nat
  type : v4l2_buf_type
  memory : v4l2_memory
  deriving DecidableEq, Repr

/-! ## The environment -/

/-- A call into the environment, with the arguments the program passes. -/
inductive Call where
  | VIDIOC_REQBUFS (req : v4l2_requestbuffers)
  | VIDIOC_QUERYBUF (buf : v4l2_buffer)
  | VIDIOC_QBUF (buf : v4l2_buffer)
  | VIDIOC_DQBUF (buf : v4l2_buffer)
  | VIDIOC_STREAMON (type : v4l2_buf_type)
  | VIDIOC_STREAMOFF (type : v4l2_buf_type)
  | VIDIOC_DQEVENT
  | VIDIOC_G_FMT (type : v4l2_buf_type)
  | VIDIOC_S_FMT (type : v4l2_buf_type)
  | select (rd_fds wr_fds ex_fds : Bool) (tv_sec tv_usec : Nat)
  | read (ptr : Nat) (len : Nat)
  | mmap (length : Nat) (offset : Nat)
  | munmap (start : Nat) (length : Nat)
  | calloc (nmemb : Nat)
  | malloc (size : Nat)
  deriving DecidableEq, Repr

/-- The answer of the environment to one call: the return value, `errno`, and
every field the call may write back.  Each caller reads the fields that its
call fills in. -/
structure Resp where
  ret : Int := 0
  errno : Errno := Errno.EOTHER
  count : Nat := 0
  index : Nat := 0
  bytesused : Nat := 0
  length : Nat := 0
  offset : Nat := 0
  userptr : Nat := 0
  planes : List v4l2_plane := []
  ev_type : v4l2_event_type := v4l2_event_type.OTHER
  rd : Bool := false
  wr : Bool := false
  ex : Bool := false
  addr : Nat := 0
  deriving DecidableEq, Repr

/-- Diagnostics the program prints on `stderr`. -/
inductive Msg where
  | Reading
  | Writing
  | Exception
  | Source_changed
  | Unmapped_all_buffers
  | EOS
  | select_timeout
  | Insufficient_buffer_memory
  | no_memory_mapping
  | no_user_pointer
  | Out_of_memory
  | Short_read
  | Read_bytes
  | Used_bytes
  | errno_exit
  deriving DecidableEq, Repr

/-- What a run leaves behind, in order: calls into the environment with their
answers, invocations of the sink (`process_image`) and of the source
(`supply_input`, `supply_input_by_au`), and diagnostics.  The last two
constructors are bookkeeping of `mainloop`: `serviced type r` records that a
service call for `type` returned `r`, and `frame_done` that the inner
`for (;;)` was left by `break`, which completes one outer iteration. -/
inductive Ev where
  | sys (c : Call) (r : Resp)
  | process_image (ptr : Nat) (size : Nat)
  | supply_input (buf : Nat) (buf_len : Nat)
  | supply_input_by_au (buf : Nat) (buf_len : Nat)
  | log (m : Msg)
  | serviced (type : v4l2_buf_type) (r : Int)
  | frame_done
  deriving DecidableEq, Repr

/-- Why a run stopped without returning. -/
inductive Halt where
  | exit
  | abort
  | undefined
  | starved
  deriving DecidableEq, Repr

/-- The file-scope variables of `m2m.c`, the input file, the memory the source
callbacks write, and the environment (responses still to come, trace so far). -/
structure State where
  io : io_method := io_method.IO_METHOD_MMAP
  buffers : List buffer := []
  buffers_out : List buffer := []
  buffers_mp : List buffer_mp := []
  buffers_mp_out : List buffer_mp := []
  n_buffers : Nat := 0
  n_buffers_out : Nat := 0
  m2m_enabled : Bool := false
  multi_planar : Bool := false
  frame_count : Int := 70
  in_fp : Bool := false
  in_file : List Nat := []
  in_pos : Nat := 0
  f_offset : Nat := 0
  mem : Nat → Nat := fun _ => 0
  script : List Resp := []
  trace : List Ev := []

/-- The outcome of running a function of the program. -/
inductive Result (α : Type) where
  | ok (a : α) (s : State)
  | halt (h : Halt) (s : State)

/-- The state in which a run ended. -/
def Result.state {α : Type} : Result α → State
  | Result.ok _ s => s
  | Result.halt _ s => s

/-- Whether a run returned. -/
def Result.isOk {α : Type} : Result α → Bool
  | Result.ok _ _ => true
  | Result.halt _ _ => false

/-- Why the run stopped, when it did not return. -/
def Result.halted {α : Type} : Result α → Option Halt
  | Result.ok _ _ => none
  | Result.halt h _ => some h

/-- The returned value, when the run returned. -/
def Result.value {α : Type} : Result α → Option α
  | Result.ok a _ => some a
  | Result.halt _ _ => none

/-- A function of the program: a transformer of `State`. -/
def M (α : Type) : Type := State → Result α

instance : Monad M where
  pure a := fun s => Result.ok a s
  bind m f := fun s =>
    match m s with
    | Result.ok a s1 => f a s1
    | Result.halt h s1 => Result.halt h s1

/-- Read the current state. -/
def getState : M State := fun s => Result.ok s s

/-- Assign program variables: replace the state by `f` of it. -/
def modify (f : State → State) : M Unit := fun s => Result.ok () (f s)

/-- Stop the run. -/
def halt {α : Type} (h : Halt) : M α := fun s => Result.halt h s

/-- Append one entry to the trace. -/
def emit (e : Ev) : M Unit := fun s => Result.ok () { s with trace := s.trace ++ [e] }

/-- One call into the environment: the next response of the script is the
answer, and the call is recorded with it. -/
def sys (c : Call) : M Resp := fun s =>
  match s.script with
  | [] => Result.halt Halt.starved s
  | r :: rest => Result.ok r { s with script := rest, trace := s.trace ++ [Ev.sys c r] }

/-- The program's `errno_exit`: print the failing call and `exit(EXIT_FAILURE)`. -/
def errno_exit {α : Type} : M α := do
  emit (Ev.log Msg.errno_exit)
  halt Halt.exit

/-- Print a diagnostic and `exit(EXIT_FAILURE)`. -/
def exit_with {α : Type} (m : Msg) : M α := do
  emit (Ev.log m)
  halt Halt.exit

/-- The retry loop of `xioctl`, with `n` bounding the number of attempts. -/
def xioctl_loop : Nat → Call → M Resp
  | 0, _ => halt Halt.starved
  | n + 1, c => do
    let r ← sys c
    if r.ret = -1 ∧ r.errno = Errno.EINTR then xioctl_loop n c else pure r

/-- The program's `xioctl`: repeat the call while it fails with `EINTR`.  Each
attempt uses up one response, so one more attempt than there are responses
left is never reached. -/
def xioctl (c : Call) : M Resp := do
  let s ← getState
  xioctl_loop (s.script.length + 1) c

/-- The program's `stream_type`. -/
def stream_type (t : v4l2_buf_type) : M v4l2_buf_type := fun s =>
  if s.multi_planar then
    match t with
    | v4l2_buf_type.V4L2_BUF_TYPE_VIDEO_CAPTURE =>
        Result.ok v4l2_buf_type.V4L2_BUF_TYPE_VIDEO_CAPTURE_MPLANE s
    | v4l2_buf_type.V4L2_BUF_TYPE_VIDEO_OUTPUT =>
        Result.ok v4l2_buf_type.V4L2_BUF_TYPE_VIDEO_OUTPUT_MPLANE s
    | t => Result.ok t s
  else Result.ok t s

/-- The array access `bufs[i]`: reading past the end of the array is undefined
behaviour. -/
def at_index {α : Type} (bufs : List α) (i : Nat) : M α :=
  match bufs[i]? with
  | none => halt Halt.undefined
  | some b => pure b

/-- A counted loop `for (i = i0; i < i0 + k; ++i) body(i)`. -/
def for_loop : Nat → Nat → (Nat → M Unit) → M Unit
  | 0, _, _ => pure ()
  | k + 1, i, body => do
    body i
    for_loop k (i + 1) body

/-- The loop `for (i = 0; i < n; ++i) body(i)`. -/
def for_range (n : Nat) (body : Nat → M Unit) : M Unit := for_loop n 0 body

/-! ## Sink and source callbacks -/

/-- Memory after writing `data` at address `addr`. -/
def store (mem : Nat → Nat) (addr : Nat) (data : List Nat) : Nat → Nat :=
  fun a => if addr ≤ a ∧ a < addr + data.length then data.getD (a - addr) 0 else mem a

/-- The `n` bytes of memory from address `addr` on. -/
def load (mem : Nat → Nat) (addr : Nat) (n : Nat) : List Nat :=
  (List.range n).map (fun i => mem (addr + i))

/-- The call `fread(buf, 1, n, in_fp)` on the open input file: the bytes from
the current position, at most `n` of them, go to `buf`; their number is
returned. -/
def fread (buf : Nat) (n : Nat) : M Nat := do
  let s ← getState
  let data := (s.in_file.drop s.in_pos).take n
  modify (fun s => { s with in_pos := s.in_pos + data.length, mem := store s.mem buf data })
  pure data.length

/-- The call `fseek(in_fp, pos, SEEK_SET)` on the open input file. -/
def fseek (pos : Nat) : M Unit := modify (fun s => { s with in_pos := pos })

/-- The call `memset(addr, 0, n)`. -/
def memset_zero (addr : Nat) (n : Nat) : M Unit :=
  modify (fun s => { s with mem := store s.mem addr (List.replicate n 0) })

/-- The program's `process_image`, the sink: the call is recorded with the
address and the byte count it is given (opening the destination file, the
write and the progress dot are the sink's own business). -/
def process_image (ptr : Nat) (size : Nat) : M Unit := emit (Ev.process_image ptr size)

/-- The program's `process_image_mp`; `ptr` and `size` are arrays of
`FMT_NUM_PLANES` entries. -/
def process_image_mp (ptr : List Nat) (size : List Nat) : M Unit :=
  for_range FMT_NUM_PLANES (fun p => process_image (ptr.getD p 0) (size.getD p 0))

/-- The program's `supply_input`, the single-planar source.  The argument
`bytesused` is the value `*bytesused` holds on entry, the result the value it
holds on return: it is assigned only when the input file is open. -/
def supply_input (buf : Nat) (buf_len : Nat) (bytesused : Nat) : M Nat := do
  emit (Ev.supply_input buf buf_len)
  let s ← getState
  if s.in_fp then do
    let got ← fread buf buf_len
    emit (Ev.log (if got ≠ buf_len then Msg.Short_read else Msg.Read_bytes))
    pure got
  else pure bytesused

/-- The access-unit delimiter `aud` of `supply_input_by_au`. -/
def aud : List Nat := [0, 0, 0, 1, 9]

/-- The library function `memmem`: the offset of the first occurrence of
`needle` in `hay`, if there is one. -/
def memmem : List Nat → List Nat → Option Nat
  | [], needle => if needle = [] then some 0 else none
  | b :: hay, needle =>
    if (b :: hay).take needle.length = needle then some 0
    else (memmem hay needle).map (fun k => k + 1)

/-- The program's `supply_input_by_au`; the result is the value stored to
`*bytesused`.  With no input file open the `fseek` dereferences a null
`FILE *`; when `memmem` finds nothing, `b_offset` is null and the `memset`
writes through it: both are undefined behaviour. -/
def supply_input_by_au (buf : Nat) (buf_len : Nat) : M Nat := do
  emit (Ev.supply_input_by_au buf buf_len)
  let s ← getState
  if s.in_fp then do
    fseek s.f_offset
    let bytes_read ← fread buf buf_len
    let s1 ← getState
    match memmem (load s1.mem (buf + 1) bytes_read) aud with
    | none => halt Halt.undefined
    | some k => do
      let au_length := k + 1
      modify (fun s2 => { s2 with f_offset := s2.f_offset + au_length })
      memset_zero (buf + au_length) (buf_len - au_length)
      emit (Ev.log Msg.Used_bytes)
      pure (au_length % 2 ^ 32)
  else halt Halt.undefined

/-- The loop of `supply_input_mp` over the planes `p, p + 1, ...`. -/
def supply_input_mp_loop (buf : List Nat) (buf_len : List Nat) : Nat → Nat → Nat → M Nat
  | 0, _, tot_bytes => pure tot_bytes
  | k + 1, p, tot_bytes => do
    let bytes ← supply_input_by_au (buf.getD p 0) (buf_len.getD p 0)
    supply_input_mp_loop buf buf_len k (p + 1) ((tot_bytes + bytes) % 2 ^ 32)

/-- The program's `supply_input_mp`; the result is the value stored to
`*bytesused`. -/
def supply_input_mp (buf : List Nat) (buf_len : List Nat) : M Nat :=
  supply_input_mp_loop buf buf_len FMT_NUM_PLANES 0 0

/-! ## Servicing a stream -/

/-- The buffer structure after a successful `VIDIOC_DQBUF`: the driver fills in
everything but `type` and `memory`. -/
def v4l2_buffer.dequeued (buf : v4l2_buffer) (r : Resp) : v4l2_buffer :=
  { buf with index := r.index, bytesused := r.bytesused, length := r.length,
             offset := r.offset, userptr := r.userptr, planes := r.planes }

/-- The scan of `read_frame` under `IO_METHOD_USERPTR`,
`for (i = ...; i < n_buffers; ++i) if (match) break;` with `k` entries still to
look at: the value of `i` after the loop. -/
def userptr_scan (bufs : List buffer) (userptr : Nat) (length : Nat) : Nat → Nat → M Nat
  | 0, i => pure i
  | k + 1, i => do
    let b ← at_index bufs i
    if userptr = b.start ∧ length = b.length then pure i
    else userptr_scan bufs userptr length k (i + 1)

/-- What `read_frame` and `read_frame_mmap_mp` do when the dequeue (or the
`read`) fails: `EAGAIN` makes them return 0, anything else is fatal. -/
def dequeue_failed (e : Errno) : M Int :=
  match e with
  | Errno.EAGAIN => pure 0
  | _ => errno_exit

/-- The program's `read_frame`: one service call of a single-planar stream. -/
def read_frame (type : v4l2_buf_type) (bufs : List buffer) (n_buffers : Nat) : M Int := do
  let s ← getState
  match s.io with
  | io_method.IO_METHOD_READ =>
    let b0 ← at_index bufs 0
    let r ← sys (Call.read b0.start b0.length)
    if r.ret = -1 then dequeue_failed r.errno
    else do
      process_image b0.start b0.length
      pure 1
  | io_method.IO_METHOD_MMAP => do
    let buf : v4l2_buffer := { type := type, memory := v4l2_memory.V4L2_MEMORY_MMAP }
    let r ← xioctl (Call.VIDIOC_DQBUF buf)
    if r.ret = -1 then dequeue_failed r.errno
    else
      let buf := buf.dequeued r
      if buf.index < n_buffers then do
        let b ← at_index bufs buf.index
        let bytesused ←
          (if type = v4l2_buf_type.V4L2_BUF_TYPE_VIDEO_CAPTURE then do
            process_image b.start buf.bytesused
            pure buf.bytesused
          else supply_input b.start b.length buf.bytesused)
        let r2 ← xioctl (Call.VIDIOC_QBUF { buf with bytesused := bytesused })
        if r2.ret = -1 then errno_exit else pure 1
      else halt Halt.abort
  | io_method.IO_METHOD_USERPTR => do
    let buf : v4l2_buffer :=
      { type := v4l2_buf_type.V4L2_BUF_TYPE_VIDEO_CAPTURE,
        memory := v4l2_memory.V4L2_MEMORY_USERPTR }
    let r ← xioctl (Call.VIDIOC_DQBUF buf)
    if r.ret = -1 then dequeue_failed r.errno
    else
      let buf := buf.dequeued r
      let i ← userptr_scan bufs buf.userptr buf.length n_buffers 0
      if i < n_buffers then do
        process_image buf.userptr buf.bytesused
        let r2 ← xioctl (Call.VIDIOC_QBUF buf)
        if r2.ret = -1 then errno_exit else pure 1
      else halt Halt.abort

/-- The program's `read_frame_mmap_mp`: one service call of a multi-planar
stream. -/
def read_frame_mmap_mp (type : v4l2_buf_type) (bufs : List buffer_mp) (n_buffers : Nat) :
    M Int := do
  let buf : v4l2_buffer :=
    { type := type, memory := v4l2_memory.V4L2_MEMORY_MMAP, length := FMT_NUM_PLANES,
      planes := List.replicate FMT_NUM_PLANES {} }
  let r ← xioctl (Call.VIDIOC_DQBUF buf)
  if r.ret = -1 then dequeue_failed r.errno
  else
    let buf := buf.dequeued r
    if buf.index < n_buffers then do
      let b ← at_index bufs buf.index
      let bytesused ←
        (if type = v4l2_buf_type.V4L2_BUF_TYPE_VIDEO_CAPTURE_MPLANE then do
          process_image_mp b.start b.length
          pure buf.bytesused
        else supply_input_mp b.start b.length)
      let r2 ← xioctl (Call.VIDIOC_QBUF { buf with bytesused := bytesused })
      if r2.ret = -1 then errno_exit else pure 1
    else halt Halt.abort

/-! ## Starting and stopping a stream -/

/-- The program's `stop_capture`. -/
def stop_capture (type : v4l2_buf_type) : M Unit := do
  let type ← stream_type type
  let r ← xioctl (Call.VIDIOC_STREAMOFF type)
  if r.ret = -1 then errno_exit else pure ()

/-- The program's `stop_capturing`. -/
def stop_capturing : M Unit := do
  let s ← getState
  match s.io with
  | io_method.IO_METHOD_READ => pure ()
  | _ => do
    stop_capture v4l2_buf_type.V4L2_BUF_TYPE_VIDEO_CAPTURE
    let s ← getState
    if s.m2m_enabled then stop_capture v4l2_buf_type.V4L2_BUF_TYPE_VIDEO_OUTPUT else pure ()

/-- The program's `start_capturing_mmap`. -/
def start_capturing_mmap (type : v4l2_buf_type) (bufs : List buffer) (n_bufs : Nat) :
    M Unit := do
  for_range n_bufs (fun i => do
    let buf : v4l2_buffer :=
      { type := type, memory := v4l2_memory.V4L2_MEMORY_MMAP, index := i }
    let bytesused ←
      (if type = v4l2_buf_type.V4L2_BUF_TYPE_VIDEO_OUTPUT then do
        let b ← at_index bufs i
        supply_input b.start b.length buf.bytesused
      else pure buf.bytesused)
    let r ← xioctl (Call.VIDIOC_QBUF { buf with bytesused := bytesused })
    if r.ret = -1 then errno_exit else pure ())
  let r ← xioctl (Call.VIDIOC_STREAMON type)
  if r.ret = -1 then errno_exit else pure ()

/-- The program's `start_capturing_mmap_mp`. -/
def start_capturing_mmap_mp (type : v4l2_buf_type) (bufs : List buffer_mp) (n_bufs : Nat) :
    M Unit := do
  for_range n_bufs (fun i => do
    let buf : v4l2_buffer :=
      { type := type, memory := v4l2_memory.V4L2_MEMORY_MMAP, index := i,
        length := FMT_NUM_PLANES, planes := List.replicate FMT_NUM_PLANES {} }
    let bytesused ←
      (if type = v4l2_buf_type.V4L2_BUF_TYPE_VIDEO_OUTPUT_MPLANE then do
        let b ← at_index bufs i
        supply_input_mp b.start b.length
      else pure buf.bytesused)
    let r ← xioctl (Call.VIDIOC_QBUF { buf with bytesused := bytesused })
    if r.ret = -1 then errno_exit else pure ())
  let r ← xioctl (Call.VIDIOC_STREAMON type)
  if r.ret = -1 then errno_exit else pure ()

/-- The program's `start_capturing`. -/
def start_capturing : M Unit := do
  let s ← getState
  match s.io with
  | io_method.IO_METHOD_READ => pure ()
  | io_method.IO_METHOD_MMAP => do
    (if s.multi_planar then
      start_capturing_mmap_mp v4l2_buf_type.V4L2_BUF_TYPE_VIDEO_CAPTURE_MPLANE
        s.buffers_mp s.n_buffers
    else
      start_capturing_mmap v4l2_buf_type.V4L2_BUF_TYPE_VIDEO_CAPTURE s.buffers s.n_buffers)
    let s ← getState
    if s.m2m_enabled then
      if s.multi_planar then
        start_capturing_mmap_mp v4l2_buf_type.V4L2_BUF_TYPE_VIDEO_OUTPUT_MPLANE
          s.buffers_mp_out s.n_buffers_out
      else
        start_capturing_mmap v4l2_buf_type.V4L2_BUF_TYPE_VIDEO_OUTPUT s.buffers
          s.n_buffers_out
    else pure ()
  | io_method.IO_METHOD_USERPTR => do
    for_range s.n_buffers (fun i => do
      let b ← at_index s.buffers i
      let buf : v4l2_buffer :=
        { type := v4l2_buf_type.V4L2_BUF_TYPE_VIDEO_CAPTURE,
          memory := v4l2_memory.V4L2_MEMORY_USERPTR, index := i,
          userptr := b.start, length := b.length }
      let r ← xioctl (Call.VIDIOC_QBUF buf)
      if r.ret = -1 then errno_exit else pure ())
    let r ← xioctl (Call.VIDIOC_STREAMON v4l2_buf_type.V4L2_BUF_TYPE_VIDEO_CAPTURE)
    if r.ret = -1 then errno_exit else pure ()

/-! ## Pools -/

/-- The program's `unmap_buffers`. -/
def unmap_buffers (buf : List buffer) (n : Nat) : M Unit :=
  for_range n (fun b => do
    let e ← at_index buf b
    let r ← sys (Call.munmap e.start e.length)
    if r.ret = -1 then errno_exit else pure ())

/-- The program's `unmap_buffers_mp`. -/
def unmap_buffers_mp (buf : List buffer_mp) (n : Nat) : M Unit :=
  for_range n (fun b => do
    let e ← at_index buf b
    for_range FMT_NUM_PLANES (fun p => do
      let r ← sys (Call.munmap (e.start.getD p 0) (e.length.getD p 0))
      if r.ret = -1 then errno_exit else pure ()))

/-- The program's `free_buffers_mmap`. -/
def free_buffers_mmap (type : v4l2_buf_type) : M Unit := do
  let req : v4l2_requestbuffers :=
    { count := 0, type := type, memory := v4l2_memory.V4L2_MEMORY_MMAP }
  let r ← xioctl (Call.VIDIOC_REQBUFS req)
  if r.ret = -1 then
    if r.errno = Errno.EINVAL then exit_with Msg.no_memory_mapping else errno_exit
  else pure ()

/-- The mapping loop of `init_mmap`, `for (b = ...; b < req.count; ++b)`, with
`k` buffers still to map; `bufs` is the array being filled. -/
def init_mmap_loop (type : v4l2_buf_type) : Nat → Nat → List buffer → M (List buffer)
  | 0, _, bufs => pure bufs
  | k + 1, b, bufs => do
    let buf : v4l2_buffer :=
      { type := type, memory := v4l2_memory.V4L2_MEMORY_MMAP, index := b }
    let r ← xioctl (Call.VIDIOC_QUERYBUF buf)
    if r.ret = -1 then errno_exit
    else do
      let m ← sys (Call.mmap r.length r.offset)
      if m.addr = MAP_FAILED then errno_exit
      else init_mmap_loop type k (b + 1) (bufs.set b { start := m.addr, length := r.length })

/-- The program's `init_mmap`; the result is what it stores to `*bufs_out` and
`*n_bufs`. -/
def init_mmap (type : v4l2_buf_type) : M (List buffer × Nat) := do
  let req : v4l2_requestbuffers :=
    { count := 4, type := type, memory := v4l2_memory.V4L2_MEMORY_MMAP }
  let r ← xioctl (Call.VIDIOC_REQBUFS req)
  if r.ret = -1 then
    if r.errno = Errno.EINVAL then exit_with Msg.no_memory_mapping else errno_exit
  else
    let count := r.count % 2 ^ 32
    if count < 2 then exit_with Msg.Insufficient_buffer_memory
    else do
      let a ← sys (Call.calloc count)
      if a.addr = 0 then exit_with Msg.Out_of_memory
      else do
        let bufs ← init_mmap_loop type count 0 (List.replicate count { start := 0, length := 0 })
        pure (bufs, count)

/-- The plane loop inside the mapping loop of `init_mmap_mp`, with `k` planes
still to map; `e` is the pool entry being filled. -/
def init_mmap_mp_planes (planes : List v4l2_plane) : Nat → Nat → buffer_mp → M buffer_mp
  | 0, _, e => pure e
  | k + 1, p, e => do
    let pl := planes.getD p {}
    let m ← sys (Call.mmap pl.length pl.mem_offset)
    if m.addr = MAP_FAILED then errno_exit
    else
      init_mmap_mp_planes planes k (p + 1)
        { start := e.start.set p m.addr, length := e.length.set p pl.length }

/-- The mapping loop of `init_mmap_mp`, with `k` buffers still to map. -/
def init_mmap_mp_loop (type : v4l2_buf_type) : Nat → Nat → List buffer_mp → M (List buffer_mp)
  | 0, _, bufs => pure bufs
  | k + 1, b, bufs => do
    let buf : v4l2_buffer :=
      { type := type, memory := v4l2_memory.V4L2_MEMORY_MMAP, index := b,
        length := FMT_NUM_PLANES, planes := List.replicate FMT_NUM_PLANES {} }
    let r ← xioctl (Call.VIDIOC_QUERYBUF buf)
    if r.ret = -1 then errno_exit
    else do
      let e ← init_mmap_mp_planes r.planes FMT_NUM_PLANES 0
        (bufs.getD b { start := List.replicate FMT_NUM_PLANES 0,
                       length := List.replicate FMT_NUM_PLANES 0 })
      init_mmap_mp_loop type k (b + 1) (bufs.set b e)

/-- The program's `init_mmap_mp`; the result is what it stores to `*bufs_out`
and `*n_bufs`. -/
def init_mmap_mp (type : v4l2_buf_type) : M (List buffer_mp × Nat) := do
  let req : v4l2_requestbuffers :=
    { count := 4, type := type, memory := v4l2_memory.V4L2_MEMORY_MMAP }
  let r ← xioctl (Call.VIDIOC_REQBUFS req)
  if r.ret = -1 then
    if r.errno = Errno.EINVAL then exit_with Msg.no_memory_mapping else errno_exit
  else
    let count := r.count % 2 ^ 32
    if count < 2 then exit_with Msg.Insufficient_buffer_memory
    else do
      let a ← sys (Call.calloc count)
      if a.addr = 0 then exit_with Msg.Out_of_memory
      else do
        let bufs ← init_mmap_mp_loop type count 0
          (List.replicate count { start := List.replicate FMT_NUM_PLANES 0,
                                  length := List.replicate FMT_NUM_PLANES 0 })
        pure (bufs, count)

/-- The allocation loop of `init_userp`,
`for (n_buffers = ...; n_buffers < 4; ++n_buffers)`, with `k` buffers still to
allocate; it works on the globals `buffers` and `n_buffers`. -/
def init_userp_loop (buffer_size : Nat) : Nat → M Unit
  | 0 => pure ()
  | k + 1 => do
    let m ← sys (Call.malloc buffer_size)
    modify (fun s =>
      { s with buffers := s.buffers.set s.n_buffers { start := m.addr, length := buffer_size } })
    if m.addr = 0 then exit_with Msg.Out_of_memory
    else do
      modify (fun s => { s with n_buffers := s.n_buffers + 1 })
      init_userp_loop buffer_size k

/-- The program's `init_userp`. -/
def init_userp (buffer_size : Nat) : M Unit := do
  let req : v4l2_requestbuffers :=
    { count := 4, type := v4l2_buf_type.V4L2_BUF_TYPE_VIDEO_CAPTURE,
      memory := v4l2_memory.V4L2_MEMORY_USERPTR }
  let r ← xioctl (Call.VIDIOC_REQBUFS req)
  if r.ret = -1 then
    if r.errno = Errno.EINVAL then exit_with Msg.no_user_pointer else errno_exit
  else do
    let a ← sys (Call.calloc 4)
    modify (fun s =>
      { s with buffers := if a.addr = 0 then [] else List.replicate 4 { start := 0, length := 0 } })
    if a.addr = 0 then exit_with Msg.Out_of_memory
    else do
      modify (fun s => { s with n_buffers := 0 })
      init_userp_loop buffer_size 4

/-! ## Events and the main loop -/

/-- What `handle_event` does for one `V4L2_EVENT_SOURCE_CHANGE`: the body of
that `case`. -/
def handle_source_change : M Unit := do
  emit (Ev.log Msg.Source_changed)
  stop_capture v4l2_buf_type.V4L2_BUF_TYPE_VIDEO_CAPTURE
  let s ← getState
  if s.multi_planar then do
    unmap_buffers_mp s.buffers_mp s.n_buffers
    emit (Ev.log Msg.Unmapped_all_buffers)
    free_buffers_mmap v4l2_buf_type.V4L2_BUF_TYPE_VIDEO_CAPTURE_MPLANE
    let (bufs, n) ← init_mmap_mp v4l2_buf_type.V4L2_BUF_TYPE_VIDEO_CAPTURE_MPLANE
    modify (fun s1 => { s1 with buffers_mp := bufs, n_buffers := n })
    start_capturing_mmap_mp v4l2_buf_type.V4L2_BUF_TYPE_VIDEO_CAPTURE_MPLANE bufs n
  else do
    unmap_buffers s.buffers s.n_buffers
    emit (Ev.log Msg.Unmapped_all_buffers)
    free_buffers_mmap v4l2_buf_type.V4L2_BUF_TYPE_VIDEO_CAPTURE
    let (bufs, n) ← init_mmap v4l2_buf_type.V4L2_BUF_TYPE_VIDEO_CAPTURE
    modify (fun s1 => { s1 with buffers := bufs, n_buffers := n })
    start_capturing_mmap v4l2_buf_type.V4L2_BUF_TYPE_VIDEO_CAPTURE bufs n

/-- The loop of `handle_event`, `while (!ioctl(fd, VIDIOC_DQEVENT, &ev))`, with
`n` bounding the number of passes. -/
def handle_event_loop : Nat → M Unit
  | 0 => halt Halt.starved
  | n + 1 => do
    let ev ← sys Call.VIDIOC_DQEVENT
    if ev.ret = 0 then do
      (match ev.ev_type with
      | v4l2_event_type.V4L2_EVENT_SOURCE_CHANGE => handle_source_change
      | v4l2_event_type.V4L2_EVENT_EOS => emit (Ev.log Msg.EOS)
      | v4l2_event_type.OTHER => pure ())
      handle_event_loop n
    else pure ()

/-- The program's `handle_event`.  Each pass of its loop uses up one response,
so one more pass than there are responses left is never reached. -/
def handle_event : M Unit := do
  let s ← getState
  handle_event_loop (s.script.length + 1)

/-- A service call made from `mainloop`: run it, record what it returned, and
tell whether the result is non-zero. -/
def service (type : v4l2_buf_type) (call : M Int) : M Bool := do
  let x ← call
  emit (Ev.serviced type x)
  pure (decide (x ≠ 0))

/-- One pass through the body of the inner `for (;;)` of `mainloop`; the result
says whether the loop is left by `break`.  The three `fd_set` pointers are
addresses of local array entries, so none of them is null. -/
def mainloop_body : M Bool := do
  let rd_fds := true
  let ex_fds := true
  let wr_fds := true
  let r ← sys (Call.select rd_fds wr_fds ex_fds 10 0)
  if r.ret = -1 then
    if r.errno = Errno.EINTR then pure false else errno_exit
  else if r.ret = 0 then exit_with Msg.select_timeout
  else do
    let got ←
      (if rd_fds && r.rd then do
        emit (Ev.log Msg.Reading)
        let s ← getState
        if s.multi_planar then
          service v4l2_buf_type.V4L2_BUF_TYPE_VIDEO_CAPTURE_MPLANE
            (read_frame_mmap_mp v4l2_buf_type.V4L2_BUF_TYPE_VIDEO_CAPTURE_MPLANE
              s.buffers_mp s.n_buffers)
        else
          service v4l2_buf_type.V4L2_BUF_TYPE_VIDEO_CAPTURE
            (read_frame v4l2_buf_type.V4L2_BUF_TYPE_VIDEO_CAPTURE s.buffers s.n_buffers)
      else pure false)
    if got then pure true
    else do
      let got ←
        (if wr_fds && r.wr then do
          emit (Ev.log Msg.Writing)
          let s ← getState
          if s.multi_planar then
            service v4l2_buf_type.V4L2_BUF_TYPE_VIDEO_OUTPUT_MPLANE
              (read_frame_mmap_mp v4l2_buf_type.V4L2_BUF_TYPE_VIDEO_OUTPUT_MPLANE
                s.buffers_mp_out s.n_buffers_out)
          else
            service v4l2_buf_type.V4L2_BUF_TYPE_VIDEO_OUTPUT
              (read_frame v4l2_buf_type.V4L2_BUF_TYPE_VIDEO_OUTPUT s.buffers_out
                s.n_buffers_out)
        else pure false)
      if got then pure true
      else do
        (if ex_fds && r.ex then do
          emit (Ev.log Msg.Exception)
          handle_event
        else pure ())
        pure false

/-- The inner `for (;;)` of `mainloop`, with `n` bounding the number of passes. -/
def mainloop_inner : Nat → M Unit
  | 0 => halt Halt.starved
  | n + 1 => do
    let brk ← mainloop_body
    if brk then emit Ev.frame_done else mainloop_inner n

/-- The outer loop of `mainloop`, `while (count-- > 0)`.  Each pass of the inner
loop uses up one response, so one more pass than there are responses left is
never reached. -/
def mainloop_outer : Nat → M Unit
  | 0 => pure ()
  | count + 1 => do
    let s ← getState
    mainloop_inner (s.script.length + 1)
    mainloop_outer count

/-- The program's `mainloop`: `count = frame_count` converts the `int` to
`unsigned int`. -/
def mainloop : M Unit := do
  let s ← getState
  mainloop_outer (s.frame_count % 2 ^ 32).toNat

/-! ## Views of states and traces used in the statements -/

/-- Whether a response is a call interrupted by a signal. -/
def Resp.interrupted (r : Resp) : Bool := decide (r.ret = -1 ∧ r.errno = Errno.EINTR)

/-- Whether a call returns a pointer rather than a status (`mmap`, `calloc`,
`malloc`). -/
def Call.returns_pointer : Call → Bool
  | Call.mmap _ _ => true
  | Call.calloc _ => true
  | Call.malloc _ => true
  | _ => false

/-- Whether a trace entry is a call that returns a status and was interrupted by
a signal. -/
def Ev.interrupted : Ev → Bool
  | Ev.sys c r => !c.returns_pointer && r.interrupted
  | _ => false

/-- The trace without the calls interrupted by a signal. -/
def skel (t : List Ev) : List Ev := t.filter (fun e => !e.interrupted)

/-- Whether a stream type is an Output type. -/
def v4l2_buf_type.is_output : v4l2_buf_type → Bool
  | v4l2_buf_type.V4L2_BUF_TYPE_VIDEO_OUTPUT => true
  | v4l2_buf_type.V4L2_BUF_TYPE_VIDEO_OUTPUT_MPLANE => true
  | _ => false

/-- The stream type a call addresses, for the calls that address one. -/
def Call.type? : Call → Option v4l2_buf_type
  | Call.VIDIOC_REQBUFS req => some req.type
  | Call.VIDIOC_QUERYBUF buf => some buf.type
  | Call.VIDIOC_QBUF buf => some buf.type
  | Call.VIDIOC_DQBUF buf => some buf.type
  | Call.VIDIOC_STREAMON t => some t
  | Call.VIDIOC_STREAMOFF t => some t
  | Call.VIDIOC_G_FMT t => some t
  | Call.VIDIOC_S_FMT t => some t
  | _ => none

/-- Whether a call addresses an Output stream type. -/
def Call.on_output (c : Call) : Bool :=
  match c.type? with
  | some t => t.is_output
  | none => false

/-- The diagnostics `mainloop` prints before it services a readiness class. -/
def Msg.is_mark : Msg → Bool
  | Msg.Reading => true
  | Msg.Writing => true
  | Msg.Exception => true
  | _ => false

/-- The trace entries the functions below `mainloop` can add: calls, callback
invocations and the diagnostics that are not `mainloop`'s own. -/
def Ev.low : Ev → Bool
  | Ev.sys _ _ => true
  | Ev.process_image _ _ => true
  | Ev.supply_input _ _ => true
  | Ev.supply_input_by_au _ _ => true
  | Ev.log m => !m.is_mark
  | Ev.serviced _ _ => false
  | Ev.frame_done => false

/-- The trace entries the callbacks can add: their invocations and the
diagnostics that are not `mainloop`'s own. -/
def Ev.callback_side : Ev → Bool
  | Ev.process_image _ _ => true
  | Ev.supply_input _ _ => true
  | Ev.supply_input_by_au _ _ => true
  | Ev.log m => !m.is_mark
  | _ => false

/-- The trace entries the functions below `mainloop` other than the service
calls can add: as `Ev.low`, without the dequeues. -/
def Ev.no_dequeue : Ev → Bool
  | Ev.sys (Call.VIDIOC_DQBUF _) _ => false
  | Ev.sys _ _ => true
  | Ev.process_image _ _ => true
  | Ev.supply_input _ _ => true
  | Ev.supply_input_by_au _ _ => true
  | Ev.log m => !m.is_mark
  | Ev.serviced _ _ => false
  | Ev.frame_done => false

/-- The trace entries `handle_event` can add: calls that do not address an Output
stream type, other than dequeues, and diagnostics that are not `mainloop`'s own. -/
def Ev.capture_side : Ev → Bool
  | Ev.sys (Call.VIDIOC_DQBUF _) _ => false
  | Ev.sys c _ => !c.on_output
  | Ev.log m => !m.is_mark
  | _ => false

/-- Whether a call is a command of the buffer-queue protocol. -/
def Call.is_queue : Call → Bool
  | Call.VIDIOC_QBUF _ => true
  | Call.VIDIOC_DQBUF _ => true
  | Call.VIDIOC_STREAMOFF _ => true
  | _ => false

/-- The trace entries pool creation and release can add: calls that do not address
an Output stream type and are no queue commands, and diagnostics that are not
`mainloop`'s own. -/
def Ev.setup_side : Ev → Bool
  | Ev.sys c _ => !c.on_output && !c.is_queue
  | Ev.log m => !m.is_mark
  | _ => false

/-- The program variables of a state: the state without its environment. -/
def State.vars (s : State) : State := { s with script := [], trace := [] }

/-- The variables no function from `mainloop` downwards assigns. -/
def Frame (s s' : State) : Prop :=
  s'.io = s.io ∧ s'.buffers_out = s.buffers_out ∧ s'.buffers_mp_out = s.buffers_mp_out ∧
  s'.n_buffers_out = s.n_buffers_out ∧ s'.m2m_enabled = s.m2m_enabled ∧
  s'.multi_planar = s.multi_planar ∧ s'.frame_count = s.frame_count ∧
  s'.in_fp = s.in_fp ∧ s'.in_file = s.in_file

/-- The run from `s` to `s'` kept the frame, added only entries satisfying `P`
to the trace, and used up responses from the front of the script. -/
def Mono (P : Ev → Prop) (s s' : State) : Prop :=
  Frame s s' ∧ (∃ t, s'.trace = s.trace ++ t ∧ ∀ e ∈ t, P e) ∧
    ∃ u, s.script = u ++ s'.script

/-- Every run of `m` ends in a state related to the initial one by `R`. -/
def Sat {α : Type} (R : State → State → Prop) (m : M α) : Prop := ∀ s, R s (m s).state

/-! ## Concrete runs -/

/-- The trace a run leaves. -/
def run_trace {α : Type} (m : M α) (s : State) : List Ev := (m s).state.trace

/-- A single-planar Capture pool of two mapped buffers. -/
def ex_pool : List buffer := [⟨1000, 64⟩, ⟨2000, 64⟩]

/-- A single-planar Output pool of three mapped buffers. -/
def ex_pool_out : List buffer := [⟨3000, 32⟩, ⟨4000, 32⟩, ⟨5000, 32⟩]

/-- A multi-planar Capture pool of two mapped buffers, one plane of 8192 bytes each. -/
def ex_pool_mp : List buffer_mp := [⟨[4096], [8192]⟩, ⟨[16384], [8192]⟩]

/-- Multi-planar capture: the device hands back buffer 1 with 100 bytes in its
plane, and accepts the re-enqueue. -/
def ex_mp_capture : State :=
  { multi_planar := true, buffers_mp := ex_pool_mp, n_buffers := 2,
    script := [{ index := 1, planes := [{ bytesused := 100, length := 8192 }] }, {}] }

/-- Single-planar M2M session about to start, with the input file open; every
call succeeds. -/
def ex_m2m_start : State :=
  { m2m_enabled := true, buffers := ex_pool, n_buffers := 2,
    buffers_out := ex_pool_out, n_buffers_out := 3,
    in_fp := true, in_file := List.replicate 100 7,
    script := List.replicate 12 {} }

/-- Single-planar M2M session with budget 1: the wait reports only the Output
stream ready, the Output dequeue hands back buffer 0 and the re-enqueue succeeds. -/
def ex_output_only : State :=
  { m2m_enabled := true, frame_count := 1, buffers := ex_pool, n_buffers := 2,
    buffers_out := ex_pool_out, n_buffers_out := 3,
    script := [{ ret := 1, wr := true }, { index := 0 }, {}] }

/-- Capture-only session with budget 1: the first wait reports the device
writable and the Output dequeue says `EAGAIN`; the second wait reports it
readable and a frame is dequeued and re-enqueued. -/
def ex_capture_only : State :=
  { m2m_enabled := false, frame_count := 1, buffers := ex_pool, n_buffers := 2,
    script := [{ ret := 1, wr := true }, { ret := -1, errno := Errno.EAGAIN },
               { ret := 1, rd := true }, { index := 0, bytesused := 5 }, {}] }

/-- User-pointer session: the dequeue hands back the memory of pool entry 0 with
10 bytes in it and the re-enqueue succeeds. -/
def ex_userptr : State :=
  { io := io_method.IO_METHOD_USERPTR, m2m_enabled := true,
    script := [{ userptr := 1000, length := 64, bytesused := 10 }, {}] }

/-- User-pointer negotiation in which the device grants a single buffer; the
five allocations succeed. -/
def ex_userp_grant_one : State :=
  { io := io_method.IO_METHOD_USERPTR,
    script := [{ count := 1 }, { addr := 8 }, { addr := 1000 }, { addr := 2000 },
               { addr := 3000 }, { addr := 4000 }] }

/-- A reconfiguration of the single-planar Capture stream in which every call
succeeds and the device grants two buffers of 128 bytes. -/
def ex_reconfigure : State :=
  { buffers := ex_pool, n_buffers := 2,
    script := [{}, {}, {}, {},
               { count := 2 }, { addr := 8 },
               { length := 128, offset := 0 }, { addr := 7000 },
               { length := 128, offset := 128 }, { addr := 8000 },
               {}, {}, {}] }

/-- A pending source change followed by no further event, the reconfiguration
being that of `ex_reconfigure`. -/
def ex_source_change : State :=
  { ex_reconfigure with
    script := { ev_type := v4l2_event_type.V4L2_EVENT_SOURCE_CHANGE } ::
      (ex_reconfigure.script ++ [{ ret := -1, errno := Errno.EAGAIN }]) }

/-- Whether a call is part of format negotiation. -/
def Call.is_format : Call → Bool
  | Call.VIDIOC_G_FMT _ => true
  | Call.VIDIOC_S_FMT _ => true
  | _ => false

/-- Whether a trace entry is a call of format negotiation. -/
def Ev.is_format : Ev → Bool
  | Ev.sys c _ => c.is_format
  | _ => false

/-- Whether a trace entry is an invocation of a source callback. -/
def Ev.is_source : Ev → Bool
  | Ev.supply_input _ _ => true
  | Ev.supply_input_by_au _ _ => true
  | _ => false

/-- Whether a trace entry is an invocation of the sink callback. -/
def Ev.is_sink : Ev → Bool
  | Ev.process_image _ _ => true
  | _ => false

/-- Whether a trace entry records a service call that returned non-zero. -/
def Ev.is_success : Ev → Bool
  | Ev.serviced _ x => decide (x ≠ 0)
  | _ => false

/-- Whether a trace entry records a Capture service call that returned non-zero. -/
def Ev.is_capture_success : Ev → Bool
  | Ev.serviced t x => decide (x ≠ 0) && !t.is_output
  | _ => false

/-- Whether a trace entry records an Output service call that returned non-zero. -/
def Ev.is_output_success : Ev → Bool
  | Ev.serviced t x => decide (x ≠ 0) && t.is_output
  | _ => false

/-- Whether a trace entry records a completed outer iteration of `mainloop`. -/
def Ev.is_frame_done : Ev → Bool
  | Ev.frame_done => true
  | _ => false

/-- The remaining-frame budget `mainloop` starts with. -/
def budget (s : State) : Nat := (s.frame_count % 2 ^ 32).toNat

/-- Whether a trace entry is a diagnostic. -/
def Ev.is_log : Ev → Bool
  | Ev.log _ => true
  | _ => false

/-- The actions of a trace, in order: the calls that were not interrupted by a
signal and the invocations of the callbacks. -/
def actions (t : List Ev) : List Ev :=
  t.filter (fun e => !e.interrupted && e.low && !e.is_log)

/-- A command of the buffer-queue protocol that the device accepted. -/
inductive QOp where
  | enqueue (type : v4l2_buf_type) (index : Nat)
  | dequeue (type : v4l2_buf_type) (index : Nat)
  | stop (type : v4l2_buf_type)
  deriving DecidableEq, Repr

/-- The queue command a trace entry stands for: a `VIDIOC_QBUF`, `VIDIOC_DQBUF` or
`VIDIOC_STREAMOFF` that did not return -1.  The buffer of a dequeue is the one
the device names in its answer. -/
def Ev.queue_op : Ev → Option QOp
  | Ev.sys (Call.VIDIOC_QBUF buf) r =>
    if r.ret = -1 then none else some (QOp.enqueue buf.type buf.index)
  | Ev.sys (Call.VIDIOC_DQBUF buf) r =>
    if r.ret = -1 then none else some (QOp.dequeue buf.type r.index)
  | Ev.sys (Call.VIDIOC_STREAMOFF t) r =>
    if r.ret = -1 then none else some (QOp.stop t)
  | _ => none

/-- The accepted queue commands of a trace, in order. -/
def queue_ops (t : List Ev) : List QOp := t.filterMap Ev.queue_op

/-- The number of bytes `fread` supplies from the input file when asked for
`buf_len` bytes in state `s`. -/
def supplied (s : State) (buf_len : Nat) : Nat :=
  ((s.in_file.drop s.in_pos).take buf_len).length

/-- Mapped negotiation in which the device grants two buffers; every call
succeeds. -/
def ex_grant_two : State :=
  { script := [{ ret := -1, errno := Errno.EINTR }, { count := 2 }, { addr := 8 },
               { length := 128, offset := 0 }, { addr := 7000 },
               { length := 128, offset := 128 }, { addr := 8000 }] }

/-- Mapped negotiation in which the device grants a single buffer. -/
def ex_grant_one : State := { script := [{ count := 1 }] }

/-- Single-planar M2M session with the input file open at offset 90 of 100 bytes:
the Output dequeue hands back buffer 1 (32 bytes of capacity) and the re-enqueue
succeeds. -/
def ex_output_refill : State :=
  { m2m_enabled := true, buffers := ex_pool, n_buffers := 2,
    buffers_out := ex_pool_out, n_buffers_out := 3,
    in_fp := true, in_file := List.replicate 100 7, in_pos := 90,
    script := [{ index := 1, bytesused := 32 }, {}] }

/-- The call a trace entry stands for, unless it was interrupted by a signal. -/
def Ev.call? : Ev → Option Call
  | Ev.sys c r => if (Ev.sys c r).interrupted then none else some c
  | _ => none

/-- The calls of a trace that were not interrupted by a signal, in order. -/
def calls (t : List Ev) : List Call := t.filterMap Ev.call?

/-- The Capture stream type of the session. -/
def capture_type (s : State) : v4l2_buf_type :=
  if s.multi_planar then v4l2_buf_type.V4L2_BUF_TYPE_VIDEO_CAPTURE_MPLANE
  else v4l2_buf_type.V4L2_BUF_TYPE_VIDEO_CAPTURE

/-- The buffer structure the program passes for mapped buffer `i` of stream
`type`, before any source callback: single-planar or multi-planar. -/
def mmap_buffer (type : v4l2_buf_type) (mp : Bool) (i : Nat) : v4l2_buffer :=
  if mp then
    { type := type, memory := v4l2_memory.V4L2_MEMORY_MMAP, index := i,
      length := FMT_NUM_PLANES, planes := List.replicate FMT_NUM_PLANES {} }
  else { type := type, memory := v4l2_memory.V4L2_MEMORY_MMAP, index := i }

/-- The calls that unmap every plane of every buffer of the Capture pool of `s`. -/
def release_calls (s : State) : List Call :=
  if s.multi_planar then
    (s.buffers_mp.take s.n_buffers).flatMap (fun e =>
      (List.range FMT_NUM_PLANES).map (fun p =>
        Call.munmap (e.start.getD p 0) (e.length.getD p 0)))
  else (s.buffers.take s.n_buffers).map (fun e => Call.munmap e.start e.length)

/-- The calls that map the planes of a buffer the device described by `q`. -/
def map_calls (mp : Bool) (q : Resp) : List Call :=
  if mp then
    (List.range FMT_NUM_PLANES).map (fun p =>
      Call.mmap (q.planes.getD p {}).length (q.planes.getD p {}).mem_offset)
  else [Call.mmap q.length q.offset]

/-- The calls of one reconfiguration of the Capture stream, for a new pool of `n`
buffers which the device describes by `q`: stop; release (unmap, retire the old
pool with count 0); request a pool of 4; allocate the array; query and map each
buffer; enqueue each buffer; start. -/
def reconfigure_calls (s : State) (n : Nat) (q : Nat → Resp) : List Call :=
  [Call.VIDIOC_STREAMOFF (capture_type s)] ++ release_calls s ++
  [Call.VIDIOC_REQBUFS
     { count := 0, type := capture_type s, memory := v4l2_memory.V4L2_MEMORY_MMAP },
   Call.VIDIOC_REQBUFS
     { count := 4, type := capture_type s, memory := v4l2_memory.V4L2_MEMORY_MMAP },
   Call.calloc n] ++
  (List.range n).flatMap (fun i =>
    Call.VIDIOC_QUERYBUF (mmap_buffer (capture_type s) s.multi_planar i) ::
      map_calls s.multi_planar (q i)) ++
  (List.range n).map (fun i =>
    Call.VIDIOC_QBUF (mmap_buffer (capture_type s) s.multi_planar i)) ++
  [Call.VIDIOC_STREAMON (capture_type s)]

/-- The entries of a trace that `mainloop` itself adds: its three diagnostics and
its bookkeeping. -/
def highlights (t : List Ev) : List Ev := t.filter (fun e => !e.low)

/-- The Output stream type of the session. -/
def output_type (s : State) : v4l2_buf_type :=
  if s.multi_planar then v4l2_buf_type.V4L2_BUF_TYPE_VIDEO_OUTPUT_MPLANE
  else v4l2_buf_type.V4L2_BUF_TYPE_VIDEO_OUTPUT

/-- What the event drain of one pass records: its diagnostic, when the wait
reported the exceptional condition. -/
def events_plan (r : Resp) : List Ev :=
  if r.ex then [Ev.log Msg.Exception] else []

/-- What one pass records from the Output check on, when the Output service call
(if made) returns `out`. -/
def output_plan (s : State) (r : Resp) (out : Int) : List Ev :=
  (if r.wr then [Ev.log Msg.Writing, Ev.serviced (output_type s) out] else []) ++
  (if r.wr = true ∧ out ≠ 0 then [] else events_plan r)

/-- What `mainloop` records in one pass of its loop body after a wait that
answered `r`, when the Capture service call (if made) returns `cap`, the Output
service call (if made) returns `out`, and the event drain (if made) returns: the
classes reported ready are serviced in the order Capture, Output, Events, and a
service call that returns non-zero ends the pass. -/
def service_plan (s : State) (r : Resp) (cap out : Int) : List Ev :=
  (if r.rd then [Ev.log Msg.Reading, Ev.serviced (capture_type s) cap] else []) ++
  (if r.rd = true ∧ cap ≠ 0 then [] else output_plan s r out)

/-- Whether the pass of `service_plan` leaves the inner loop by `break`. -/
def plan_breaks (r : Resp) (cap out : Int) : Bool :=
  (r.rd && decide (cap ≠ 0)) || (r.wr && decide (out ≠ 0))

/-- The last step of the loop body of `mainloop`: the event drain. -/
def events_part (r : Resp) : M Bool := do
  (if true && r.ex then do
    emit (Ev.log Msg.Exception)
    handle_event
  else pure ())
  pure false

/-- The service call `mainloop` makes for the Output direction. -/
def output_call (s : State) : M Bool :=
  if s.multi_planar then
    service v4l2_buf_type.V4L2_BUF_TYPE_VIDEO_OUTPUT_MPLANE
      (read_frame_mmap_mp v4l2_buf_type.V4L2_BUF_TYPE_VIDEO_OUTPUT_MPLANE
        s.buffers_mp_out s.n_buffers_out)
  else
    service v4l2_buf_type.V4L2_BUF_TYPE_VIDEO_OUTPUT
      (read_frame v4l2_buf_type.V4L2_BUF_TYPE_VIDEO_OUTPUT s.buffers_out s.n_buffers_out)

/-- The service call `mainloop` makes for the Capture direction. -/
def capture_call (s : State) : M Bool :=
  if s.multi_planar then
    service v4l2_buf_type.V4L2_BUF_TYPE_VIDEO_CAPTURE_MPLANE
      (read_frame_mmap_mp v4l2_buf_type.V4L2_BUF_TYPE_VIDEO_CAPTURE_MPLANE
        s.buffers_mp s.n_buffers)
  else
    service v4l2_buf_type.V4L2_BUF_TYPE_VIDEO_CAPTURE
      (read_frame v4l2_buf_type.V4L2_BUF_TYPE_VIDEO_CAPTURE s.buffers s.n_buffers)

/-- The loop body of `mainloop` from the Output check on. -/
def output_part (r : Resp) : M Bool := do
  let got ←
    (if true && r.wr then do
      emit (Ev.log Msg.Writing)
      let s ← getState
      output_call s
    else pure false)
  if got then pure true else events_part r

/-- The loop body of `mainloop` from the Capture check on. -/
def capture_part (r : Resp) : M Bool := do
  let got ←
    (if true && r.rd then do
      emit (Ev.log Msg.Reading)
      let s ← getState
      capture_call s
    else pure false)
  if got then pure true else output_part r

/-- Capture-only session with budget 3: three times, the wait reports the device
readable and a frame is dequeued and re-enqueued. -/
def ex_budget_three : State :=
  { m2m_enabled := false, frame_count := 3, buffers := ex_pool, n_buffers := 2,
    script := [{ ret := 1, rd := true }, { index := 0, bytesused := 5 }, {},
               { ret := 1, rd := true }, { index := 1, bytesused := 5 }, {},
               { ret := 1, rd := true }, { index := 0, bytesused := 5 }, {}] }

/-! ## Buffer ownership -/

/-- Ownership state of a buffer of a stream. -/
inductive Ownership where
  | Free
  | DeviceOwned
  | ApplicationOwned
  deriving DecidableEq, Repr

/-- A step of the queue protocol: a queue command the device accepted, or the
return of a service call made from `mainloop`. -/
inductive Step where
  | op (q : QOp)
  | returned
  deriving DecidableEq, Repr

/-- The protocol step a trace entry stands for. -/
def Ev.step : Ev → Option Step
  | Ev.serviced _ _ => some Step.returned
  | Ev.sys c r => (Ev.queue_op (Ev.sys c r)).map Step.op
  | _ => none

/-- The protocol steps of a trace, in order. -/
def protocol (t : List Ev) : List Step := t.filterMap Ev.step

/-- The trace entries a run adds to the trace it starts with. -/
def added {α : Type} (m : M α) (s : State) : List Ev :=
  (m s).state.trace.drop s.trace.length

/-- Ownership of buffer `i` of stream `ty` after a step, when it was `o` before:
an enqueue hands the buffer to the device, a dequeue hands it to the
application, and stopping the stream takes it back from the device. -/
def Ownership.after (ty : v4l2_buf_type) (i : Nat) (o : Ownership) : Step → Ownership
  | Step.op (QOp.enqueue t j) => if t = ty ∧ j = i then Ownership.DeviceOwned else o
  | Step.op (QOp.dequeue t j) => if t = ty ∧ j = i then Ownership.ApplicationOwned else o
  | Step.op (QOp.stop t) =>
    if t = ty ∧ o = Ownership.DeviceOwned then Ownership.Free else o
  | Step.returned => o

/-- Ownership of buffer `i` of stream `ty` after the steps `p`, from `o`. -/
def Ownership.after_all (ty : v4l2_buf_type) (i : Nat) (o : Ownership) (p : List Step) :
    Ownership :=
  p.foldl (Ownership.after ty i) o

/-- The step is no enqueue of buffer `i` of stream `ty` while the device owns it. -/
def Step.enqueue_allowed (ty : v4l2_buf_type) (i : Nat) (o : Ownership) : Step → Bool
  | Step.op (QOp.enqueue t j) =>
    if t = ty ∧ j = i then decide (o ≠ Ownership.DeviceOwned) else true
  | _ => true

/-- The step is no dequeue of buffer `i` of stream `ty` while the application
holds it. -/
def Step.single_hold (ty : v4l2_buf_type) (i : Nat) (o : Ownership) : Step → Bool
  | Step.op (QOp.dequeue t j) =>
    if t = ty ∧ j = i then decide (o ≠ Ownership.ApplicationOwned) else true
  | _ => true

/-- The step is no return of a service call while the application holds buffer
`i` of stream `ty`. -/
def Step.released (o : Ownership) : Step → Bool
  | Step.returned => decide (o ≠ Ownership.ApplicationOwned)
  | _ => true

/-- The device's half of the protocol: the step is no dequeue of buffer `i` of
stream `ty` unless the device owns it. -/
def Step.handed_back_owned (ty : v4l2_buf_type) (i : Nat) (o : Ownership) : Step → Bool
  | Step.op (QOp.dequeue t j) =>
    if t = ty ∧ j = i then decide (o = Ownership.DeviceOwned) else true
  | _ => true

/-- The step is an arrow of the cycle `Free → DeviceOwned → ApplicationOwned →
DeviceOwned → …` for buffer `i` of stream `ty`: an enqueue leads to `DeviceOwned`
from `Free` or `ApplicationOwned` only, a dequeue leads to `ApplicationOwned`
from `DeviceOwned` only. -/
def Step.on_cycle (ty : v4l2_buf_type) (i : Nat) (o : Ownership) : Step → Bool
  | Step.op (QOp.enqueue t j) =>
    if t = ty ∧ j = i then decide (o ≠ Ownership.DeviceOwned) else true
  | Step.op (QOp.dequeue t j) =>
    if t = ty ∧ j = i then decide (o = Ownership.DeviceOwned) else true
  | _ => true

/-- The program's half of the protocol for buffer `i` of stream `ty`. -/
def Step.sound (ty : v4l2_buf_type) (i : Nat) (o : Ownership) (st : Step) : Bool :=
  Step.enqueue_allowed ty i o st && Step.single_hold ty i o st && Step.released o st

/-- Whether every step of `p` passes the check `ok` in the ownership state in
which buffer `i` of stream `ty` is when the step is made, from `o`. -/
def holds_throughout (ok : Ownership → Step → Bool) (ty : v4l2_buf_type) (i : Nat) :
    Ownership → List Step → Bool
  | _, [] => true
  | o, st :: rest => ok o st && holds_throughout ok ty i (Ownership.after ty i o st) rest

/-- The streaming part of `main`:
`start_capturing(); mainloop(); stop_capturing();`. -/
def main_streaming : M Unit := do
  start_capturing
  mainloop
  stop_capturing

/-- The stream a call of `read_frame` for `type` addresses: under
`IO_METHOD_USERPTR` the type is fixed. -/
def read_frame_stream (s : State) (type : v4l2_buf_type) : v4l2_buf_type :=
  match s.io with
  | io_method.IO_METHOD_USERPTR => v4l2_buf_type.V4L2_BUF_TYPE_VIDEO_CAPTURE
  | _ => type

/-- The enqueues of the buffers `b`, …, `b + k - 1` of stream `ty`. -/
def batch (ty : v4l2_buf_type) (b k : Nat) : List Step :=
  (List.range' b k).map (fun i => Step.op (QOp.enqueue ty i))

/-- A unit of the protocol that leaves no buffer with the application: the return
of a service call, a dequeue with the re-enqueue of the same buffer, or the stop
of a stream followed by the enqueue of buffers `0`, …, `k - 1` of that stream. -/
inductive Block : List Step → Prop where
  | returned : Block [Step.returned]
  | service (ty : v4l2_buf_type) (i : Nat) :
    Block [Step.op (QOp.dequeue ty i), Step.op (QOp.enqueue ty i)]
  | restart (ty : v4l2_buf_type) (k : Nat) : Block (Step.op (QOp.stop ty) :: batch ty 0 k)

/-- A sequence of blocks. -/
inductive Steady : List Step → Prop where
  | nil : Steady []
  | cons {b p : List Step} (hb : Block b) (hp : Steady p) : Steady (b ++ p)

/-- A sequence of blocks, possibly followed by a dequeue that is not answered. -/
def Open (p : List Step) : Prop :=
  ∃ a, Steady a ∧ (p = a ∨ ∃ ty i, p = a ++ [Step.op (QOp.dequeue ty i)])

/-- The first enqueues of a session: of buffers `0`, …, `k1 - 1` of a Capture
stream, then of buffers `0`, …, `k2 - 1` of an Output stream. -/
def Fresh (p : List Step) : Prop :=
  ∃ t1 k1 t2 k2, v4l2_buf_type.is_output t1 = false ∧ v4l2_buf_type.is_output t2 = true ∧
    p = batch t1 0 k1 ++ batch t2 0 k2

/-- Every run of `m` from a state whose `multi_planar` is `b` keeps that flag and
adds a trace whose protocol is in `Lok` when the run returns, in `Lhalt` when it
stops. -/
def Emits {α : Type} (b : Bool) (Lok : α → List Step → Prop) (Lhalt : List Step → Prop)
    (m : M α) : Prop :=
  ∀ s, s.multi_planar = b → ∃ t, (m s).state.trace = s.trace ++ t ∧
    (m s).state.multi_planar = b ∧
    (∀ a s', m s = Result.ok a s' → Lok a (protocol t)) ∧
    (∀ h s', m s = Result.halt h s' → Lhalt (protocol t))

/-- Every run of `m` adds a sequence of blocks, with a last dequeue possibly
unanswered when it stops. -/
def Proto {α : Type} (b : Bool) (m : M α) : Prop := Emits b (fun _ p => Steady p) Open m

/-- The Capture stream type of a session whose `multi_planar` is `b`. -/
def capture_type_of (b : Bool) : v4l2_buf_type :=
  if b then v4l2_buf_type.V4L2_BUF_TYPE_VIDEO_CAPTURE_MPLANE
  else v4l2_buf_type.V4L2_BUF_TYPE_VIDEO_CAPTURE

/-- Single-planar M2M session with two Capture and two Output buffers and budget 2:
every enqueue and both starts succeed, the first wait reports the device readable
and Capture buffer 1 is dequeued and re-enqueued, the second wait reports it
writable and Output buffer 0 is dequeued and re-enqueued, and both stops
succeed. -/
def ex_session : State :=
  { m2m_enabled := true, frame_count := 2, buffers := ex_pool, n_buffers := 2,
    buffers_out := [⟨3000, 32⟩, ⟨4000, 32⟩], n_buffers_out := 2,
    script := [{}, {}, {}, {}, {}, {},
               { ret := 1, rd := true }, { index := 1, bytesused := 5 }, {},
               { ret := 1, wr := true }, { index := 0 }, {},
               {}, {}] }

/-! ## Format negotiation: the size sanity adjustment -/

/-- The fields of `struct v4l2_pix_format` the program uses; all `__u32`. -/
structure v4l2_pix_format where
  width : Nat := 0
  height : Nat := 0
  bytesperline : Nat := 0
  sizeimage : Nat := 0
  deriving DecidableEq, Repr

/-- The fields of `struct v4l2_plane_pix_format` the program uses; both `__u32`. -/
structure v4l2_plane_pix_format where
  sizeimage : Nat := 0
  bytesperline : Nat := 0
  deriving DecidableEq, Repr

/-- The fields of `struct v4l2_pix_format_mplane` the program uses. -/
structure v4l2_pix_format_mplane where
  width : Nat := 0
  height : Nat := 0
  plane_fmt : List v4l2_plane_pix_format := []
  deriving DecidableEq, Repr

/-- The block "Buggy driver paranoia" of `init_device` and of `init_device_out`,
single-planar branch, on `fmt.fmt.pix`; `min` is an `unsigned int`. -/
def paranoia_pix (pix : v4l2_pix_format) : v4l2_pix_format :=
  let min := (pix.width * 2) % 2 ^ 32
  let pix := if pix.bytesperline < min then { pix with bytesperline := min } else pix
  let min := (pix.bytesperline * pix.height) % 2 ^ 32
  if pix.sizeimage < min then { pix with sizeimage := min } else pix

/-- The body of the loop over the planes in the multi-planar branch of the block
"Buggy driver paranoia". -/
def paranoia_plane (width height : Nat) (p : v4l2_plane_pix_format) :
    v4l2_plane_pix_format :=
  let min := (width * 2) % 2 ^ 32
  let p := if p.bytesperline > 0 ∧ p.bytesperline < min then { p with bytesperline := min }
    else p
  let min := (p.bytesperline * height) % 2 ^ 32
  if p.sizeimage > 0 ∧ p.sizeimage < min then { p with sizeimage := min } else p

/-- The block "Buggy driver paranoia", multi-planar branch, on `fmt.fmt.pix_mp`:
the loop visits the planes `0`, …, `FMT_NUM_PLANES - 1`. -/
def paranoia_pix_mp (pix_mp : v4l2_pix_format_mplane) : v4l2_pix_format_mplane :=
  { pix_mp with
    plane_fmt :=
      (pix_mp.plane_fmt.take FMT_NUM_PLANES).map
          (paranoia_plane pix_mp.width pix_mp.height) ++
        pix_mp.plane_fmt.drop FMT_NUM_PLANES }

/-! ## The access-unit source -/

/-- The bytes the `fread` of `supply_input_by_au` reads in state `s` into a buffer
of `buf_len` bytes: the source bytes from offset `f_offset` on, at most `buf_len`
of them. -/
def au_read (s : State) (buf_len : Nat) : List Nat :=
  (s.in_file.drop s.f_offset).take buf_len

/-- The bytes `memmem(buf + 1, bytes_read, aud, 5)` searches in state `s`: the
bytes read but the first, followed by the byte of memory after the bytes
read. -/
def au_haystack (s : State) (buf buf_len : Nat) : List Nat :=
  if au_read s buf_len = [] then []
  else (au_read s buf_len).drop 1 ++ [s.mem (buf + (au_read s buf_len).length)]

/-- Whether `needle` occurs in `hay` at offset `k`. -/
def occurs_at (hay needle : List Nat) (k : Nat) : Bool :=
  decide ((hay.drop k).take needle.length = needle)

/-- Source of six bytes without a marker, read into a buffer of six bytes at
address 100; the byte of memory after the buffer is 9. -/
def ex_stale_nine : State :=
  { in_fp := true, in_file := [5, 5, 0, 0, 0, 1], mem := fun a => if a = 106 then 9 else 0 }

/-- As `ex_stale_nine`, with 0 in the byte of memory after the buffer. -/
def ex_stale_zero : State :=
  { in_fp := true, in_file := [5, 5, 0, 0, 0, 1], mem := fun _ => 0 }

/-- Source of exactly one access unit of 1024 bytes: the marker, then 1019 bytes
of payload without a marker; the Output buffer has one plane of 1024 bytes at
address 4096. -/
def ex_one_au : State :=
  { multi_planar := true, m2m_enabled := true,
    buffers_mp_out := [⟨[4096], [1024]⟩], n_buffers_out := 1,
    in_fp := true, in_file := aud ++ List.replicate 1019 7 }

/-! ## The user-pointer consistency check -/

/-- The test of the scan in `read_frame` under `IO_METHOD_USERPTR`: the address
and length the dequeue returned are those of pool entry `b`. -/
def userptr_match (r : Resp) (b : buffer) : Bool :=
  decide (r.userptr = b.start ∧ r.length = b.length)

/-- The dequeue request of `read_frame` under `IO_METHOD_USERPTR`. -/
def userptr_request : v4l2_buffer :=
  { type := v4l2_buf_type.V4L2_BUF_TYPE_VIDEO_CAPTURE,
    memory := v4l2_memory.V4L2_MEMORY_USERPTR }

/-- What `read_frame` does under `IO_METHOD_USERPTR` after the `assert`, when the
dequeue answered `r`: the sink, then the re-enqueue. -/
def read_frame_userptr_rest (r : Resp) : M Int := do
  process_image (userptr_request.dequeued r).userptr (userptr_request.dequeued r).bytesused
  let r2 ← xioctl (Call.VIDIOC_QBUF (userptr_request.dequeued r))
  if r2.ret = -1 then errno_exit else pure 1

/-- User-pointer session: the dequeue hands back memory that belongs to no pool
entry. -/
def ex_userptr_stray : State :=
  { io := io_method.IO_METHOD_USERPTR,
    script := [{ userptr := 1500, length := 64, bytesused := 10 }, {}] }

/-- User-pointer session whose pool has two entries with the same memory: the
dequeue hands back that memory. -/
def ex_userptr_twice : State :=
  { io := io_method.IO_METHOD_USERPTR,
    script := [{ userptr := 2000, length := 64, bytesused := 10 }, {}] }

/-- The dequeue answer of `ex_userptr`. -/
def ex_userptr_answer : Resp := { userptr := 1000, length := 64, bytesused := 10 }

/-- The dequeue answer of `ex_userptr_stray`. -/
def ex_userptr_stray_answer : Resp := { userptr := 1500, length := 64, bytesused := 10 }

/-- The dequeue answer of `ex_userptr_twice`. -/
def ex_userptr_twice_answer : Resp := { userptr := 2000, length := 64, bytesused := 10 }

/-- A pool of three entries, the last two with the same memory. -/
def ex_pool_twice : List buffer := [⟨1000, 64⟩, ⟨2000, 64⟩, ⟨2000, 64⟩]

/-! ## The outcome of a service call -/

/-- What a trace entry means for the outcome of a service call: the answer to the
dequeue (or to the `read`), the invocation of a sink or source callback, or the
answer to the enqueue.  A `VIDIOC_DQBUF` or `VIDIOC_QBUF` interrupted by a signal
is repeated by `xioctl` and is no answer. -/
inductive Note where
  | dequeue (r : Resp)
  | callback
  | enqueue (r : Resp)
  deriving DecidableEq, Repr

/-- The note a trace entry stands for. -/
def Ev.note : Ev → Option Note
  | Ev.sys (Call.VIDIOC_DQBUF _) r => if r.interrupted then none else some (Note.dequeue r)
  | Ev.sys (Call.read _ _) r => some (Note.dequeue r)
  | Ev.sys (Call.VIDIOC_QBUF _) r => if r.interrupted then none else some (Note.enqueue r)
  | Ev.process_image _ _ => some Note.callback
  | Ev.supply_input _ _ => some Note.callback
  | Ev.supply_input_by_au _ _ => some Note.callback
  | _ => none

/-- The notes of a trace, in order. -/
def notes (t : List Ev) : List Note := t.filterMap Ev.note

/-- Every run of `m` adds a trace whose image under the view `v` is in `Lok` when
the run returns, in `Lhalt` when it stops. -/
def Gives {α γ : Type} (v : Ev → Option γ) (Lok : α → List γ → Prop)
    (Lhalt : Halt → List γ → Prop) (m : M α) : Prop :=
  ∀ s, ∃ t, (m s).state.trace = s.trace ++ t ∧
    (∀ a s', m s = Result.ok a s' → Lok a (t.filterMap v)) ∧
    (∀ h s', m s = Result.halt h s' → Lhalt h (t.filterMap v))

/-- The notes of a service call that returned `x`: 0 after a dequeue that failed
with `EAGAIN` and nothing else, 1 after a dequeue that succeeded, callbacks, and
an enqueue that succeeded. -/
def ServiceReturned (x : Int) (p : List Note) : Prop :=
  (x = 0 ∧ ∃ r : Resp, p = [Note.dequeue r] ∧ r.ret = -1 ∧ r.errno = Errno.EAGAIN) ∨
  (x = 1 ∧ ∃ (r : Resp) (cb : List Note) (r2 : Resp),
    p = Note.dequeue r :: (cb ++ [Note.enqueue r2]) ∧ r.ret ≠ -1 ∧ r2.ret ≠ -1 ∧
      ∀ c ∈ cb, c = Note.callback)

/-- The notes of a service call that stopped for the reason `h`. -/
def ServiceStopped (h : Halt) (p : List Note) : Prop :=
  p = [] ∨
  (∃ r : Resp, p = [Note.dequeue r] ∧ r.ret = -1 ∧ r.errno ≠ Errno.EAGAIN ∧ h = Halt.exit) ∨
  (∃ (r : Resp) (cb : List Note), p = Note.dequeue r :: cb ∧ r.ret ≠ -1 ∧
    ∀ c ∈ cb, c = Note.callback) ∨
  (∃ (r : Resp) (cb : List Note) (r2 : Resp),
    p = Note.dequeue r :: (cb ++ [Note.enqueue r2]) ∧ r.ret ≠ -1 ∧ r2.ret = -1 ∧
      h = Halt.exit ∧ ∀ c ∈ cb, c = Note.callback)

/-- The notes of a `read_frame` under `IO_METHOD_READ` that returned `x`. -/
def ReadReturned (x : Int) (p : List Note) : Prop :=
  (x = 0 ∧ ∃ r : Resp, p = [Note.dequeue r] ∧ r.ret = -1 ∧ r.errno = Errno.EAGAIN) ∨
  (x = 1 ∧ ∃ r : Resp, p = [Note.dequeue r, Note.callback] ∧ r.ret ≠ -1)

/-- The notes of a `read_frame` under `IO_METHOD_READ` that stopped. -/
def ReadStopped (h : Halt) (p : List Note) : Prop :=
  p = [] ∨
  (∃ r : Resp, p = [Note.dequeue r] ∧ r.ret = -1 ∧ r.errno ≠ Errno.EAGAIN ∧ h = Halt.exit)

/-- The notes of the part of a service call after a dequeue that succeeded, when
it returned `x`: callbacks, then an enqueue that succeeded. -/
def WorkReturned (x : Int) (p : List Note) : Prop :=
  x = 1 ∧ ∃ (cb : List Note) (r2 : Resp),
    p = cb ++ [Note.enqueue r2] ∧ r2.ret ≠ -1 ∧ ∀ c ∈ cb, c = Note.callback

/-- The notes of the part of a service call after a dequeue that succeeded, when
it stopped for the reason `h`. -/
def WorkStopped (h : Halt) (p : List Note) : Prop :=
  (∀ c ∈ p, c = Note.callback) ∨
  ∃ (cb : List Note) (r2 : Resp),
    p = cb ++ [Note.enqueue r2] ∧ r2.ret = -1 ∧ h = Halt.exit ∧ ∀ c ∈ cb, c = Note.callback

/-- The contract of a service call, on its result `res` and the notes `ns` of the
trace it added.  It returns 0 exactly when the dequeue (under `copy`, the
`read`) failed with `EAGAIN`, and then the failed dequeue is the only note; it
returns 1 exactly when the dequeue succeeded and (unless `copy`) an enqueue
succeeded; it returns nothing else; a dequeue that failed otherwise, and an
enqueue that failed, end the run with `exit`. -/
def ServiceContract (copy : Bool) (res : Result Int) (ns : List Note) : Prop :=
  (res.value = some 0 ↔
    ∃ r : Resp, Note.dequeue r ∈ ns ∧ r.ret = -1 ∧ r.errno = Errno.EAGAIN) ∧
  (res.value = some 0 → ∃ r : Resp, ns = [Note.dequeue r]) ∧
  (res.value = some 1 ↔
    ∃ r : Resp, Note.dequeue r ∈ ns ∧ r.ret ≠ -1 ∧
      (copy = true ∨ ∃ r2 : Resp, Note.enqueue r2 ∈ ns ∧ r2.ret ≠ -1)) ∧
  (∀ x, res.value = some x → x = 0 ∨ x = 1) ∧
  (∀ r : Resp, Note.dequeue r ∈ ns → r.ret = -1 → r.errno ≠ Errno.EAGAIN →
    res.halted = some Halt.exit) ∧
  (∀ r2 : Resp, Note.enqueue r2 ∈ ns → r2.ret = -1 → res.halted = some Halt.exit)

/-- Mapped capture: the dequeue is interrupted by a signal once, then says
`EAGAIN`. -/
def ex_not_ready : State :=
  { buffers := ex_pool, n_buffers := 2,
    script := [{ ret := -1, errno := Errno.EINTR }, { ret := -1, errno := Errno.EAGAIN }] }

/-- Mapped capture: the dequeue fails with `EIO`. -/
def ex_dequeue_eio : State :=
  { buffers := ex_pool, n_buffers := 2, script := [{ ret := -1, errno := Errno.EIO }] }

/-- Mapped capture: the dequeue hands back buffer 0 and the enqueue fails with
`EINVAL`. -/
def ex_enqueue_fails : State :=
  { buffers := ex_pool, n_buffers := 2,
    script := [{ index := 0, bytesused := 5 }, { ret := -1, errno := Errno.EINVAL }] }

/-! ## Stream start -/

/-- What a trace entry shows of the program's doing: a call that was not
interrupted by a signal, with its arguments, or the invocation of the source or
of the sink, with its arguments. -/
inductive Item where
  | call (c : Call)
  | source (buf len : Nat)
  | sink (ptr size : Nat)
  deriving DecidableEq, Repr

/-- The item a trace entry stands for. -/
def Ev.item : Ev → Option Item
  | Ev.sys c r => if (Ev.sys c r).interrupted then none else some (Item.call c)
  | Ev.process_image p z => some (Item.sink p z)
  | Ev.supply_input b l => some (Item.source b l)
  | Ev.supply_input_by_au b l => some (Item.source b l)
  | _ => none

/-- The items of a trace, in order. -/
def outline (t : List Ev) : List Item := t.filterMap Ev.item

/-- The index of the buffer an item enqueues, when it is a `VIDIOC_QBUF`. -/
def Item.enqueued_index : Item → Option Nat
  | Item.call (Call.VIDIOC_QBUF buf) => some buf.index
  | _ => none

/-- Whether an item is a `VIDIOC_STREAMON`. -/
def Item.is_streamon : Item → Bool
  | Item.call (Call.VIDIOC_STREAMON _) => true
  | _ => false

/-- What the enqueue loop of `start_capturing_mmap` does for the buffers `i`, …,
`i + k - 1` when every call succeeds, with the input file at position `pos`: for
the type `V4L2_BUF_TYPE_VIDEO_OUTPUT` the source is invoked on the buffer, and
the buffer is enqueued with the number of bytes the file had left for it (none
when no input file is open); for another type the buffer is enqueued as it
is. -/
def start_plan (type : v4l2_buf_type) (bufs : List buffer) (in_fp : Bool) (file : List Nat) :
    Nat → Nat → Nat → List Item
  | 0, _, _ => []
  | k + 1, i, pos =>
    if type = v4l2_buf_type.V4L2_BUF_TYPE_VIDEO_OUTPUT then
      match bufs[i]? with
      | none => []
      | some b =>
        let got := if in_fp then ((file.drop pos).take b.length).length else 0
        Item.source b.start b.length ::
          Item.call (Call.VIDIOC_QBUF
            { type := type, memory := v4l2_memory.V4L2_MEMORY_MMAP, index := i,
              bytesused := got }) ::
          start_plan type bufs in_fp file k (i + 1) (pos + got)
    else
      Item.call (Call.VIDIOC_QBUF
          { type := type, memory := v4l2_memory.V4L2_MEMORY_MMAP, index := i }) ::
        start_plan type bufs in_fp file k (i + 1) pos

/-- The state of the source after `supply_input_by_au` has supplied an access unit
of `au` bytes to the buffer at `buf` of `buf_len` bytes. -/
def after_au (s : State) (buf buf_len au : Nat) : State :=
  { s with f_offset := s.f_offset + au,
           mem := store (store s.mem buf (au_read s buf_len)) (buf + au)
             (List.replicate (buf_len - au) 0) }

/-- What the enqueue loop of `start_capturing_mmap_mp` does for the buffers `i`, …,
`i + k - 1` when every call succeeds, from the source state of `s`: for the type
`V4L2_BUF_TYPE_VIDEO_OUTPUT_MPLANE` the source is invoked on the plane of the
buffer, and the buffer is enqueued with the length of the access unit supplied,
which is the number of bytes the source offset advances by; for another type
the buffer is enqueued as it is. -/
def start_plan_mp (type : v4l2_buf_type) (bufs : List buffer_mp) : Nat → Nat → State → List Item
  | 0, _, _ => []
  | k + 1, i, s =>
    if type = v4l2_buf_type.V4L2_BUF_TYPE_VIDEO_OUTPUT_MPLANE then
      match bufs[i]? with
      | none => []
      | some b =>
        match memmem (au_haystack s (b.start.getD 0 0) (b.length.getD 0 0)) aud with
        | none => []
        | some j =>
          Item.source (b.start.getD 0 0) (b.length.getD 0 0) ::
            Item.call (Call.VIDIOC_QBUF
              { type := type, memory := v4l2_memory.V4L2_MEMORY_MMAP, index := i,
                length := FMT_NUM_PLANES, planes := List.replicate FMT_NUM_PLANES {},
                bytesused := (j + 1) % 2 ^ 32 }) ::
            start_plan_mp type bufs k (i + 1)
              (after_au s (b.start.getD 0 0) (b.length.getD 0 0) (j + 1))
    else
      Item.call (Call.VIDIOC_QBUF
          { type := type, memory := v4l2_memory.V4L2_MEMORY_MMAP, index := i,
            length := FMT_NUM_PLANES, planes := List.replicate FMT_NUM_PLANES {} }) ::
        start_plan_mp type bufs k (i + 1) s

/-- Single-planar M2M stream start with a source of 40 bytes for three Output
buffers of 32 bytes; every call succeeds. -/
def ex_short_source : State :=
  { m2m_enabled := true, buffers_out := ex_pool_out, n_buffers_out := 3,
    in_fp := true, in_file := List.replicate 40 7, script := List.replicate 4 {} }

/-- Multi-planar M2M stream start with two Output buffers of one plane of 16 bytes;
the source holds an access unit of 7 bytes, one of 6 bytes, and the marker of a
third; every call succeeds. -/
def ex_two_aus : State :=
  { multi_planar := true, m2m_enabled := true,
    buffers_mp_out := [⟨[4096], [16]⟩, ⟨[8192], [16]⟩], n_buffers_out := 2,
    in_fp := true, in_file := aud ++ [7, 7] ++ aud ++ [8] ++ aud,
    script := List.replicate 3 {} }

/-! ## The readiness wait -/

/-- The trace entries the functions `mainloop` calls can add: calls other than
`select`, callback invocations and the diagnostics that are not `mainloop`'s
own. -/
def Ev.under_loop : Ev → Bool
  | Ev.sys (Call.select _ _ _ _ _) _ => false
  | Ev.sys _ _ => true
  | Ev.process_image _ _ => true
  | Ev.supply_input _ _ => true
  | Ev.supply_input_by_au _ _ => true
  | Ev.log m => !m.is_mark
  | Ev.serviced _ _ => false
  | Ev.frame_done => false

/-- Whether a trace entry, when it is a `select`, waits with a timeout of 10
seconds and 0 microseconds. -/
def Ev.wait_ten : Ev → Bool
  | Ev.sys (Call.select _ _ _ tv_sec tv_usec) _ => decide (tv_sec = 10 ∧ tv_usec = 0)
  | _ => true

/-- Whether a trace entry is a `select`. -/
def Ev.is_wait : Ev → Bool
  | Ev.sys (Call.select _ _ _ _ _) _ => true
  | _ => false

/-- The state after the wait of `mainloop` took the response `r`: the rest of the
script, and the call added to the trace. -/
def after_wait (s : State) (r : Resp) (rest : List Resp) : State :=
  { s with script := rest,
           trace := s.trace ++ [Ev.sys (Call.select true true true 10 0) r] }

/-- Capture-only session with budget 1: the first wait is interrupted by a signal,
the second reports the device readable and a frame is dequeued and
re-enqueued. -/
def ex_wait_interrupted : State :=
  { frame_count := 1, buffers := ex_pool, n_buffers := 2,
    script := [{ ret := -1, errno := Errno.EINTR }, { ret := 1, rd := true },
               { index := 0, bytesused := 5 }, {}] }

/-- Capture-only session with budget 1: the first wait times out; more responses
would be available. -/
def ex_wait_timeout : State :=
  { frame_count := 1, buffers := ex_pool, n_buffers := 2,
    script := [{ ret := 0 }, { ret := 1, rd := true }, { index := 0, bytesused := 5 }, {}] }

/-- What a trace `t` of a run that ended with `fin` (`none` when it returned) says
at each of its waits: the timeout is 10 seconds and 0 microseconds; after a wait
that returned 0 only the timeout diagnostic follows and the run ended by
`exit`; after a wait that a signal interrupted the next entry is the next wait
(or there is none, the script being used up). -/
def WaitsOK (fin : Option Halt) (t : List Ev) : Prop :=
  ∀ (pre post : List Ev) (rd wr ex : Bool) (tv_sec tv_usec : Nat) (r : Resp),
    t = pre ++ Ev.sys (Call.select rd wr ex tv_sec tv_usec) r :: post →
      (tv_sec = 10 ∧ tv_usec = 0) ∧
      (r.ret = 0 → post = [Ev.log Msg.select_timeout] ∧ fin = some Halt.exit) ∧
      (r.ret = -1 → r.errno = Errno.EINTR →
        (post = [] ∧ fin = some Halt.starved) ∨
        ∃ (r2 : Resp) (post2 : List Ev),
          post = Ev.sys (Call.select true true true 10 0) r2 :: post2)

/-! ## Sessions without a usable source -/

/-- Single-planar M2M session under `IO_METHOD_MMAP` with no input file open (no
`-i` option, or the file could not be opened): the Output dequeue hands back
buffer 1 and reports 17 bytes used, and the re-enqueue succeeds. -/
def ex_no_input_file : State :=
  { m2m_enabled := true, buffers := ex_pool, n_buffers := 2,
    buffers_out := ex_pool_out, n_buffers_out := 3, in_fp := false,
    script := [{ index := 1, bytesused := 17 }, {}] }

/-- M2M session under `IO_METHOD_USERPTR` as `init_device` leaves it: the pool of
`init_userp` is in `buffers`, the Output pool is null with a count of 0.  The
dequeue succeeds and hands back the memory of pool entry 0. -/
def ex_userptr_session : State :=
  { io := io_method.IO_METHOD_USERPTR, m2m_enabled := true,
    buffers := [⟨1000, 64⟩, ⟨2000, 64⟩, ⟨3000, 64⟩, ⟨4000, 64⟩], n_buffers := 4,
    buffers_out := [], n_buffers_out := 0,
    script := [{ userptr := 1000, length := 64, bytesused := 10 }, {}] }

/-- Multi-planar M2M session about to start, with two Capture buffers and two
Output buffers of one plane of 16 bytes; the source holds a single access unit
of 7 bytes (the marker and two bytes), less than a buffer; every call
succeeds. -/
def ex_mp_start_short : State :=
  { multi_planar := true, m2m_enabled := true, buffers_mp := ex_pool_mp, n_buffers := 2,
    buffers_mp_out := [⟨[3000], [16]⟩, ⟨[5000], [16]⟩], n_buffers_out := 2,
    in_fp := true, in_file := aud ++ [7, 7], script := List.replicate 8 {} }

/-- The session of `ex_mp_start_short` with an empty source. -/
def ex_mp_start_empty : State := { ex_mp_start_short with in_file := [] }

/-- Whether an item is a `VIDIOC_QBUF` or a `VIDIOC_STREAMON` for an Output stream
type. -/
def Item.on_output : Item → Bool
  | Item.call (Call.VIDIOC_QBUF buf) => buf.type.is_output
  | Item.call (Call.VIDIOC_STREAMON t) => t.is_output
  | _ => false
/-! ## Kinds of trace entries -/

/-- The kind of a trace entry: which call it is, or which callback, diagnostic
or bookkeeping entry. -/
inductive Kind where
  | reqbufs
  | querybuf
  | qbuf
  | dqbuf
  | streamon
  | streamoff
  | dqevent
  | fmt
  | select
  | read
  | mmap
  | munmap
  | alloc
  | sink
  | source
  | diag
  | mark
  | bookkeeping
  deriving DecidableEq, Repr

/-- The kind of a call. -/
def Call.kind : Call → Kind
  | Call.VIDIOC_REQBUFS _ => Kind.reqbufs
  | Call.VIDIOC_QUERYBUF _ => Kind.querybuf
  | Call.VIDIOC_QBUF _ => Kind.qbuf
  | Call.VIDIOC_DQBUF _ => Kind.dqbuf
  | Call.VIDIOC_STREAMON _ => Kind.streamon
  | Call.VIDIOC_STREAMOFF _ => Kind.streamoff
  | Call.VIDIOC_DQEVENT => Kind.dqevent
  | Call.VIDIOC_G_FMT _ => Kind.fmt
  | Call.VIDIOC_S_FMT _ => Kind.fmt
  | Call.select _ _ _ _ _ => Kind.select
  | Call.read _ _ => Kind.read
  | Call.mmap _ _ => Kind.mmap
  | Call.munmap _ _ => Kind.munmap
  | Call.calloc _ => Kind.alloc
  | Call.malloc _ => Kind.alloc

/-- The kind of a trace entry. -/
def Ev.kind : Ev → Kind
  | Ev.sys c _ => c.kind
  | Ev.process_image _ _ => Kind.sink
  | Ev.supply_input _ _ => Kind.source
  | Ev.supply_input_by_au _ _ => Kind.source
  | Ev.log m => if m.is_mark then Kind.mark else Kind.diag
  | Ev.serviced _ _ => Kind.bookkeeping
  | Ev.frame_done => Kind.bookkeeping

/-- The kinds of entries one reconfiguration of the Capture stream can add. -/
def Kind.reconfigure : List Kind :=
  [Kind.diag, Kind.streamoff, Kind.munmap, Kind.reqbufs, Kind.alloc, Kind.querybuf, Kind.mmap,
   Kind.source, Kind.qbuf, Kind.streamon]
/-! ## Servicing the readiness classes -/

/-- The call a trace entry stands for, with its answer, unless the call was
interrupted by a signal. -/
def Ev.step? : Ev → Option (Call × Resp)
  | Ev.sys c r => if (Ev.sys c r).interrupted then none else some (c, r)
  | _ => none

/-- The calls of a trace that were not interrupted by a signal, in order, each
with the answer of the environment. -/
def steps (t : List Ev) : List (Call × Resp) := t.filterMap Ev.step?

/-- The answers of the environment to the calls of one reconfiguration of the
Capture stream: to the stop, to the unmapping calls, to the request that
retires the old pool, to the request for the new pool (`grant`), to the
allocation of the array, for each new buffer to its query and to the mapping
of its plane (`described`), to the enqueues and to the start. -/
structure Answers where
  stop : Resp
  unmap : List Resp
  retire : Resp
  grant : Resp
  alloc : Resp
  described : List (Resp × Resp)
  enqueue : List Resp
  start : Resp

/-- The buffer count the device granted, as `init_mmap` reads it from the
`unsigned int` field `req.count`. -/
def Answers.granted (a : Answers) : Nat := a.grant.count % 2 ^ 32

/-- The call that maps the plane of a buffer the device described by `q`, with
its answer `m`.  A multi-planar buffer has one plane (`FMT_NUM_PLANES` is 1). -/
def map_step (mp : Bool) (q m : Resp) : Call × Resp :=
  if mp then (Call.mmap (q.planes.getD 0 {}).length (q.planes.getD 0 {}).mem_offset, m)
  else (Call.mmap q.length q.offset, m)

/-- The query and the mapping of the buffers `b`, `b + 1`, … of stream `type`,
with their answers. -/
def query_steps (type : v4l2_buf_type) (mp : Bool) : Nat → List (Resp × Resp) → List (Call × Resp)
  | _, [] => []
  | b, (q, m) :: rest =>
    (Call.VIDIOC_QUERYBUF (mmap_buffer type mp b), q) :: map_step mp q m ::
      query_steps type mp (b + 1) rest

/-- The single-planar pool the answers `d` describe: each entry starts where the
mapping call returned and has the length the query returned. -/
def new_pool (d : List (Resp × Resp)) : List buffer :=
  d.map (fun x => { start := x.2.addr, length := x.1.length })

/-- The multi-planar pool the answers `d` describe. -/
def new_pool_mp (d : List (Resp × Resp)) : List buffer_mp :=
  d.map (fun x => { start := [x.2.addr], length := [(x.1.planes.getD 0 {}).length] })

/-- The calls of one reconfiguration of the Capture stream of `s` with the answers
`a`: stop; unmap the old pool; retire it with a request of count 0; request a
pool of 4; allocate the array for the granted count; query and map each granted
buffer; enqueue each of them; start. -/
def reconfigure_steps (s : State) (a : Answers) : List (Call × Resp) :=
  [(Call.VIDIOC_STREAMOFF (capture_type s), a.stop)] ++ (release_calls s).zip a.unmap ++
  [(Call.VIDIOC_REQBUFS
      { count := 0, type := capture_type s, memory := v4l2_memory.V4L2_MEMORY_MMAP }, a.retire),
   (Call.VIDIOC_REQBUFS
      { count := 4, type := capture_type s, memory := v4l2_memory.V4L2_MEMORY_MMAP }, a.grant),
   (Call.calloc a.granted, a.alloc)] ++
  query_steps (capture_type s) s.multi_planar 0 a.described ++
  ((List.range a.granted).map (fun i =>
    Call.VIDIOC_QBUF (mmap_buffer (capture_type s) s.multi_planar i))).zip a.enqueue ++
  [(Call.VIDIOC_STREAMON (capture_type s), a.start)]

/-- Whether every call of one reconfiguration succeeded. -/
def Answers.all_succeeded (a : Answers) : Prop :=
  a.stop.ret ≠ -1 ∧ (∀ u ∈ a.unmap, u.ret ≠ -1) ∧ a.retire.ret ≠ -1 ∧ a.grant.ret ≠ -1 ∧
  a.alloc.addr ≠ 0 ∧ (∀ x ∈ a.described, x.1.ret ≠ -1 ∧ x.2.addr ≠ MAP_FAILED) ∧
  (∀ e ∈ a.enqueue, e.ret ≠ -1) ∧ a.start.ret ≠ -1
/-! ## Mappings -/

/-- The mapping a trace entry creates, as address and length: a `mmap` that did
not return `MAP_FAILED`. -/
def Ev.mapped : Ev → Option (Nat × Nat)
  | Ev.sys (Call.mmap length _) r => if r.addr = MAP_FAILED then none else some (r.addr, length)
  | _ => none

/-- The mappings of a single-planar pool, as address and length. -/
def pool_maps (bufs : List buffer) (n : Nat) : List (Nat × Nat) :=
  (bufs.take n).map (fun e => (e.start, e.length))

/-- The mappings of a multi-planar pool: every plane of every buffer. -/
def pool_maps_mp (bufs : List buffer_mp) (n : Nat) : List (Nat × Nat) :=
  (bufs.take n).flatMap (fun e =>
    (List.range FMT_NUM_PLANES).map (fun p => (e.start.getD p 0, e.length.getD p 0)))

/-- The mappings of the Capture pool of `s`. -/
def capture_maps (s : State) : List (Nat × Nat) :=
  if s.multi_planar then pool_maps_mp s.buffers_mp s.n_buffers
  else pool_maps s.buffers s.n_buffers

/-- The mappings of the Output pool of `s`. -/
def output_maps (s : State) : List (Nat × Nat) :=
  if s.multi_planar then pool_maps_mp s.buffers_mp_out s.n_buffers_out
  else pool_maps s.buffers_out s.n_buffers_out

/-- Every `munmap` of the trace `t` releases a mapping in `known` or a mapping that
an earlier `mmap` of `t` created. -/
def UnmapsOK (known : List (Nat × Nat)) (t : List Ev) : Prop :=
  ∀ (pre post : List Ev) (a l : Nat) (r : Resp),
    t = pre ++ Ev.sys (Call.munmap a l) r :: post →
      (a, l) ∈ known ∨ (a, l) ∈ pre.filterMap Ev.mapped

/-- Two source changes are pending, then no further event.  In the first
reconfiguration the device grants two buffers of 128 bytes, mapped at 7000 and
8000; in the second it grants two buffers of 256 bytes, mapped at 9000 and
10000. -/
def ex_two_source_changes : State :=
  { buffers := ex_pool, n_buffers := 2, buffers_out := ex_pool_out, n_buffers_out := 3,
    m2m_enabled := true,
    script := [{ ev_type := v4l2_event_type.V4L2_EVENT_SOURCE_CHANGE },
               {}, {}, {}, {}, { count := 2 }, { addr := 8 },
               { length := 128, offset := 0 }, { addr := 7000 },
               { length := 128, offset := 128 }, { addr := 8000 },
               {}, {}, {},
               { ev_type := v4l2_event_type.V4L2_EVENT_SOURCE_CHANGE },
               {}, {}, {}, {}, { count := 2 }, { addr := 8 },
               { length := 256, offset := 0 }, { addr := 9000 },
               { length := 256, offset := 256 }, { addr := 10000 },
               {}, {}, {},
               { ret := -1, errno := Errno.EAGAIN }] }

/-- The mapping a trace entry releases, as address and length. -/
def Ev.unmapped : Ev → Option (Nat × Nat)
  | Ev.sys (Call.munmap start length) _ => some (start, length)
  | _ => none
/-! ## How the functions extend the trace -/

theorem bind_apply {α β : Type} (m : M α) (f : α → M β) (s : State) :
    (m >>= f) s = match m s with
      | Result.ok a s1 => f a s1
      | Result.halt h s1 => Result.halt h s1 := rfl

theorem pure_apply {α : Type} (a : α) (s : State) : (pure a : M α) s = Result.ok a s := rfl

theorem frame_refl (s : State) : Frame s s := by simp [Frame]

theorem frame_trans {a b c : State} (h1 : Frame a b) (h2 : Frame b c) : Frame a c := by
  simp only [Frame] at *
  obtain ⟨a1, a2, a3, a4, a5, a6, a7, a8, a9⟩ := h1
  obtain ⟨b1, b2, b3, b4, b5, b6, b7, b8, b9⟩ := h2
  simp [*]

theorem mono_refl (P : Ev → Prop) (s : State) : Mono P s s :=
  ⟨frame_refl s, ⟨[], by simp, by simp⟩, [], by simp⟩

theorem mono_trans {P : Ev → Prop} {a b c : State} (h1 : Mono P a b) (h2 : Mono P b c) :
    Mono P a c := by
  obtain ⟨f1, ⟨t1, e1, p1⟩, u1, q1⟩ := h1
  obtain ⟨f2, ⟨t2, e2, p2⟩, u2, q2⟩ := h2
  refine ⟨frame_trans f1 f2, ⟨t1 ++ t2, by simp [e2, e1], ?_⟩, u1 ++ u2, by simp [q1, q2]⟩
  intro e he
  rcases List.mem_append.mp he with h | h
  · exact p1 e h
  · exact p2 e h

theorem mono_weaken {P Q : Ev → Prop} {a b : State} (h : Mono P a b) (hPQ : ∀ e, P e → Q e) :
    Mono Q a b := by
  obtain ⟨f1, ⟨t1, e1, p1⟩, hu⟩ := h
  exact ⟨f1, ⟨t1, e1, fun e he => hPQ e (p1 e he)⟩, hu⟩

theorem sat_bind {α β : Type} {P : Ev → Prop} {m : M α} {f : α → M β}
    (hm : Sat (Mono P) m) (hf : ∀ a, Sat (Mono P) (f a)) : Sat (Mono P) (m >>= f) := by
  intro s
  have h1 := hm s
  rw [bind_apply]
  cases h : m s with
  | ok a s1 =>
    rw [h] at h1
    exact mono_trans h1 (hf a s1)
  | halt e s1 =>
    rw [h] at h1
    exact h1

theorem sat_pure {α : Type} {P : Ev → Prop} (a : α) : Sat (Mono P) (pure a : M α) :=
  fun s => mono_refl P s

theorem sat_halt {α : Type} {P : Ev → Prop} (h : Halt) : Sat (Mono P) (halt h : M α) :=
  fun s => mono_refl P s

theorem sat_getState {P : Ev → Prop} : Sat (Mono P) getState :=
  fun s => mono_refl P s

theorem sat_emit {P : Ev → Prop} {e : Ev} (h : P e) : Sat (Mono P) (emit e) := by
  intro s
  refine ⟨frame_refl s, ⟨[e], rfl, ?_⟩, [], rfl⟩
  intro x hx
  simp at hx
  exact hx ▸ h

theorem sat_sys {P : Ev → Prop} {c : Call} (h : ∀ r, P (Ev.sys c r)) : Sat (Mono P) (sys c) := by
  intro s
  unfold sys
  split
  · exact mono_refl P s
  · rename_i r rest _
    rename_i hscr
    refine ⟨frame_refl s, ⟨[Ev.sys c r], rfl, ?_⟩, [r], by simp [Result.state, hscr]⟩
    intro x hx
    simp at hx
    exact hx ▸ h r

theorem sat_ite {α : Type} {P : Ev → Prop} {c : Prop} [Decidable c] {m1 m2 : M α}
    (h1 : Sat (Mono P) m1) (h2 : Sat (Mono P) m2) : Sat (Mono P) (if c then m1 else m2) := by
  split
  · exact h1
  · exact h2

theorem sat_errno_exit {α : Type} {P : Ev → Prop} (h : P (Ev.log Msg.errno_exit)) :
    Sat (Mono P) (errno_exit : M α) :=
  sat_bind (sat_emit h) (fun _ => sat_halt _)

theorem sat_exit_with {α : Type} {P : Ev → Prop} {m : Msg} (h : P (Ev.log m)) :
    Sat (Mono P) (exit_with m : M α) :=
  sat_bind (sat_emit h) (fun _ => sat_halt _)

theorem sat_xioctl_loop {P : Ev → Prop} {c : Call} (h : ∀ r, P (Ev.sys c r)) (n : Nat) :
    Sat (Mono P) (xioctl_loop n c) := by
  induction n with
  | zero => exact sat_halt _
  | succ n ih =>
    unfold xioctl_loop
    exact sat_bind (sat_sys h) (fun r => sat_ite ih (sat_pure r))

theorem sat_xioctl {P : Ev → Prop} {c : Call} (h : ∀ r, P (Ev.sys c r)) :
    Sat (Mono P) (xioctl c) :=
  fun s => sat_xioctl_loop h _ s


theorem sat_at_index {α : Type} {P : Ev → Prop} (bufs : List α) (i : Nat) :
    Sat (Mono P) (at_index bufs i) := by
  unfold at_index
  split
  · exact sat_halt _
  · exact sat_pure _

theorem sat_modify {P : Ev → Prop} {f : State → State}
    (hf : ∀ s, Frame s (f s) ∧ (f s).trace = s.trace ∧ (f s).script = s.script) :
    Sat (Mono P) (modify f) := by
  intro s
  exact ⟨(hf s).1, ⟨[], by simp [modify, Result.state, (hf s).2.1], by simp⟩,
    [], by simp [modify, Result.state, (hf s).2.2]⟩

theorem sat_for_loop {P : Ev → Prop} {body : Nat → M Unit} (h : ∀ i, Sat (Mono P) (body i))
    (k i : Nat) : Sat (Mono P) (for_loop k i body) := by
  induction k generalizing i with
  | zero => exact sat_pure _
  | succ k ih =>
    unfold for_loop
    exact sat_bind (h i) (fun _ => ih (i + 1))

theorem sat_for_range {P : Ev → Prop} {body : Nat → M Unit} (h : ∀ i, Sat (Mono P) (body i))
    (n : Nat) : Sat (Mono P) (for_range n body) :=
  sat_for_loop h n 0

theorem sat_fread {P : Ev → Prop} (buf n : Nat) : Sat (Mono P) (fread buf n) := by
  unfold fread
  exact sat_bind sat_getState (fun _ =>
    sat_bind (sat_modify (fun s => ⟨by simp [Frame], rfl, rfl⟩)) (fun _ => sat_pure _))

theorem sat_supply_input {P : Ev → Prop} (hP : ∀ e, Ev.callback_side e = true → P e)
    (buf buf_len bytesused : Nat) : Sat (Mono P) (supply_input buf buf_len bytesused) := by
  unfold supply_input
  refine sat_bind (sat_emit (hP _ rfl)) (fun _ => sat_bind sat_getState (fun s => sat_ite ?_ (sat_pure _)))
  refine sat_bind (sat_fread _ _) (fun got => sat_bind (sat_emit (hP _ ?_)) (fun _ => sat_pure _))
  split <;> rfl

theorem sat_supply_input_by_au {P : Ev → Prop} (hP : ∀ e, Ev.callback_side e = true → P e)
    (buf buf_len : Nat) : Sat (Mono P) (supply_input_by_au buf buf_len) := by
  unfold supply_input_by_au
  refine sat_bind (sat_emit (hP _ rfl)) (fun _ => sat_bind sat_getState (fun s => sat_ite ?_ (sat_halt _)))
  refine sat_bind (sat_modify (fun s => ⟨by simp [Frame], rfl, rfl⟩)) (fun _ =>
    sat_bind (sat_fread _ _) (fun n => sat_bind sat_getState (fun s1 => ?_)))
  split
  · exact sat_halt _
  · exact sat_bind (sat_modify (fun s => ⟨by simp [Frame], rfl, rfl⟩)) (fun _ =>
      sat_bind (sat_modify (fun s => ⟨by simp [Frame], rfl, rfl⟩)) (fun _ =>
        sat_bind (sat_emit (hP _ rfl)) (fun _ => sat_pure _)))

theorem sat_supply_input_mp_loop {P : Ev → Prop} (hP : ∀ e, Ev.callback_side e = true → P e)
    (buf buf_len : List Nat) (k p tot : Nat) :
    Sat (Mono P) (supply_input_mp_loop buf buf_len k p tot) := by
  induction k generalizing p tot with
  | zero => exact sat_pure _
  | succ k ih =>
    unfold supply_input_mp_loop
    exact sat_bind (sat_supply_input_by_au hP _ _) (fun _ => ih _ _)

theorem sat_process_image {P : Ev → Prop} (hP : ∀ e, Ev.callback_side e = true → P e)
    (ptr size : Nat) : Sat (Mono P) (process_image ptr size) :=
  sat_emit (hP (Ev.process_image ptr size) rfl)

theorem sat_process_image_mp {P : Ev → Prop} (hP : ∀ e, Ev.callback_side e = true → P e)
    (ptr size : List Nat) : Sat (Mono P) (process_image_mp ptr size) :=
  sat_for_range (fun _ => sat_process_image hP _ _) _

theorem sat_dequeue_failed {P : Ev → Prop} (hP : P (Ev.log Msg.errno_exit)) (e : Errno) :
    Sat (Mono P) (dequeue_failed e) := by
  unfold dequeue_failed
  split
  · exact sat_pure _
  · exact sat_errno_exit hP

theorem low_of_callback_side {e : Ev} (h : Ev.callback_side e = true) : Ev.low e = true := by
  cases e <;> simp_all [Ev.callback_side, Ev.low]

theorem no_dequeue_of_callback_side {e : Ev} (h : Ev.callback_side e = true) :
    Ev.no_dequeue e = true := by
  cases e <;> simp_all [Ev.callback_side, Ev.no_dequeue]

theorem low_of_no_dequeue {e : Ev} (h : Ev.no_dequeue e = true) : Ev.low e = true := by
  cases e with
  | sys c r => rfl
  | _ => simp_all [Ev.no_dequeue, Ev.low]

theorem no_dequeue_of_capture_side {e : Ev} (h : Ev.capture_side e = true) :
    Ev.no_dequeue e = true := by
  cases e with
  | sys c r => cases c <;> simp_all [Ev.capture_side, Ev.no_dequeue]
  | _ => simp_all [Ev.capture_side, Ev.no_dequeue]

theorem sat_requeue {P : Ev → Prop} (hP : ∀ e, Ev.low e = true → P e) (buf : v4l2_buffer) :
    Sat (Mono P) (do
      let r2 ← xioctl (Call.VIDIOC_QBUF buf)
      if r2.ret = -1 then errno_exit else pure (1 : Int)) :=
  sat_bind (sat_xioctl (fun _ => hP _ rfl)) (fun _ =>
    sat_ite (sat_errno_exit (hP _ rfl)) (sat_pure _))

theorem sat_userptr_scan {P : Ev → Prop} (bufs : List buffer) (userptr length k i : Nat) :
    Sat (Mono P) (userptr_scan bufs userptr length k i) := by
  induction k generalizing i with
  | zero => exact sat_pure _
  | succ k ih =>
    unfold userptr_scan
    exact sat_bind (sat_at_index _ _) (fun b => sat_ite (sat_pure _) (ih _))

theorem sat_read_frame {P : Ev → Prop} (hP : ∀ e, Ev.low e = true → P e)
    (type : v4l2_buf_type) (bufs : List buffer) (n : Nat) :
    Sat (Mono P) (read_frame type bufs n) := by
  have hsys : ∀ c r, P (Ev.sys c r) := fun c r => hP _ rfl
  have hdq : ∀ e, Sat (Mono P) (dequeue_failed e) :=
    fun e => sat_dequeue_failed (hP _ rfl) e
  have hcb : ∀ e, Ev.callback_side e = true → P e := fun e he => hP e (low_of_callback_side he)
  unfold read_frame
  refine sat_bind sat_getState (fun s => ?_)
  split
  · refine sat_bind (sat_at_index _ _) (fun b0 =>
      sat_bind (sat_sys (hsys _)) (fun r => sat_ite (hdq _) ?_))
    exact sat_bind (sat_process_image hcb _ _) (fun _ => sat_pure _)
  · refine sat_bind (sat_xioctl (hsys _)) (fun r => sat_ite (hdq _) ?_)
    dsimp only
    refine sat_ite (sat_bind (sat_at_index _ _) (fun b => ?_)) (sat_halt _)
    apply sat_bind
    · apply sat_ite
      · exact sat_bind (sat_process_image hcb _ _) (fun _ => sat_pure _)
      · exact sat_supply_input hcb _ _ _
    · intro b
      exact sat_requeue hP _
  · refine sat_bind (sat_xioctl (hsys _)) (fun r => sat_ite (hdq _) ?_)
    dsimp only
    refine sat_bind (sat_userptr_scan _ _ _ _ _) (fun i => sat_ite ?_ (sat_halt _))
    exact sat_bind (sat_process_image hcb _ _) (fun _ => sat_requeue hP _)

theorem sat_read_frame_mmap_mp {P : Ev → Prop} (hP : ∀ e, Ev.low e = true → P e)
    (type : v4l2_buf_type) (bufs : List buffer_mp) (n : Nat) :
    Sat (Mono P) (read_frame_mmap_mp type bufs n) := by
  have hsys : ∀ c r, P (Ev.sys c r) := fun c r => hP _ rfl
  have hdq : ∀ e, Sat (Mono P) (dequeue_failed e) :=
    fun e => sat_dequeue_failed (hP _ rfl) e
  have hcb : ∀ e, Ev.callback_side e = true → P e := fun e he => hP e (low_of_callback_side he)
  unfold read_frame_mmap_mp
  refine sat_bind (sat_xioctl (hsys _)) (fun r => sat_ite (hdq _) ?_)
  dsimp only
  refine sat_ite (sat_bind (sat_at_index _ _) (fun b => ?_)) (sat_halt _)
  apply sat_bind
  · apply sat_ite
    · exact sat_bind (sat_process_image_mp hcb _ _) (fun _ => sat_pure _)
    · exact sat_supply_input_mp_loop hcb _ _ _ _ _
  · intro b
    exact sat_requeue hP _


theorem stream_type_capture (s : State) :
    stream_type v4l2_buf_type.V4L2_BUF_TYPE_VIDEO_CAPTURE s =
      Result.ok (if s.multi_planar then v4l2_buf_type.V4L2_BUF_TYPE_VIDEO_CAPTURE_MPLANE
        else v4l2_buf_type.V4L2_BUF_TYPE_VIDEO_CAPTURE) s := by
  cases h : s.multi_planar <;> simp [stream_type, h]

theorem sat_stop_capture_capture {P : Ev → Prop} (hP : ∀ e, Ev.capture_side e = true → P e) :
    Sat (Mono P) (stop_capture v4l2_buf_type.V4L2_BUF_TYPE_VIDEO_CAPTURE) := by
  have hrest : ∀ t : v4l2_buf_type, t.is_output = false → Sat (Mono P) (do
      let r ← xioctl (Call.VIDIOC_STREAMOFF t)
      if r.ret = -1 then errno_exit else pure ()) := by
    intro t ht
    refine sat_bind (sat_xioctl (fun r => hP _ ?_)) (fun _ =>
      sat_ite (sat_errno_exit (hP _ rfl)) (sat_pure _))
    simp [Ev.capture_side, Call.on_output, Call.type?, ht]
  intro s
  unfold stop_capture
  rw [bind_apply, stream_type_capture]
  cases s.multi_planar
  · exact hrest v4l2_buf_type.V4L2_BUF_TYPE_VIDEO_CAPTURE rfl s
  · exact hrest v4l2_buf_type.V4L2_BUF_TYPE_VIDEO_CAPTURE_MPLANE rfl s

theorem sat_unmap_buffers {P : Ev → Prop} (hP : ∀ e, Ev.setup_side e = true → P e)
    (buf : List buffer) (n : Nat) : Sat (Mono P) (unmap_buffers buf n) := by
  have hbody : ∀ a l : Nat, Sat (Mono P) (do
      let r ← sys (Call.munmap a l)
      if r.ret = -1 then errno_exit else pure ()) :=
    fun a l => sat_bind (sat_sys (fun r => hP (Ev.sys (Call.munmap a l) r) rfl)) (fun _ =>
      sat_ite (sat_errno_exit (hP _ rfl)) (sat_pure _))
  unfold unmap_buffers
  exact sat_for_range (fun b => sat_bind (sat_at_index _ _) (fun e => hbody _ _)) n

theorem sat_unmap_buffers_mp {P : Ev → Prop} (hP : ∀ e, Ev.setup_side e = true → P e)
    (buf : List buffer_mp) (n : Nat) : Sat (Mono P) (unmap_buffers_mp buf n) := by
  have hbody : ∀ a l : Nat, Sat (Mono P) (do
      let r ← sys (Call.munmap a l)
      if r.ret = -1 then errno_exit else pure ()) :=
    fun a l => sat_bind (sat_sys (fun r => hP (Ev.sys (Call.munmap a l) r) rfl)) (fun _ =>
      sat_ite (sat_errno_exit (hP _ rfl)) (sat_pure _))
  unfold unmap_buffers_mp
  exact sat_for_range (fun b => sat_bind (sat_at_index _ _) (fun e =>
    sat_for_range (fun p => hbody _ _) _)) n

theorem sat_free_buffers_mmap {P : Ev → Prop} (hP : ∀ e, Ev.setup_side e = true → P e)
    (type : v4l2_buf_type) (ht : type.is_output = false) :
    Sat (Mono P) (free_buffers_mmap type) := by
  unfold free_buffers_mmap
  refine sat_bind (sat_xioctl (fun r => hP _ ?_)) (fun _ =>
    sat_ite (sat_ite (sat_exit_with (hP _ rfl)) (sat_errno_exit (hP _ rfl))) (sat_pure _))
  simp [Ev.setup_side, Call.on_output, Call.type?, Call.is_queue, ht]

theorem sat_init_mmap_loop {P : Ev → Prop} (hP : ∀ e, Ev.setup_side e = true → P e)
    (type : v4l2_buf_type) (ht : type.is_output = false) (k b : Nat) (bufs : List buffer) :
    Sat (Mono P) (init_mmap_loop type k b bufs) := by
  induction k generalizing b bufs with
  | zero => exact sat_pure _
  | succ k ih =>
    unfold init_mmap_loop
    refine sat_bind (sat_xioctl (fun r => hP _ ?_)) (fun _ =>
      sat_ite (sat_errno_exit (hP _ rfl)) (sat_bind (sat_sys (fun r => hP _ rfl)) (fun _ =>
        sat_ite (sat_errno_exit (hP _ rfl)) (ih _ _))))
    simp [Ev.setup_side, Call.on_output, Call.type?, Call.is_queue, ht]

theorem sat_init_mmap {P : Ev → Prop} (hP : ∀ e, Ev.setup_side e = true → P e)
    (type : v4l2_buf_type) (ht : type.is_output = false) : Sat (Mono P) (init_mmap type) := by
  unfold init_mmap
  refine sat_bind (sat_xioctl (fun r => hP _ ?_)) (fun _ =>
    sat_ite (sat_ite (sat_exit_with (hP _ rfl)) (sat_errno_exit (hP _ rfl))) ?_)
  · simp [Ev.setup_side, Call.on_output, Call.type?, Call.is_queue, ht]
  · dsimp only
    refine sat_ite (sat_exit_with (hP _ rfl)) (sat_bind (sat_sys (fun r => hP _ rfl)) (fun _ =>
      sat_ite (sat_exit_with (hP _ rfl)) (sat_bind (sat_init_mmap_loop hP type ht _ _ _)
        (fun _ => sat_pure _))))

theorem sat_init_mmap_mp_planes {P : Ev → Prop} (hP : ∀ e, Ev.setup_side e = true → P e)
    (planes : List v4l2_plane) (k p : Nat) (e : buffer_mp) :
    Sat (Mono P) (init_mmap_mp_planes planes k p e) := by
  induction k generalizing p e with
  | zero => exact sat_pure _
  | succ k ih =>
    unfold init_mmap_mp_planes
    dsimp only
    exact sat_bind (sat_sys (fun r => hP _ rfl)) (fun _ =>
      sat_ite (sat_errno_exit (hP _ rfl)) (ih _ _))

theorem sat_init_mmap_mp_loop {P : Ev → Prop} (hP : ∀ e, Ev.setup_side e = true → P e)
    (type : v4l2_buf_type) (ht : type.is_output = false) (k b : Nat) (bufs : List buffer_mp) :
    Sat (Mono P) (init_mmap_mp_loop type k b bufs) := by
  induction k generalizing b bufs with
  | zero => exact sat_pure _
  | succ k ih =>
    unfold init_mmap_mp_loop
    refine sat_bind (sat_xioctl (fun r => hP _ ?_)) (fun _ =>
      sat_ite (sat_errno_exit (hP _ rfl)) (sat_bind (sat_init_mmap_mp_planes hP _ _ _ _)
        (fun _ => ih _ _)))
    simp [Ev.setup_side, Call.on_output, Call.type?, Call.is_queue, ht]

theorem sat_init_mmap_mp {P : Ev → Prop} (hP : ∀ e, Ev.setup_side e = true → P e)
    (type : v4l2_buf_type) (ht : type.is_output = false) :
    Sat (Mono P) (init_mmap_mp type) := by
  unfold init_mmap_mp
  refine sat_bind (sat_xioctl (fun r => hP _ ?_)) (fun _ =>
    sat_ite (sat_ite (sat_exit_with (hP _ rfl)) (sat_errno_exit (hP _ rfl))) ?_)
  · simp [Ev.setup_side, Call.on_output, Call.type?, Call.is_queue, ht]
  · dsimp only
    refine sat_ite (sat_exit_with (hP _ rfl)) (sat_bind (sat_sys (fun r => hP _ rfl)) (fun _ =>
      sat_ite (sat_exit_with (hP _ rfl)) (sat_bind (sat_init_mmap_mp_loop hP type ht _ _ _)
        (fun _ => sat_pure _))))

theorem sat_start_capturing_mmap_capture {P : Ev → Prop}
    (hP : ∀ e, Ev.capture_side e = true → P e) (bufs : List buffer) (n : Nat) :
    Sat (Mono P)
      (start_capturing_mmap v4l2_buf_type.V4L2_BUF_TYPE_VIDEO_CAPTURE bufs n) := by
  unfold start_capturing_mmap
  refine sat_bind (sat_for_range (fun i => ?_) n) (fun _ =>
    sat_bind (sat_xioctl (fun r => hP _ rfl)) (fun _ =>
      sat_ite (sat_errno_exit (hP _ rfl)) (sat_pure _)))
  refine sat_bind ?_ (fun _ => sat_bind (sat_xioctl (fun r => hP _ rfl)) (fun _ =>
      sat_ite (sat_errno_exit (hP _ rfl)) (sat_pure _)))
  rw [if_neg (by decide)]
  exact sat_pure _

theorem sat_start_capturing_mmap_mp_capture {P : Ev → Prop}
    (hP : ∀ e, Ev.capture_side e = true → P e) (bufs : List buffer_mp) (n : Nat) :
    Sat (Mono P)
      (start_capturing_mmap_mp v4l2_buf_type.V4L2_BUF_TYPE_VIDEO_CAPTURE_MPLANE bufs n) := by
  unfold start_capturing_mmap_mp
  refine sat_bind (sat_for_range (fun i => ?_) n) (fun _ =>
    sat_bind (sat_xioctl (fun r => hP _ rfl)) (fun _ =>
      sat_ite (sat_errno_exit (hP _ rfl)) (sat_pure _)))
  refine sat_bind ?_ (fun _ => sat_bind (sat_xioctl (fun r => hP _ rfl)) (fun _ =>
      sat_ite (sat_errno_exit (hP _ rfl)) (sat_pure _)))
  rw [if_neg (by decide)]
  exact sat_pure _

theorem capture_side_of_setup_side {e : Ev} (h : Ev.setup_side e = true) :
    Ev.capture_side e = true := by
  cases e with
  | sys c r => cases c <;> simp_all [Ev.setup_side, Ev.capture_side, Call.is_queue]
  | _ => simp_all [Ev.setup_side, Ev.capture_side]

theorem sat_handle_source_change {P : Ev → Prop} (hP : ∀ e, Ev.capture_side e = true → P e) :
    Sat (Mono P) handle_source_change := by
  have hS : ∀ e, Ev.setup_side e = true → P e :=
    fun e he => hP e (capture_side_of_setup_side he)
  unfold handle_source_change
  refine sat_bind (sat_emit (hP _ rfl)) (fun _ =>
    sat_bind (sat_stop_capture_capture hP) (fun _ => sat_bind sat_getState (fun s => ?_)))
  split
  · refine sat_bind (sat_unmap_buffers_mp hS _ _) (fun _ =>
      sat_bind (sat_emit (hP _ rfl)) (fun _ =>
        sat_bind (sat_free_buffers_mmap hS _ rfl) (fun _ =>
          sat_bind (sat_init_mmap_mp hS _ rfl) (fun x => ?_))))
    obtain ⟨bufs, n⟩ := x
    exact sat_bind (sat_modify (fun s => ⟨by simp [Frame], rfl, rfl⟩)) (fun _ =>
      sat_start_capturing_mmap_mp_capture hP _ _)
  · refine sat_bind (sat_unmap_buffers hS _ _) (fun _ =>
      sat_bind (sat_emit (hP _ rfl)) (fun _ =>
        sat_bind (sat_free_buffers_mmap hS _ rfl) (fun _ =>
          sat_bind (sat_init_mmap hS _ rfl) (fun x => ?_))))
    obtain ⟨bufs, n⟩ := x
    exact sat_bind (sat_modify (fun s => ⟨by simp [Frame], rfl, rfl⟩)) (fun _ =>
      sat_start_capturing_mmap_capture hP _ _)

theorem sat_handle_event_loop {P : Ev → Prop} (hP : ∀ e, Ev.capture_side e = true → P e)
    (n : Nat) : Sat (Mono P) (handle_event_loop n) := by
  induction n with
  | zero => exact sat_halt _
  | succ n ih =>
    unfold handle_event_loop
    refine sat_bind (sat_sys (fun r => hP _ rfl)) (fun ev => sat_ite ?_ (sat_pure _))
    refine sat_bind ?_ (fun _ => ih)
    split
    · exact sat_handle_source_change hP
    · exact sat_emit (hP _ rfl)
    · exact sat_pure _

theorem sat_handle_event {P : Ev → Prop} (hP : ∀ e, Ev.capture_side e = true → P e) :
    Sat (Mono P) handle_event :=
  sat_bind sat_getState (fun _ => sat_handle_event_loop hP _)

/-! ## Tools for runs that return -/

theorem bind_eq_ok {α β : Type} {m : M α} {f : α → M β} {s : State} {b : β} {s' : State} :
    (m >>= f) s = Result.ok b s' ↔ ∃ a s1, m s = Result.ok a s1 ∧ f a s1 = Result.ok b s' := by
  rw [bind_apply]
  cases h : m s with
  | ok a s1 =>
    constructor
    · intro hf
      exact ⟨a, s1, rfl, hf⟩
    · rintro ⟨a', s1', he, hf⟩
      cases he
      exact hf
  | halt e s1 =>
    constructor
    · intro hf
      cases hf
    · rintro ⟨a', s1', he, _⟩
      cases he

theorem ite_apply {α : Type} (c : Prop) [Decidable c] (m1 m2 : M α) (s : State) :
    (if c then m1 else m2) s = if c then m1 s else m2 s := by
  split <;> rfl

theorem errno_exit_apply {α : Type} (s : State) :
    (errno_exit : M α) s =
      Result.halt Halt.exit { s with trace := s.trace ++ [Ev.log Msg.errno_exit] } := rfl

theorem exit_with_apply {α : Type} (m : Msg) (s : State) :
    (exit_with m : M α) s =
      Result.halt Halt.exit { s with trace := s.trace ++ [Ev.log m] } := rfl

theorem halt_apply {α : Type} (h : Halt) (s : State) : (halt h : M α) s = Result.halt h s := rfl

theorem getState_apply (s : State) : getState s = Result.ok s s := rfl

theorem modify_apply (f : State → State) (s : State) : modify f s = Result.ok () (f s) := rfl

theorem emit_apply (e : Ev) (s : State) :
    emit e s = Result.ok () { s with trace := s.trace ++ [e] } := rfl

theorem sys_eq_ok {c : Call} {s : State} {r : Resp} {s' : State} :
    sys c s = Result.ok r s' ↔
      ∃ rest, s.script = r :: rest ∧
        s' = { s with script := rest, trace := s.trace ++ [Ev.sys c r] } := by
  unfold sys
  split
  · rename_i h
    simp [h]
  · rename_i r0 rest h
    simp only [Result.ok.injEq, h, List.cons.injEq]
    constructor
    · rintro ⟨rfl, rfl⟩
      exact ⟨rest, ⟨rfl, rfl⟩, rfl⟩
    · rintro ⟨rest', ⟨rfl, rfl⟩, rfl⟩
      exact ⟨rfl, rfl⟩

theorem xioctl_loop_ok {n : Nat} {c : Call} {s : State} {r : Resp} {s' : State}
    (h : xioctl_loop n c s = Result.ok r s') (hc : c.returns_pointer = false) :
    ∃ pre, (∀ e ∈ pre, Ev.interrupted e = true) ∧ r.interrupted = false ∧
      s'.vars = s.vars ∧ s'.trace = s.trace ++ pre ++ [Ev.sys c r] := by
  induction n generalizing s with
  | zero => simp [xioctl_loop, halt_apply] at h
  | succ n ih =>
    unfold xioctl_loop at h
    obtain ⟨r0, s1, h0, h⟩ := bind_eq_ok.mp h
    obtain ⟨rest, hscr, rfl⟩ := sys_eq_ok.mp h0
    rw [ite_apply] at h
    split at h
    · rename_i hint
      obtain ⟨pre, hpre, hr, hv, ht⟩ := ih h
      refine ⟨Ev.sys c r0 :: pre, ?_, hr, ?_, ?_⟩
      · intro e he
        rcases List.mem_cons.mp he with rfl | he
        · simp [Ev.interrupted, Resp.interrupted, hint, hc]
        · exact hpre e he
      · rw [hv]
        rfl
      · simp [ht]
    · rename_i hint
      simp only [pure_apply, Result.ok.injEq] at h
      obtain ⟨rfl, rfl⟩ := h
      exact ⟨[], by simp, by simp [Resp.interrupted, hint], rfl, by simp⟩

theorem xioctl_ok {c : Call} {s : State} {r : Resp} {s' : State}
    (h : xioctl c s = Result.ok r s') (hc : c.returns_pointer = false) :
    ∃ pre, (∀ e ∈ pre, Ev.interrupted e = true) ∧ r.interrupted = false ∧
      s'.vars = s.vars ∧ s'.trace = s.trace ++ pre ++ [Ev.sys c r] :=
  xioctl_loop_ok h hc

theorem actions_append (a b : List Ev) : actions (a ++ b) = actions a ++ actions b := by
  simp [actions]

theorem actions_interrupted {pre : List Ev} (h : ∀ e ∈ pre, Ev.interrupted e = true) :
    actions pre = [] := by
  simp only [actions, List.filter_eq_nil_iff]
  intro e he
  simp [h e he]

theorem queue_ops_append (a b : List Ev) : queue_ops (a ++ b) = queue_ops a ++ queue_ops b := by
  simp [queue_ops]

theorem queue_op_interrupted {e : Ev} (h : Ev.interrupted e = true) : e.queue_op = none := by
  cases e with
  | sys c r =>
    have hr : r.ret = -1 := by
      simp [Ev.interrupted, Resp.interrupted] at h
      exact h.2.1
    cases c <;> simp [Ev.queue_op, hr]
  | _ => rfl

theorem queue_ops_interrupted {pre : List Ev} (h : ∀ e ∈ pre, Ev.interrupted e = true) :
    queue_ops pre = [] := by
  simp only [queue_ops, List.filterMap_eq_nil_iff]
  intro e he
  exact queue_op_interrupted (h e he)
theorem supply_input_apply (buf buf_len bytesused : Nat) (s : State) :
    supply_input buf buf_len bytesused s =
      if s.in_fp then
        Result.ok (supplied s buf_len)
          { s with in_pos := s.in_pos + supplied s buf_len,
                   mem := store s.mem buf ((s.in_file.drop s.in_pos).take buf_len),
                   trace := s.trace ++ [Ev.supply_input buf buf_len,
                     Ev.log (if supplied s buf_len ≠ buf_len then Msg.Short_read
                       else Msg.Read_bytes)] }
      else Result.ok bytesused { s with trace := s.trace ++ [Ev.supply_input buf buf_len] } := by
  cases h : s.in_fp <;>
    simp [supply_input, bind_apply, emit_apply, getState_apply, h, pure_apply, fread,
      modify_apply, supplied]
  split_ifs <;> first | rfl | omega

theorem at_index_ok {α : Type} {bufs : List α} {i : Nat} {s : State} {b : α} {s' : State}
    (h : at_index bufs i s = Result.ok b s') : bufs[i]? = some b ∧ s' = s := by
  unfold at_index at h
  cases hb : bufs[i]? with
  | none => simp [hb, halt_apply] at h
  | some b0 =>
    simp only [hb, pure_apply, Result.ok.injEq] at h
    exact ⟨by rw [h.1], h.2.symm⟩

theorem dequeue_failed_ok {e : Errno} {s : State} {x : Int} {s' : State}
    (h : dequeue_failed e s = Result.ok x s') : x = 0 ∧ e = Errno.EAGAIN ∧ s' = s := by
  cases e <;> simp [dequeue_failed, pure_apply, errno_exit_apply] at h
  exact ⟨h.1.symm, rfl, h.2.symm⟩

theorem vars_eq {s s' : State} (h : s'.vars = s.vars) :
    s'.io = s.io ∧ s'.buffers = s.buffers ∧ s'.buffers_out = s.buffers_out ∧
    s'.buffers_mp = s.buffers_mp ∧ s'.buffers_mp_out = s.buffers_mp_out ∧
    s'.n_buffers = s.n_buffers ∧ s'.n_buffers_out = s.n_buffers_out ∧
    s'.m2m_enabled = s.m2m_enabled ∧ s'.multi_planar = s.multi_planar ∧
    s'.frame_count = s.frame_count ∧ s'.in_fp = s.in_fp ∧ s'.in_file = s.in_file ∧
    s'.in_pos = s.in_pos ∧ s'.f_offset = s.f_offset ∧ s'.mem = s.mem := by
  simp only [State.vars, State.mk.injEq] at h
  obtain ⟨h1, h2, h3, h4, h5, h6, h7, h8, h9, h10, h11, h12, h13, h14, h15, _⟩ := h
  exact ⟨h1, h2, h3, h4, h5, h6, h7, h8, h9, h10, h11, h12, h13, h14, h15⟩

/-- The trace entries the payload step of a single-planar service call adds. -/
theorem read_frame_mmap_ok {type : v4l2_buf_type} {bufs : List buffer} {n : Nat}
    {s : State} {x : Int} {s' : State} (hio : s.io = io_method.IO_METHOD_MMAP)
    (h : read_frame type bufs n s = Result.ok x s') (hx : x ≠ 0) :
    ∃ pre1 r b pre2 r2,
      (∀ e ∈ pre1, Ev.interrupted e = true) ∧ (∀ e ∈ pre2, Ev.interrupted e = true) ∧
      r.ret ≠ -1 ∧ r2.ret ≠ -1 ∧ r.index < n ∧ bufs[r.index]? = some b ∧ x = 1 ∧
      s'.trace = s.trace ++ pre1 ++
        [Ev.sys (Call.VIDIOC_DQBUF { type := type, memory := v4l2_memory.V4L2_MEMORY_MMAP }) r]
        ++ (if type = v4l2_buf_type.V4L2_BUF_TYPE_VIDEO_CAPTURE then
              [Ev.process_image b.start r.bytesused]
            else if s.in_fp then
              [Ev.supply_input b.start b.length,
               Ev.log (if supplied s b.length ≠ b.length then Msg.Short_read
                 else Msg.Read_bytes)]
            else [Ev.supply_input b.start b.length])
        ++ pre2 ++
        [Ev.sys (Call.VIDIOC_QBUF
          { type := type, memory := v4l2_memory.V4L2_MEMORY_MMAP, index := r.index,
            bytesused :=
              if type = v4l2_buf_type.V4L2_BUF_TYPE_VIDEO_CAPTURE then r.bytesused
              else if s.in_fp then supplied s b.length else r.bytesused,
            length := r.length, offset := r.offset, userptr := r.userptr,
            planes := r.planes }) r2] := by
  unfold read_frame at h
  obtain ⟨s0, s0', h0, h1⟩ := bind_eq_ok.mp h
  simp only [getState_apply, Result.ok.injEq] at h0
  obtain ⟨rfl, rfl⟩ := h0
  simp only [hio] at h1
  obtain ⟨r, s1, hdq, h2⟩ := bind_eq_ok.mp h1
  obtain ⟨pre1, hpre1, -, hv1, ht1⟩ := xioctl_ok hdq rfl
  rw [ite_apply] at h2
  split at h2
  · exact absurd (dequeue_failed_ok h2).1 hx
  · rename_i hret
    rw [ite_apply] at h2
    split at h2
    · rename_i hidx
      obtain ⟨b, s1', hbi, h3⟩ := bind_eq_ok.mp h2
      obtain ⟨hb, hs1⟩ := at_index_ok hbi
      subst hs1
      simp only [v4l2_buffer.dequeued] at hb hidx
      obtain ⟨bu, s2, hpay, h4⟩ := bind_eq_ok.mp h3
      obtain ⟨r2, s3, hq, h5⟩ := bind_eq_ok.mp h4
      obtain ⟨pre2, hpre2, -, hv2, ht2⟩ := xioctl_ok hq rfl
      rw [ite_apply] at h5
      split at h5
      · simp [errno_exit_apply] at h5
      · rename_i hret2
        simp only [pure_apply, Result.ok.injEq] at h5
        obtain ⟨hx1, hs3⟩ := h5
        subst hx1 hs3
        refine ⟨pre1, r, b, pre2, r2, hpre1, hpre2, hret, hret2, hidx, hb, rfl, ?_⟩
        have hfp := (vars_eq hv1).2.2.2.2.2.2.2.2.2.2.1
        have hsup : supplied s1' b.length = supplied s b.length := by
          simp [supplied, (vars_eq hv1).2.2.2.2.2.2.2.2.2.2.2.1,
            (vars_eq hv1).2.2.2.2.2.2.2.2.2.2.2.2.1]
        rw [ite_apply] at hpay
        by_cases hty : type = v4l2_buf_type.V4L2_BUF_TYPE_VIDEO_CAPTURE
        · subst hty
          simp only [if_true] at hpay ⊢
          simp only [bind_apply, process_image, emit_apply, pure_apply,
            Result.ok.injEq] at hpay
          obtain ⟨hbu, hs2⟩ := hpay
          subst hbu hs2
          rw [ht2]
          simp [ht1, v4l2_buffer.dequeued]
        · simp only [hty, if_false] at hpay ⊢
          rw [supply_input_apply] at hpay
          by_cases hin : s.in_fp = true
          · rw [hfp] at hpay
            simp only [hin, if_true, Result.ok.injEq] at hpay ⊢
            obtain ⟨hbu, hs2⟩ := hpay
            subst hbu hs2
            rw [ht2]
            simp [ht1, v4l2_buffer.dequeued, hsup]
          · rw [hfp] at hpay
            simp only [hin, if_false, Result.ok.injEq, Bool.false_eq_true, ↓reduceIte] at hpay ⊢
            obtain ⟨hbu, hs2⟩ := hpay
            subst hbu hs2
            rw [ht2]
            simp [ht1, v4l2_buffer.dequeued]
    · simp [halt_apply] at h2
theorem value_eq_some {α : Type} {res : Result α} {a : α} :
    res.value = some a ↔ ∃ s', res = Result.ok a s' := by
  cases res with
  | ok b s1 =>
    simp only [Result.value, Option.some.injEq, Result.ok.injEq]
    constructor
    · rintro rfl
      exact ⟨s1, rfl, rfl⟩
    · rintro ⟨_, rfl, _⟩
      rfl
  | halt h s1 => simp [Result.value]

theorem value_state {α : Type} {res : Result α} {a : α} (h : res.value = some a) :
    res = Result.ok a res.state := by
  cases res with
  | ok b s1 =>
    simp only [Result.value, Option.some.injEq] at h
    subst h
    rfl
  | halt e s1 => simp [Result.value] at h

theorem init_mmap_loop_length {type : v4l2_buf_type} {k b : Nat} {bufs : List buffer}
    {s : State} {bufs' : List buffer} {s' : State}
    (h : init_mmap_loop type k b bufs s = Result.ok bufs' s') : bufs'.length = bufs.length := by
  induction k generalizing b bufs s with
  | zero =>
    simp only [init_mmap_loop, pure_apply, Result.ok.injEq] at h
    rw [← h.1]
  | succ k ih =>
    unfold init_mmap_loop at h
    obtain ⟨r, s1, _, h1⟩ := bind_eq_ok.mp h
    rw [ite_apply] at h1
    split at h1
    · simp [errno_exit_apply] at h1
    · obtain ⟨m, s2, _, h2⟩ := bind_eq_ok.mp h1
      rw [ite_apply] at h2
      split at h2
      · simp [errno_exit_apply] at h2
      · simpa using ih h2

theorem init_mmap_mp_loop_length {type : v4l2_buf_type} {k b : Nat} {bufs : List buffer_mp}
    {s : State} {bufs' : List buffer_mp} {s' : State}
    (h : init_mmap_mp_loop type k b bufs s = Result.ok bufs' s') :
    bufs'.length = bufs.length := by
  induction k generalizing b bufs s with
  | zero =>
    simp only [init_mmap_mp_loop, pure_apply, Result.ok.injEq] at h
    rw [← h.1]
  | succ k ih =>
    unfold init_mmap_mp_loop at h
    obtain ⟨r, s1, _, h1⟩ := bind_eq_ok.mp h
    rw [ite_apply] at h1
    split at h1
    · simp [errno_exit_apply] at h1
    · obtain ⟨m, s2, _, h2⟩ := bind_eq_ok.mp h1
      simpa using ih h2

theorem init_userp_loop_ok {size k : Nat} {s s' : State}
    (h : init_userp_loop size k s = Result.ok () s') :
    s'.n_buffers = s.n_buffers + k ∧ s'.buffers.length = s.buffers.length := by
  induction k generalizing s with
  | zero =>
    simp only [init_userp_loop, pure_apply, Result.ok.injEq, true_and] at h
    subst h
    simp
  | succ k ih =>
    unfold init_userp_loop at h
    obtain ⟨m, s1, hm, h1⟩ := bind_eq_ok.mp h
    obtain ⟨rest, -, hs1⟩ := sys_eq_ok.mp hm
    obtain ⟨u, s2, hu, h2⟩ := bind_eq_ok.mp h1
    simp only [modify_apply, Result.ok.injEq, true_and] at hu
    rw [ite_apply] at h2
    split at h2
    · simp [exit_with_apply] at h2
    · obtain ⟨u2, s3, hu3, h3⟩ := bind_eq_ok.mp h2
      simp only [modify_apply, Result.ok.injEq, true_and] at hu3
      obtain ⟨hn, hl⟩ := ih h3
      subst hu3 hu hs1
      simp only [List.length_set] at hn hl
      exact ⟨by omega, hl⟩

theorem init_userp_ok {size : Nat} {s s' : State} (h : init_userp size s = Result.ok () s') :
    s'.n_buffers = 4 ∧ s'.buffers.length = 4 := by
  unfold init_userp at h
  obtain ⟨r, s1, _, h1⟩ := bind_eq_ok.mp h
  rw [ite_apply] at h1
  split at h1
  · rw [ite_apply] at h1
    split at h1 <;> simp [exit_with_apply, errno_exit_apply] at h1
  · obtain ⟨a, s2, _, h2⟩ := bind_eq_ok.mp h1
    obtain ⟨u, s3, hu, h3⟩ := bind_eq_ok.mp h2
    simp only [modify_apply, Result.ok.injEq, true_and] at hu
    rw [ite_apply] at h3
    split at h3
    · simp [exit_with_apply] at h3
    · rename_i ha
      obtain ⟨u2, s4, hu4, h4⟩ := bind_eq_ok.mp h3
      simp only [modify_apply, Result.ok.injEq, true_and] at hu4
      obtain ⟨hn, hl⟩ := init_userp_loop_ok h4
      subst hu4 hu
      simp only [ha, if_false, List.length_replicate] at hn hl
      exact ⟨by omega, hl⟩

theorem init_mmap_ok {type : v4l2_buf_type} {s : State} {r : Resp} {s1 : State}
    (hreq : xioctl (Call.VIDIOC_REQBUFS
      { count := 4, type := type, memory := v4l2_memory.V4L2_MEMORY_MMAP }) s = Result.ok r s1)
    (hok : r.ret ≠ -1) :
    (r.count % 2 ^ 32 < 2 → (init_mmap type s).halted = some Halt.exit) ∧
    ∀ bufs n, (init_mmap type s).value = some (bufs, n) →
      n = r.count % 2 ^ 32 ∧ 2 ≤ n ∧ bufs.length = n := by
  constructor
  · intro hlt
    have hlt' : r.count % 4294967296 < 2 := hlt
    simp [init_mmap, bind_apply, hreq, ite_apply, hok, hlt', exit_with_apply, Result.halted]
  · intro bufs n h
    obtain ⟨s', h⟩ := value_eq_some.mp h
    unfold init_mmap at h
    obtain ⟨r', s1', hreq', h1⟩ := bind_eq_ok.mp h
    rw [hreq] at hreq'
    simp only [Result.ok.injEq] at hreq'
    obtain ⟨hr, hs⟩ := hreq'
    subst hr hs
    rw [ite_apply, if_neg hok, ite_apply] at h1
    split at h1
    · simp [exit_with_apply] at h1
    · rename_i hge
      obtain ⟨a, s2, _, h2⟩ := bind_eq_ok.mp h1
      rw [ite_apply] at h2
      split at h2
      · simp [exit_with_apply] at h2
      · obtain ⟨bufs', s3, hl, h3⟩ := bind_eq_ok.mp h2
        simp only [pure_apply, Result.ok.injEq, Prod.mk.injEq] at h3
        obtain ⟨⟨hb, hn⟩, -⟩ := h3
        subst hb hn
        have := init_mmap_loop_length hl
        simp only [List.length_replicate] at this
        exact ⟨rfl, by omega, this⟩

theorem init_mmap_mp_ok {type : v4l2_buf_type} {s : State} {r : Resp} {s1 : State}
    (hreq : xioctl (Call.VIDIOC_REQBUFS
      { count := 4, type := type, memory := v4l2_memory.V4L2_MEMORY_MMAP }) s = Result.ok r s1)
    (hok : r.ret ≠ -1) :
    (r.count % 2 ^ 32 < 2 → (init_mmap_mp type s).halted = some Halt.exit) ∧
    ∀ bufs n, (init_mmap_mp type s).value = some (bufs, n) →
      n = r.count % 2 ^ 32 ∧ 2 ≤ n ∧ bufs.length = n := by
  constructor
  · intro hlt
    have hlt' : r.count % 4294967296 < 2 := hlt
    simp [init_mmap_mp, bind_apply, hreq, ite_apply, hok, hlt', exit_with_apply, Result.halted]
  · intro bufs n h
    obtain ⟨s', h⟩ := value_eq_some.mp h
    unfold init_mmap_mp at h
    obtain ⟨r', s1', hreq', h1⟩ := bind_eq_ok.mp h
    rw [hreq] at hreq'
    simp only [Result.ok.injEq] at hreq'
    obtain ⟨hr, hs⟩ := hreq'
    subst hr hs
    rw [ite_apply, if_neg hok, ite_apply] at h1
    split at h1
    · simp [exit_with_apply] at h1
    · rename_i hge
      obtain ⟨a, s2, _, h2⟩ := bind_eq_ok.mp h1
      rw [ite_apply] at h2
      split at h2
      · simp [exit_with_apply] at h2
      · obtain ⟨bufs', s3, hl, h3⟩ := bind_eq_ok.mp h2
        simp only [pure_apply, Result.ok.injEq, Prod.mk.injEq] at h3
        obtain ⟨⟨hb, hn⟩, -⟩ := h3
        subst hb hn
        have := init_mmap_mp_loop_length hl
        simp only [List.length_replicate] at this
        exact ⟨rfl, by omega, this⟩
theorem userptr_scan_ok {bufs : List buffer} {userptr length k i : Nat} {s : State} {j : Nat}
    {s' : State} (h : userptr_scan bufs userptr length k i s = Result.ok j s') : s' = s := by
  induction k generalizing i with
  | zero =>
    simp only [userptr_scan, pure_apply, Result.ok.injEq] at h
    exact h.2.symm
  | succ k ih =>
    unfold userptr_scan at h
    obtain ⟨b, s1, hb, h1⟩ := bind_eq_ok.mp h
    obtain ⟨-, hs1⟩ := at_index_ok hb
    subst hs1
    rw [ite_apply] at h1
    split at h1
    · simp only [pure_apply, Result.ok.injEq] at h1
      exact h1.2.symm
    · exact ih h1

theorem read_frame_userptr_ok {type : v4l2_buf_type} {bufs : List buffer} {n : Nat}
    {s : State} {x : Int} {s' : State} (hio : s.io = io_method.IO_METHOD_USERPTR)
    (h : read_frame type bufs n s = Result.ok x s') (hx : x ≠ 0) :
    ∃ pre1 r pre2 r2,
      (∀ e ∈ pre1, Ev.interrupted e = true) ∧ (∀ e ∈ pre2, Ev.interrupted e = true) ∧
      r.ret ≠ -1 ∧ r2.ret ≠ -1 ∧ x = 1 ∧
      s'.trace = s.trace ++ pre1 ++
        [Ev.sys (Call.VIDIOC_DQBUF { type := v4l2_buf_type.V4L2_BUF_TYPE_VIDEO_CAPTURE,
                                     memory := v4l2_memory.V4L2_MEMORY_USERPTR }) r]
        ++ [Ev.process_image r.userptr r.bytesused] ++ pre2 ++
        [Ev.sys (Call.VIDIOC_QBUF
          { type := v4l2_buf_type.V4L2_BUF_TYPE_VIDEO_CAPTURE,
            memory := v4l2_memory.V4L2_MEMORY_USERPTR, index := r.index,
            bytesused := r.bytesused, length := r.length, offset := r.offset,
            userptr := r.userptr, planes := r.planes }) r2] := by
  unfold read_frame at h
  obtain ⟨s0, s0', h0, h1⟩ := bind_eq_ok.mp h
  simp only [getState_apply, Result.ok.injEq] at h0
  obtain ⟨rfl, rfl⟩ := h0
  simp only [hio] at h1
  obtain ⟨r, s1, hdq, h2⟩ := bind_eq_ok.mp h1
  obtain ⟨pre1, hpre1, -, hv1, ht1⟩ := xioctl_ok hdq rfl
  rw [ite_apply] at h2
  split at h2
  · exact absurd (dequeue_failed_ok h2).1 hx
  · rename_i hret
    obtain ⟨i, s1', hscan, h3⟩ := bind_eq_ok.mp h2
    have hs1 := userptr_scan_ok hscan
    subst hs1
    rw [ite_apply] at h3
    split at h3
    · obtain ⟨u, s2, hpi, h4⟩ := bind_eq_ok.mp h3
      simp only [process_image, emit_apply, Result.ok.injEq, true_and] at hpi
      obtain ⟨r2, s3, hq, h5⟩ := bind_eq_ok.mp h4
      obtain ⟨pre2, hpre2, -, hv2, ht2⟩ := xioctl_ok hq rfl
      rw [ite_apply] at h5
      split at h5
      · simp [errno_exit_apply] at h5
      · rename_i hret2
        simp only [pure_apply, Result.ok.injEq] at h5
        obtain ⟨hx1, hs3⟩ := h5
        subst hx1 hs3 hpi
        refine ⟨pre1, r, pre2, r2, hpre1, hpre2, hret, hret2, rfl, ?_⟩
        rw [ht2]
        simp [ht1, v4l2_buffer.dequeued]
    · simp [halt_apply] at h3

theorem not_interrupted_of_ret {r : Resp} (h : r.ret ≠ -1) : r.interrupted = false := by
  simp [Resp.interrupted, h]

theorem actions_sys {c : Call} {r : Resp} (h : r.ret ≠ -1) :
    actions [Ev.sys c r] = [Ev.sys c r] := by
  simp [actions, Ev.interrupted, not_interrupted_of_ret h, Ev.low, Ev.is_log]

theorem calls_append (a b : List Ev) : calls (a ++ b) = calls a ++ calls b := by
  simp [calls]

theorem calls_interrupted {pre : List Ev} (h : ∀ e ∈ pre, Ev.interrupted e = true) :
    calls pre = [] := by
  simp only [calls, List.filterMap_eq_nil_iff]
  intro e he
  have := h e he
  cases e with
  | sys c r => simp [Ev.call?, this]
  | _ => rfl

theorem calls_sys {c : Call} {r : Resp} (h : (Ev.sys c r).interrupted = false) :
    calls [Ev.sys c r] = [c] := by
  simp [calls, Ev.call?, h]

theorem calls_emit_log (t : List Ev) (m : Msg) : calls (t ++ [Ev.log m]) = calls t := by
  simp [calls, Ev.call?]

theorem interrupted_of_ret {c : Call} {r : Resp} (h : r.ret ≠ -1) :
    (Ev.sys c r).interrupted = false := by
  simp [Ev.interrupted, Resp.interrupted, h]

theorem sys_ok {c : Call} {s : State} {r : Resp} {s' : State} (h : sys c s = Result.ok r s') :
    s'.vars = s.vars ∧ s'.trace = s.trace ++ [Ev.sys c r] := by
  obtain ⟨rest, -, hs⟩ := sys_eq_ok.mp h
  subst hs
  exact ⟨rfl, rfl⟩

theorem xioctl_calls {c : Call} {s : State} {r : Resp} {s' : State}
    (h : xioctl c s = Result.ok r s') (hc : c.returns_pointer = false) :
    s'.vars = s.vars ∧ calls s'.trace = calls s.trace ++ [c] := by
  obtain ⟨pre, hpre, hr, hv, ht⟩ := xioctl_ok h hc
  refine ⟨hv, ?_⟩
  rw [ht, calls_append, calls_append, calls_interrupted hpre, calls_sys]
  · simp
  · simp [Ev.interrupted, hr]

/-- What a call checked with `if (-1 == ...) errno_exit(...)` leaves when the run
goes on. -/
theorem checked_xioctl_calls {c : Call} {s s' : State}
    (h : (do
      let r ← xioctl c
      if r.ret = -1 then errno_exit else pure ()) s = Result.ok () s')
    (hc : c.returns_pointer = false) :
    s'.vars = s.vars ∧ calls s'.trace = calls s.trace ++ [c] := by
  obtain ⟨r, s1, hx, h1⟩ := bind_eq_ok.mp h
  rw [ite_apply] at h1
  split at h1
  · simp [errno_exit_apply] at h1
  · simp only [pure_apply, Result.ok.injEq, true_and] at h1
    subst h1
    exact xioctl_calls hx hc

theorem checked_munmap_calls {a l : Nat} {s s' : State}
    (h : (do
      let r ← sys (Call.munmap a l)
      if r.ret = -1 then errno_exit else pure ()) s = Result.ok () s') :
    s'.vars = s.vars ∧ calls s'.trace = calls s.trace ++ [Call.munmap a l] := by
  obtain ⟨r, s1, hx, h1⟩ := bind_eq_ok.mp h
  rw [ite_apply] at h1
  split at h1
  · simp [errno_exit_apply] at h1
  · rename_i hret
    simp only [pure_apply, Result.ok.injEq, true_and] at h1
    subst h1
    obtain ⟨hv, ht⟩ := sys_ok hx
    exact ⟨hv, by rw [ht, calls_append, calls_sys (interrupted_of_ret hret)]⟩

theorem for_loop_calls {body : Nat → M Unit} {g : Nat → List Call}
    (hbody : ∀ i s s', body i s = Result.ok () s' →
      s'.vars = s.vars ∧ calls s'.trace = calls s.trace ++ g i)
    {k i : Nat} {s s' : State} (h : for_loop k i body s = Result.ok () s') :
    s'.vars = s.vars ∧ calls s'.trace = calls s.trace ++ (List.range' i k).flatMap g := by
  induction k generalizing i s with
  | zero =>
    simp only [for_loop, pure_apply, Result.ok.injEq, true_and] at h
    subst h
    simp
  | succ k ih =>
    unfold for_loop at h
    obtain ⟨u, s1, hb, h1⟩ := bind_eq_ok.mp h
    obtain ⟨hv1, hc1⟩ := hbody i s s1 hb
    obtain ⟨hv2, hc2⟩ := ih h1
    refine ⟨hv2.trans hv1, ?_⟩
    rw [hc2, hc1, List.range'_succ]
    simp

theorem unmap_loop_calls {buf : List buffer} {k i : Nat} {s s' : State}
    (h : for_loop k i (fun b => do
      let e ← at_index buf b
      let r ← sys (Call.munmap e.start e.length)
      if r.ret = -1 then errno_exit else pure ()) s = Result.ok () s') :
    s'.vars = s.vars ∧
      calls s'.trace = calls s.trace ++
        ((buf.drop i).take k).map (fun e => Call.munmap e.start e.length) := by
  induction k generalizing i s with
  | zero =>
    simp only [for_loop, pure_apply, Result.ok.injEq, true_and] at h
    subst h
    simp
  | succ k ih =>
    unfold for_loop at h
    obtain ⟨u, s1, hb, h1⟩ := bind_eq_ok.mp h
    obtain ⟨e, s0, he, hb1⟩ := bind_eq_ok.mp hb
    obtain ⟨hget, hs0⟩ := at_index_ok he
    subst hs0
    obtain ⟨hv1, hc1⟩ := checked_munmap_calls hb1
    obtain ⟨hv2, hc2⟩ := ih h1
    refine ⟨hv2.trans hv1, ?_⟩
    have hlt : i < buf.length := by
      by_contra hge
      rw [List.getElem?_eq_none (by omega)] at hget
      cases hget
    have hdrop : buf.drop i = e :: buf.drop (i + 1) := by
      rw [List.drop_eq_getElem_cons hlt]
      rw [List.getElem?_eq_getElem hlt] at hget
      simp only [Option.some.injEq] at hget
      rw [hget]
    rw [hc2, hc1, hdrop]
    simp

theorem unmap_buffers_calls {buf : List buffer} {n : Nat} {s s' : State}
    (h : unmap_buffers buf n s = Result.ok () s') :
    s'.vars = s.vars ∧
      calls s'.trace = calls s.trace ++
        (buf.take n).map (fun e => Call.munmap e.start e.length) := by
  have := @unmap_loop_calls buf n 0 s s' h
  simpa using this
theorem flatMap_singleton_map {α β : Type} (l : List α) (f : α → β) :
    l.flatMap (fun a => [f a]) = l.map f := by
  induction l with
  | nil => rfl
  | cons a l ih => simp [List.flatMap_cons, ih]

theorem unmap_planes_calls {e : buffer_mp} {s s' : State}
    (h : for_range FMT_NUM_PLANES (fun p => do
      let r ← sys (Call.munmap (e.start.getD p 0) (e.length.getD p 0))
      if r.ret = -1 then errno_exit else pure ()) s = Result.ok () s') :
    s'.vars = s.vars ∧
      calls s'.trace = calls s.trace ++
        (List.range FMT_NUM_PLANES).map (fun p =>
          Call.munmap (e.start.getD p 0) (e.length.getD p 0)) := by
  have := for_loop_calls (g := fun p => [Call.munmap (e.start.getD p 0) (e.length.getD p 0)])
    (fun p s s' hb => checked_munmap_calls hb) h
  rw [flatMap_singleton_map, ← List.range_eq_range'] at this
  exact this

theorem unmap_mp_loop_calls {buf : List buffer_mp} {k i : Nat} {s s' : State}
    (h : for_loop k i (fun b => do
      let e ← at_index buf b
      for_range FMT_NUM_PLANES (fun p => do
        let r ← sys (Call.munmap (e.start.getD p 0) (e.length.getD p 0))
        if r.ret = -1 then errno_exit else pure ())) s = Result.ok () s') :
    s'.vars = s.vars ∧
      calls s'.trace = calls s.trace ++
        ((buf.drop i).take k).flatMap (fun e =>
          (List.range FMT_NUM_PLANES).map (fun p =>
            Call.munmap (e.start.getD p 0) (e.length.getD p 0))) := by
  induction k generalizing i s with
  | zero =>
    simp only [for_loop, pure_apply, Result.ok.injEq, true_and] at h
    subst h
    simp
  | succ k ih =>
    unfold for_loop at h
    obtain ⟨u, s1, hb, h1⟩ := bind_eq_ok.mp h
    obtain ⟨e, s0, he, hb1⟩ := bind_eq_ok.mp hb
    obtain ⟨hget, hs0⟩ := at_index_ok he
    subst hs0
    obtain ⟨hv1, hc1⟩ := unmap_planes_calls hb1
    obtain ⟨hv2, hc2⟩ := ih h1
    refine ⟨hv2.trans hv1, ?_⟩
    have hlt : i < buf.length := by
      by_contra hge
      rw [List.getElem?_eq_none (by omega)] at hget
      cases hget
    have hdrop : buf.drop i = e :: buf.drop (i + 1) := by
      rw [List.drop_eq_getElem_cons hlt]
      rw [List.getElem?_eq_getElem hlt] at hget
      simp only [Option.some.injEq] at hget
      rw [hget]
    rw [hc2, hc1, hdrop]
    simp

theorem unmap_buffers_mp_calls {buf : List buffer_mp} {n : Nat} {s s' : State}
    (h : unmap_buffers_mp buf n s = Result.ok () s') :
    s'.vars = s.vars ∧
      calls s'.trace = calls s.trace ++
        (buf.take n).flatMap (fun e =>
          (List.range FMT_NUM_PLANES).map (fun p =>
            Call.munmap (e.start.getD p 0) (e.length.getD p 0))) := by
  have := @unmap_mp_loop_calls buf n 0 s s' h
  simpa using this

theorem free_buffers_mmap_calls {type : v4l2_buf_type} {s s' : State}
    (h : free_buffers_mmap type s = Result.ok () s') :
    s'.vars = s.vars ∧
      calls s'.trace = calls s.trace ++
        [Call.VIDIOC_REQBUFS
          { count := 0, type := type, memory := v4l2_memory.V4L2_MEMORY_MMAP }] := by
  unfold free_buffers_mmap at h
  obtain ⟨r, s1, hx, h1⟩ := bind_eq_ok.mp h
  rw [ite_apply] at h1
  split at h1
  · rw [ite_apply] at h1
    split at h1 <;> simp [exit_with_apply, errno_exit_apply] at h1
  · simp only [pure_apply, Result.ok.injEq, true_and] at h1
    subst h1
    exact xioctl_calls hx rfl

theorem stop_capture_capture_calls {s s' : State}
    (h : stop_capture v4l2_buf_type.V4L2_BUF_TYPE_VIDEO_CAPTURE s = Result.ok () s') :
    s'.vars = s.vars ∧
      calls s'.trace = calls s.trace ++ [Call.VIDIOC_STREAMOFF (capture_type s)] := by
  unfold stop_capture at h
  rw [bind_apply, stream_type_capture] at h
  exact checked_xioctl_calls h rfl

theorem range'_flatMap_congr {β : Type} {f g : Nat → List β} {b k : Nat}
    (h : ∀ i, b ≤ i → f i = g i) : (List.range' b k).flatMap f = (List.range' b k).flatMap g := by
  apply List.flatMap_congr
  intro i hi
  obtain ⟨j, -, rfl⟩ := List.mem_range'.mp hi
  exact h _ (by omega)

theorem init_mmap_loop_calls {type : v4l2_buf_type} {k b : Nat} {bufs : List buffer}
    {s : State} {bufs' : List buffer} {s' : State}
    (h : init_mmap_loop type k b bufs s = Result.ok bufs' s') :
    s'.vars = s.vars ∧ ∃ q : Nat → Resp,
      calls s'.trace = calls s.trace ++
        (List.range' b k).flatMap (fun i =>
          [Call.VIDIOC_QUERYBUF
             { type := type, memory := v4l2_memory.V4L2_MEMORY_MMAP, index := i },
           Call.mmap (q i).length (q i).offset]) := by
  induction k generalizing b bufs s with
  | zero =>
    simp only [init_mmap_loop, pure_apply, Result.ok.injEq] at h
    obtain ⟨-, hs⟩ := h
    subst hs
    exact ⟨rfl, fun _ => {}, by simp⟩
  | succ k ih =>
    unfold init_mmap_loop at h
    obtain ⟨r, s1, hx, h1⟩ := bind_eq_ok.mp h
    obtain ⟨hv1, hc1⟩ := xioctl_calls hx rfl
    rw [ite_apply] at h1
    split at h1
    · simp [errno_exit_apply] at h1
    · obtain ⟨m, s2, hm, h2⟩ := bind_eq_ok.mp h1
      obtain ⟨hv2, ht2⟩ := sys_ok hm
      rw [ite_apply] at h2
      split at h2
      · simp [errno_exit_apply] at h2
      · obtain ⟨hv3, q, hc3⟩ := ih h2
        refine ⟨(hv3.trans hv2).trans hv1, fun i => if i = b then r else q i, ?_⟩
        rw [hc3, ht2, calls_append, hc1, calls_sys (by rfl), List.range'_succ,
          List.flatMap_cons]
        have hcongr := range'_flatMap_congr (b := b + 1) (k := k)
          (f := fun i => [Call.VIDIOC_QUERYBUF
             { type := type, memory := v4l2_memory.V4L2_MEMORY_MMAP, index := i },
           Call.mmap ((fun i => if i = b then r else q i) i).length
             ((fun i => if i = b then r else q i) i).offset])
          (g := fun i => [Call.VIDIOC_QUERYBUF
             { type := type, memory := v4l2_memory.V4L2_MEMORY_MMAP, index := i },
           Call.mmap (q i).length (q i).offset])
          (fun i hi => by
            have : i ≠ b := by omega
            simp [this])
        rw [hcongr]
        simp
theorem init_mmap_mp_planes_calls {planes : List v4l2_plane} {k p : Nat} {e : buffer_mp}
    {s : State} {e' : buffer_mp} {s' : State}
    (h : init_mmap_mp_planes planes k p e s = Result.ok e' s') :
    s'.vars = s.vars ∧
      calls s'.trace = calls s.trace ++
        (List.range' p k).map (fun p =>
          Call.mmap (planes.getD p {}).length (planes.getD p {}).mem_offset) := by
  induction k generalizing p e s with
  | zero =>
    simp only [init_mmap_mp_planes, pure_apply, Result.ok.injEq] at h
    obtain ⟨-, hs⟩ := h
    subst hs
    simp
  | succ k ih =>
    unfold init_mmap_mp_planes at h
    obtain ⟨m, s1, hm, h1⟩ := bind_eq_ok.mp h
    obtain ⟨hv1, ht1⟩ := sys_ok hm
    rw [ite_apply] at h1
    split at h1
    · simp [errno_exit_apply] at h1
    · obtain ⟨hv2, hc2⟩ := ih h1
      refine ⟨hv2.trans hv1, ?_⟩
      rw [hc2, ht1, calls_append, calls_sys (by rfl), List.range'_succ]
      simp

theorem init_mmap_mp_loop_calls {type : v4l2_buf_type} {k b : Nat} {bufs : List buffer_mp}
    {s : State} {bufs' : List buffer_mp} {s' : State}
    (h : init_mmap_mp_loop type k b bufs s = Result.ok bufs' s') :
    s'.vars = s.vars ∧ ∃ q : Nat → Resp,
      calls s'.trace = calls s.trace ++
        (List.range' b k).flatMap (fun i =>
          Call.VIDIOC_QUERYBUF
             { type := type, memory := v4l2_memory.V4L2_MEMORY_MMAP, index := i,
               length := FMT_NUM_PLANES, planes := List.replicate FMT_NUM_PLANES {} } ::
           (List.range FMT_NUM_PLANES).map (fun p =>
             Call.mmap ((q i).planes.getD p {}).length
               ((q i).planes.getD p {}).mem_offset)) := by
  induction k generalizing b bufs s with
  | zero =>
    simp only [init_mmap_mp_loop, pure_apply, Result.ok.injEq] at h
    obtain ⟨-, hs⟩ := h
    subst hs
    exact ⟨rfl, fun _ => {}, by simp⟩
  | succ k ih =>
    unfold init_mmap_mp_loop at h
    obtain ⟨r, s1, hx, h1⟩ := bind_eq_ok.mp h
    obtain ⟨hv1, hc1⟩ := xioctl_calls hx rfl
    rw [ite_apply] at h1
    split at h1
    · simp [errno_exit_apply] at h1
    · obtain ⟨e, s2, hm, h2⟩ := bind_eq_ok.mp h1
      obtain ⟨hv2, hc2⟩ := init_mmap_mp_planes_calls hm
      obtain ⟨hv3, q, hc3⟩ := ih h2
      refine ⟨(hv3.trans hv2).trans hv1, fun i => if i = b then r else q i, ?_⟩
      rw [hc3, hc2, hc1, List.range'_succ, List.flatMap_cons, ← List.range_eq_range']
      have hcongr := range'_flatMap_congr (b := b + 1) (k := k)
        (f := fun i => Call.VIDIOC_QUERYBUF
             { type := type, memory := v4l2_memory.V4L2_MEMORY_MMAP, index := i,
               length := FMT_NUM_PLANES, planes := List.replicate FMT_NUM_PLANES {} } ::
           (List.range FMT_NUM_PLANES).map (fun p =>
             Call.mmap (((fun i => if i = b then r else q i) i).planes.getD p {}).length
               (((fun i => if i = b then r else q i) i).planes.getD p {}).mem_offset))
        (g := fun i => Call.VIDIOC_QUERYBUF
             { type := type, memory := v4l2_memory.V4L2_MEMORY_MMAP, index := i,
               length := FMT_NUM_PLANES, planes := List.replicate FMT_NUM_PLANES {} } ::
           (List.range FMT_NUM_PLANES).map (fun p =>
             Call.mmap ((q i).planes.getD p {}).length
               ((q i).planes.getD p {}).mem_offset))
        (fun i hi => by
          have : i ≠ b := by omega
          simp [this])
      rw [hcongr]
      simp

theorem init_mmap_calls {type : v4l2_buf_type} {s : State} {bufs : List buffer} {n : Nat}
    {s' : State} (h : init_mmap type s = Result.ok (bufs, n) s') :
    s'.vars = s.vars ∧ 2 ≤ n ∧ bufs.length = n ∧ ∃ q : Nat → Resp,
      calls s'.trace = calls s.trace ++
        [Call.VIDIOC_REQBUFS
           { count := 4, type := type, memory := v4l2_memory.V4L2_MEMORY_MMAP },
         Call.calloc n] ++
        (List.range n).flatMap (fun i =>
          [Call.VIDIOC_QUERYBUF
             { type := type, memory := v4l2_memory.V4L2_MEMORY_MMAP, index := i },
           Call.mmap (q i).length (q i).offset]) := by
  unfold init_mmap at h
  obtain ⟨r, s1, hx, h1⟩ := bind_eq_ok.mp h
  obtain ⟨hv1, hc1⟩ := xioctl_calls hx rfl
  rw [ite_apply] at h1
  split at h1
  · rw [ite_apply] at h1
    split at h1 <;> simp [exit_with_apply, errno_exit_apply] at h1
  · rw [ite_apply] at h1
    split at h1
    · simp [exit_with_apply] at h1
    · rename_i hge
      obtain ⟨a, s2, ha, h2⟩ := bind_eq_ok.mp h1
      obtain ⟨hv2, ht2⟩ := sys_ok ha
      rw [ite_apply] at h2
      split at h2
      · simp [exit_with_apply] at h2
      · obtain ⟨bufs', s3, hl, h3⟩ := bind_eq_ok.mp h2
        simp only [pure_apply, Result.ok.injEq, Prod.mk.injEq] at h3
        obtain ⟨⟨hb, hn⟩, hs3⟩ := h3
        subst hb hn hs3
        have hlen := init_mmap_loop_length hl
        simp only [List.length_replicate] at hlen
        obtain ⟨hv3, q, hc3⟩ := init_mmap_loop_calls hl
        refine ⟨(hv3.trans hv2).trans hv1, by omega, hlen, q, ?_⟩
        rw [hc3, ht2, calls_append, hc1, calls_sys (by rfl), List.range_eq_range']
        simp

theorem init_mmap_mp_calls {type : v4l2_buf_type} {s : State} {bufs : List buffer_mp}
    {n : Nat} {s' : State} (h : init_mmap_mp type s = Result.ok (bufs, n) s') :
    s'.vars = s.vars ∧ 2 ≤ n ∧ bufs.length = n ∧ ∃ q : Nat → Resp,
      calls s'.trace = calls s.trace ++
        [Call.VIDIOC_REQBUFS
           { count := 4, type := type, memory := v4l2_memory.V4L2_MEMORY_MMAP },
         Call.calloc n] ++
        (List.range n).flatMap (fun i =>
          Call.VIDIOC_QUERYBUF
             { type := type, memory := v4l2_memory.V4L2_MEMORY_MMAP, index := i,
               length := FMT_NUM_PLANES, planes := List.replicate FMT_NUM_PLANES {} } ::
           (List.range FMT_NUM_PLANES).map (fun p =>
             Call.mmap ((q i).planes.getD p {}).length
               ((q i).planes.getD p {}).mem_offset)) := by
  unfold init_mmap_mp at h
  obtain ⟨r, s1, hx, h1⟩ := bind_eq_ok.mp h
  obtain ⟨hv1, hc1⟩ := xioctl_calls hx rfl
  rw [ite_apply] at h1
  split at h1
  · rw [ite_apply] at h1
    split at h1 <;> simp [exit_with_apply, errno_exit_apply] at h1
  · rw [ite_apply] at h1
    split at h1
    · simp [exit_with_apply] at h1
    · rename_i hge
      obtain ⟨a, s2, ha, h2⟩ := bind_eq_ok.mp h1
      obtain ⟨hv2, ht2⟩ := sys_ok ha
      rw [ite_apply] at h2
      split at h2
      · simp [exit_with_apply] at h2
      · obtain ⟨bufs', s3, hl, h3⟩ := bind_eq_ok.mp h2
        simp only [pure_apply, Result.ok.injEq, Prod.mk.injEq] at h3
        obtain ⟨⟨hb, hn⟩, hs3⟩ := h3
        subst hb hn hs3
        have hlen := init_mmap_mp_loop_length hl
        simp only [List.length_replicate] at hlen
        obtain ⟨hv3, q, hc3⟩ := init_mmap_mp_loop_calls hl
        refine ⟨(hv3.trans hv2).trans hv1, by omega, hlen, q, ?_⟩
        rw [hc3, ht2, calls_append, hc1, calls_sys (by rfl)]
        simp [List.range_eq_range']

theorem start_capturing_mmap_capture_calls {bufs : List buffer} {n : Nat} {s s' : State}
    (h : start_capturing_mmap v4l2_buf_type.V4L2_BUF_TYPE_VIDEO_CAPTURE bufs n s =
      Result.ok () s') :
    s'.vars = s.vars ∧
      calls s'.trace = calls s.trace ++
        (List.range n).map (fun i => Call.VIDIOC_QBUF
          { type := v4l2_buf_type.V4L2_BUF_TYPE_VIDEO_CAPTURE,
            memory := v4l2_memory.V4L2_MEMORY_MMAP, index := i }) ++
        [Call.VIDIOC_STREAMON v4l2_buf_type.V4L2_BUF_TYPE_VIDEO_CAPTURE] := by
  unfold start_capturing_mmap at h
  obtain ⟨u, s1, hl, h1⟩ := bind_eq_ok.mp h
  obtain ⟨hv2, hc2⟩ := checked_xioctl_calls h1 rfl
  have hl' := for_loop_calls (g := fun i => [Call.VIDIOC_QBUF
      { type := v4l2_buf_type.V4L2_BUF_TYPE_VIDEO_CAPTURE,
        memory := v4l2_memory.V4L2_MEMORY_MMAP, index := i }]) (by
    intro i sa sb hb
    rw [if_neg (by decide)] at hb
    obtain ⟨bu, sc, hpure, hb1⟩ := bind_eq_ok.mp hb
    simp only [pure_apply, Result.ok.injEq] at hpure
    obtain ⟨hbu, hsc⟩ := hpure
    subst hbu hsc
    exact checked_xioctl_calls hb1 rfl) hl
  obtain ⟨hv1, hc1⟩ := hl'
  refine ⟨hv2.trans hv1, ?_⟩
  rw [hc2, hc1, flatMap_singleton_map, ← List.range_eq_range']

theorem start_capturing_mmap_mp_capture_calls {bufs : List buffer_mp} {n : Nat}
    {s s' : State}
    (h : start_capturing_mmap_mp v4l2_buf_type.V4L2_BUF_TYPE_VIDEO_CAPTURE_MPLANE bufs n s =
      Result.ok () s') :
    s'.vars = s.vars ∧
      calls s'.trace = calls s.trace ++
        (List.range n).map (fun i => Call.VIDIOC_QBUF
          { type := v4l2_buf_type.V4L2_BUF_TYPE_VIDEO_CAPTURE_MPLANE,
            memory := v4l2_memory.V4L2_MEMORY_MMAP, index := i,
            length := FMT_NUM_PLANES, planes := List.replicate FMT_NUM_PLANES {} }) ++
        [Call.VIDIOC_STREAMON v4l2_buf_type.V4L2_BUF_TYPE_VIDEO_CAPTURE_MPLANE] := by
  unfold start_capturing_mmap_mp at h
  obtain ⟨u, s1, hl, h1⟩ := bind_eq_ok.mp h
  obtain ⟨hv2, hc2⟩ := checked_xioctl_calls h1 rfl
  have hl' := for_loop_calls (g := fun i => [Call.VIDIOC_QBUF
      { type := v4l2_buf_type.V4L2_BUF_TYPE_VIDEO_CAPTURE_MPLANE,
        memory := v4l2_memory.V4L2_MEMORY_MMAP, index := i,
        length := FMT_NUM_PLANES, planes := List.replicate FMT_NUM_PLANES {} }]) (by
    intro i sa sb hb
    rw [if_neg (by decide)] at hb
    obtain ⟨bu, sc, hpure, hb1⟩ := bind_eq_ok.mp hb
    simp only [pure_apply, Result.ok.injEq] at hpure
    obtain ⟨hbu, hsc⟩ := hpure
    subst hbu hsc
    exact checked_xioctl_calls hb1 rfl) hl
  obtain ⟨hv1, hc1⟩ := hl'
  refine ⟨hv2.trans hv1, ?_⟩
  rw [hc2, hc1, flatMap_singleton_map, ← List.range_eq_range']
theorem isOk_eq_ok {res : Result Unit} (h : res.isOk = true) : res = Result.ok () res.state := by
  cases res with
  | ok u s => rfl
  | halt e s => simp [Result.isOk] at h

theorem handle_source_change_calls {s s' : State}
    (h : handle_source_change s = Result.ok () s') :
    ∃ (n : Nat) (q : Nat → Resp),
      calls s'.trace = calls s.trace ++ reconfigure_calls s n q ∧
      s'.n_buffers = n ∧ 2 ≤ n ∧
      (if s.multi_planar then s'.buffers_mp.length = n else s'.buffers.length = n) := by
  unfold handle_source_change at h
  obtain ⟨u1, s1, he1, h1⟩ := bind_eq_ok.mp h
  simp only [emit_apply, Result.ok.injEq, true_and] at he1
  obtain ⟨u2, s2, hstop, h2⟩ := bind_eq_ok.mp h1
  obtain ⟨hv2, hc2⟩ := stop_capture_capture_calls hstop
  obtain ⟨sg, s2', hg, h3⟩ := bind_eq_ok.mp h2
  simp only [getState_apply, Result.ok.injEq] at hg
  obtain ⟨hsg, hs2'⟩ := hg
  subst hsg hs2'
  have hv1 : s1.vars = s.vars := by subst he1; rfl
  have hc1 : calls s1.trace = calls s.trace := by subst he1; exact calls_emit_log _ _
  have hmp : s2.multi_planar = s.multi_planar := by
    rw [(vars_eq hv2).2.2.2.2.2.2.2.2.1, (vars_eq hv1).2.2.2.2.2.2.2.2.1]
  have hct : capture_type s1 = capture_type s := by
    simp [capture_type, (vars_eq hv1).2.2.2.2.2.2.2.2.1]
  have hbufs : s2.buffers = s.buffers := by
    rw [(vars_eq hv2).2.1, (vars_eq hv1).2.1]
  have hbufs_mp : s2.buffers_mp = s.buffers_mp := by
    rw [(vars_eq hv2).2.2.2.1, (vars_eq hv1).2.2.2.1]
  have hnb : s2.n_buffers = s.n_buffers := by
    rw [(vars_eq hv2).2.2.2.2.2.1, (vars_eq hv1).2.2.2.2.2.1]
  rw [ite_apply] at h3
  cases hm : s.multi_planar with
  | true =>
    rw [hmp, hm] at h3
    simp only [if_true] at h3
    obtain ⟨u3, s3, hun, h4⟩ := bind_eq_ok.mp h3
    obtain ⟨hv3, hc3⟩ := unmap_buffers_mp_calls hun
    obtain ⟨u4, s4, he4, h5⟩ := bind_eq_ok.mp h4
    simp only [emit_apply, Result.ok.injEq, true_and] at he4
    have hc4 : calls s4.trace = calls s3.trace := by subst he4; exact calls_emit_log _ _
    obtain ⟨u5, s5, hfree, h6⟩ := bind_eq_ok.mp h5
    obtain ⟨hv5, hc5⟩ := free_buffers_mmap_calls hfree
    obtain ⟨x, s6, hinit, h7⟩ := bind_eq_ok.mp h6
    obtain ⟨bufs, n⟩ := x
    obtain ⟨hv6, hn2, hlen, q, hc6⟩ := init_mmap_mp_calls hinit
    obtain ⟨u7, s7, hmod, h8⟩ := bind_eq_ok.mp h7
    simp only [modify_apply, Result.ok.injEq, true_and] at hmod
    obtain ⟨hv8, hc8⟩ := start_capturing_mmap_mp_capture_calls h8
    refine ⟨n, q, ?_, ?_, hn2, ?_⟩
    · rw [hc8]
      subst hmod
      simp only [hc6, hc5, hc4, hc3, hc2, hc1, hct, hbufs_mp, hnb]
      simp [reconfigure_calls, release_calls, capture_type, hm, mmap_buffer, map_calls]
    · rw [(vars_eq hv8).2.2.2.2.2.1]
      subst hmod
      rfl
    · simp only [if_true]
      rw [(vars_eq hv8).2.2.2.1]
      subst hmod
      exact hlen
  | false =>
    rw [hmp, hm] at h3
    simp only [Bool.false_eq_true, if_false] at h3
    obtain ⟨u3, s3, hun, h4⟩ := bind_eq_ok.mp h3
    obtain ⟨hv3, hc3⟩ := unmap_buffers_calls hun
    obtain ⟨u4, s4, he4, h5⟩ := bind_eq_ok.mp h4
    simp only [emit_apply, Result.ok.injEq, true_and] at he4
    have hc4 : calls s4.trace = calls s3.trace := by subst he4; exact calls_emit_log _ _
    obtain ⟨u5, s5, hfree, h6⟩ := bind_eq_ok.mp h5
    obtain ⟨hv5, hc5⟩ := free_buffers_mmap_calls hfree
    obtain ⟨x, s6, hinit, h7⟩ := bind_eq_ok.mp h6
    obtain ⟨bufs, n⟩ := x
    obtain ⟨hv6, hn2, hlen, q, hc6⟩ := init_mmap_calls hinit
    obtain ⟨u7, s7, hmod, h8⟩ := bind_eq_ok.mp h7
    simp only [modify_apply, Result.ok.injEq, true_and] at hmod
    obtain ⟨hv8, hc8⟩ := start_capturing_mmap_capture_calls h8
    refine ⟨n, q, ?_, ?_, hn2, ?_⟩
    · rw [hc8]
      subst hmod
      simp only [hc6, hc5, hc4, hc3, hc2, hc1, hct, hbufs, hnb]
      simp [reconfigure_calls, release_calls, capture_type, hm, mmap_buffer, map_calls]
    · rw [(vars_eq hv8).2.2.2.2.2.1]
      subst hmod
      rfl
    · simp only [Bool.false_eq_true, if_false]
      rw [(vars_eq hv8).2.1]
      subst hmod
      exact hlen
theorem mainloop_body_eq :
    mainloop_body = (do
      let r ← sys (Call.select true true true 10 0)
      if r.ret = -1 then
        if r.errno = Errno.EINTR then pure false else errno_exit
      else if r.ret = 0 then exit_with Msg.select_timeout
      else capture_part r) := rfl
theorem highlights_append (a b : List Ev) : highlights (a ++ b) = highlights a ++ highlights b := by
  simp [highlights]

theorem highlights_low {t : List Ev} (h : ∀ e ∈ t, Ev.low e = true) : highlights t = [] := by
  simp only [highlights, List.filter_eq_nil_iff]
  intro e he
  simp [h e he]

theorem bind_ok_eq {α β : Type} {m : M α} {f : α → M β} {s : State} {a : α} {s1 : State}
    (h : m s = Result.ok a s1) : (m >>= f) s = f a s1 := by
  rw [bind_apply, h]

theorem bind_halt_eq {α β : Type} {m : M α} {f : α → M β} {s : State} {e : Halt} {s1 : State}
    (h : m s = Result.halt e s1) : (m >>= f) s = Result.halt e s1 := by
  rw [bind_apply, h]

/-- The outcome of a service call made from `mainloop`. -/
theorem service_spec {type : v4l2_buf_type} {call : M Int}
    (hcall : Sat (Mono (fun e => Ev.low e = true)) call) (s : State) :
    ∃ t, (service type call s).state.trace = s.trace ++ t ∧
      Frame s (service type call s).state ∧
      match service type call s with
      | Result.ok b _ => ∃ x, highlights t = [Ev.serviced type x] ∧ b = decide (x ≠ 0) ∧
          (call s).value = some x
      | Result.halt _ _ => highlights t = [] := by
  obtain ⟨hf, ⟨t, ht, hlow⟩, -⟩ := hcall s
  unfold service
  cases hc : call s with
  | ok x s1 =>
    rw [hc] at hf ht
    simp only [Result.state] at hf ht
    rw [bind_ok_eq hc]
    refine ⟨t ++ [Ev.serviced type x], ?_, ?_, ?_⟩
    · simp [bind_apply, emit_apply, pure_apply, Result.state, ht]
    · simpa [bind_apply, emit_apply, pure_apply, Result.state, Frame] using hf
    · simp only [bind_apply, emit_apply, pure_apply]
      refine ⟨x, ?_, rfl, rfl⟩
      rw [highlights_append, highlights_low hlow]
      simp [highlights, Ev.low]
  | halt e s1 =>
    rw [hc] at hf ht
    simp only [Result.state] at hf ht
    rw [bind_halt_eq hc]
    exact ⟨t, ht, hf, highlights_low hlow⟩

theorem capture_call_spec (s0 s : State) :
    ∃ t, (capture_call s0 s).state.trace = s.trace ++ t ∧
      Frame s (capture_call s0 s).state ∧
      match capture_call s0 s with
      | Result.ok b _ => ∃ x, highlights t = [Ev.serviced (capture_type s0) x] ∧
          b = decide (x ≠ 0)
      | Result.halt _ _ => highlights t = [] := by
  unfold capture_call capture_type
  cases s0.multi_planar with
  | true =>
    obtain ⟨t, ht, hf, hm⟩ := @service_spec v4l2_buf_type.V4L2_BUF_TYPE_VIDEO_CAPTURE_MPLANE _
      (sat_read_frame_mmap_mp (fun _ h => h)
        v4l2_buf_type.V4L2_BUF_TYPE_VIDEO_CAPTURE_MPLANE s0.buffers_mp s0.n_buffers) s
    refine ⟨t, ht, hf, ?_⟩
    simp only [if_true]
    split
    · rename_i b s1 heq
      rw [heq] at hm
      obtain ⟨x, hx, hb, -⟩ := hm
      exact ⟨x, hx, hb⟩
    · rename_i e s1 heq
      rw [heq] at hm
      exact hm
  | false =>
    obtain ⟨t, ht, hf, hm⟩ := @service_spec v4l2_buf_type.V4L2_BUF_TYPE_VIDEO_CAPTURE _
      (sat_read_frame (fun _ h => h)
        v4l2_buf_type.V4L2_BUF_TYPE_VIDEO_CAPTURE s0.buffers s0.n_buffers) s
    refine ⟨t, ht, hf, ?_⟩
    simp only [Bool.false_eq_true, if_false]
    split
    · rename_i b s1 heq
      rw [heq] at hm
      obtain ⟨x, hx, hb, -⟩ := hm
      exact ⟨x, hx, hb⟩
    · rename_i e s1 heq
      rw [heq] at hm
      exact hm
theorem read_frame_needs_pool {type : v4l2_buf_type} {bufs : List buffer} {n : Nat}
    {s : State} {x : Int} (h : (read_frame type bufs n s).value = some x) (hx : x ≠ 0) :
    0 < n ∨ bufs ≠ [] := by
  have hres := value_state h
  cases hio : s.io with
  | IO_METHOD_READ =>
    right
    unfold read_frame at hres
    obtain ⟨s0, s0', h0, h1⟩ := bind_eq_ok.mp hres
    simp only [getState_apply, Result.ok.injEq] at h0
    obtain ⟨hs0, hs0'⟩ := h0
    subst hs0 hs0'
    simp only [hio] at h1
    obtain ⟨b0, s1, hb, -⟩ := bind_eq_ok.mp h1
    obtain ⟨hget, -⟩ := at_index_ok hb
    intro hnil
    subst hnil
    simp at hget
  | IO_METHOD_MMAP =>
    left
    obtain ⟨pre1, r, b, pre2, r2, -, -, -, -, hidx, -⟩ := read_frame_mmap_ok hio hres hx
    omega
  | IO_METHOD_USERPTR =>
    left
    unfold read_frame at hres
    obtain ⟨s0, s0', h0, h1⟩ := bind_eq_ok.mp hres
    simp only [getState_apply, Result.ok.injEq] at h0
    obtain ⟨hs0, hs0'⟩ := h0
    subst hs0 hs0'
    simp only [hio] at h1
    obtain ⟨r, s1, hdq, h2⟩ := bind_eq_ok.mp h1
    rw [ite_apply] at h2
    split at h2
    · exact absurd (dequeue_failed_ok h2).1 hx
    · obtain ⟨i, s1', hscan, h3⟩ := bind_eq_ok.mp h2
      rw [ite_apply] at h3
      split at h3
      · omega
      · simp [halt_apply] at h3

theorem read_frame_mmap_mp_needs_pool {type : v4l2_buf_type} {bufs : List buffer_mp} {n : Nat}
    {s : State} {x : Int} (h : (read_frame_mmap_mp type bufs n s).value = some x)
    (hx : x ≠ 0) : 0 < n := by
  have hres := value_state h
  unfold read_frame_mmap_mp at hres
  obtain ⟨r, s1, hdq, h2⟩ := bind_eq_ok.mp hres
  rw [ite_apply] at h2
  split at h2
  · exact absurd (dequeue_failed_ok h2).1 hx
  · rw [ite_apply] at h2
    split at h2
    · omega
    · simp [halt_apply] at h2

theorem output_call_spec (s0 s : State) :
    ∃ t, (output_call s0 s).state.trace = s.trace ++ t ∧
      Frame s (output_call s0 s).state ∧
      match output_call s0 s with
      | Result.ok b _ => ∃ x, highlights t = [Ev.serviced (output_type s0) x] ∧
          b = decide (x ≠ 0) ∧ (x ≠ 0 → 0 < s0.n_buffers_out ∨ s0.buffers_out ≠ [])
      | Result.halt _ _ => highlights t = [] := by
  unfold output_call output_type
  cases s0.multi_planar with
  | true =>
    obtain ⟨t, ht, hf, hm⟩ := @service_spec v4l2_buf_type.V4L2_BUF_TYPE_VIDEO_OUTPUT_MPLANE _
      (sat_read_frame_mmap_mp (fun _ h => h)
        v4l2_buf_type.V4L2_BUF_TYPE_VIDEO_OUTPUT_MPLANE s0.buffers_mp_out s0.n_buffers_out) s
    refine ⟨t, ht, hf, ?_⟩
    simp only [if_true]
    split
    · rename_i b s1 heq
      rw [heq] at hm
      obtain ⟨x, hx, hb, hv⟩ := hm
      exact ⟨x, hx, hb, fun hne => Or.inl (read_frame_mmap_mp_needs_pool hv hne)⟩
    · rename_i e s1 heq
      rw [heq] at hm
      exact hm
  | false =>
    obtain ⟨t, ht, hf, hm⟩ := @service_spec v4l2_buf_type.V4L2_BUF_TYPE_VIDEO_OUTPUT _
      (sat_read_frame (fun _ h => h)
        v4l2_buf_type.V4L2_BUF_TYPE_VIDEO_OUTPUT s0.buffers_out s0.n_buffers_out) s
    refine ⟨t, ht, hf, ?_⟩
    simp only [Bool.false_eq_true, if_false]
    split
    · rename_i b s1 heq
      rw [heq] at hm
      obtain ⟨x, hx, hb, hv⟩ := hm
      exact ⟨x, hx, hb, fun hne => read_frame_needs_pool hv hne⟩
    · rename_i e s1 heq
      rw [heq] at hm
      exact hm
theorem frame_multi_planar {s s' : State} (h : Frame s s') : s'.multi_planar = s.multi_planar :=
  h.2.2.2.2.2.1

theorem output_type_frame {s s' : State} (h : Frame s s') : output_type s' = output_type s := by
  simp [output_type, frame_multi_planar h]

theorem capture_type_frame {s s' : State} (h : Frame s s') :
    capture_type s' = capture_type s := by
  simp [capture_type, frame_multi_planar h]

theorem events_part_spec (r : Resp) (s : State) :
    ∃ t, (events_part r s).state.trace = s.trace ++ t ∧ Frame s (events_part r s).state ∧
      highlights t = events_plan r ∧ (events_part r s).value ≠ some true := by
  unfold events_part events_plan
  cases r.ex with
  | false =>
    refine ⟨[], ?_, ?_, ?_, ?_⟩ <;>
      simp [bind_apply, pure_apply, Result.state, Result.value, frame_refl, highlights]
  | true =>
    simp only [Bool.and_self, if_true]
    have hsat : Sat (Mono (fun e => Ev.low e = true)) handle_event :=
      sat_handle_event (fun e he => low_of_no_dequeue (no_dequeue_of_capture_side he))
    obtain ⟨hf, ⟨t, ht, hlow⟩, -⟩ := hsat { s with trace := s.trace ++ [Ev.log Msg.Exception] }
    cases hh : handle_event { s with trace := s.trace ++ [Ev.log Msg.Exception] } with
    | ok u s1 =>
      rw [hh] at hf ht
      simp only [Result.state] at hf ht
      refine ⟨Ev.log Msg.Exception :: t, ?_, ?_, ?_, ?_⟩
      · simp [bind_apply, emit_apply, hh, pure_apply, Result.state, ht]
      · simpa [bind_apply, emit_apply, hh, pure_apply, Result.state, Frame] using hf
      · have := highlights_append [Ev.log Msg.Exception] t
        simp only [List.singleton_append] at this
        rw [this, highlights_low hlow]
        simp [highlights, Ev.low, Msg.is_mark]
      · simp [bind_apply, emit_apply, hh, pure_apply, Result.value]
    | halt e s1 =>
      rw [hh] at hf ht
      simp only [Result.state] at hf ht
      refine ⟨Ev.log Msg.Exception :: t, ?_, ?_, ?_, ?_⟩
      · simp [bind_apply, emit_apply, hh, Result.state, ht]
      · simpa [bind_apply, emit_apply, hh, Result.state, Frame] using hf
      · have := highlights_append [Ev.log Msg.Exception] t
        simp only [List.singleton_append] at this
        rw [this, highlights_low hlow]
        simp [highlights, Ev.low, Msg.is_mark]
      · simp [bind_apply, emit_apply, hh, Result.value]
theorem highlights_mark_cons (m : Msg) (hm : m.is_mark = true) (t : List Ev) :
    highlights (Ev.log m :: t) = Ev.log m :: highlights t := by
  simp [highlights, Ev.low, hm]

theorem output_part_spec (r : Resp) (s : State) :
    ∃ t out, (output_part r s).state.trace = s.trace ++ t ∧
      Frame s (output_part r s).state ∧
      (out ≠ 0 → 0 < s.n_buffers_out ∨ s.buffers_out ≠ []) ∧
      match output_part r s with
      | Result.ok b _ => highlights t = output_plan s r out ∧ b = (r.wr && decide (out ≠ 0))
      | Result.halt _ _ => highlights t <+: output_plan s r out ∧
          (highlights t).countP Ev.is_success = 0 := by
  cases hwr : r.wr with
  | false =>
    have heq : output_part r s = events_part r s := by
      simp [output_part, hwr, bind_apply, pure_apply]
    obtain ⟨t, ht, hf, hh, hv⟩ := events_part_spec r s
    refine ⟨t, 0, by rw [heq]; exact ht, by rw [heq]; exact hf, by simp, ?_⟩
    rw [heq]
    have hplan : output_plan s r 0 = events_plan r := by simp [output_plan, hwr]
    cases hres : events_part r s with
    | ok b s1 =>
      rw [hres] at hv
      simp only [hplan, hh, true_and]
      cases b with
      | false => simp
      | true => simp [Result.value] at hv
    | halt e s1 =>
      simp only [hplan, hh]
      refine ⟨List.prefix_refl _, ?_⟩
      unfold events_plan
      split <;> simp [Ev.is_success]
  | true =>
    obtain ⟨t1, ht1, hf1, hm1⟩ := output_call_spec
      { s with trace := s.trace ++ [Ev.log Msg.Writing] }
      { s with trace := s.trace ++ [Ev.log Msg.Writing] }
    have hty : output_type { s with trace := s.trace ++ [Ev.log Msg.Writing] } = output_type s :=
      rfl
    cases hoc : output_call { s with trace := s.trace ++ [Ev.log Msg.Writing] }
        { s with trace := s.trace ++ [Ev.log Msg.Writing] } with
    | halt e s2 =>
      rw [hoc] at ht1 hf1 hm1
      simp only [Result.state] at ht1 hf1 hm1
      have heq : output_part r s = Result.halt e s2 := by
        simp [output_part, hwr, bind_apply, emit_apply, getState_apply, hoc]
      refine ⟨Ev.log Msg.Writing :: t1, 0, ?_, ?_, by simp, ?_⟩
      · rw [heq]
        simp [Result.state, ht1]
      · rw [heq]
        simpa [Result.state, Frame] using hf1
      · rw [heq]
        rw [highlights_mark_cons Msg.Writing rfl, hm1]
        constructor
        · simp [output_plan, hwr]
        · simp [Ev.is_success]
    | ok b s2 =>
      rw [hoc] at ht1 hf1 hm1
      simp only [Result.state] at ht1 hf1 hm1
      obtain ⟨x, hx1, hb, hpool⟩ := hm1
      rw [hty] at hx1
      by_cases hx : x = 0
      · have hbf : b = false := by simp [hb, hx]
        have heq : output_part r s = events_part r s2 := by
          simp [output_part, hwr, bind_apply, emit_apply, getState_apply, hoc, hbf, ite_apply]
        obtain ⟨t2, ht2, hf2, hh2, hv2⟩ := events_part_spec r s2
        have hfs : Frame s s2 := by simpa [Frame] using hf1
        refine ⟨Ev.log Msg.Writing :: (t1 ++ t2), 0, ?_, ?_, by simp, ?_⟩
        · rw [heq, ht2, ht1]
          simp
        · rw [heq]
          exact frame_trans hfs hf2
        · rw [heq]
          have hplan : output_plan s r 0 =
              [Ev.log Msg.Writing, Ev.serviced (output_type s) 0] ++ events_plan r := by
            simp [output_plan, hwr]
          have hhl : highlights (Ev.log Msg.Writing :: (t1 ++ t2)) =
              [Ev.log Msg.Writing, Ev.serviced (output_type s) 0] ++ events_plan r := by
            rw [highlights_mark_cons Msg.Writing rfl, highlights_append, hx1, hh2, hx]
            rfl
          cases hres : events_part r s2 with
          | ok b2 s3 =>
            rw [hres] at hv2
            simp only [hplan, hhl, true_and]
            cases b2 with
            | false => simp
            | true => simp [Result.value] at hv2
          | halt e s3 =>
            simp only [hplan, hhl]
            refine ⟨List.prefix_refl _, ?_⟩
            unfold events_plan
            split <;> simp [Ev.is_success]
      · have hbt : b = true := by simp [hb, hx]
        have heq : output_part r s = Result.ok true s2 := by
          simp [output_part, hwr, bind_apply, emit_apply, getState_apply, hoc, hbt, ite_apply,
            pure_apply]
        refine ⟨Ev.log Msg.Writing :: t1, x, ?_, ?_, ?_, ?_⟩
        · rw [heq]
          simp [Result.state, ht1]
        · rw [heq]
          simpa [Result.state, Frame] using hf1
        · intro hne
          simpa using hpool hne
        · rw [heq]
          simp [highlights_mark_cons Msg.Writing rfl, hx1, output_plan, hwr, hx]
theorem output_plan_frame {s s' : State} (h : Frame s s') (r : Resp) (out : Int) :
    output_plan s' r out = output_plan s r out := by
  simp [output_plan, output_type_frame h]

theorem countP_success_prefix {a b : List Ev} (h : a <+: b) (hb : b.countP Ev.is_success = 0) :
    a.countP Ev.is_success = 0 := by
  obtain ⟨c, rfl⟩ := h
  rw [List.countP_append] at hb
  omega

theorem capture_part_spec (r : Resp) (s : State) :
    ∃ t cap out, (capture_part r s).state.trace = s.trace ++ t ∧
      Frame s (capture_part r s).state ∧
      (out ≠ 0 → 0 < s.n_buffers_out ∨ s.buffers_out ≠ []) ∧
      match capture_part r s with
      | Result.ok b _ => highlights t = service_plan s r cap out ∧ b = plan_breaks r cap out
      | Result.halt _ _ => highlights t <+: service_plan s r cap out ∧
          (highlights t).countP Ev.is_success = 0 := by
  cases hrd : r.rd with
  | false =>
    have heq : capture_part r s = output_part r s := by
      simp [capture_part, hrd, bind_apply, pure_apply]
    obtain ⟨t, out, ht, hf, hpool, hm⟩ := output_part_spec r s
    refine ⟨t, 0, out, by rw [heq]; exact ht, by rw [heq]; exact hf, hpool, ?_⟩
    rw [heq]
    have hplan : service_plan s r 0 out = output_plan s r out := by simp [service_plan, hrd]
    have hbr : plan_breaks r 0 out = (r.wr && decide (out ≠ 0)) := by simp [plan_breaks, hrd]
    rw [hplan, hbr]
    exact hm
  | true =>
    obtain ⟨t1, ht1, hf1, hm1⟩ := capture_call_spec
      { s with trace := s.trace ++ [Ev.log Msg.Reading] }
      { s with trace := s.trace ++ [Ev.log Msg.Reading] }
    have hty : capture_type { s with trace := s.trace ++ [Ev.log Msg.Reading] } =
        capture_type s := rfl
    cases hoc : capture_call { s with trace := s.trace ++ [Ev.log Msg.Reading] }
        { s with trace := s.trace ++ [Ev.log Msg.Reading] } with
    | halt e s2 =>
      rw [hoc] at ht1 hf1 hm1
      simp only [Result.state] at ht1 hf1 hm1
      have heq : capture_part r s = Result.halt e s2 := by
        simp [capture_part, hrd, bind_apply, emit_apply, getState_apply, hoc]
      refine ⟨Ev.log Msg.Reading :: t1, 0, 0, ?_, ?_, by simp, ?_⟩
      · rw [heq]
        simp [Result.state, ht1]
      · rw [heq]
        simpa [Result.state, Frame] using hf1
      · rw [heq]
        rw [highlights_mark_cons Msg.Reading rfl, hm1]
        constructor
        · simp [service_plan, hrd]
        · simp [Ev.is_success]
    | ok b s2 =>
      rw [hoc] at ht1 hf1 hm1
      simp only [Result.state] at ht1 hf1 hm1
      obtain ⟨x, hx1, hb⟩ := hm1
      rw [hty] at hx1
      have hfs : Frame s s2 := by simpa [Frame] using hf1
      by_cases hx : x = 0
      · have hbf : b = false := by simp [hb, hx]
        have heq : capture_part r s = output_part r s2 := by
          simp [capture_part, hrd, bind_apply, emit_apply, getState_apply, hoc, hbf, ite_apply]
        obtain ⟨t2, out, ht2, hf2, hpool2, hm2⟩ := output_part_spec r s2
        refine ⟨Ev.log Msg.Reading :: (t1 ++ t2), 0, out, ?_, ?_, ?_, ?_⟩
        · rw [heq, ht2, ht1]
          simp
        · rw [heq]
          exact frame_trans hfs hf2
        · intro hne
          have := hpool2 hne
          rwa [hfs.2.2.2.1, hfs.2.1] at this
        · rw [heq]
          have hplan : service_plan s r 0 out =
              [Ev.log Msg.Reading, Ev.serviced (capture_type s) 0] ++ output_plan s r out := by
            simp [service_plan, hrd]
          have hhl : highlights (Ev.log Msg.Reading :: (t1 ++ t2)) =
              [Ev.log Msg.Reading, Ev.serviced (capture_type s) 0] ++ highlights t2 := by
            rw [highlights_mark_cons Msg.Reading rfl, highlights_append, hx1, hx]
            rfl
          have hbr : plan_breaks r 0 out = (r.wr && decide (out ≠ 0)) := by
            simp [plan_breaks]
          rw [output_plan_frame hfs] at hm2
          rw [hplan, hhl, hbr]
          cases hres : output_part r s2 with
          | ok b2 s3 =>
            rw [hres] at hm2
            simp only at hm2 ⊢
            exact ⟨by rw [hm2.1], hm2.2⟩
          | halt e s3 =>
            rw [hres] at hm2
            simp only at hm2 ⊢
            refine ⟨?_, ?_⟩
            · exact (List.prefix_append_right_inj _).mpr hm2.1
            · rw [List.countP_append, hm2.2]
              simp [Ev.is_success]
      · have hbt : b = true := by simp [hb, hx]
        have heq : capture_part r s = Result.ok true s2 := by
          simp [capture_part, hrd, bind_apply, emit_apply, getState_apply, hoc, hbt, ite_apply,
            pure_apply]
        refine ⟨Ev.log Msg.Reading :: t1, x, 0, ?_, ?_, by simp, ?_⟩
        · rw [heq]
          simp [Result.state, ht1]
        · rw [heq]
          simpa [Result.state, Frame] using hf1
        · rw [heq]
          simp [highlights_mark_cons Msg.Reading rfl, hx1, service_plan, hrd, hx, plan_breaks]
theorem mainloop_body_serviced {s : State} {r : Resp} {rest : List Resp}
    (hs : s.script = r :: rest) (h1 : r.ret ≠ -1) (h0 : r.ret ≠ 0) :
    ∃ t cap out, (mainloop_body s).state.trace = s.trace ++ t ∧
      Frame s (mainloop_body s).state ∧
      (out ≠ 0 → 0 < s.n_buffers_out ∨ s.buffers_out ≠ []) ∧
      match mainloop_body s with
      | Result.ok b _ => highlights t = service_plan s r cap out ∧ b = plan_breaks r cap out
      | Result.halt _ _ => highlights t <+: service_plan s r cap out ∧
          (highlights t).countP Ev.is_success = 0 := by
  have heq : mainloop_body s = capture_part r
      { s with script := rest,
               trace := s.trace ++ [Ev.sys (Call.select true true true 10 0) r] } := by
    rw [mainloop_body_eq, bind_apply]
    simp [M2M.sys, hs, ite_apply, h1, h0]
  obtain ⟨t, cap, out, ht, hf, hpool, hm⟩ := capture_part_spec r
    { s with script := rest,
             trace := s.trace ++ [Ev.sys (Call.select true true true 10 0) r] }
  refine ⟨Ev.sys (Call.select true true true 10 0) r :: t, cap, out, ?_, ?_, ?_, ?_⟩
  · rw [heq, ht]
    simp
  · rw [heq]
    simpa [Frame] using hf
  · simpa using hpool
  · rw [heq]
    have hhl : highlights (Ev.sys (Call.select true true true 10 0) r :: t) = highlights t := by
      simp [highlights, Ev.low]
    rw [hhl]
    exact hm

theorem mainloop_body_idle {s : State}
    (h : ∀ r rest, s.script = r :: rest → r.ret = -1 ∨ r.ret = 0) :
    ∃ t, (mainloop_body s).state.trace = s.trace ++ t ∧ Frame s (mainloop_body s).state ∧
      highlights t = [] ∧ (mainloop_body s).value ≠ some true := by
  rw [mainloop_body_eq]
  cases hscr : s.script with
  | nil =>
    refine ⟨[], ?_, ?_, rfl, ?_⟩ <;>
      simp [bind_apply, M2M.sys, hscr, Result.state, Result.value, frame_refl]
  | cons r rest =>
    by_cases h1 : r.ret = -1
    · by_cases hint : r.errno = Errno.EINTR
      · refine ⟨[Ev.sys (Call.select true true true 10 0) r], ?_, ?_, ?_, ?_⟩ <;>
          simp [bind_apply, M2M.sys, hscr, Result.state, Result.value, ite_apply, h1, hint,
            pure_apply, Frame, highlights, Ev.low]
      · refine ⟨[Ev.sys (Call.select true true true 10 0) r, Ev.log Msg.errno_exit],
          ?_, ?_, ?_, ?_⟩ <;>
          simp [bind_apply, M2M.sys, hscr, Result.state, Result.value, ite_apply, h1, hint,
            errno_exit_apply, Frame, highlights, Ev.low, Msg.is_mark]
    · have h0 : r.ret = 0 := by
        rcases h r rest hscr with h | h
        · exact absurd h h1
        · exact h
      refine ⟨[Ev.sys (Call.select true true true 10 0) r, Ev.log Msg.select_timeout],
        ?_, ?_, ?_, ?_⟩ <;>
        simp [bind_apply, M2M.sys, hscr, Result.state, Result.value, ite_apply, h0,
          exit_with_apply, Frame, highlights, Ev.low, Msg.is_mark]

theorem countP_highlights (p : Ev → Bool) (hp : ∀ e, p e = true → Ev.low e = false)
    (t : List Ev) : t.countP p = (highlights t).countP p := by
  induction t with
  | nil => rfl
  | cons e t ih =>
    by_cases hl : Ev.low e = true
    · have hpe : p e = false := by
        by_contra hne
        have := hp e (by simpa using hne)
        simp [hl] at this
      simp [highlights, List.filter_cons, hl, List.countP_cons, hpe] at ih ⊢
      exact ih
    · have hl' : Ev.low e = false := by simpa using hl
      simp [highlights, List.filter_cons, hl', List.countP_cons] at ih ⊢
      exact ih

theorem capture_type_not_output (s : State) : (capture_type s).is_output = false := by
  unfold capture_type
  split <;> rfl

theorem output_type_is_output (s : State) : (output_type s).is_output = true := by
  unfold output_type
  split <;> rfl

theorem plan_counts (s : State) (r : Resp) (cap out : Int) :
    (service_plan s r cap out).countP Ev.is_frame_done = 0 ∧
    (service_plan s r cap out).countP Ev.is_capture_success +
      (service_plan s r cap out).countP Ev.is_output_success =
        (if plan_breaks r cap out then 1 else 0) ∧
    (out = 0 → (service_plan s r cap out).countP Ev.is_output_success = 0) := by
  have hc := capture_type_not_output s
  have ho := output_type_is_output s
  cases hrd : r.rd <;> cases hwr : r.wr <;> cases hex : r.ex <;> by_cases hcap : cap = 0 <;>
    by_cases hout : out = 0 <;>
    simp [service_plan, output_plan, events_plan, plan_breaks, hrd, hwr, hex, hcap, hout,
      Ev.is_frame_done, Ev.is_capture_success, Ev.is_output_success, hc, ho, List.countP_cons]

theorem success_split (t : List Ev) :
    t.countP Ev.is_capture_success + t.countP Ev.is_output_success =
      t.countP Ev.is_success := by
  induction t with
  | nil => rfl
  | cons e t ih =>
    simp only [List.countP_cons]
    cases e with
    | serviced ty x =>
      by_cases hx : x = 0 <;> cases hty : ty.is_output <;>
        simp [Ev.is_capture_success, Ev.is_output_success, Ev.is_success, hx, hty] <;> omega
    | _ => simpa [Ev.is_capture_success, Ev.is_output_success, Ev.is_success] using ih

/-- What one pass of the loop body adds to the counts of completed iterations and
of successful service calls. -/
theorem mainloop_body_counts (s : State) :
    ∃ t, (mainloop_body s).state.trace = s.trace ++ t ∧ Frame s (mainloop_body s).state ∧
      t.countP Ev.is_frame_done = 0 ∧
      t.countP Ev.is_capture_success + t.countP Ev.is_output_success =
        (if (mainloop_body s).value = some true then 1 else 0) ∧
      (s.n_buffers_out = 0 → s.buffers_out = [] → t.countP Ev.is_output_success = 0) := by
  have hfd : ∀ e, Ev.is_frame_done e = true → Ev.low e = false := by
    intro e he
    cases e <;> simp_all [Ev.is_frame_done, Ev.low]
  have hcs : ∀ e, Ev.is_capture_success e = true → Ev.low e = false := by
    intro e he
    cases e <;> simp_all [Ev.is_capture_success, Ev.low]
  have hos : ∀ e, Ev.is_output_success e = true → Ev.low e = false := by
    intro e he
    cases e <;> simp_all [Ev.is_output_success, Ev.low]
  by_cases hidle : ∀ r rest, s.script = r :: rest → r.ret = -1 ∨ r.ret = 0
  · obtain ⟨t, ht, hf, hh, hv⟩ := mainloop_body_idle hidle
    refine ⟨t, ht, hf, ?_, ?_, ?_⟩
    · rw [countP_highlights _ hfd, hh]
      rfl
    · rw [countP_highlights _ hcs, countP_highlights _ hos, hh, if_neg hv]
      rfl
    · intro _ _
      rw [countP_highlights _ hos, hh]
      rfl
  · push_neg at hidle
    obtain ⟨r, rest, hs, h1, h0⟩ := hidle
    obtain ⟨t, cap, out, ht, hf, hpool, hm⟩ := mainloop_body_serviced hs h1 h0
    obtain ⟨hp1, hp2, hp3⟩ := plan_counts s r cap out
    refine ⟨t, ht, hf, ?_, ?_, ?_⟩
    · rw [countP_highlights _ hfd]
      cases hres : mainloop_body s with
      | ok b s1 =>
        rw [hres] at hm
        rw [hm.1, hp1]
      | halt e s1 =>
        rw [hres] at hm
        obtain ⟨c, hc⟩ := hm.1
        rw [← hc, List.countP_append] at hp1
        omega
    · rw [countP_highlights _ hcs, countP_highlights _ hos]
      cases hres : mainloop_body s with
      | ok b s1 =>
        rw [hres] at hm
        rw [hm.1, hp2, hm.2]
        cases plan_breaks r cap out <;> simp [Result.value]
      | halt e s1 =>
        rw [hres] at hm
        rw [success_split, hm.2]
        simp [Result.value]
    · intro hn hb
      have hout : out = 0 := by
        by_contra hne
        rcases hpool hne with h | h
        · omega
        · exact h hb
      rw [countP_highlights _ hos]
      cases hres : mainloop_body s with
      | ok b s1 =>
        rw [hres] at hm
        rw [hm.1, hp3 hout]
      | halt e s1 =>
        rw [hres] at hm
        have := success_split (highlights t)
        omega

theorem mainloop_inner_counts (n : Nat) (s : State) :
    ∃ t, (mainloop_inner n s).state.trace = s.trace ++ t ∧
      Frame s (mainloop_inner n s).state ∧
      t.countP Ev.is_frame_done = t.countP Ev.is_capture_success + t.countP Ev.is_output_success ∧
      ((mainloop_inner n s).isOk = true → t.countP Ev.is_frame_done = 1) ∧
      (s.n_buffers_out = 0 → s.buffers_out = [] → t.countP Ev.is_output_success = 0) := by
  induction n generalizing s with
  | zero =>
    refine ⟨[], ?_, ?_, rfl, ?_, ?_⟩ <;>
      simp [mainloop_inner, halt_apply, Result.state, Result.isOk, frame_refl]
  | succ n ih =>
    obtain ⟨t, ht, hf, hfd, hsum, hout⟩ := mainloop_body_counts s
    unfold mainloop_inner
    cases hres : mainloop_body s with
    | halt e s1 =>
      rw [hres] at ht hf hsum
      simp only [Result.state, Result.value] at ht hf hsum
      rw [bind_halt_eq hres]
      refine ⟨t, ht, hf, ?_, ?_, hout⟩
      · simp only [reduceCtorEq, if_false] at hsum
        omega
      · simp [Result.isOk]
    | ok b s1 =>
      rw [hres] at ht hf hsum
      simp only [Result.state, Result.value] at ht hf hsum
      rw [bind_ok_eq hres]
      cases b with
      | true =>
        simp only [if_true] at hsum ⊢
        refine ⟨t ++ [Ev.frame_done], ?_, ?_, ?_, ?_, ?_⟩
        · simp [emit_apply, Result.state, ht]
        · simpa [emit_apply, Result.state, Frame] using hf
        · simp only [List.countP_append, hfd]
          simp [Ev.is_frame_done, Ev.is_capture_success, Ev.is_output_success]
          omega
        · intro _
          simp only [List.countP_append, hfd]
          simp [Ev.is_frame_done]
        · intro hn hb
          simp only [List.countP_append, hout hn hb]
          simp [Ev.is_output_success]
      | false =>
        simp only [Bool.false_eq_true, if_false, Option.some.injEq] at hsum ⊢
        obtain ⟨t2, ht2, hf2, heq2, hok2, hout2⟩ := ih s1
        refine ⟨t ++ t2, ?_, frame_trans hf hf2, ?_, ?_, ?_⟩
        · rw [ht2, ht]
          simp
        · simp only [List.countP_append]
          omega
        · intro hok
          simp only [List.countP_append, hfd, hok2 hok]
        · intro hn hb
          simp only [List.countP_append, hout hn hb]
          rw [hout2 (by rw [hf.2.2.2.1]; exact hn) (by rw [hf.2.1]; exact hb)]

theorem mainloop_outer_counts (count : Nat) (s : State) :
    ∃ t, (mainloop_outer count s).state.trace = s.trace ++ t ∧
      Frame s (mainloop_outer count s).state ∧
      t.countP Ev.is_frame_done = t.countP Ev.is_capture_success + t.countP Ev.is_output_success ∧
      ((mainloop_outer count s).isOk = true → t.countP Ev.is_frame_done = count) ∧
      (s.n_buffers_out = 0 → s.buffers_out = [] → t.countP Ev.is_output_success = 0) := by
  induction count generalizing s with
  | zero =>
    refine ⟨[], ?_, ?_, rfl, ?_, ?_⟩ <;>
      simp [mainloop_outer, pure_apply, Result.state, frame_refl]
  | succ c ih =>
    obtain ⟨t, ht, hf, heq, hok, hout⟩ := mainloop_inner_counts (s.script.length + 1) s
    unfold mainloop_outer
    rw [bind_apply, getState_apply]
    simp only
    cases hres : mainloop_inner (s.script.length + 1) s with
    | halt e s1 =>
      rw [hres] at ht hf hok
      simp only [Result.state] at ht hf
      rw [bind_halt_eq hres]
      refine ⟨t, ht, hf, heq, ?_, hout⟩
      simp [Result.isOk]
    | ok u s1 =>
      rw [hres] at ht hf hok
      simp only [Result.state, Result.isOk, forall_true_left] at ht hf hok
      rw [bind_ok_eq hres]
      obtain ⟨t2, ht2, hf2, heq2, hok2, hout2⟩ := ih s1
      refine ⟨t ++ t2, ?_, frame_trans hf hf2, ?_, ?_, ?_⟩
      · rw [ht2, ht]
        simp
      · simp only [List.countP_append]
        omega
      · intro hok'
        simp only [List.countP_append, hok, hok2 hok']
        omega
      · intro hn hb
        simp only [List.countP_append, hout hn hb]
        rw [hout2 (by rw [hf.2.2.2.1]; exact hn) (by rw [hf.2.1]; exact hb)]
/-! ## Ownership along sequences of blocks -/

theorem after_all_append (ty : v4l2_buf_type) (i : Nat) (o : Ownership) (a b : List Step) :
    Ownership.after_all ty i o (a ++ b) =
      Ownership.after_all ty i (Ownership.after_all ty i o a) b := by
  simp [Ownership.after_all, List.foldl_append]

theorem holds_append (ok : Ownership → Step → Bool) (ty : v4l2_buf_type) (i : Nat)
    (o : Ownership) (a b : List Step) :
    holds_throughout ok ty i o (a ++ b) =
      (holds_throughout ok ty i o a &&
        holds_throughout ok ty i (Ownership.after_all ty i o a) b) := by
  induction a generalizing o with
  | nil => simp [holds_throughout, Ownership.after_all]
  | cons st rest ih =>
    have := ih (Ownership.after ty i o st)
    simp only [Ownership.after_all] at this
    rw [List.cons_append]
    simp only [holds_throughout, Ownership.after_all, List.foldl_cons, Bool.and_assoc]
    rw [this]

theorem holds_mono {ok1 ok2 : Ownership → Step → Bool} (h : ∀ o st, ok1 o st = true → ok2 o st = true)
    (ty : v4l2_buf_type) (i : Nat) (o : Ownership) (p : List Step)
    (h1 : holds_throughout ok1 ty i o p = true) : holds_throughout ok2 ty i o p = true := by
  induction p generalizing o with
  | nil => rfl
  | cons st rest ih =>
    simp only [holds_throughout, Bool.and_eq_true] at h1 ⊢
    exact ⟨h _ _ h1.1, ih _ h1.2⟩

theorem holds_and {ok1 ok2 ok3 : Ownership → Step → Bool}
    (h : ∀ o st, ok1 o st = true → ok2 o st = true → ok3 o st = true)
    (ty : v4l2_buf_type) (i : Nat) (o : Ownership) (p : List Step)
    (h1 : holds_throughout ok1 ty i o p = true) (h2 : holds_throughout ok2 ty i o p = true) :
    holds_throughout ok3 ty i o p = true := by
  induction p generalizing o with
  | nil => rfl
  | cons st rest ih =>
    simp only [holds_throughout, Bool.and_eq_true] at h1 h2 ⊢
    exact ⟨h _ _ h1.1 h2.1, ih _ h1.2 h2.2⟩

theorem batch_succ (t : v4l2_buf_type) (b k : Nat) :
    batch t b (k + 1) = Step.op (QOp.enqueue t b) :: batch t (b + 1) k := by
  simp [batch, List.range'_succ]

theorem batch_zero (t : v4l2_buf_type) (b : Nat) : batch t b 0 = [] := rfl

theorem batch_sound (ty : v4l2_buf_type) (i : Nat) (t : v4l2_buf_type) (b k : Nat)
    (o : Ownership)
    (h : o = Ownership.Free ∨ (o = Ownership.DeviceOwned ∧ (t ≠ ty ∨ i < b))) :
    holds_throughout (Step.sound ty i) ty i o (batch t b k) = true ∧
      (Ownership.after_all ty i o (batch t b k) = o ∨
        (Ownership.after_all ty i o (batch t b k) = Ownership.DeviceOwned ∧ t = ty)) := by
  induction k generalizing b o with
  | zero => simp [batch_zero, holds_throughout, Ownership.after_all]
  | succ k ih =>
    rw [batch_succ]
    simp only [holds_throughout, Ownership.after_all, List.foldl_cons, Bool.and_eq_true]
    by_cases hit : t = ty ∧ b = i
    · obtain ⟨rfl, rfl⟩ := hit
      have ho : o = Ownership.Free := by
        rcases h with h | ⟨-, h | h⟩
        · exact h
        · exact absurd rfl h
        · omega
      subst ho
      have := ih (b + 1) Ownership.DeviceOwned (Or.inr ⟨rfl, Or.inr (by omega)⟩)
      simp only [Ownership.after_all] at this
      refine ⟨⟨?_, ?_⟩, ?_⟩
      · simp [Step.sound, Step.enqueue_allowed, Step.single_hold, Step.released]
      · simpa [Ownership.after] using this.1
      · right
        rcases this.2 with h2 | h2
        · exact ⟨by simpa [Ownership.after] using h2, rfl⟩
        · exact ⟨by simpa [Ownership.after] using h2.1, rfl⟩
    · have hafter : Ownership.after ty i o (Step.op (QOp.enqueue t b)) = o := by
        simp [Ownership.after, hit]
      have := ih (b + 1) o (by
        rcases h with h | ⟨h1, h | h⟩
        · exact Or.inl h
        · exact Or.inr ⟨h1, Or.inl h⟩
        · exact Or.inr ⟨h1, Or.inr (by omega)⟩)
      simp only [Ownership.after_all] at this
      rw [hafter]
      refine ⟨⟨?_, this.1⟩, this.2⟩
      simp [Step.sound, Step.enqueue_allowed, Step.single_hold, Step.released, hit]

theorem block_sound (ty : v4l2_buf_type) (i : Nat) {b : List Step} (hb : Block b)
    (o : Ownership) (ho : o ≠ Ownership.ApplicationOwned) :
    holds_throughout (Step.sound ty i) ty i o b = true ∧
      Ownership.after_all ty i o b ≠ Ownership.ApplicationOwned := by
  cases hb with
  | returned =>
    simp [holds_throughout, Ownership.after_all, Ownership.after, Step.sound,
      Step.enqueue_allowed, Step.single_hold, Step.released, ho]
  | service t j =>
    by_cases hit : t = ty ∧ j = i
    · simp [holds_throughout, Ownership.after_all, Ownership.after, Step.sound,
        Step.enqueue_allowed, Step.single_hold, Step.released, hit, ho]
    · simp [holds_throughout, Ownership.after_all, Ownership.after, Step.sound,
        Step.enqueue_allowed, Step.single_hold, Step.released, hit, ho]
  | restart t k =>
    have hpre : Ownership.after ty i o (Step.op (QOp.stop t)) = Ownership.Free ∨
        (Ownership.after ty i o (Step.op (QOp.stop t)) = Ownership.DeviceOwned ∧
          (t ≠ ty ∨ i < 0)) := by
      cases o with
      | Free => simp [Ownership.after]
      | ApplicationOwned => exact absurd rfl ho
      | DeviceOwned =>
        by_cases ht : t = ty
        · simp [Ownership.after, ht]
        · simp [Ownership.after, ht]
    obtain ⟨h1, h2⟩ := batch_sound ty i t 0 k _ hpre
    simp only [holds_throughout, Ownership.after_all, List.foldl_cons, Bool.and_eq_true]
    simp only [Ownership.after_all] at h1 h2
    refine ⟨⟨by simp [Step.sound, Step.enqueue_allowed, Step.single_hold, Step.released],
      h1⟩, ?_⟩
    rcases h2 with h2 | h2
    · rw [h2]
      rcases hpre with h | h
      · rw [h]; simp
      · rw [h.1]; simp
    · rw [h2.1]; simp

theorem steady_sound (ty : v4l2_buf_type) (i : Nat) {p : List Step} (hp : Steady p)
    (o : Ownership) (ho : o ≠ Ownership.ApplicationOwned) :
    holds_throughout (Step.sound ty i) ty i o p = true ∧
      Ownership.after_all ty i o p ≠ Ownership.ApplicationOwned := by
  induction hp generalizing o with
  | nil => simp [holds_throughout, Ownership.after_all, ho]
  | cons hb _ ih =>
    obtain ⟨h1, h2⟩ := block_sound ty i hb o ho
    obtain ⟨h3, h4⟩ := ih _ h2
    rw [holds_append, after_all_append, h1, h3]
    exact ⟨rfl, h4⟩

theorem open_sound (ty : v4l2_buf_type) (i : Nat) {p : List Step} (hp : Open p)
    (o : Ownership) (ho : o ≠ Ownership.ApplicationOwned) :
    holds_throughout (Step.sound ty i) ty i o p = true := by
  obtain ⟨a, ha, hpa⟩ := hp
  obtain ⟨h1, h2⟩ := steady_sound ty i ha o ho
  rcases hpa with rfl | ⟨t, j, rfl⟩
  · exact h1
  · rw [holds_append, h1]
    by_cases hit : t = ty ∧ j = i
    · simp [holds_throughout, Step.sound, Step.enqueue_allowed, Step.single_hold,
        Step.released, hit, h2]
    · simp [holds_throughout, Step.sound, Step.enqueue_allowed, Step.single_hold,
        Step.released, hit]

theorem session_sound (ty : v4l2_buf_type) (i : Nat) {a c : List Step} (ha : Fresh a)
    (hc : Open c) :
    holds_throughout (Step.sound ty i) ty i Ownership.Free (a ++ c) = true := by
  obtain ⟨t1, k1, t2, k2, ht1, ht2, rfl⟩ := ha
  obtain ⟨h1, h2⟩ := batch_sound ty i t1 0 k1 Ownership.Free (Or.inl rfl)
  have hpre : Ownership.after_all ty i Ownership.Free (batch t1 0 k1) = Ownership.Free ∨
      (Ownership.after_all ty i Ownership.Free (batch t1 0 k1) = Ownership.DeviceOwned ∧
        (t2 ≠ ty ∨ i < 0)) := by
    rcases h2 with h2 | ⟨h2, rfl⟩
    · exact Or.inl h2
    · refine Or.inr ⟨h2, Or.inl ?_⟩
      rintro rfl
      rw [ht1] at ht2
      exact absurd ht2 (by decide)
  obtain ⟨h3, h4⟩ := batch_sound ty i t2 0 k2 _ hpre
  have hne : Ownership.after_all ty i
      (Ownership.after_all ty i Ownership.Free (batch t1 0 k1)) (batch t2 0 k2) ≠
        Ownership.ApplicationOwned := by
    rcases h4 with h4 | h4
    · rw [h4]
      rcases hpre with h | h
      · rw [h]; simp
      · rw [h.1]; simp
    · rw [h4.1]; simp
  rw [holds_append, holds_append, h1, h3, after_all_append]
  simpa using open_sound ty i hc _ hne

theorem steady_append {a c : List Step} (ha : Steady a) (hc : Steady c) : Steady (a ++ c) := by
  induction ha with
  | nil => exact hc
  | cons hb _ ih =>
    rw [List.append_assoc]
    exact Steady.cons hb ih

theorem steady_block {b : List Step} (hb : Block b) : Steady b := by
  have := Steady.cons hb Steady.nil
  simpa using this

theorem open_of_steady {p : List Step} (hp : Steady p) : Open p := ⟨p, hp, Or.inl rfl⟩

theorem steady_open_append {a c : List Step} (ha : Steady a) (hc : Open c) : Open (a ++ c) := by
  obtain ⟨x, hx, hcx⟩ := hc
  refine ⟨a ++ x, steady_append ha hx, ?_⟩
  rcases hcx with rfl | ⟨t, j, rfl⟩
  · exact Or.inl rfl
  · exact Or.inr ⟨t, j, by simp⟩

theorem protocol_append (a b : List Ev) : protocol (a ++ b) = protocol a ++ protocol b := by
  simp [protocol]

/-! ## The protocol of a run -/

theorem step_callback_side {e : Ev} (h : Ev.callback_side e = true) : Ev.step e = none := by
  cases e <;> simp_all [Ev.callback_side, Ev.step]

theorem step_setup_side {e : Ev} (h : Ev.setup_side e = true) : Ev.step e = none := by
  cases e with
  | sys c r => cases c <;> simp_all [Ev.setup_side, Ev.step, Ev.queue_op, Call.is_queue]
  | _ => simp_all [Ev.setup_side, Ev.step]

theorem step_failed (c : Call) {r : Resp} (h : r.ret = -1) : Ev.step (Ev.sys c r) = none := by
  cases c <;> simp [Ev.step, Ev.queue_op, h]

theorem protocol_quiet {t : List Ev} (h : ∀ e ∈ t, Ev.step e = none) : protocol t = [] := by
  simp only [protocol, List.filterMap_eq_nil_iff]
  exact h

theorem emits_of_sat {α : Type} {m : M α} (h : Sat (Mono (fun e => Ev.step e = none)) m)
    (b : Bool) : Emits b (fun _ p => p = []) (fun p => p = []) m := by
  intro s hs
  obtain ⟨hf, ⟨t, ht, hq⟩, -⟩ := h s
  refine ⟨t, ht, ?_, fun _ _ _ => protocol_quiet hq, fun _ _ _ => protocol_quiet hq⟩
  rw [hf.2.2.2.2.2.1, hs]

theorem emits_mono {α : Type} {b : Bool} {m : M α} {A C : α → List Step → Prop}
    {A' C' : List Step → Prop} (h : Emits b A A' m) (h1 : ∀ a p, A a p → C a p)
    (h2 : ∀ p, A' p → C' p) : Emits b C C' m := by
  intro s hs
  obtain ⟨t, ht, hb, hok, hhalt⟩ := h s hs
  exact ⟨t, ht, hb, fun a s' hr => h1 _ _ (hok a s' hr), fun e s' hr => h2 _ (hhalt e s' hr)⟩

theorem emits_bind {α β : Type} {b : Bool} {m : M α} {f : α → M β}
    {A : α → List Step → Prop} {A' : List Step → Prop}
    {C : β → List Step → Prop} {C' : List Step → Prop}
    (B : α → β → List Step → Prop) (B' : α → List Step → Prop)
    (hm : Emits b A A' m) (hf : ∀ a, Emits b (B a) (B' a) (f a))
    (hok : ∀ a x c y, A a x → B a c y → C c (x ++ y))
    (hh1 : ∀ x, A' x → C' x)
    (hh2 : ∀ a x y, A a x → B' a y → C' (x ++ y)) : Emits b C C' (m >>= f) := by
  intro s hs
  obtain ⟨t1, ht1, hb1, hok1, hhalt1⟩ := hm s hs
  cases hres : m s with
  | ok a s1 =>
    rw [hres] at ht1 hb1
    simp only [Result.state] at ht1 hb1
    obtain ⟨t2, ht2, hb2, hok2, hhalt2⟩ := hf a s1 hb1
    rw [bind_ok_eq hres]
    refine ⟨t1 ++ t2, by rw [ht2, ht1, List.append_assoc], hb2, ?_, ?_⟩
    · intro c s' hr
      rw [protocol_append]
      exact hok _ _ _ _ (hok1 a s1 hres) (hok2 c s' hr)
    · intro e s' hr
      rw [protocol_append]
      exact hh2 _ _ _ (hok1 a s1 hres) (hhalt2 e s' hr)
  | halt e s1 =>
    rw [hres] at ht1 hb1
    simp only [Result.state] at ht1 hb1
    rw [bind_halt_eq hres]
    refine ⟨t1, ht1, hb1, ?_, ?_⟩
    · intro c s' hr
      cases hr
    · intro e' s' _
      exact hh1 _ (hhalt1 e s1 hres)

theorem emits_pure {α : Type} (b : Bool) (a : α) (L' : List Step → Prop) :
    Emits b (fun x p => x = a ∧ p = []) L' (pure a : M α) := by
  intro s hs
  refine ⟨[], by simp [pure_apply, Result.state], by simpa [pure_apply, Result.state] using hs,
    ?_, ?_⟩
  · intro x s' hr
    simp only [pure_apply, Result.ok.injEq] at hr
    exact ⟨hr.1.symm, rfl⟩
  · intro e s' hr
    simp [pure_apply] at hr

theorem emits_halt {α : Type} (b : Bool) (e : Halt) (L : α → List Step → Prop) :
    Emits b L (fun p => p = []) (halt e : M α) := by
  intro s hs
  refine ⟨[], by simp [halt_apply, Result.state], by simpa [halt_apply, Result.state] using hs,
    ?_, ?_⟩
  · intro x s' hr
    simp [halt_apply] at hr
  · intro e s' _
    rfl

theorem emits_ite {α : Type} {b : Bool} {c : Prop} [Decidable c] {m1 m2 : M α}
    {L : α → List Step → Prop} {L' : List Step → Prop}
    (h1 : c → Emits b L L' m1) (h2 : ¬ c → Emits b L L' m2) :
    Emits b L L' (if c then m1 else m2) := by
  split
  · exact h1 ‹_›
  · exact h2 ‹_›

theorem emits_emit (b : Bool) (e : Ev) (L' : List Step → Prop) :
    Emits b (fun _ p => p = (Ev.step e).toList) L' (emit e) := by
  intro s hs
  refine ⟨[e], by simp [emit_apply, Result.state], by simpa [emit_apply, Result.state] using hs,
    ?_, ?_⟩
  · intro x s' _
    cases h : Ev.step e <;> simp [protocol, h]
  · intro e s' hr
    simp [emit_apply] at hr

theorem emits_getState_bind {α : Type} {b : Bool} {f : State → M α}
    {L : α → List Step → Prop} {L' : List Step → Prop}
    (h : ∀ s, s.multi_planar = b → Emits b L L' (f s)) : Emits b L L' (getState >>= f) := by
  intro s hs
  have := h s hs s hs
  rw [bind_apply, getState_apply]
  exact this

theorem emits_sys (b : Bool) (c : Call) :
    Emits b (fun r p => p = (Ev.step (Ev.sys c r)).toList) (fun p => p = []) (sys c) := by
  intro s hs
  cases hscr : s.script with
  | nil =>
    refine ⟨[], by simp [M2M.sys, hscr, Result.state], by simpa [M2M.sys, hscr, Result.state] using hs,
      ?_, ?_⟩
    · intro r s' hr
      simp [M2M.sys, hscr] at hr
    · intro e s' _
      rfl
  | cons r rest =>
    refine ⟨[Ev.sys c r], by simp [M2M.sys, hscr, Result.state],
      by simpa [M2M.sys, hscr, Result.state] using hs, ?_, ?_⟩
    · intro r' s' hr
      simp only [M2M.sys, hscr, Result.ok.injEq] at hr
      rw [← hr.1]
      cases h : Ev.step (Ev.sys c r) <;> simp [protocol, h]
    · intro e s' hr
      simp [M2M.sys, hscr] at hr

theorem emits_xioctl_loop (b : Bool) (c : Call) (n : Nat) :
    Emits b (fun r p => p = (Ev.step (Ev.sys c r)).toList) (fun p => p = [])
      (xioctl_loop n c) := by
  induction n with
  | zero => exact emits_halt b _ _
  | succ n ih =>
    unfold xioctl_loop
    refine emits_bind
      (fun r r' p => if r.ret = -1 ∧ r.errno = Errno.EINTR then
          p = (Ev.step (Ev.sys c r')).toList else r' = r ∧ p = [])
      (fun r p => (r.ret = -1 ∧ r.errno = Errno.EINTR) ∧ p = [])
      (emits_sys b c) (fun r => ?_) ?_ (fun _ h => h) ?_
    · by_cases hint : r.ret = -1 ∧ r.errno = Errno.EINTR
      · simp only [hint, and_self, if_true]
        exact emits_mono ih (fun _ _ h => h) (fun _ h => ⟨trivial, h⟩)
      · simp only [hint, if_false]
        exact emits_pure b r _
    · intro r x r' y hx hy
      by_cases hint : r.ret = -1 ∧ r.errno = Errno.EINTR
      · simp only [hint, and_self, if_true] at hy
        rw [hx, hy, step_failed c hint.1]
        rfl
      · simp only [hint, if_false] at hy
        rw [hx, hy.1, hy.2]
        simp
    · intro r x y hx hy
      rw [hx, hy.2, step_failed c hy.1.1]
      rfl

theorem emits_xioctl (b : Bool) (c : Call) :
    Emits b (fun r p => p = (Ev.step (Ev.sys c r)).toList) (fun p => p = []) (xioctl c) :=
  emits_getState_bind (fun _ _ => emits_xioctl_loop b c _)

theorem emits_quiet_bind {α β : Type} {b : Bool} {m : M α} {f : α → M β}
    {L : β → List Step → Prop} {L' : List Step → Prop}
    (hm : Sat (Mono (fun e => Ev.step e = none)) m) (hf : ∀ a, Emits b L L' (f a))
    (hnil : L' []) : Emits b L L' (m >>= f) := by
  refine emits_bind (fun _ => L) (fun _ => L') (emits_of_sat hm b) hf ?_ ?_ ?_
  · intro a x c y hx hy
    rw [hx]
    exact hy
  · intro x hx
    rw [hx]
    exact hnil
  · intro a x y hx hy
    rw [hx]
    exact hy

theorem step_enqueue (buf : v4l2_buffer) {r : Resp} (h : r.ret ≠ -1) :
    Ev.step (Ev.sys (Call.VIDIOC_QBUF buf) r) =
      some (Step.op (QOp.enqueue buf.type buf.index)) := by
  simp [Ev.step, Ev.queue_op, h]

theorem step_dequeue (buf : v4l2_buffer) {r : Resp} (h : r.ret ≠ -1) :
    Ev.step (Ev.sys (Call.VIDIOC_DQBUF buf) r) =
      some (Step.op (QOp.dequeue buf.type r.index)) := by
  simp [Ev.step, Ev.queue_op, h]

theorem step_stop (t : v4l2_buf_type) {r : Resp} (h : r.ret ≠ -1) :
    Ev.step (Ev.sys (Call.VIDIOC_STREAMOFF t) r) = some (Step.op (QOp.stop t)) := by
  simp [Ev.step, Ev.queue_op, h]

theorem emits_errno_exit {α : Type} (b : Bool) (L : α → List Step → Prop) :
    Emits b L (fun p => p = []) (errno_exit : M α) := by
  have h := emits_of_sat (sat_errno_exit (P := fun e => Ev.step e = none) (α := α) rfl) b
  intro s hs
  obtain ⟨t, ht, hb, -, hhalt⟩ := h s hs
  refine ⟨t, ht, hb, ?_, hhalt⟩
  intro a s' hr
  simp [errno_exit_apply] at hr

/-- A checked call: `if (-1 == xioctl(...)) errno_exit(...)`. -/
theorem emits_checked {α : Type} (b : Bool) (c : Call) (v : α) :
    Emits b (fun x p => x = v ∧ ∃ r : Resp, r.ret ≠ -1 ∧ p = (Ev.step (Ev.sys c r)).toList)
      (fun p => p = [])
      (do
        let r ← xioctl c
        if r.ret = -1 then errno_exit else pure v) := by
  refine emits_bind (fun r x p => r.ret ≠ -1 ∧ x = v ∧ p = [])
    (fun r p => r.ret = -1 ∧ p = []) (emits_xioctl b c) (fun r => ?_) ?_ (fun _ h => h) ?_
  · by_cases h1 : r.ret = -1
    · simp only [h1, if_true]
      exact emits_mono (emits_errno_exit b _) (fun _ _ h => h) (fun _ h => ⟨trivial, h⟩)
    · simp only [h1, if_false]
      exact emits_mono (emits_pure b v (fun _ => False))
        (fun _ _ h => ⟨fun h' => h1 h', h⟩) (fun _ h => h.elim)
  · intro r x c y hx hy
    refine ⟨hy.2.1, r, hy.1, ?_⟩
    rw [hx, hy.2.2]
    simp
  · intro r x y hx hy
    rw [hx, hy.2, step_failed c hy.1]
    rfl

theorem emits_enqueue {α : Type} (b : Bool) (buf : v4l2_buffer) (v : α) :
    Emits b (fun x p => x = v ∧ p = [Step.op (QOp.enqueue buf.type buf.index)])
      (fun p => p = [])
      (do
        let r ← xioctl (Call.VIDIOC_QBUF buf)
        if r.ret = -1 then errno_exit else pure v) := by
  refine emits_mono (emits_checked b _ v) ?_ (fun _ h => h)
  rintro x p ⟨hx, r, hr, rfl⟩
  exact ⟨hx, by rw [step_enqueue buf hr]; rfl⟩

theorem emits_dequeue_failed (b : Bool) (e : Errno) :
    Emits b (fun x p => x = 0 ∧ p = []) (fun p => p = []) (dequeue_failed e) := by
  cases e <;>
    first
    | exact emits_pure b 0 _
    | exact emits_errno_exit b _

/-- The shape of a service call: dequeue, then the work that ends with the
re-enqueue. -/
theorem emits_dequeue_requeue (b : Bool) (buf : v4l2_buffer) (rest : Resp → M Int)
    (hrest : ∀ r, Emits b
      (fun x p => x = 1 ∧ p = [Step.op (QOp.enqueue buf.type r.index)]) (fun p => p = [])
      (rest r)) :
    Emits b
      (fun x p => (x = 0 ∧ p = []) ∨
        (x ≠ 0 ∧ ∃ i, p = [Step.op (QOp.dequeue buf.type i), Step.op (QOp.enqueue buf.type i)]))
      (fun p => p = [] ∨ ∃ i, p = [Step.op (QOp.dequeue buf.type i)])
      (do
        let r ← xioctl (Call.VIDIOC_DQBUF buf)
        if r.ret = -1 then dequeue_failed r.errno else rest r) := by
  refine emits_bind
    (fun r x p => if r.ret = -1 then x = 0 ∧ p = []
      else x = 1 ∧ p = [Step.op (QOp.enqueue buf.type r.index)])
    (fun _ p => p = []) (emits_xioctl b _) (fun r => ?_) ?_ (fun _ h => Or.inl h) ?_
  · by_cases h1 : r.ret = -1
    · simp only [h1, if_true]
      exact emits_dequeue_failed b _
    · simp only [h1, if_false]
      exact hrest r
  · intro r x c y hx hy
    by_cases h1 : r.ret = -1
    · simp only [h1, if_true] at hy
      left
      rw [hx, hy.2, step_failed _ h1]
      exact ⟨hy.1, rfl⟩
    · simp only [h1, if_false] at hy
      right
      rw [hx, hy.2, step_dequeue buf h1, hy.1]
      exact ⟨by decide, r.index, rfl⟩
  · intro r x y hx hy
    by_cases h1 : r.ret = -1
    · left
      rw [hx, hy, step_failed _ h1]
      rfl
    · right
      rw [hx, hy, step_dequeue buf h1]
      exact ⟨r.index, rfl⟩

theorem emits_read_frame_mmap (b : Bool) (type : v4l2_buf_type) (bufs : List buffer)
    (n : Nat) :
    Emits b
      (fun x p => (x = 0 ∧ p = []) ∨
        (x ≠ 0 ∧ ∃ i, p = [Step.op (QOp.dequeue type i), Step.op (QOp.enqueue type i)]))
      (fun p => p = [] ∨ ∃ i, p = [Step.op (QOp.dequeue type i)])
      (do
        let buf : v4l2_buffer := { type := type, memory := v4l2_memory.V4L2_MEMORY_MMAP }
        let r ← xioctl (Call.VIDIOC_DQBUF buf)
        if r.ret = -1 then dequeue_failed r.errno
        else
          let buf := buf.dequeued r
          if buf.index < n then do
            let b ← at_index bufs buf.index
            let bytesused ←
              (if type = v4l2_buf_type.V4L2_BUF_TYPE_VIDEO_CAPTURE then do
                process_image b.start buf.bytesused
                pure buf.bytesused
              else supply_input b.start b.length buf.bytesused)
            let r2 ← xioctl (Call.VIDIOC_QBUF { buf with bytesused := bytesused })
            if r2.ret = -1 then errno_exit else pure 1
          else halt Halt.abort) := by
  have hcb : ∀ e, Ev.callback_side e = true → Ev.step e = none := fun e he => step_callback_side he
  refine emits_dequeue_requeue b { type := type, memory := v4l2_memory.V4L2_MEMORY_MMAP } _
    (fun r => ?_)
  dsimp only
  refine emits_ite (fun _ => ?_) (fun _ => emits_halt b _ _)
  refine emits_quiet_bind (sat_at_index _ _) (fun e => ?_) rfl
  refine emits_quiet_bind (sat_ite (sat_bind (sat_process_image hcb _ _) (fun _ => sat_pure _))
    (sat_supply_input hcb _ _ _)) (fun bu => ?_) rfl
  exact emits_enqueue b _ 1

theorem emits_read_frame_userptr (b : Bool) (bufs : List buffer) (n : Nat) :
    Emits b
      (fun x p => (x = 0 ∧ p = []) ∨
        (x ≠ 0 ∧ ∃ i, p = [Step.op (QOp.dequeue v4l2_buf_type.V4L2_BUF_TYPE_VIDEO_CAPTURE i),
          Step.op (QOp.enqueue v4l2_buf_type.V4L2_BUF_TYPE_VIDEO_CAPTURE i)]))
      (fun p => p = [] ∨
        ∃ i, p = [Step.op (QOp.dequeue v4l2_buf_type.V4L2_BUF_TYPE_VIDEO_CAPTURE i)])
      (do
        let buf : v4l2_buffer :=
          { type := v4l2_buf_type.V4L2_BUF_TYPE_VIDEO_CAPTURE,
            memory := v4l2_memory.V4L2_MEMORY_USERPTR }
        let r ← xioctl (Call.VIDIOC_DQBUF buf)
        if r.ret = -1 then dequeue_failed r.errno
        else
          let buf := buf.dequeued r
          let i ← userptr_scan bufs buf.userptr buf.length n 0
          if i < n then do
            process_image buf.userptr buf.bytesused
            let r2 ← xioctl (Call.VIDIOC_QBUF buf)
            if r2.ret = -1 then errno_exit else pure 1
          else halt Halt.abort) := by
  have hcb : ∀ e, Ev.callback_side e = true → Ev.step e = none := fun e he => step_callback_side he
  refine emits_dequeue_requeue b
    { type := v4l2_buf_type.V4L2_BUF_TYPE_VIDEO_CAPTURE,
      memory := v4l2_memory.V4L2_MEMORY_USERPTR } _ (fun r => ?_)
  dsimp only
  refine emits_quiet_bind (sat_userptr_scan _ _ _ _ _) (fun i => ?_) rfl
  refine emits_ite (fun _ => ?_) (fun _ => emits_halt b _ _)
  refine emits_quiet_bind (sat_process_image hcb _ _) (fun _ => ?_) rfl
  exact emits_enqueue b _ 1

theorem emits_read_frame_mmap_mp (b : Bool) (type : v4l2_buf_type) (bufs : List buffer_mp)
    (n : Nat) :
    Emits b
      (fun x p => (x = 0 ∧ p = []) ∨
        (x ≠ 0 ∧ ∃ i, p = [Step.op (QOp.dequeue type i), Step.op (QOp.enqueue type i)]))
      (fun p => p = [] ∨ ∃ i, p = [Step.op (QOp.dequeue type i)])
      (read_frame_mmap_mp type bufs n) := by
  have hcb : ∀ e, Ev.callback_side e = true → Ev.step e = none := fun e he => step_callback_side he
  unfold read_frame_mmap_mp
  refine emits_dequeue_requeue b
    { type := type, memory := v4l2_memory.V4L2_MEMORY_MMAP, length := FMT_NUM_PLANES,
      planes := List.replicate FMT_NUM_PLANES {} } _ (fun r => ?_)
  dsimp only
  refine emits_ite (fun _ => ?_) (fun _ => emits_halt b _ _)
  refine emits_quiet_bind (sat_at_index _ _) (fun e => ?_) rfl
  refine emits_quiet_bind (sat_ite (sat_bind (sat_process_image_mp hcb _ _) (fun _ => sat_pure _))
    (sat_supply_input_mp_loop hcb _ _ _ _ _)) (fun bu => ?_) rfl
  exact emits_enqueue b _ 1

theorem added_eq {α : Type} {m : M α} {s : State} {t : List Ev}
    (h : (m s).state.trace = s.trace ++ t) : added m s = t := by
  simp [added, h]

/-- What one call of `read_frame` adds to the protocol, by outcome. -/
theorem read_frame_protocol (type : v4l2_buf_type) (bufs : List buffer) (n : Nat)
    (s : State) :
    ∃ t, (read_frame type bufs n s).state.trace = s.trace ++ t ∧
      (read_frame type bufs n s).state.multi_planar = s.multi_planar ∧
      (∀ x s', read_frame type bufs n s = Result.ok x s' →
        ((x = 0 ∨ s.io = io_method.IO_METHOD_READ) ∧ protocol t = []) ∨
        (x ≠ 0 ∧ s.io ≠ io_method.IO_METHOD_READ ∧
          ∃ i, protocol t = [Step.op (QOp.dequeue (read_frame_stream s type) i),
            Step.op (QOp.enqueue (read_frame_stream s type) i)])) ∧
      (∀ e s', read_frame type bufs n s = Result.halt e s' →
        protocol t = [] ∨
          ∃ i, protocol t = [Step.op (QOp.dequeue (read_frame_stream s type) i)]) := by
  have hcb : ∀ e, Ev.callback_side e = true → Ev.step e = none := fun e he => step_callback_side he
  unfold read_frame
  rw [bind_apply, getState_apply]
  dsimp only
  cases hio : s.io with
  | IO_METHOD_READ =>
    dsimp only
    have hsat : Sat (Mono (fun e => Ev.step e = none)) (do
        let b0 ← at_index bufs 0
        let r ← sys (Call.read b0.start b0.length)
        if r.ret = -1 then dequeue_failed r.errno
        else do
          process_image b0.start b0.length
          pure (1 : Int)) :=
      sat_bind (sat_at_index _ _) (fun b0 => sat_bind (sat_sys (fun r => rfl)) (fun r =>
        sat_ite (sat_dequeue_failed (show Ev.step (Ev.log Msg.errno_exit) = none from rfl) _)
          (sat_bind (sat_process_image hcb _ _) (fun _ => sat_pure _))))
    obtain ⟨t, ht, hb, hok, hhalt⟩ := emits_of_sat hsat s.multi_planar s rfl
    exact ⟨t, ht, hb, fun x s' hr => Or.inl ⟨Or.inr rfl, hok x s' hr⟩,
      fun e s' hr => Or.inl (hhalt e s' hr)⟩
  | IO_METHOD_MMAP =>
    dsimp only
    obtain ⟨t, ht, hb, hok, hhalt⟩ := emits_read_frame_mmap s.multi_planar type bufs n s rfl
    refine ⟨t, ht, hb, ?_, ?_⟩
    · intro x s' hr
      rcases hok x s' hr with h | h
      · exact Or.inl ⟨Or.inl h.1, h.2⟩
      · exact Or.inr ⟨h.1, by simp, by simpa [read_frame_stream, hio] using h.2⟩
    · intro e s' hr
      simpa [read_frame_stream, hio] using hhalt e s' hr
  | IO_METHOD_USERPTR =>
    dsimp only
    obtain ⟨t, ht, hb, hok, hhalt⟩ := emits_read_frame_userptr s.multi_planar bufs n s rfl
    refine ⟨t, ht, hb, ?_, ?_⟩
    · intro x s' hr
      rcases hok x s' hr with h | h
      · exact Or.inl ⟨Or.inl h.1, h.2⟩
      · exact Or.inr ⟨h.1, by simp, by simpa [read_frame_stream, hio] using h.2⟩
    · intro e s' hr
      simpa [read_frame_stream, hio] using hhalt e s' hr

theorem pair_steady (ty : v4l2_buf_type) (i : Nat) :
    Steady [Step.op (QOp.dequeue ty i), Step.op (QOp.enqueue ty i)] :=
  steady_block (Block.service ty i)

theorem open_dequeue (ty : v4l2_buf_type) (i : Nat) : Open [Step.op (QOp.dequeue ty i)] :=
  ⟨[], Steady.nil, Or.inr ⟨ty, i, rfl⟩⟩

theorem proto_read_frame (b : Bool) (type : v4l2_buf_type) (bufs : List buffer) (n : Nat) :
    Proto b (read_frame type bufs n) := by
  intro s hs
  obtain ⟨t, ht, hb, hok, hhalt⟩ := read_frame_protocol type bufs n s
  refine ⟨t, ht, by rw [hb, hs], ?_, ?_⟩
  · intro x s' hr
    rcases hok x s' hr with h | ⟨-, -, i, h⟩
    · rw [h.2]
      exact Steady.nil
    · rw [h]
      exact pair_steady _ _
  · intro e s' hr
    rcases hhalt e s' hr with h | ⟨i, h⟩
    · rw [h]
      exact open_of_steady Steady.nil
    · rw [h]
      exact open_dequeue _ _

theorem proto_read_frame_mmap_mp (b : Bool) (type : v4l2_buf_type) (bufs : List buffer_mp)
    (n : Nat) : Proto b (read_frame_mmap_mp type bufs n) := by
  refine emits_mono (emits_read_frame_mmap_mp b type bufs n) ?_ ?_
  · rintro x p (h | ⟨-, i, h⟩)
    · rw [h.2]
      exact Steady.nil
    · rw [h]
      exact pair_steady _ _
  · rintro p (h | ⟨i, h⟩)
    · rw [h]
      exact open_of_steady Steady.nil
    · rw [h]
      exact open_dequeue _ _

/-! ### Rules for sequences of blocks -/

theorem proto_bind {α β : Type} {b : Bool} {m : M α} {f : α → M β} (hm : Proto b m)
    (hf : ∀ a, Proto b (f a)) : Proto b (m >>= f) :=
  emits_bind (fun _ _ p => Steady p) (fun _ p => Open p) hm hf
    (fun _ _ _ _ hx hy => steady_append hx hy) (fun _ h => h)
    (fun _ _ _ hx hy => steady_open_append hx hy)

theorem proto_of_sat {α : Type} {m : M α} (h : Sat (Mono (fun e => Ev.step e = none)) m)
    (b : Bool) : Proto b m :=
  emits_mono (emits_of_sat h b) (fun _ _ h => by rw [h]; exact Steady.nil)
    (fun _ h => by rw [h]; exact open_of_steady Steady.nil)

theorem proto_pure {α : Type} (b : Bool) (a : α) : Proto b (pure a : M α) :=
  proto_of_sat (sat_pure a) b

theorem proto_ite {α : Type} {b : Bool} {c : Prop} [Decidable c] {m1 m2 : M α}
    (h1 : Proto b m1) (h2 : Proto b m2) : Proto b (if c then m1 else m2) :=
  emits_ite (fun _ => h1) (fun _ => h2)

theorem proto_getState_bind {α : Type} {b : Bool} {f : State → M α}
    (h : ∀ s, s.multi_planar = b → Proto b (f s)) : Proto b (getState >>= f) :=
  emits_getState_bind h

theorem proto_service (b : Bool) (type : v4l2_buf_type) {call : M Int} (h : Proto b call) :
    Proto b (service type call) := by
  unfold service
  refine proto_bind h (fun x => ?_)
  refine emits_bind (fun _ _ p => p = []) (fun _ p => p = [])
    (emits_emit b (Ev.serviced type x) (fun _ => False)) (fun _ => ?_) ?_ (fun _ h => h.elim) ?_
  · exact emits_mono (emits_pure b _ (fun p => p = [])) (fun _ _ h => h.2) (fun _ h => h)
  · intro _ x _ y hx hy
    rw [hx, hy]
    exact steady_block Block.returned
  · intro _ x y hx hy
    rw [hx, hy]
    exact open_of_steady (steady_block Block.returned)

/-! ### Starting and stopping -/

theorem batch_append_one (ty : v4l2_buf_type) (b k : Nat) :
    batch ty b (k + 1) = batch ty b k ++ [Step.op (QOp.enqueue ty (b + k))] := by
  simp [batch, List.range'_concat]

theorem emits_for_loop {b : Bool} {body : Nat → M Unit} (ty : v4l2_buf_type)
    (hbody : ∀ i, Emits b (fun _ p => p = [Step.op (QOp.enqueue ty i)]) (fun p => p = [])
      (body i)) (k i : Nat) :
    Emits b (fun _ p => p = batch ty i k) (fun p => ∃ j, p = batch ty i j)
      (for_loop k i body) := by
  induction k generalizing i with
  | zero =>
    exact emits_mono (emits_pure b () (fun p => p = [])) (fun _ _ h => h.2)
      (fun _ h => ⟨0, h⟩)
  | succ k ih =>
    unfold for_loop
    refine emits_bind (fun _ _ p => p = batch ty (i + 1) k)
      (fun _ p => ∃ j, p = batch ty (i + 1) j) (hbody i) (fun _ => ih (i + 1)) ?_ ?_ ?_
    · intro _ x _ y hx hy
      rw [hx, hy, batch_succ]
      rfl
    · intro x hx
      exact ⟨0, hx⟩
    · rintro _ x y hx ⟨j, hy⟩
      refine ⟨j + 1, ?_⟩
      rw [hx, hy, batch_succ]
      rfl

theorem emits_quiet_checked (b : Bool) {c : Call} (hc : ∀ r, Ev.step (Ev.sys c r) = none) :
    Emits b (fun _ p => p = []) (fun p => p = [])
      (do
        let r ← xioctl c
        if r.ret = -1 then errno_exit else pure ()) :=
  emits_of_sat (sat_bind (sat_xioctl hc) (fun _ =>
    sat_ite (sat_errno_exit (show Ev.step (Ev.log Msg.errno_exit) = none from rfl))
      (sat_pure _))) b

theorem emits_batch_then {b : Bool} {ty : v4l2_buf_type} {n : Nat} {m1 m2 : M Unit}
    (h1 : Emits b (fun _ p => p = batch ty 0 n) (fun p => ∃ j, p = batch ty 0 j) m1)
    (h2 : Emits b (fun _ p => p = []) (fun p => p = []) m2) :
    Emits b (fun _ p => ∃ j, p = batch ty 0 j) (fun p => ∃ j, p = batch ty 0 j)
      (m1 >>= fun _ => m2) := by
  refine emits_bind (fun _ _ p => p = []) (fun _ p => p = []) h1 (fun _ => h2) ?_
    (fun _ h => h) ?_
  · intro _ x _ y hx hy
    exact ⟨n, by rw [hx, hy]; simp⟩
  · intro _ x y hx hy
    exact ⟨n, by rw [hx, hy]; simp⟩

theorem emits_start_capturing_mmap (b : Bool) (type : v4l2_buf_type) (bufs : List buffer)
    (n : Nat) :
    Emits b (fun _ p => ∃ j, p = batch type 0 j) (fun p => ∃ j, p = batch type 0 j)
      (start_capturing_mmap type bufs n) := by
  have hcb : ∀ e, Ev.callback_side e = true → Ev.step e = none := fun e he => step_callback_side he
  unfold start_capturing_mmap
  refine emits_batch_then (emits_for_loop type (fun i => ?_) n 0)
    (emits_quiet_checked b (fun r => rfl))
  dsimp only
  refine emits_quiet_bind (sat_ite (sat_bind (sat_at_index _ _) (fun e =>
    sat_supply_input hcb _ _ _)) (sat_pure _)) (fun bu => ?_) rfl
  exact emits_mono (emits_enqueue b _ ()) (fun _ _ h => h.2) (fun _ h => h)

theorem emits_start_capturing_mmap_mp (b : Bool) (type : v4l2_buf_type)
    (bufs : List buffer_mp) (n : Nat) :
    Emits b (fun _ p => ∃ j, p = batch type 0 j) (fun p => ∃ j, p = batch type 0 j)
      (start_capturing_mmap_mp type bufs n) := by
  have hcb : ∀ e, Ev.callback_side e = true → Ev.step e = none := fun e he => step_callback_side he
  unfold start_capturing_mmap_mp
  refine emits_batch_then (emits_for_loop type (fun i => ?_) n 0)
    (emits_quiet_checked b (fun r => rfl))
  dsimp only
  refine emits_quiet_bind (sat_ite (sat_bind (sat_at_index _ _) (fun e =>
    sat_supply_input_mp_loop hcb _ _ _ _ _)) (sat_pure _)) (fun bu => ?_) rfl
  exact emits_mono (emits_enqueue b _ ()) (fun _ _ h => h.2) (fun _ h => h)

theorem fresh_capture {t : v4l2_buf_type} (ht : t.is_output = false) (j : Nat) :
    Fresh (batch t 0 j) :=
  ⟨t, j, v4l2_buf_type.V4L2_BUF_TYPE_VIDEO_OUTPUT, 0, ht, rfl, by simp [batch_zero]⟩

theorem fresh_nil : Fresh [] :=
  ⟨v4l2_buf_type.V4L2_BUF_TYPE_VIDEO_CAPTURE, 0, v4l2_buf_type.V4L2_BUF_TYPE_VIDEO_OUTPUT, 0,
    rfl, rfl, rfl⟩

/-- The first enqueues of a session, whatever the outcome of `start_capturing`. -/
theorem emits_start_capturing (b : Bool) :
    Emits b (fun _ p => Fresh p) Fresh start_capturing := by
  unfold start_capturing
  refine emits_getState_bind (fun s _ => ?_)
  cases s.io with
  | IO_METHOD_READ =>
    exact emits_mono (emits_pure b () (fun p => p = [])) (fun _ _ h => by rw [h.2]; exact fresh_nil)
      (fun _ h => by rw [h]; exact fresh_nil)
  | IO_METHOD_MMAP =>
    dsimp only
    have hcap : ∃ t1 : v4l2_buf_type, t1.is_output = false ∧
        Emits b (fun _ p => ∃ j, p = batch t1 0 j) (fun p => ∃ j, p = batch t1 0 j)
          (if s.multi_planar = true then
            start_capturing_mmap_mp v4l2_buf_type.V4L2_BUF_TYPE_VIDEO_CAPTURE_MPLANE
              s.buffers_mp s.n_buffers
          else
            start_capturing_mmap v4l2_buf_type.V4L2_BUF_TYPE_VIDEO_CAPTURE s.buffers
              s.n_buffers) := by
      cases s.multi_planar with
      | true =>
        exact ⟨v4l2_buf_type.V4L2_BUF_TYPE_VIDEO_CAPTURE_MPLANE, rfl,
          emits_start_capturing_mmap_mp b _ _ _⟩
      | false =>
        exact ⟨v4l2_buf_type.V4L2_BUF_TYPE_VIDEO_CAPTURE, rfl,
          emits_start_capturing_mmap b _ _ _⟩
    obtain ⟨t1, ht1, h1⟩ := hcap
    refine emits_bind (fun _ _ p => ∃ (t2 : v4l2_buf_type) (j : Nat),
        t2.is_output = true ∧ p = batch t2 0 j)
      (fun _ p => ∃ (t2 : v4l2_buf_type) (j : Nat), t2.is_output = true ∧ p = batch t2 0 j)
      h1 (fun _ => ?_) ?_ ?_ ?_
    · refine emits_getState_bind (fun s2 _ => ?_)
      refine emits_ite (fun _ => ?_) (fun _ => ?_)
      · refine emits_ite (fun _ => ?_) (fun _ => ?_)
        · exact emits_mono (emits_start_capturing_mmap_mp b
              v4l2_buf_type.V4L2_BUF_TYPE_VIDEO_OUTPUT_MPLANE _ _)
            (fun _ _ h => ⟨v4l2_buf_type.V4L2_BUF_TYPE_VIDEO_OUTPUT_MPLANE, h.choose, rfl,
              h.choose_spec⟩)
            (fun _ h => ⟨v4l2_buf_type.V4L2_BUF_TYPE_VIDEO_OUTPUT_MPLANE, h.choose, rfl,
              h.choose_spec⟩)
        · exact emits_mono (emits_start_capturing_mmap b
              v4l2_buf_type.V4L2_BUF_TYPE_VIDEO_OUTPUT _ _)
            (fun _ _ h => ⟨v4l2_buf_type.V4L2_BUF_TYPE_VIDEO_OUTPUT, h.choose, rfl,
              h.choose_spec⟩)
            (fun _ h => ⟨v4l2_buf_type.V4L2_BUF_TYPE_VIDEO_OUTPUT, h.choose, rfl,
              h.choose_spec⟩)
      · exact emits_mono (emits_pure b () (fun p => p = []))
          (fun _ _ h => ⟨v4l2_buf_type.V4L2_BUF_TYPE_VIDEO_OUTPUT, 0, rfl, h.2⟩)
          (fun _ h => ⟨v4l2_buf_type.V4L2_BUF_TYPE_VIDEO_OUTPUT, 0, rfl, h⟩)
    · rintro _ x _ y ⟨j1, hx⟩ ⟨t2, j2, ht2, hy⟩
      exact ⟨t1, j1, t2, j2, ht1, ht2, by rw [hx, hy]⟩
    · rintro x ⟨j1, hx⟩
      rw [hx]
      exact fresh_capture ht1 j1
    · rintro _ x y ⟨j1, hx⟩ ⟨t2, j2, ht2, hy⟩
      exact ⟨t1, j1, t2, j2, ht1, ht2, by rw [hx, hy]⟩
  | IO_METHOD_USERPTR =>
    dsimp only
    have h := emits_batch_then (emits_for_loop v4l2_buf_type.V4L2_BUF_TYPE_VIDEO_CAPTURE
      (fun i => emits_quiet_bind (sat_at_index s.buffers i) (fun e =>
        emits_mono (emits_enqueue b
          { type := v4l2_buf_type.V4L2_BUF_TYPE_VIDEO_CAPTURE,
            memory := v4l2_memory.V4L2_MEMORY_USERPTR, index := i,
            userptr := e.start, length := e.length } ())
          (fun _ _ h => h.2) (fun _ h => h)) rfl) s.n_buffers 0)
      (emits_quiet_checked b (c := Call.VIDIOC_STREAMON v4l2_buf_type.V4L2_BUF_TYPE_VIDEO_CAPTURE)
        (fun r => rfl))
    have hty : v4l2_buf_type.is_output v4l2_buf_type.V4L2_BUF_TYPE_VIDEO_CAPTURE = false := rfl
    exact emits_mono h (fun _ _ h => by obtain ⟨j, rfl⟩ := h; exact fresh_capture hty j)
      (fun _ h => by obtain ⟨j, rfl⟩ := h; exact fresh_capture hty j)

theorem emits_stream_type (b : Bool) (t : v4l2_buf_type) :
    Emits b (fun ty p => (t = v4l2_buf_type.V4L2_BUF_TYPE_VIDEO_CAPTURE →
        ty = capture_type_of b) ∧ p = []) (fun _ => False) (stream_type t) := by
  intro s hs
  refine ⟨[], ?_, ?_, ?_, ?_⟩
  · cases hmp : s.multi_planar <;> cases t <;> simp [stream_type, hmp, Result.state]
  · cases hmp : s.multi_planar <;> cases t <;> simp_all [stream_type, Result.state]
  · intro ty s' hr
    refine ⟨fun ht => ?_, rfl⟩
    subst ht
    rw [stream_type_capture] at hr
    simp only [Result.ok.injEq] at hr
    rw [← hr.1, hs]
    rfl
  · intro e s' hr
    cases hmp : s.multi_planar <;> cases t <;> simp [stream_type, hmp] at hr

theorem emits_stop_capture (b : Bool) (t : v4l2_buf_type) :
    Emits b (fun _ p => ∃ ty, (t = v4l2_buf_type.V4L2_BUF_TYPE_VIDEO_CAPTURE →
        ty = capture_type_of b) ∧ p = [Step.op (QOp.stop ty)]) (fun p => p = [])
      (stop_capture t) := by
  unfold stop_capture
  refine emits_bind (fun ty _ p => p = [Step.op (QOp.stop ty)]) (fun _ p => p = [])
    (emits_stream_type b t) (fun ty => ?_) ?_ (fun _ h => h.elim) ?_
  · refine emits_mono (emits_checked b _ ()) ?_ (fun _ h => h)
    rintro _ p ⟨-, r, hr, rfl⟩
    rw [step_stop ty hr]
    rfl
  · intro ty x _ y hx hy
    exact ⟨ty, hx.1, by rw [hx.2, hy]; rfl⟩
  · intro ty x y hx hy
    rw [hx.2, hy]
    rfl

theorem stop_steady (ty : v4l2_buf_type) : Steady [Step.op (QOp.stop ty)] := by
  have := steady_block (Block.restart ty 0)
  simpa [batch_zero] using this

theorem proto_stop_capture (b : Bool) (t : v4l2_buf_type) : Proto b (stop_capture t) := by
  refine emits_mono (emits_stop_capture b t) ?_ ?_
  · rintro _ p ⟨ty, -, rfl⟩
    exact stop_steady ty
  · rintro p rfl
    exact open_of_steady Steady.nil

theorem proto_stop_capturing (b : Bool) : Proto b stop_capturing := by
  unfold stop_capturing
  refine proto_getState_bind (fun s _ => ?_)
  split
  · exact proto_pure b ()
  · exact proto_bind (proto_stop_capture b _) (fun _ => proto_getState_bind (fun s2 _ =>
      proto_ite (proto_stop_capture b _) (proto_pure b ())))

theorem emits_restart (b : Bool) :
    Emits b (fun _ p => ∃ j, p = batch (capture_type_of b) 0 j)
      (fun p => ∃ j, p = batch (capture_type_of b) 0 j)
      (do
        let s ← getState
        if s.multi_planar then do
          unmap_buffers_mp s.buffers_mp s.n_buffers
          emit (Ev.log Msg.Unmapped_all_buffers)
          free_buffers_mmap v4l2_buf_type.V4L2_BUF_TYPE_VIDEO_CAPTURE_MPLANE
          let (bufs, n) ← init_mmap_mp v4l2_buf_type.V4L2_BUF_TYPE_VIDEO_CAPTURE_MPLANE
          modify (fun s1 => { s1 with buffers_mp := bufs, n_buffers := n })
          start_capturing_mmap_mp v4l2_buf_type.V4L2_BUF_TYPE_VIDEO_CAPTURE_MPLANE bufs n
        else do
          unmap_buffers s.buffers s.n_buffers
          emit (Ev.log Msg.Unmapped_all_buffers)
          free_buffers_mmap v4l2_buf_type.V4L2_BUF_TYPE_VIDEO_CAPTURE
          let (bufs, n) ← init_mmap v4l2_buf_type.V4L2_BUF_TYPE_VIDEO_CAPTURE
          modify (fun s1 => { s1 with buffers := bufs, n_buffers := n })
          start_capturing_mmap v4l2_buf_type.V4L2_BUF_TYPE_VIDEO_CAPTURE bufs n) := by
  have hq : ∀ e, Ev.setup_side e = true → Ev.step e = none := fun e he => step_setup_side he
  refine emits_getState_bind (fun s hs => ?_)
  rw [hs]
  cases b with
  | true =>
    simp only [if_true]
    refine emits_quiet_bind (sat_unmap_buffers_mp hq _ _) (fun _ => ?_) ⟨0, rfl⟩
    refine emits_quiet_bind (sat_emit (by rfl)) (fun _ => ?_) ⟨0, rfl⟩
    refine emits_quiet_bind (sat_free_buffers_mmap hq _ rfl) (fun _ => ?_) ⟨0, rfl⟩
    refine emits_quiet_bind (sat_init_mmap_mp hq _ rfl) (fun x => ?_) ⟨0, rfl⟩
    obtain ⟨bufs, n⟩ := x
    refine emits_quiet_bind (sat_modify (fun s => ⟨by simp [Frame], rfl, rfl⟩)) (fun _ => ?_)
      ⟨0, rfl⟩
    exact emits_start_capturing_mmap_mp true _ _ _
  | false =>
    simp only [Bool.false_eq_true, if_false]
    refine emits_quiet_bind (sat_unmap_buffers hq _ _) (fun _ => ?_) ⟨0, rfl⟩
    refine emits_quiet_bind (sat_emit (by rfl)) (fun _ => ?_) ⟨0, rfl⟩
    refine emits_quiet_bind (sat_free_buffers_mmap hq _ rfl) (fun _ => ?_) ⟨0, rfl⟩
    refine emits_quiet_bind (sat_init_mmap hq _ rfl) (fun x => ?_) ⟨0, rfl⟩
    obtain ⟨bufs, n⟩ := x
    refine emits_quiet_bind (sat_modify (fun s => ⟨by simp [Frame], rfl, rfl⟩)) (fun _ => ?_)
      ⟨0, rfl⟩
    exact emits_start_capturing_mmap false _ _ _

theorem proto_handle_source_change (b : Bool) : Proto b handle_source_change := by
  unfold handle_source_change
  refine proto_bind (proto_of_sat (sat_emit (by rfl)) b) (fun _ => ?_)
  refine emits_bind (fun _ _ p => ∃ j, p = batch (capture_type_of b) 0 j)
    (fun _ p => ∃ j, p = batch (capture_type_of b) 0 j)
    (emits_stop_capture b v4l2_buf_type.V4L2_BUF_TYPE_VIDEO_CAPTURE)
    (fun _ => emits_restart b) ?_ ?_ ?_
  · rintro _ x _ y ⟨ty, hty, rfl⟩ ⟨j, rfl⟩
    rw [hty rfl]
    exact steady_block (Block.restart _ j)
  · rintro x rfl
    exact open_of_steady Steady.nil
  · rintro _ x y ⟨ty, hty, rfl⟩ ⟨j, rfl⟩
    rw [hty rfl]
    exact open_of_steady (steady_block (Block.restart _ j))

theorem proto_handle_event_loop (b : Bool) (n : Nat) : Proto b (handle_event_loop n) := by
  induction n with
  | zero => exact proto_of_sat (sat_halt _) b
  | succ n ih =>
    unfold handle_event_loop
    refine proto_bind (proto_of_sat (sat_sys (fun r => by rfl)) b) (fun ev =>
      proto_ite (proto_bind ?_ (fun _ => ih)) (proto_pure b ()))
    split
    · exact proto_handle_source_change b
    · exact proto_of_sat (sat_emit (by rfl)) b
    · exact proto_pure b ()

theorem proto_handle_event (b : Bool) : Proto b handle_event :=
  proto_getState_bind (fun _ _ => proto_handle_event_loop b _)

/-! ### The loop -/

theorem proto_mainloop_body (b : Bool) : Proto b mainloop_body := by
  unfold mainloop_body
  dsimp only
  refine proto_bind (proto_of_sat (sat_sys (fun r => by rfl)) b) (fun r => ?_)
  refine proto_ite (proto_ite (proto_pure b _) (proto_of_sat (sat_errno_exit (by rfl)) b)) ?_
  refine proto_ite (proto_of_sat (sat_exit_with (by rfl)) b) ?_
  refine proto_bind (proto_ite ?_ (proto_pure b _)) (fun got => proto_ite (proto_pure b _) ?_)
  · refine proto_bind (proto_of_sat (sat_emit (by rfl)) b) (fun _ => proto_getState_bind (fun s _ =>
      proto_ite (proto_service b _ (proto_read_frame_mmap_mp b _ _ _))
        (proto_service b _ (proto_read_frame b _ _ _))))
  refine proto_bind (proto_ite ?_ (proto_pure b _)) (fun got => proto_ite (proto_pure b _) ?_)
  · refine proto_bind (proto_of_sat (sat_emit (by rfl)) b) (fun _ => proto_getState_bind (fun s _ =>
      proto_ite (proto_service b _ (proto_read_frame_mmap_mp b _ _ _))
        (proto_service b _ (proto_read_frame b _ _ _))))
  refine proto_bind (proto_ite ?_ (proto_pure b _)) (fun _ => proto_pure b _)
  exact proto_bind (proto_of_sat (sat_emit (by rfl)) b) (fun _ => proto_handle_event b)

theorem proto_mainloop_inner (b : Bool) (n : Nat) : Proto b (mainloop_inner n) := by
  induction n with
  | zero => exact proto_of_sat (sat_halt _) b
  | succ n ih =>
    unfold mainloop_inner
    exact proto_bind (proto_mainloop_body b) (fun brk =>
      proto_ite (proto_of_sat (sat_emit (by rfl)) b) ih)

theorem proto_mainloop_outer (b : Bool) (count : Nat) : Proto b (mainloop_outer count) := by
  induction count with
  | zero => exact proto_pure b ()
  | succ count ih =>
    unfold mainloop_outer
    exact proto_getState_bind (fun s _ =>
      proto_bind (proto_mainloop_inner b _) (fun _ => ih))

theorem proto_mainloop (b : Bool) : Proto b mainloop :=
  proto_getState_bind (fun _ _ => proto_mainloop_outer b _)

/-- The protocol of the streaming part of a session, whatever its outcome: the
first enqueues, then blocks, with a last dequeue possibly unanswered. -/
theorem main_streaming_protocol (s : State) :
    ∃ t a c, (main_streaming s).state.trace = s.trace ++ t ∧ protocol t = a ++ c ∧
      Fresh a ∧ Open c := by
  have h : Emits s.multi_planar (fun _ p => ∃ a c, p = a ++ c ∧ Fresh a ∧ Open c)
      (fun p => ∃ a c, p = a ++ c ∧ Fresh a ∧ Open c) main_streaming := by
    unfold main_streaming
    refine emits_bind (fun _ _ p => Steady p) (fun _ p => Open p)
      (emits_start_capturing s.multi_planar)
      (fun _ => proto_bind (proto_mainloop _) (fun _ => proto_stop_capturing _)) ?_ ?_ ?_
    · intro _ x _ y hx hy
      exact ⟨x, y, rfl, hx, open_of_steady hy⟩
    · intro x hx
      exact ⟨x, [], by simp, hx, open_of_steady Steady.nil⟩
    · intro _ x y hx hy
      exact ⟨x, y, rfl, hx, hy⟩
  obtain ⟨t, ht, -, hok, hhalt⟩ := h s rfl
  cases hres : main_streaming s with
  | ok u s' =>
    obtain ⟨a, c, hp, ha, hc⟩ := hok u s' hres
    exact ⟨t, a, c, by rw [← hres]; exact ht, hp, ha, hc⟩
  | halt e s' =>
    obtain ⟨a, c, hp, ha, hc⟩ := hhalt e s' hres
    exact ⟨t, a, c, by rw [← hres]; exact ht, hp, ha, hc⟩

/-! ## The size sanity adjustment -/

theorem paranoia_plane_zero (w h : Nat) (p : v4l2_plane_pix_format) :
    (p.bytesperline = 0 → (paranoia_plane w h p).bytesperline = 0) ∧
      (p.sizeimage = 0 → (paranoia_plane w h p).sizeimage = 0) := by
  unfold paranoia_plane
  constructor
  · intro hb
    simp only [hb]
    split_ifs <;> simp_all
  · intro hz
    simp only [hz]
    split_ifs <;> simp_all

theorem paranoia_pix_mp_getElem (pix_mp : v4l2_pix_format_mplane) (i : Nat)
    (p : v4l2_plane_pix_format) (h : pix_mp.plane_fmt[i]? = some p) :
    (paranoia_pix_mp pix_mp).plane_fmt[i]? =
      some (if i < FMT_NUM_PLANES then paranoia_plane pix_mp.width pix_mp.height p else p) := by
  have hi : i < pix_mp.plane_fmt.length := by
    by_contra hcon
    rw [List.getElem?_eq_none (by omega)] at h
    cases h
  unfold paranoia_pix_mp
  dsimp only
  by_cases hlt : i < FMT_NUM_PLANES
  · rw [List.getElem?_append_left (by simp; omega)]
    simp [List.getElem?_map, List.getElem?_take, hlt, h]
  · rw [List.getElem?_append_right (by simp; omega)]
    simp only [List.length_map, List.length_take, List.getElem?_drop, hlt, if_false]
    have hmin : min FMT_NUM_PLANES pix_mp.plane_fmt.length = FMT_NUM_PLANES := by omega
    rw [hmin, ← h]
    congr 1
    omega

theorem paranoia_pix_eq (pix : v4l2_pix_format) :
    paranoia_pix pix =
      { width := pix.width, height := pix.height,
        bytesperline := max pix.bytesperline ((pix.width * 2) % 2 ^ 32),
        sizeimage := max pix.sizeimage
          ((max pix.bytesperline ((pix.width * 2) % 2 ^ 32) * pix.height) % 2 ^ 32) } := by
  unfold paranoia_pix
  by_cases h1 : pix.bytesperline < (pix.width * 2) % 2 ^ 32
  · have hm : max pix.bytesperline ((pix.width * 2) % 2 ^ 32) = (pix.width * 2) % 2 ^ 32 :=
      Nat.max_eq_right (Nat.le_of_lt h1)
    simp only [h1, if_true, hm]
    by_cases h2 : pix.sizeimage < ((pix.width * 2) % 2 ^ 32 * pix.height) % 2 ^ 32
    · simp only [h2, if_true, Nat.max_eq_right (Nat.le_of_lt h2)]
    · simp only [h2, if_false, Nat.max_eq_left (Nat.le_of_not_lt h2)]
  · have hm : max pix.bytesperline ((pix.width * 2) % 2 ^ 32) = pix.bytesperline :=
      Nat.max_eq_left (Nat.le_of_not_lt h1)
    simp only [h1, if_false, hm]
    by_cases h2 : pix.sizeimage < (pix.bytesperline * pix.height) % 2 ^ 32
    · simp only [h2, if_true, Nat.max_eq_right (Nat.le_of_lt h2)]
    · simp only [h2, if_false, Nat.max_eq_left (Nat.le_of_not_lt h2)]

/-! ## The access-unit source -/

theorem load_store_next (mem : Nat → Nat) (buf : Nat) (data : List Nat) :
    load (store mem buf data) (buf + 1) data.length =
      if data = [] then [] else data.drop 1 ++ [mem (buf + data.length)] := by
  cases data with
  | nil => simp [load]
  | cons d rest =>
    simp only [reduceCtorEq, if_false, List.drop_succ_cons, List.drop_zero, List.length_cons]
    apply List.ext_getElem
    · simp [load]
    · intro i h1 h2
      simp only [load, List.getElem_map, List.getElem_range, store, List.length_cons]
      by_cases hi : i < rest.length
      · rw [List.getElem_append_left hi]
        have hc : buf ≤ buf + 1 + i ∧ buf + 1 + i < buf + (rest.length + 1) := by omega
        rw [if_pos hc]
        have hsub : buf + 1 + i - buf = i + 1 := by omega
        rw [hsub]
        simp [List.getD_eq_getElem?_getD, List.getElem?_eq_getElem hi]
      · have hlen : (load (store mem buf (d :: rest)) (buf + 1) (rest.length + 1)).length =
            rest.length + 1 := by simp [load]
        have hie : i = rest.length := by
          simp only [load, List.length_map, List.length_range] at h1
          omega
        subst hie
        rw [List.getElem_append_right (by omega)]
        have hc : ¬ (buf ≤ buf + 1 + rest.length ∧ buf + 1 + rest.length < buf + (rest.length + 1)) := by
          omega
        rw [if_neg hc]
        simp only [Nat.sub_self, List.getElem_singleton]
        congr 1
        omega

theorem supply_input_by_au_eq (buf buf_len : Nat) (s : State) (h : s.in_fp = true) :
    supply_input_by_au buf buf_len s =
      match memmem (au_haystack s buf buf_len) aud with
      | none =>
        Result.halt Halt.undefined
          { s with in_pos := s.f_offset + (au_read s buf_len).length,
                   mem := store s.mem buf (au_read s buf_len),
                   trace := s.trace ++ [Ev.supply_input_by_au buf buf_len] }
      | some k =>
        Result.ok ((k + 1) % 2 ^ 32)
          { s with in_pos := s.f_offset + (au_read s buf_len).length,
                   f_offset := s.f_offset + (k + 1),
                   mem := store (store s.mem buf (au_read s buf_len)) (buf + (k + 1))
                     (List.replicate (buf_len - (k + 1)) 0),
                   trace := s.trace ++
                     [Ev.supply_input_by_au buf buf_len, Ev.log Msg.Used_bytes] } := by
  have hload := load_store_next s.mem buf (au_read s buf_len)
  unfold supply_input_by_au
  simp only [bind_apply, emit_apply, getState_apply, h, if_true, fseek, modify_apply, fread,
    pure_apply]
  simp only [au_read] at hload ⊢
  rw [hload]
  simp only [au_haystack, au_read]
  cases hm : memmem (if List.take buf_len (List.drop s.f_offset s.in_file) = [] then []
      else List.drop 1 (List.take buf_len (List.drop s.f_offset s.in_file)) ++
        [s.mem (buf + (List.take buf_len (List.drop s.f_offset s.in_file)).length)]) aud with
  | none => simp [halt_apply]
  | some k => simp [bind_apply, modify_apply, memset_zero, emit_apply, pure_apply]

theorem memmem_bound {hay needle : List Nat} {k : Nat} (h : memmem hay needle = some k) :
    k + needle.length ≤ hay.length := by
  induction hay generalizing k with
  | nil =>
    unfold memmem at h
    split at h
    · rename_i hn
      simp only [Option.some.injEq] at h
      subst h
      simp [hn]
    · cases h
  | cons b rest ih =>
    unfold memmem at h
    split at h
    · rename_i ht
      simp only [Option.some.injEq] at h
      subst h
      have := congrArg List.length ht
      simp only [List.length_take, List.length_cons] at this
      simp only [List.length_cons]
      omega
    · cases hr : memmem rest needle with
      | none => simp [hr] at h
      | some j =>
        simp only [hr, Option.map_some', Option.some.injEq] at h
        subst h
        have := ih hr
        simp only [List.length_cons]
        omega

theorem au_haystack_length (s : State) (buf buf_len : Nat) :
    (au_haystack s buf buf_len).length = (au_read s buf_len).length := by
  unfold au_haystack
  split
  · rename_i h
    simp [h]
  · rename_i h
    have : 0 < (au_read s buf_len).length := List.length_pos.mpr h
    simp only [List.length_append, List.length_drop, List.length_singleton]
    omega

theorem au_read_length_le (s : State) (buf_len : Nat) :
    (au_read s buf_len).length ≤ s.in_file.length - s.f_offset ∧
      (au_read s buf_len).length ≤ buf_len := by
  simp only [au_read, List.length_take, List.length_drop]
  omega

theorem supply_input_mp_value (bufs lens : List Nat) (s : State) (h : s.in_fp = true) :
    (supply_input_mp bufs lens s).value =
        (memmem (au_haystack s (bufs.getD 0 0) (lens.getD 0 0)) aud).map
          (fun k => (k + 1) % 2 ^ 32) ∧
      (memmem (au_haystack s (bufs.getD 0 0) (lens.getD 0 0)) aud = none →
        (supply_input_mp bufs lens s).halted = some Halt.undefined) := by
  have heq : supply_input_mp bufs lens s =
      (supply_input_by_au (bufs.getD 0 0) (lens.getD 0 0) >>= fun bytes =>
        (pure ((0 + bytes) % 2 ^ 32) : M Nat)) s := rfl
  rw [heq, bind_apply, supply_input_by_au_eq _ _ _ h]
  cases hm : memmem (au_haystack s (bufs.getD 0 0) (lens.getD 0 0)) aud with
  | none => simp [Result.value, Result.halted]
  | some k => simp [Result.value, pure_apply]

/-! ## The user-pointer consistency check -/

theorem userptr_scan_eq (bufs : List buffer) (r : Resp) (k i : Nat) (s : State)
    (h : i + k ≤ bufs.length) :
    userptr_scan bufs r.userptr r.length k i s =
      Result.ok (i + ((bufs.drop i).take k).findIdx (userptr_match r)) s := by
  induction k generalizing i with
  | zero => simp [userptr_scan, pure_apply]
  | succ k ih =>
    have hi : i < bufs.length := by omega
    have hdrop : (bufs.drop i).take (k + 1) = bufs[i] :: (bufs.drop (i + 1)).take k := by
      rw [List.drop_eq_getElem_cons hi, List.take_succ_cons]
    unfold userptr_scan
    rw [bind_apply]
    simp only [at_index, List.getElem?_eq_getElem hi, pure_apply, ite_apply]
    rw [hdrop, List.findIdx_cons]
    by_cases hm : r.userptr = bufs[i].start ∧ r.length = bufs[i].length
    · simp [hm, userptr_match]
    · rw [if_neg hm, ih (i + 1) (by omega)]
      simp only [userptr_match, hm, decide_False, cond_false]
      congr 1
      omega

/-! ## The outcome of a service call -/

theorem gives_mono {α γ : Type} {v : Ev → Option γ} {m : M α} {A C : α → List γ → Prop}
    {A' C' : Halt → List γ → Prop} (h : Gives v A A' m) (h1 : ∀ a p, A a p → C a p)
    (h2 : ∀ e p, A' e p → C' e p) : Gives v C C' m := by
  intro s
  obtain ⟨t, ht, hok, hhalt⟩ := h s
  exact ⟨t, ht, fun a s' hr => h1 _ _ (hok a s' hr), fun e s' hr => h2 _ _ (hhalt e s' hr)⟩

theorem gives_bind {α β γ : Type} {v : Ev → Option γ} {m : M α} {f : α → M β}
    {A : α → List γ → Prop} {A' : Halt → List γ → Prop}
    {C : β → List γ → Prop} {C' : Halt → List γ → Prop}
    (B : α → β → List γ → Prop) (B' : α → Halt → List γ → Prop)
    (hm : Gives v A A' m) (hf : ∀ a, Gives v (B a) (B' a) (f a))
    (hok : ∀ a x c y, A a x → B a c y → C c (x ++ y))
    (hh1 : ∀ e x, A' e x → C' e x)
    (hh2 : ∀ a e x y, A a x → B' a e y → C' e (x ++ y)) : Gives v C C' (m >>= f) := by
  intro s
  obtain ⟨t1, ht1, hok1, hhalt1⟩ := hm s
  cases hres : m s with
  | ok a s1 =>
    rw [hres] at ht1
    simp only [Result.state] at ht1
    obtain ⟨t2, ht2, hok2, hhalt2⟩ := hf a s1
    rw [bind_ok_eq hres]
    refine ⟨t1 ++ t2, by rw [ht2, ht1, List.append_assoc], ?_, ?_⟩
    · intro c s' hr
      rw [List.filterMap_append]
      exact hok _ _ _ _ (hok1 a s1 hres) (hok2 c s' hr)
    · intro e s' hr
      rw [List.filterMap_append]
      exact hh2 _ _ _ _ (hok1 a s1 hres) (hhalt2 e s' hr)
  | halt e s1 =>
    rw [hres] at ht1
    simp only [Result.state] at ht1
    rw [bind_halt_eq hres]
    refine ⟨t1, ht1, ?_, ?_⟩
    · intro c s' hr
      cases hr
    · intro e' s' hr
      simp only [Result.halt.injEq] at hr
      rw [← hr.1]
      exact hh1 _ _ (hhalt1 e s1 hres)

theorem gives_of_sat {α γ : Type} {v : Ev → Option γ} {m : M α} (Q : γ → Prop)
    (h : Sat (Mono (fun e => ∀ x, v e = some x → Q x)) m) :
    Gives v (fun _ p => ∀ x ∈ p, Q x) (fun _ p => ∀ x ∈ p, Q x) m := by
  intro s
  obtain ⟨-, ⟨t, ht, hq⟩, -⟩ := h s
  have hall : ∀ x ∈ t.filterMap v, Q x := by
    intro x hx
    obtain ⟨e, he, hv⟩ := List.mem_filterMap.mp hx
    exact hq e he x hv
  exact ⟨t, ht, fun _ _ _ => hall, fun _ _ _ => hall⟩

theorem gives_quiet {α γ : Type} {v : Ev → Option γ} {m : M α}
    (h : Sat (Mono (fun e => v e = none)) m) :
    Gives v (fun _ p => p = []) (fun _ p => p = []) m := by
  intro s
  obtain ⟨-, ⟨t, ht, hq⟩, -⟩ := h s
  have hnil : t.filterMap v = [] := List.filterMap_eq_nil_iff.mpr hq
  exact ⟨t, ht, fun _ _ _ => hnil, fun _ _ _ => hnil⟩

theorem gives_pure {α γ : Type} (v : Ev → Option γ) (a : α) (L' : Halt → List γ → Prop) :
    Gives v (fun x p => x = a ∧ p = []) L' (pure a : M α) := by
  intro s
  refine ⟨[], by simp [pure_apply, Result.state], ?_, ?_⟩
  · intro x s' hr
    simp only [pure_apply, Result.ok.injEq] at hr
    exact ⟨hr.1.symm, rfl⟩
  · intro e s' hr
    simp [pure_apply] at hr

theorem gives_halt {α γ : Type} (v : Ev → Option γ) (e : Halt) (L : α → List γ → Prop) :
    Gives v L (fun h p => h = e ∧ p = []) (halt e : M α) := by
  intro s
  refine ⟨[], by simp [halt_apply, Result.state], ?_, ?_⟩
  · intro x s' hr
    simp [halt_apply] at hr
  · intro e' s' hr
    simp only [halt_apply, Result.halt.injEq] at hr
    exact ⟨hr.1.symm, rfl⟩

theorem gives_ite {α γ : Type} {v : Ev → Option γ} {c : Prop} [Decidable c] {m1 m2 : M α}
    {L : α → List γ → Prop} {L' : Halt → List γ → Prop}
    (h1 : c → Gives v L L' m1) (h2 : ¬ c → Gives v L L' m2) :
    Gives v L L' (if c then m1 else m2) := by
  split
  · exact h1 ‹_›
  · exact h2 ‹_›

theorem gives_errno_exit {α γ : Type} (v : Ev → Option γ) (L : α → List γ → Prop)
    (hv : v (Ev.log Msg.errno_exit) = none) :
    Gives v L (fun h p => h = Halt.exit ∧ p = []) (errno_exit : M α) := by
  intro s
  refine ⟨[Ev.log Msg.errno_exit], by simp [errno_exit_apply, Result.state], ?_, ?_⟩
  · intro x s' hr
    simp [errno_exit_apply] at hr
  · intro e' s' hr
    simp only [errno_exit_apply, Result.halt.injEq] at hr
    exact ⟨hr.1.symm, by simp [hv]⟩

theorem gives_sys {γ : Type} (v : Ev → Option γ) (c : Call) :
    Gives v (fun r p => p = (v (Ev.sys c r)).toList) (fun h p => h = Halt.starved ∧ p = [])
      (sys c) := by
  intro s
  cases hscr : s.script with
  | nil =>
    refine ⟨[], by simp [M2M.sys, hscr, Result.state], ?_, ?_⟩
    · intro r s' hr
      simp [M2M.sys, hscr] at hr
    · intro e s' hr
      simp only [M2M.sys, hscr, Result.halt.injEq] at hr
      exact ⟨hr.1.symm, rfl⟩
  | cons r rest =>
    refine ⟨[Ev.sys c r], by simp [M2M.sys, hscr, Result.state], ?_, ?_⟩
    · intro r' s' hr
      simp only [M2M.sys, hscr, Result.ok.injEq] at hr
      rw [← hr.1]
      cases h : v (Ev.sys c r) <;> simp [h]
    · intro e s' hr
      simp [M2M.sys, hscr] at hr

theorem gives_xioctl_loop {γ : Type} (v : Ev → Option γ) (c : Call)
    (hv : ∀ r : Resp, r.interrupted = true → v (Ev.sys c r) = none) (n : Nat) :
    Gives v (fun r p => r.interrupted = false ∧ p = (v (Ev.sys c r)).toList)
      (fun h p => h = Halt.starved ∧ p = []) (xioctl_loop n c) := by
  induction n with
  | zero => exact gives_halt v _ _
  | succ n ih =>
    unfold xioctl_loop
    refine gives_bind
      (fun r r' p => if r.ret = -1 ∧ r.errno = Errno.EINTR then
          r'.interrupted = false ∧ p = (v (Ev.sys c r')).toList
        else r' = r ∧ p = [])
      (fun r h p => (r.ret = -1 ∧ r.errno = Errno.EINTR) ∧ h = Halt.starved ∧ p = [])
      (gives_sys v c) (fun r => ?_) ?_ (fun _ _ h => h) ?_
    · by_cases hint : r.ret = -1 ∧ r.errno = Errno.EINTR
      · simp only [hint, and_self, if_true]
        exact gives_mono ih (fun _ _ h => h) (fun _ _ h => ⟨trivial, h⟩)
      · simp only [hint, if_false]
        exact gives_pure v r _
    · intro r x r' y hx hy
      have hri : r.interrupted = decide (r.ret = -1 ∧ r.errno = Errno.EINTR) := rfl
      by_cases hint : r.ret = -1 ∧ r.errno = Errno.EINTR
      · simp only [hint, and_self, if_true] at hy
        rw [hx, hy.2, hv r (by simp [hri, hint])]
        exact ⟨hy.1, rfl⟩
      · simp only [hint, if_false] at hy
        rw [hx, hy.1, hy.2]
        exact ⟨by simp [hri, hint], by simp⟩
    · intro r e x y hx hy
      have hri : r.interrupted = decide (r.ret = -1 ∧ r.errno = Errno.EINTR) := rfl
      rw [hx, hy.2.2, hv r (by simp [hri, hy.1])]
      exact ⟨hy.2.1, rfl⟩

theorem gives_xioctl {γ : Type} (v : Ev → Option γ) (c : Call)
    (hv : ∀ r : Resp, r.interrupted = true → v (Ev.sys c r) = none) :
    Gives v (fun r p => r.interrupted = false ∧ p = (v (Ev.sys c r)).toList)
      (fun h p => h = Halt.starved ∧ p = []) (xioctl c) := by
  intro s
  have := gives_xioctl_loop v c hv (s.script.length + 1) s
  simpa [xioctl, bind_apply, getState_apply] using this

theorem note_callback_side {e : Ev} (h : Ev.callback_side e = true) :
    ∀ x, Ev.note e = some x → x = Note.callback := by
  intro x hx
  cases e <;> simp_all [Ev.callback_side, Ev.note]

theorem gives_callbacks {α : Type} {m : M α}
    (h : Sat (Mono (fun e => ∀ x, Ev.note e = some x → x = Note.callback)) m) :
    Gives Ev.note (fun _ p => ∀ c ∈ p, c = Note.callback)
      (fun _ p => ∀ c ∈ p, c = Note.callback) m :=
  gives_of_sat (fun c => c = Note.callback) h

theorem note_dequeue {buf : v4l2_buffer} {r : Resp} (h : r.interrupted = false) :
    Ev.note (Ev.sys (Call.VIDIOC_DQBUF buf) r) = some (Note.dequeue r) := by
  simp [Ev.note, h]

theorem note_enqueue {buf : v4l2_buffer} {r : Resp} (h : r.interrupted = false) :
    Ev.note (Ev.sys (Call.VIDIOC_QBUF buf) r) = some (Note.enqueue r) := by
  simp [Ev.note, h]

theorem gives_requeue (buf : v4l2_buffer) :
    Gives Ev.note WorkReturned WorkStopped
      (do
        let r2 ← xioctl (Call.VIDIOC_QBUF buf)
        if r2.ret = -1 then errno_exit else pure 1) := by
  refine gives_bind (fun r2 x p => r2.ret ≠ -1 ∧ x = 1 ∧ p = [])
    (fun r2 h p => r2.ret = -1 ∧ h = Halt.exit ∧ p = [])
    (gives_xioctl Ev.note _ (fun r hr => by simp [Ev.note, hr])) (fun r2 => ?_) ?_ ?_ ?_
  · by_cases h1 : r2.ret = -1
    · simp only [h1, if_true]
      exact gives_mono (gives_errno_exit Ev.note _ rfl) (fun _ _ h => h)
        (fun _ _ h => ⟨trivial, h⟩)
    · simp only [h1, if_false]
      exact gives_mono (gives_pure Ev.note 1 (fun _ _ => False))
        (fun _ _ h => ⟨fun h' => h1 h', h⟩) (fun _ _ h => h.elim)
  · intro r2 x c y hx hy
    refine ⟨hy.2.1, [], r2, ?_, hy.1, by simp⟩
    rw [hx.2, hy.2.2, note_enqueue hx.1]
    rfl
  · intro e x hx
    left
    rw [hx.2]
    simp
  · intro r2 e x y hx hy
    right
    refine ⟨[], r2, ?_, hy.1, hy.2.1, by simp⟩
    rw [hx.2, hy.2.2, note_enqueue hx.1]
    rfl

theorem gives_work_bind {α : Type} {m : M α} {f : α → M Int}
    (hm : Gives Ev.note (fun _ p => ∀ c ∈ p, c = Note.callback)
      (fun _ p => ∀ c ∈ p, c = Note.callback) m)
    (hf : ∀ a, Gives Ev.note WorkReturned WorkStopped (f a)) :
    Gives Ev.note WorkReturned WorkStopped (m >>= f) := by
  refine gives_bind (fun _ => WorkReturned) (fun _ => WorkStopped) hm hf ?_ ?_ ?_
  · rintro _ x c y hx ⟨hc, cb, r2, rfl, hr2, hcb⟩
    refine ⟨hc, x ++ cb, r2, by simp, hr2, ?_⟩
    intro c hcm
    rcases List.mem_append.mp hcm with h | h
    · exact hx c h
    · exact hcb c h
  · intro e x hx
    exact Or.inl hx
  · rintro _ e x y hx (hy | ⟨cb, r2, rfl, hr2, he, hcb⟩)
    · left
      intro c hcm
      rcases List.mem_append.mp hcm with h | h
      · exact hx c h
      · exact hy c h
    · right
      refine ⟨x ++ cb, r2, by simp, hr2, he, ?_⟩
      intro c hcm
      rcases List.mem_append.mp hcm with h | h
      · exact hx c h
      · exact hcb c h

theorem gives_work_quiet_bind {α : Type} {m : M α} {f : α → M Int}
    (hm : Sat (Mono (fun e => ∀ x, Ev.note e = some x → x = Note.callback)) m)
    (hf : ∀ a, Gives Ev.note WorkReturned WorkStopped (f a)) :
    Gives Ev.note WorkReturned WorkStopped (m >>= f) :=
  gives_work_bind (gives_callbacks hm) hf

theorem gives_work_abort :
    Gives Ev.note WorkReturned WorkStopped (halt Halt.abort : M Int) :=
  gives_mono (gives_halt Ev.note Halt.abort (fun _ _ => False)) (fun _ _ h => h.elim)
    (fun _ _ h => Or.inl (by rw [h.2]; simp))

theorem gives_dequeue_failed (e : Errno) :
    Gives Ev.note (fun x p => x = 0 ∧ e = Errno.EAGAIN ∧ p = [])
      (fun h p => h = Halt.exit ∧ e ≠ Errno.EAGAIN ∧ p = []) (dequeue_failed e) := by
  cases e <;>
    first
    | exact gives_mono (gives_pure Ev.note 0 (fun _ _ => False))
        (fun _ _ h => ⟨h.1, rfl, h.2⟩) (fun _ _ h => h.elim)
    | exact gives_mono (gives_errno_exit Ev.note (fun _ _ => False) rfl)
        (fun _ _ h => h.elim) (fun _ _ h => ⟨h.1, by decide, h.2⟩)

/-- The shape of a service call of a queue-based strategy. -/
theorem gives_service_shape (buf : v4l2_buffer) (rest : Resp → M Int)
    (hrest : ∀ r, Gives Ev.note WorkReturned WorkStopped (rest r)) :
    Gives Ev.note ServiceReturned ServiceStopped
      (do
        let r ← xioctl (Call.VIDIOC_DQBUF buf)
        if r.ret = -1 then dequeue_failed r.errno else rest r) := by
  refine gives_bind
    (fun r x p => if r.ret = -1 then x = 0 ∧ r.errno = Errno.EAGAIN ∧ p = []
      else WorkReturned x p)
    (fun r h p => if r.ret = -1 then h = Halt.exit ∧ r.errno ≠ Errno.EAGAIN ∧ p = []
      else WorkStopped h p)
    (gives_xioctl Ev.note _ (fun r hr => by simp [Ev.note, hr])) (fun r => ?_) ?_ ?_ ?_
  · by_cases h1 : r.ret = -1
    · simp only [h1, if_true]
      exact gives_dequeue_failed _
    · simp only [h1, if_false]
      exact hrest r
  · intro r x c y hx hy
    rw [hx.2, note_dequeue hx.1]
    by_cases h1 : r.ret = -1
    · simp only [h1, if_true] at hy
      left
      exact ⟨hy.1, r, by rw [hy.2.2]; rfl, h1, hy.2.1⟩
    · simp only [h1, if_false] at hy
      obtain ⟨hc, cb, r2, rfl, hr2, hcb⟩ := hy
      right
      exact ⟨hc, r, cb, r2, rfl, h1, hr2, hcb⟩
  · intro e x hx
    left
    exact hx.2
  · intro r e x y hx hy
    rw [hx.2, note_dequeue hx.1]
    by_cases h1 : r.ret = -1
    · simp only [h1, if_true] at hy
      right
      left
      exact ⟨r, by rw [hy.2.2]; rfl, h1, hy.2.1, hy.1⟩
    · simp only [h1, if_false] at hy
      right
      right
      rcases hy with hy | ⟨cb, r2, rfl, hr2, he, hcb⟩
      · left
        exact ⟨r, y, rfl, h1, hy⟩
      · right
        exact ⟨r, cb, r2, rfl, h1, hr2, he, hcb⟩

theorem gives_emit {γ : Type} (v : Ev → Option γ) (e : Ev) (L' : Halt → List γ → Prop) :
    Gives v (fun _ p => p = (v e).toList) L' (emit e) := by
  intro s
  refine ⟨[e], by simp [emit_apply, Result.state], ?_, ?_⟩
  · intro x s' _
    cases h : v e <;> simp [h]
  · intro e s' hr
    simp [emit_apply] at hr

theorem gives_read_frame_mmap (type : v4l2_buf_type) (bufs : List buffer) (n : Nat) :
    Gives Ev.note ServiceReturned ServiceStopped
      (do
        let buf : v4l2_buffer := { type := type, memory := v4l2_memory.V4L2_MEMORY_MMAP }
        let r ← xioctl (Call.VIDIOC_DQBUF buf)
        if r.ret = -1 then dequeue_failed r.errno
        else
          let buf := buf.dequeued r
          if buf.index < n then do
            let b ← at_index bufs buf.index
            let bytesused ←
              (if type = v4l2_buf_type.V4L2_BUF_TYPE_VIDEO_CAPTURE then do
                process_image b.start buf.bytesused
                pure buf.bytesused
              else supply_input b.start b.length buf.bytesused)
            let r2 ← xioctl (Call.VIDIOC_QBUF { buf with bytesused := bytesused })
            if r2.ret = -1 then errno_exit else pure 1
          else halt Halt.abort) := by
  have hcb : ∀ e, Ev.callback_side e = true → ∀ x, Ev.note e = some x → x = Note.callback :=
    fun e he => note_callback_side he
  refine gives_service_shape { type := type, memory := v4l2_memory.V4L2_MEMORY_MMAP } _
    (fun r => ?_)
  dsimp only
  refine gives_ite (fun _ => ?_) (fun _ => gives_work_abort)
  refine gives_work_quiet_bind (sat_at_index _ _) (fun e => ?_)
  refine gives_work_quiet_bind (sat_ite (sat_bind (sat_process_image hcb _ _)
    (fun _ => sat_pure _)) (sat_supply_input hcb _ _ _)) (fun bu => ?_)
  exact gives_requeue _

theorem gives_read_frame_userptr (bufs : List buffer) (n : Nat) :
    Gives Ev.note ServiceReturned ServiceStopped
      (do
        let buf : v4l2_buffer :=
          { type := v4l2_buf_type.V4L2_BUF_TYPE_VIDEO_CAPTURE,
            memory := v4l2_memory.V4L2_MEMORY_USERPTR }
        let r ← xioctl (Call.VIDIOC_DQBUF buf)
        if r.ret = -1 then dequeue_failed r.errno
        else
          let buf := buf.dequeued r
          let i ← userptr_scan bufs buf.userptr buf.length n 0
          if i < n then do
            process_image buf.userptr buf.bytesused
            let r2 ← xioctl (Call.VIDIOC_QBUF buf)
            if r2.ret = -1 then errno_exit else pure 1
          else halt Halt.abort) := by
  have hcb : ∀ e, Ev.callback_side e = true → ∀ x, Ev.note e = some x → x = Note.callback :=
    fun e he => note_callback_side he
  refine gives_service_shape
    { type := v4l2_buf_type.V4L2_BUF_TYPE_VIDEO_CAPTURE,
      memory := v4l2_memory.V4L2_MEMORY_USERPTR } _ (fun r => ?_)
  dsimp only
  refine gives_work_quiet_bind (sat_userptr_scan _ _ _ _ _) (fun i => ?_)
  refine gives_ite (fun _ => ?_) (fun _ => gives_work_abort)
  refine gives_work_quiet_bind (sat_process_image hcb _ _) (fun _ => ?_)
  exact gives_requeue _

theorem gives_read_frame_mmap_mp (type : v4l2_buf_type) (bufs : List buffer_mp) (n : Nat) :
    Gives Ev.note ServiceReturned ServiceStopped (read_frame_mmap_mp type bufs n) := by
  have hcb : ∀ e, Ev.callback_side e = true → ∀ x, Ev.note e = some x → x = Note.callback :=
    fun e he => note_callback_side he
  unfold read_frame_mmap_mp
  refine gives_service_shape
    { type := type, memory := v4l2_memory.V4L2_MEMORY_MMAP, length := FMT_NUM_PLANES,
      planes := List.replicate FMT_NUM_PLANES {} } _ (fun r => ?_)
  dsimp only
  refine gives_ite (fun _ => ?_) (fun _ => gives_work_abort)
  refine gives_work_quiet_bind (sat_at_index _ _) (fun e => ?_)
  refine gives_work_quiet_bind (sat_ite (sat_bind (sat_process_image_mp hcb _ _)
    (fun _ => sat_pure _)) (sat_supply_input_mp_loop hcb _ _ _ _ _)) (fun bu => ?_)
  exact gives_requeue _

theorem gives_read_frame_read (bufs : List buffer) :
    Gives Ev.note ReadReturned ReadStopped
      (do
        let b0 ← at_index bufs 0
        let r ← sys (Call.read b0.start b0.length)
        if r.ret = -1 then dequeue_failed r.errno
        else do
          process_image b0.start b0.length
          pure (1 : Int)) := by
  refine gives_bind (fun _ => ReadReturned) (fun _ => ReadStopped)
    (gives_quiet (sat_at_index bufs 0)) (fun b0 => ?_) ?_ ?_ ?_
  · refine gives_bind
      (fun r x p => if r.ret = -1 then x = 0 ∧ r.errno = Errno.EAGAIN ∧ p = []
        else x = 1 ∧ p = [Note.callback])
      (fun r h p => r.ret = -1 ∧ h = Halt.exit ∧ r.errno ≠ Errno.EAGAIN ∧ p = [])
      (gives_sys Ev.note _) (fun r => ?_) ?_ ?_ ?_
    · by_cases h1 : r.ret = -1
      · simp only [h1, if_true]
        exact gives_mono (gives_dequeue_failed _) (fun _ _ h => h) (fun _ _ h => ⟨trivial, h⟩)
      · simp only [h1, if_false]
        refine gives_bind (fun _ x p => x = 1 ∧ p = []) (fun _ _ _ => False)
          (gives_emit Ev.note (Ev.process_image b0.start b0.length) (fun _ _ => False))
          (fun _ => gives_pure Ev.note 1 _) ?_ (fun _ _ h => h.elim) (fun _ _ _ _ _ h => h.elim)
        intro _ x c y hx hy
        rw [hx, hy.2]
        exact ⟨hy.1, rfl⟩
    · intro r x c y hx hy
      rw [hx]
      by_cases h1 : r.ret = -1
      · simp only [h1, if_true] at hy
        left
        exact ⟨hy.1, r, by rw [hy.2.2]; rfl, h1, hy.2.1⟩
      · simp only [h1, if_false] at hy
        right
        exact ⟨hy.1, r, by rw [hy.2]; rfl, h1⟩
    · intro e x hx
      exact Or.inl hx.2
    · intro r e x y hx hy
      right
      exact ⟨r, by rw [hx, hy.2.2.2]; rfl, hy.1, hy.2.2.1, hy.2.1⟩
  · intro _ x c y hx hy
    rw [hx]
    exact hy
  · intro e x hx
    exact Or.inl hx
  · intro _ e x y hx hy
    rw [hx]
    exact hy

theorem dequeue_mem_shape {r' r : Resp} {cb tail : List Note}
    (hcb : ∀ c ∈ cb, c = Note.callback) (htail : ∀ c ∈ tail, ∃ q, c = Note.enqueue q)
    (h : Note.dequeue r' ∈ Note.dequeue r :: (cb ++ tail)) : r' = r := by
  rcases List.mem_cons.mp h with h | h
  · exact Note.dequeue.inj h
  · rcases List.mem_append.mp h with h | h
    · cases hcb _ h
    · obtain ⟨q, hq⟩ := htail _ h
      cases hq

theorem enqueue_mem_shape {r' r : Resp} {cb tail : List Note}
    (hcb : ∀ c ∈ cb, c = Note.callback)
    (h : Note.enqueue r' ∈ Note.dequeue r :: (cb ++ tail)) : Note.enqueue r' ∈ tail := by
  rcases List.mem_cons.mp h with h | h
  · cases h
  · rcases List.mem_append.mp h with h | h
    · cases hcb _ h
    · exact h

theorem contract_of_service {res : Result Int} {ns : List Note}
    (hok : ∀ x s', res = Result.ok x s' → ServiceReturned x ns)
    (hhalt : ∀ h s', res = Result.halt h s' → ServiceStopped h ns) :
    ServiceContract false res ns := by
  have hnil : ∀ c ∈ ([] : List Note), ∃ q, c = Note.enqueue q := by simp
  have hone : ∀ r2 : Resp, ∀ c ∈ [Note.enqueue r2], ∃ q, c = Note.enqueue q := by
    intro r2 c hc
    exact ⟨r2, by simpa using hc⟩
  have hnocb : ∀ c ∈ ([] : List Note), c = Note.callback := by simp
  cases res with
  | ok x s1 =>
    rcases hok x s1 rfl with ⟨rfl, r, rfl, hr1, hr2⟩ | ⟨rfl, r, cb, r2, rfl, hr, hr2, hcb⟩
    · refine ⟨⟨fun _ => ⟨r, by simp, hr1, hr2⟩, fun _ => rfl⟩, fun _ => ⟨r, rfl⟩, ⟨?_, ?_⟩,
        ?_, ?_, ?_⟩
      · intro h
        simp [Result.value] at h
      · rintro ⟨r', hm, hne, -⟩
        have : r' = r := by simpa using hm
        subst this
        exact absurd hr1 hne
      · intro x hx
        simp only [Result.value, Option.some.injEq] at hx
        exact Or.inl hx.symm
      · intro r' hm _ hne
        have : r' = r := by simpa using hm
        subst this
        exact absurd hr2 hne
      · intro r' hm
        simp at hm
    · refine ⟨⟨?_, ?_⟩, ?_, ⟨fun _ => ⟨r, by simp, hr, Or.inr ⟨r2, by simp, hr2⟩⟩, fun _ => rfl⟩,
        ?_, ?_, ?_⟩
      · intro h
        simp [Result.value] at h
      · rintro ⟨r', hm, hne, -⟩
        have := dequeue_mem_shape hcb (hone r2) hm
        subst this
        exact absurd hne hr
      · intro h
        simp [Result.value] at h
      · intro x hx
        simp only [Result.value, Option.some.injEq] at hx
        exact Or.inr hx.symm
      · intro r' hm hne _
        have := dequeue_mem_shape hcb (hone r2) hm
        subst this
        exact absurd hne hr
      · intro r' hm hne
        have := enqueue_mem_shape hcb hm
        have : r' = r2 := by simpa using this
        subst this
        exact absurd hne hr2
  | halt h s1 =>
    have hv : ∀ x : Int, (Result.halt h s1 : Result Int).value ≠ some x := by
      intro x hx
      simp [Result.value] at hx
    rcases hhalt h s1 rfl with rfl | ⟨r, rfl, hr1, hr2, rfl⟩ | ⟨r, cb, rfl, hr, hcb⟩ |
      ⟨r, cb, r2, rfl, hr, hr2, rfl, hcb⟩
    · refine ⟨⟨fun h0 => absurd h0 (hv 0), ?_⟩, fun h0 => absurd h0 (hv 0),
        ⟨fun h1 => absurd h1 (hv 1), ?_⟩, fun x hx => absurd hx (hv x), ?_, ?_⟩
      · rintro ⟨r', hm, -⟩
        simp at hm
      · rintro ⟨r', hm, -⟩
        simp at hm
      · intro r' hm
        simp at hm
      · intro r' hm
        simp at hm
    · refine ⟨⟨fun h0 => absurd h0 (hv 0), ?_⟩, fun h0 => absurd h0 (hv 0),
        ⟨fun h1 => absurd h1 (hv 1), ?_⟩, fun x hx => absurd hx (hv x), ?_, ?_⟩
      · rintro ⟨r', hm, -, he⟩
        have : r' = r := by simpa using hm
        subst this
        exact absurd he hr2
      · rintro ⟨r', hm, hne, -⟩
        have : r' = r := by simpa using hm
        subst this
        exact absurd hr1 hne
      · intro r' _ _ _
        rfl
      · intro r' hm
        simp at hm
    · have hshape : Note.dequeue r :: cb = Note.dequeue r :: (cb ++ []) := by simp
      refine ⟨⟨fun h0 => absurd h0 (hv 0), ?_⟩, fun h0 => absurd h0 (hv 0),
        ⟨fun h1 => absurd h1 (hv 1), ?_⟩, fun x hx => absurd hx (hv x), ?_, ?_⟩
      · rintro ⟨r', hm, hne, -⟩
        rw [hshape] at hm
        have := dequeue_mem_shape hcb hnil hm
        subst this
        exact absurd hne hr
      · rintro ⟨r', -, -, hcopy | ⟨r2, hm, -⟩⟩
        · cases hcopy
        · rw [hshape] at hm
          have := enqueue_mem_shape hcb hm
          simp at this
      · intro r' hm hne _
        rw [hshape] at hm
        have := dequeue_mem_shape hcb hnil hm
        subst this
        exact absurd hne hr
      · intro r' hm
        rw [hshape] at hm
        have := enqueue_mem_shape hcb hm
        simp at this
    · refine ⟨⟨fun h0 => absurd h0 (hv 0), ?_⟩, fun h0 => absurd h0 (hv 0),
        ⟨fun h1 => absurd h1 (hv 1), ?_⟩, fun x hx => absurd hx (hv x), ?_, ?_⟩
      · rintro ⟨r', hm, hne, -⟩
        have := dequeue_mem_shape hcb (hone r2) hm
        subst this
        exact absurd hne hr
      · rintro ⟨r', -, -, hcopy | ⟨r3, hm, hne⟩⟩
        · cases hcopy
        · have := enqueue_mem_shape hcb hm
          have : r3 = r2 := by simpa using this
          subst this
          exact absurd hr2 hne
      · intro r' hm hne _
        have := dequeue_mem_shape hcb (hone r2) hm
        subst this
        exact absurd hne hr
      · intro r' _ _
        rfl

theorem contract_of_read {res : Result Int} {ns : List Note}
    (hok : ∀ x s', res = Result.ok x s' → ReadReturned x ns)
    (hhalt : ∀ h s', res = Result.halt h s' → ReadStopped h ns) :
    ServiceContract true res ns := by
  cases res with
  | ok x s1 =>
    rcases hok x s1 rfl with ⟨rfl, r, rfl, hr1, hr2⟩ | ⟨rfl, r, rfl, hr⟩
    · refine ⟨⟨fun _ => ⟨r, by simp, hr1, hr2⟩, fun _ => rfl⟩, fun _ => ⟨r, rfl⟩, ⟨?_, ?_⟩,
        ?_, ?_, ?_⟩
      · intro h
        simp [Result.value] at h
      · rintro ⟨r', hm, hne, -⟩
        have : r' = r := by simpa using hm
        subst this
        exact absurd hr1 hne
      · intro x hx
        simp only [Result.value, Option.some.injEq] at hx
        exact Or.inl hx.symm
      · intro r' hm _ hne
        have : r' = r := by simpa using hm
        subst this
        exact absurd hr2 hne
      · intro r' hm
        simp at hm
    · refine ⟨⟨?_, ?_⟩, ?_, ⟨fun _ => ⟨r, by simp, hr, Or.inl rfl⟩, fun _ => rfl⟩, ?_, ?_, ?_⟩
      · intro h
        simp [Result.value] at h
      · rintro ⟨r', hm, hne, -⟩
        have : r' = r := by simpa using hm
        subst this
        exact absurd hne hr
      · intro h
        simp [Result.value] at h
      · intro x hx
        simp only [Result.value, Option.some.injEq] at hx
        exact Or.inr hx.symm
      · intro r' hm hne _
        have : r' = r := by simpa using hm
        subst this
        exact absurd hne hr
      · intro r' hm
        simp at hm
  | halt h s1 =>
    have hv : ∀ x : Int, (Result.halt h s1 : Result Int).value ≠ some x := by
      intro x hx
      simp [Result.value] at hx
    rcases hhalt h s1 rfl with rfl | ⟨r, rfl, hr1, hr2, rfl⟩
    · refine ⟨⟨fun h0 => absurd h0 (hv 0), ?_⟩, fun h0 => absurd h0 (hv 0),
        ⟨fun h1 => absurd h1 (hv 1), ?_⟩, fun x hx => absurd hx (hv x), ?_, ?_⟩
      · rintro ⟨r', hm, -⟩
        simp at hm
      · rintro ⟨r', hm, -⟩
        simp at hm
      · intro r' hm
        simp at hm
      · intro r' hm
        simp at hm
    · refine ⟨⟨fun h0 => absurd h0 (hv 0), ?_⟩, fun h0 => absurd h0 (hv 0),
        ⟨fun h1 => absurd h1 (hv 1), ?_⟩, fun x hx => absurd hx (hv x), ?_, ?_⟩
      · rintro ⟨r', hm, -, he⟩
        have : r' = r := by simpa using hm
        subst this
        exact absurd he hr2
      · rintro ⟨r', hm, hne, -⟩
        have : r' = r := by simpa using hm
        subst this
        exact absurd hr1 hne
      · intro r' _ _ _
        rfl
      · intro r' hm
        simp at hm

/-- What one call of `read_frame` adds to the notes, by outcome. -/
theorem read_frame_notes (type : v4l2_buf_type) (bufs : List buffer) (n : Nat) (s : State) :
    ∃ t, (read_frame type bufs n s).state.trace = s.trace ++ t ∧
      (∀ x s', read_frame type bufs n s = Result.ok x s' →
        if s.io = io_method.IO_METHOD_READ then ReadReturned x (notes t)
        else ServiceReturned x (notes t)) ∧
      (∀ h s', read_frame type bufs n s = Result.halt h s' →
        if s.io = io_method.IO_METHOD_READ then ReadStopped h (notes t)
        else ServiceStopped h (notes t)) := by
  unfold read_frame
  rw [bind_apply, getState_apply]
  dsimp only
  cases hio : s.io with
  | IO_METHOD_READ =>
    dsimp only
    obtain ⟨t, ht, hok, hhalt⟩ := gives_read_frame_read bufs s
    exact ⟨t, ht, fun x s' hr => by simpa using hok x s' hr,
      fun h s' hr => by simpa using hhalt h s' hr⟩
  | IO_METHOD_MMAP =>
    dsimp only
    obtain ⟨t, ht, hok, hhalt⟩ := gives_read_frame_mmap type bufs n s
    exact ⟨t, ht, fun x s' hr => by simpa using hok x s' hr,
      fun h s' hr => by simpa using hhalt h s' hr⟩
  | IO_METHOD_USERPTR =>
    dsimp only
    obtain ⟨t, ht, hok, hhalt⟩ := gives_read_frame_userptr bufs n s
    exact ⟨t, ht, fun x s' hr => by simpa using hok x s' hr,
      fun h s' hr => by simpa using hhalt h s' hr⟩

/-! ## Stream start -/

theorem outline_append (a b : List Ev) : outline (a ++ b) = outline a ++ outline b := by
  simp [outline]

theorem outline_interrupted {pre : List Ev} (h : ∀ e ∈ pre, Ev.interrupted e = true) :
    outline pre = [] := by
  simp only [outline, List.filterMap_eq_nil_iff]
  intro e he
  have := h e he
  cases e with
  | sys c r => simp [Ev.item, this]
  | _ => simp [Ev.interrupted] at this

/-- What a call checked with `if (-1 == xioctl(...)) errno_exit(...)` adds to the
outline when the run goes on. -/
theorem checked_xioctl_outline {c : Call} {s s' : State}
    (h : (do
      let r ← xioctl c
      if r.ret = -1 then errno_exit else pure ()) s = Result.ok () s')
    (hc : c.returns_pointer = false) :
    s'.vars = s.vars ∧ ∃ t, s'.trace = s.trace ++ t ∧ outline t = [Item.call c] := by
  obtain ⟨r, s1, hx, h1⟩ := bind_eq_ok.mp h
  rw [ite_apply] at h1
  split at h1
  · simp [errno_exit_apply] at h1
  · simp only [pure_apply, Result.ok.injEq, true_and] at h1
    subst h1
    obtain ⟨pre, hpre, hr, hv, ht⟩ := xioctl_ok hx hc
    refine ⟨hv, pre ++ [Ev.sys c r], by rw [ht, List.append_assoc], ?_⟩
    rw [outline_append, outline_interrupted hpre]
    simp [outline, Ev.item, Ev.interrupted, hr]

theorem start_loop_outline (type : v4l2_buf_type) (bufs : List buffer) (k i : Nat)
    (s s' : State)
    (h : for_loop k i (fun i => do
      let buf : v4l2_buffer :=
        { type := type, memory := v4l2_memory.V4L2_MEMORY_MMAP, index := i }
      let bytesused ←
        (if type = v4l2_buf_type.V4L2_BUF_TYPE_VIDEO_OUTPUT then do
          let b ← at_index bufs i
          supply_input b.start b.length buf.bytesused
        else pure buf.bytesused)
      let r ← xioctl (Call.VIDIOC_QBUF { buf with bytesused := bytesused })
      if r.ret = -1 then errno_exit else pure ()) s = Result.ok () s') :
    ∃ t, s'.trace = s.trace ++ t ∧
      outline t = start_plan type bufs s.in_fp s.in_file k i s.in_pos ∧
      (outline t).filterMap Item.enqueued_index = List.range' i k ∧
      (outline t).filter Item.is_streamon = [] := by
  induction k generalizing i s with
  | zero =>
    simp only [for_loop, pure_apply, Result.ok.injEq, true_and] at h
    subst h
    exact ⟨[], by simp, rfl, rfl, rfl⟩
  | succ k ih =>
    unfold for_loop at h
    obtain ⟨u, s1, hb, h1⟩ := bind_eq_ok.mp h
    obtain ⟨bu, s2, hfill, hq⟩ := bind_eq_ok.mp hb
    obtain ⟨hv, tq, htq, hoq⟩ := checked_xioctl_outline hq rfl
    obtain ⟨-, -, -, -, -, -, -, -, -, -, hfp, hfile, hpos, -, -⟩ := vars_eq hv
    obtain ⟨t2, ht2, ho2, hidx, hson⟩ := ih (i + 1) s1 h1
    by_cases hty : type = v4l2_buf_type.V4L2_BUF_TYPE_VIDEO_OUTPUT
    · simp only [hty, if_true] at hfill
      obtain ⟨b, s3, hb3, h3⟩ := bind_eq_ok.mp hfill
      obtain ⟨hbi, hs3⟩ := at_index_ok hb3
      rw [hs3, supply_input_apply] at h3
      by_cases hin : s.in_fp = true
      · simp only [hin, if_true, Result.ok.injEq] at h3
        obtain ⟨hbu, hs2⟩ := h3
        subst hs2
        subst hbu
        simp only at hfp hfile hpos htq
        refine ⟨[Ev.supply_input b.start b.length,
          Ev.log (if supplied s b.length ≠ b.length then Msg.Short_read else Msg.Read_bytes)]
            ++ tq ++ t2, ?_, ?_, ?_, ?_⟩
        · rw [ht2, htq]
          simp
        · rw [outline_append, outline_append, hoq, ho2, hfp, hfile, hpos, hin]
          simp [start_plan, hty, hbi, outline, Ev.item, supplied]
        · rw [outline_append, outline_append, hoq, List.filterMap_append, List.filterMap_append,
            hidx, List.range'_succ]
          simp [outline, Ev.item, Item.enqueued_index]
        · rw [outline_append, outline_append, hoq, List.filter_append, List.filter_append, hson]
          simp [outline, Ev.item, Item.is_streamon]
      · simp only [hin, Bool.false_eq_true, if_false, Result.ok.injEq] at h3
        obtain ⟨hbu, hs2⟩ := h3
        subst hs2
        subst hbu
        simp only at hfp hfile hpos htq
        have hin' : s.in_fp = false := by simpa using hin
        refine ⟨[Ev.supply_input b.start b.length] ++ tq ++ t2, ?_, ?_, ?_, ?_⟩
        · rw [ht2, htq]
          simp
        · rw [outline_append, outline_append, hoq, ho2, hfp, hfile, hpos, hin']
          simp [start_plan, hty, hbi, outline, Ev.item]
        · rw [outline_append, outline_append, hoq, List.filterMap_append, List.filterMap_append,
            hidx, List.range'_succ]
          simp [outline, Ev.item, Item.enqueued_index]
        · rw [outline_append, outline_append, hoq, List.filter_append, List.filter_append, hson]
          simp [outline, Ev.item, Item.is_streamon]
    · simp only [hty, if_false, pure_apply, Result.ok.injEq] at hfill
      obtain ⟨hbu, hs2⟩ := hfill
      subst hs2
      subst hbu
      refine ⟨tq ++ t2, ?_, ?_, ?_, ?_⟩
      · rw [ht2, htq]
        simp
      · rw [outline_append, hoq, ho2, hfp, hfile, hpos]
        simp [start_plan, hty]
      · rw [outline_append, hoq, List.filterMap_append, hidx, List.range'_succ]
        simp [Item.enqueued_index]
      · rw [outline_append, hoq, List.filter_append, hson]
        simp [Item.is_streamon]


theorem supply_input_mp_ok {bufs lens : List Nat} {s : State} {bu : Nat} {s' : State}
    (h : supply_input_mp bufs lens s = Result.ok bu s') :
    ∃ j, memmem (au_haystack s (bufs.getD 0 0) (lens.getD 0 0)) aud = some j ∧
      bu = (j + 1) % 2 ^ 32 ∧ s'.in_file = s.in_file ∧
      s'.f_offset = s.f_offset + (j + 1) ∧
      s'.mem = store (store s.mem (bufs.getD 0 0) (au_read s (lens.getD 0 0)))
        (bufs.getD 0 0 + (j + 1)) (List.replicate (lens.getD 0 0 - (j + 1)) 0) ∧
      s'.trace = s.trace ++
        [Ev.supply_input_by_au (bufs.getD 0 0) (lens.getD 0 0), Ev.log Msg.Used_bytes] := by
  have heq : supply_input_mp bufs lens s =
      (supply_input_by_au (bufs.getD 0 0) (lens.getD 0 0) >>= fun bytes =>
        (pure ((0 + bytes) % 2 ^ 32) : M Nat)) s := rfl
  rw [heq, bind_apply] at h
  by_cases hfp : s.in_fp = true
  · rw [supply_input_by_au_eq _ _ _ hfp] at h
    cases hm : memmem (au_haystack s (bufs.getD 0 0) (lens.getD 0 0)) aud with
    | none =>
      rw [hm] at h
      cases h
    | some j =>
      rw [hm] at h
      simp only [pure_apply, Result.ok.injEq] at h
      obtain ⟨hbu, hs'⟩ := h
      subst hs'
      refine ⟨j, rfl, ?_, rfl, rfl, rfl, rfl⟩
      rw [← hbu]
      simp
  · have hhalt : supply_input_by_au (bufs.getD 0 0) (lens.getD 0 0) s =
        Result.halt Halt.undefined
          { s with trace := s.trace ++
            [Ev.supply_input_by_au (bufs.getD 0 0) (lens.getD 0 0)] } := by
      simp [supply_input_by_au, bind_apply, emit_apply, getState_apply, hfp, halt_apply]
    rw [hhalt] at h
    cases h

theorem au_haystack_congr {p s : State} (h1 : p.in_file = s.in_file)
    (h2 : p.f_offset = s.f_offset) (h3 : p.mem = s.mem) (buf buf_len : Nat) :
    au_haystack p buf buf_len = au_haystack s buf buf_len ∧
      au_read p buf_len = au_read s buf_len := by
  simp [au_haystack, au_read, h1, h2, h3]

theorem start_loop_mp_outline (type : v4l2_buf_type) (bufs : List buffer_mp) (k i : Nat)
    (s s' p : State) (h1 : p.in_file = s.in_file) (h2 : p.f_offset = s.f_offset)
    (h3 : p.mem = s.mem)
    (h : for_loop k i (fun i => do
      let buf : v4l2_buffer :=
        { type := type, memory := v4l2_memory.V4L2_MEMORY_MMAP, index := i,
          length := FMT_NUM_PLANES, planes := List.replicate FMT_NUM_PLANES {} }
      let bytesused ←
        (if type = v4l2_buf_type.V4L2_BUF_TYPE_VIDEO_OUTPUT_MPLANE then do
          let b ← at_index bufs i
          supply_input_mp b.start b.length
        else pure buf.bytesused)
      let r ← xioctl (Call.VIDIOC_QBUF { buf with bytesused := bytesused })
      if r.ret = -1 then errno_exit else pure ()) s = Result.ok () s') :
    ∃ t, s'.trace = s.trace ++ t ∧ outline t = start_plan_mp type bufs k i p ∧
      (outline t).filterMap Item.enqueued_index = List.range' i k ∧
      (outline t).filter Item.is_streamon = [] := by
  induction k generalizing i s p with
  | zero =>
    simp only [for_loop, pure_apply, Result.ok.injEq, true_and] at h
    subst h
    exact ⟨[], by simp, rfl, rfl, rfl⟩
  | succ k ih =>
    unfold for_loop at h
    obtain ⟨u, s1, hb, hrest⟩ := bind_eq_ok.mp h
    obtain ⟨bu, s2, hfill, hq⟩ := bind_eq_ok.mp hb
    obtain ⟨hv, tq, htq, hoq⟩ := checked_xioctl_outline hq rfl
    obtain ⟨-, -, -, -, -, -, -, -, -, -, -, hfile, -, hoff, hmem⟩ := vars_eq hv
    by_cases hty : type = v4l2_buf_type.V4L2_BUF_TYPE_VIDEO_OUTPUT_MPLANE
    · simp only [hty, if_true] at hfill
      obtain ⟨b, s3, hb3, hsup⟩ := bind_eq_ok.mp hfill
      obtain ⟨hbi, hs3⟩ := at_index_ok hb3
      rw [hs3] at hsup
      obtain ⟨j, hj, hbu, hf2, ho2, hm2, ht2⟩ := supply_input_mp_ok hsup
      obtain ⟨hhay, hread⟩ := au_haystack_congr h1 h2 h3 (b.start.getD 0 0) (b.length.getD 0 0)
      obtain ⟨t2, htt, hot, hidx, hson⟩ := ih (i + 1) s1
        (after_au p (b.start.getD 0 0) (b.length.getD 0 0) (j + 1))
        (by rw [hfile, hf2]; exact h1)
        (by rw [hoff, ho2]; simp only [after_au]; rw [h2])
        (by rw [hmem, hm2]; simp only [after_au]; rw [h3, hread]) hrest
      refine ⟨[Ev.supply_input_by_au (b.start.getD 0 0) (b.length.getD 0 0),
        Ev.log Msg.Used_bytes] ++ tq ++ t2, ?_, ?_, ?_, ?_⟩
      · rw [htt, htq, ht2]
        simp
      · have hjp : memmem (au_haystack p (b.start.getD 0 0) (b.length.getD 0 0)) aud =
            some j := by
          rw [hhay]
          exact hj
        have hplan : start_plan_mp type bufs (k + 1) i p =
            Item.source (b.start.getD 0 0) (b.length.getD 0 0) ::
              Item.call (Call.VIDIOC_QBUF
                { type := type, memory := v4l2_memory.V4L2_MEMORY_MMAP, index := i,
                  length := FMT_NUM_PLANES, planes := List.replicate FMT_NUM_PLANES {},
                  bytesused := (j + 1) % 2 ^ 32 }) ::
              start_plan_mp type bufs k (i + 1)
                (after_au p (b.start.getD 0 0) (b.length.getD 0 0) (j + 1)) := by
          simp only [start_plan_mp, hty, if_true, hbi, hjp]
        rw [outline_append, outline_append, hoq, hot, hplan, hbu]
        simp [outline, Ev.item]
      · rw [outline_append, outline_append, hoq, List.filterMap_append, List.filterMap_append,
          hidx, List.range'_succ]
        simp [outline, Ev.item, Item.enqueued_index]
      · rw [outline_append, outline_append, hoq, List.filter_append, List.filter_append, hson]
        simp [outline, Ev.item, Item.is_streamon]
    · simp only [hty, if_false, pure_apply, Result.ok.injEq] at hfill
      obtain ⟨hbu, hs2⟩ := hfill
      subst hs2
      subst hbu
      obtain ⟨t2, htt, hot, hidx, hson⟩ := ih (i + 1) s1 p (by rw [hfile]; exact h1)
        (by rw [hoff]; exact h2) (by rw [hmem]; exact h3) hrest
      refine ⟨tq ++ t2, ?_, ?_, ?_, ?_⟩
      · rw [htt, htq]
        simp
      · rw [outline_append, hoq, hot]
        simp [start_plan_mp, hty]
      · rw [outline_append, hoq, List.filterMap_append, hidx, List.range'_succ]
        simp [Item.enqueued_index]
      · rw [outline_append, hoq, List.filter_append, hson]
        simp [Item.is_streamon]

theorem start_capturing_mmap_outline {type : v4l2_buf_type} {bufs : List buffer} {n : Nat}
    {s s' : State} (h : start_capturing_mmap type bufs n s = Result.ok () s') :
    ∃ t, s'.trace = s.trace ++ t ∧
      outline t = start_plan type bufs s.in_fp s.in_file n 0 s.in_pos ++
        [Item.call (Call.VIDIOC_STREAMON type)] ∧
      (outline t).filterMap Item.enqueued_index = List.range n ∧
      (outline t).filter Item.is_streamon = [Item.call (Call.VIDIOC_STREAMON type)] := by
  unfold start_capturing_mmap at h
  obtain ⟨u, s1, hl, h1⟩ := bind_eq_ok.mp h
  obtain ⟨-, tq, htq, hoq⟩ := checked_xioctl_outline h1 rfl
  obtain ⟨t1, ht1, ho1, hidx, hson⟩ := start_loop_outline type bufs n 0 s s1 hl
  refine ⟨t1 ++ tq, by rw [htq, ht1, List.append_assoc], ?_, ?_, ?_⟩
  · rw [outline_append, ho1, hoq]
  · rw [outline_append, hoq, List.filterMap_append, hidx, List.range_eq_range']
    simp [Item.enqueued_index]
  · rw [outline_append, hoq, List.filter_append, hson]
    simp [Item.is_streamon]

theorem start_capturing_mmap_mp_outline {type : v4l2_buf_type} {bufs : List buffer_mp}
    {n : Nat} {s s' : State} (h : start_capturing_mmap_mp type bufs n s = Result.ok () s') :
    ∃ t, s'.trace = s.trace ++ t ∧
      outline t = start_plan_mp type bufs n 0 s ++ [Item.call (Call.VIDIOC_STREAMON type)] ∧
      (outline t).filterMap Item.enqueued_index = List.range n ∧
      (outline t).filter Item.is_streamon = [Item.call (Call.VIDIOC_STREAMON type)] := by
  unfold start_capturing_mmap_mp at h
  obtain ⟨u, s1, hl, h1⟩ := bind_eq_ok.mp h
  obtain ⟨-, tq, htq, hoq⟩ := checked_xioctl_outline h1 rfl
  obtain ⟨t1, ht1, ho1, hidx, hson⟩ := start_loop_mp_outline type bufs n 0 s s1 s rfl rfl rfl hl
  refine ⟨t1 ++ tq, by rw [htq, ht1, List.append_assoc], ?_, ?_, ?_⟩
  · rw [outline_append, ho1, hoq]
  · rw [outline_append, hoq, List.filterMap_append, hidx, List.range_eq_range']
    simp [Item.enqueued_index]
  · rw [outline_append, hoq, List.filter_append, hson]
    simp [Item.is_streamon]

/-! ## The readiness wait -/

theorem under_loop_of_callback_side {e : Ev} (h : Ev.callback_side e = true) :
    Ev.under_loop e = true := by
  cases e <;> simp_all [Ev.callback_side, Ev.under_loop]

theorem under_requeue {P : Ev → Prop} (hP : ∀ e, Ev.under_loop e = true → P e)
    (buf : v4l2_buffer) :
    Sat (Mono P) (do
      let r2 ← xioctl (Call.VIDIOC_QBUF buf)
      if r2.ret = -1 then errno_exit else pure (1 : Int)) :=
  sat_bind (sat_xioctl (fun _ => hP _ (by rfl))) (fun _ =>
    sat_ite (sat_errno_exit (hP _ (by rfl))) (sat_pure _))

theorem under_checked {P : Ev → Prop} (hP : ∀ e, Ev.under_loop e = true → P e)
    (c : Call) (hc : ∀ r, Ev.under_loop (Ev.sys c r) = true) :
    Sat (Mono P) (do
      let r ← xioctl c
      if r.ret = -1 then errno_exit else pure ()) :=
  sat_bind (sat_xioctl (fun r => hP _ (hc r))) (fun _ =>
    sat_ite (sat_errno_exit (hP _ (by rfl))) (sat_pure _))

theorem under_read_frame {P : Ev → Prop} (hP : ∀ e, Ev.under_loop e = true → P e)
    (type : v4l2_buf_type) (bufs : List buffer) (n : Nat) :
    Sat (Mono P) (read_frame type bufs n) := by
  have hdq : ∀ e, Sat (Mono P) (dequeue_failed e) :=
    fun e => sat_dequeue_failed (hP _ (by rfl)) e
  have hcb : ∀ e, Ev.callback_side e = true → P e :=
    fun e he => hP e (under_loop_of_callback_side he)
  unfold read_frame
  refine sat_bind sat_getState (fun s => ?_)
  split
  · refine sat_bind (sat_at_index _ _) (fun b0 =>
      sat_bind (sat_sys (fun r => hP _ (by rfl))) (fun r => sat_ite (hdq _) ?_))
    exact sat_bind (sat_process_image hcb _ _) (fun _ => sat_pure _)
  · refine sat_bind (sat_xioctl (fun r => hP _ (by rfl))) (fun r => sat_ite (hdq _) ?_)
    dsimp only
    refine sat_ite (sat_bind (sat_at_index _ _) (fun b => ?_)) (sat_halt _)
    apply sat_bind
    · apply sat_ite
      · exact sat_bind (sat_process_image hcb _ _) (fun _ => sat_pure _)
      · exact sat_supply_input hcb _ _ _
    · intro b
      exact under_requeue hP _
  · refine sat_bind (sat_xioctl (fun r => hP _ (by rfl))) (fun r => sat_ite (hdq _) ?_)
    dsimp only
    refine sat_bind (sat_userptr_scan _ _ _ _ _) (fun i => sat_ite ?_ (sat_halt _))
    exact sat_bind (sat_process_image hcb _ _) (fun _ => under_requeue hP _)

theorem under_read_frame_mmap_mp {P : Ev → Prop} (hP : ∀ e, Ev.under_loop e = true → P e)
    (type : v4l2_buf_type) (bufs : List buffer_mp) (n : Nat) :
    Sat (Mono P) (read_frame_mmap_mp type bufs n) := by
  have hdq : ∀ e, Sat (Mono P) (dequeue_failed e) :=
    fun e => sat_dequeue_failed (hP _ (by rfl)) e
  have hcb : ∀ e, Ev.callback_side e = true → P e :=
    fun e he => hP e (under_loop_of_callback_side he)
  unfold read_frame_mmap_mp
  refine sat_bind (sat_xioctl (fun r => hP _ (by rfl))) (fun r => sat_ite (hdq _) ?_)
  dsimp only
  refine sat_ite (sat_bind (sat_at_index _ _) (fun b => ?_)) (sat_halt _)
  apply sat_bind
  · apply sat_ite
    · exact sat_bind (sat_process_image_mp hcb _ _) (fun _ => sat_pure _)
    · exact sat_supply_input_mp_loop hcb _ _ _ _ _
  · intro b
    exact under_requeue hP _

theorem under_stop_capture {P : Ev → Prop} (hP : ∀ e, Ev.under_loop e = true → P e)
    (t : v4l2_buf_type) : Sat (Mono P) (stop_capture t) := by
  intro s
  have h := under_checked hP
  unfold stop_capture
  rw [bind_apply]
  cases hmp : s.multi_planar <;> cases t <;>
    simp only [stream_type, hmp, if_true, Bool.false_eq_true, if_false] <;>
    exact h _ (fun r => by rfl) s

theorem under_unmap_buffers {P : Ev → Prop} (hP : ∀ e, Ev.under_loop e = true → P e)
    (buf : List buffer) (n : Nat) : Sat (Mono P) (unmap_buffers buf n) := by
  have hbody : ∀ a l : Nat, Sat (Mono P) (do
      let r ← sys (Call.munmap a l)
      if r.ret = -1 then errno_exit else pure ()) :=
    fun a l => sat_bind (sat_sys (fun r => hP (Ev.sys (Call.munmap a l) r) rfl)) (fun _ =>
      sat_ite (sat_errno_exit (hP _ (by rfl))) (sat_pure _))
  unfold unmap_buffers
  exact sat_for_range (fun b => sat_bind (sat_at_index _ _) (fun e => hbody _ _)) n

theorem under_unmap_buffers_mp {P : Ev → Prop} (hP : ∀ e, Ev.under_loop e = true → P e)
    (buf : List buffer_mp) (n : Nat) : Sat (Mono P) (unmap_buffers_mp buf n) := by
  have hbody : ∀ a l : Nat, Sat (Mono P) (do
      let r ← sys (Call.munmap a l)
      if r.ret = -1 then errno_exit else pure ()) :=
    fun a l => sat_bind (sat_sys (fun r => hP (Ev.sys (Call.munmap a l) r) rfl)) (fun _ =>
      sat_ite (sat_errno_exit (hP _ (by rfl))) (sat_pure _))
  unfold unmap_buffers_mp
  exact sat_for_range (fun b => sat_bind (sat_at_index _ _) (fun e =>
    sat_for_range (fun p => hbody _ _) _)) n

theorem under_free_buffers_mmap {P : Ev → Prop} (hP : ∀ e, Ev.under_loop e = true → P e)
    (type : v4l2_buf_type) : Sat (Mono P) (free_buffers_mmap type) := by
  unfold free_buffers_mmap
  exact sat_bind (sat_xioctl (fun r => hP _ (by rfl))) (fun _ =>
    sat_ite (sat_ite (sat_exit_with (hP _ (by rfl))) (sat_errno_exit (hP _ (by rfl))))
      (sat_pure _))

theorem under_init_mmap_loop {P : Ev → Prop} (hP : ∀ e, Ev.under_loop e = true → P e)
    (type : v4l2_buf_type) (k b : Nat) (bufs : List buffer) :
    Sat (Mono P) (init_mmap_loop type k b bufs) := by
  induction k generalizing b bufs with
  | zero => exact sat_pure _
  | succ k ih =>
    unfold init_mmap_loop
    exact sat_bind (sat_xioctl (fun r => hP _ (by rfl))) (fun _ =>
      sat_ite (sat_errno_exit (hP _ (by rfl))) (sat_bind (sat_sys (fun r => hP _ (by rfl)))
        (fun _ => sat_ite (sat_errno_exit (hP _ (by rfl))) (ih _ _))))

theorem under_init_mmap {P : Ev → Prop} (hP : ∀ e, Ev.under_loop e = true → P e)
    (type : v4l2_buf_type) : Sat (Mono P) (init_mmap type) := by
  unfold init_mmap
  refine sat_bind (sat_xioctl (fun r => hP _ (by rfl))) (fun _ =>
    sat_ite (sat_ite (sat_exit_with (hP _ (by rfl))) (sat_errno_exit (hP _ (by rfl)))) ?_)
  dsimp only
  exact sat_ite (sat_exit_with (hP _ (by rfl))) (sat_bind (sat_sys (fun r => hP _ (by rfl)))
    (fun _ => sat_ite (sat_exit_with (hP _ (by rfl)))
      (sat_bind (under_init_mmap_loop hP type _ _ _) (fun _ => sat_pure _))))

theorem under_init_mmap_mp_planes {P : Ev → Prop} (hP : ∀ e, Ev.under_loop e = true → P e)
    (planes : List v4l2_plane) (k p : Nat) (e : buffer_mp) :
    Sat (Mono P) (init_mmap_mp_planes planes k p e) := by
  induction k generalizing p e with
  | zero => exact sat_pure _
  | succ k ih =>
    unfold init_mmap_mp_planes
    dsimp only
    exact sat_bind (sat_sys (fun r => hP _ (by rfl))) (fun _ =>
      sat_ite (sat_errno_exit (hP _ (by rfl))) (ih _ _))

theorem under_init_mmap_mp_loop {P : Ev → Prop} (hP : ∀ e, Ev.under_loop e = true → P e)
    (type : v4l2_buf_type) (k b : Nat) (bufs : List buffer_mp) :
    Sat (Mono P) (init_mmap_mp_loop type k b bufs) := by
  induction k generalizing b bufs with
  | zero => exact sat_pure _
  | succ k ih =>
    unfold init_mmap_mp_loop
    exact sat_bind (sat_xioctl (fun r => hP _ (by rfl))) (fun _ =>
      sat_ite (sat_errno_exit (hP _ (by rfl)))
        (sat_bind (under_init_mmap_mp_planes hP _ _ _ _) (fun _ => ih _ _)))

theorem under_init_mmap_mp {P : Ev → Prop} (hP : ∀ e, Ev.under_loop e = true → P e)
    (type : v4l2_buf_type) : Sat (Mono P) (init_mmap_mp type) := by
  unfold init_mmap_mp
  refine sat_bind (sat_xioctl (fun r => hP _ (by rfl))) (fun _ =>
    sat_ite (sat_ite (sat_exit_with (hP _ (by rfl))) (sat_errno_exit (hP _ (by rfl)))) ?_)
  dsimp only
  exact sat_ite (sat_exit_with (hP _ (by rfl))) (sat_bind (sat_sys (fun r => hP _ (by rfl)))
    (fun _ => sat_ite (sat_exit_with (hP _ (by rfl)))
      (sat_bind (under_init_mmap_mp_loop hP type _ _ _) (fun _ => sat_pure _))))

theorem under_start_capturing_mmap {P : Ev → Prop} (hP : ∀ e, Ev.under_loop e = true → P e)
    (type : v4l2_buf_type) (bufs : List buffer) (n : Nat) :
    Sat (Mono P) (start_capturing_mmap type bufs n) := by
  have hcb : ∀ e, Ev.callback_side e = true → P e :=
    fun e he => hP e (under_loop_of_callback_side he)
  unfold start_capturing_mmap
  refine sat_bind (sat_for_range (fun i => ?_) n) (fun _ =>
    under_checked hP _ (fun r => by rfl))
  exact sat_bind (sat_ite (sat_bind (sat_at_index _ _) (fun e =>
    sat_supply_input hcb _ _ _)) (sat_pure _)) (fun _ => under_checked hP _ (fun r => by rfl))

theorem under_start_capturing_mmap_mp {P : Ev → Prop}
    (hP : ∀ e, Ev.under_loop e = true → P e) (type : v4l2_buf_type) (bufs : List buffer_mp)
    (n : Nat) : Sat (Mono P) (start_capturing_mmap_mp type bufs n) := by
  have hcb : ∀ e, Ev.callback_side e = true → P e :=
    fun e he => hP e (under_loop_of_callback_side he)
  unfold start_capturing_mmap_mp
  refine sat_bind (sat_for_range (fun i => ?_) n) (fun _ =>
    under_checked hP _ (fun r => by rfl))
  exact sat_bind (sat_ite (sat_bind (sat_at_index _ _) (fun e =>
    sat_supply_input_mp_loop hcb _ _ _ _ _)) (sat_pure _))
    (fun _ => under_checked hP _ (fun r => by rfl))

theorem under_handle_source_change {P : Ev → Prop} (hP : ∀ e, Ev.under_loop e = true → P e) :
    Sat (Mono P) handle_source_change := by
  unfold handle_source_change
  refine sat_bind (sat_emit (hP _ (by rfl))) (fun _ =>
    sat_bind (under_stop_capture hP _) (fun _ => sat_bind sat_getState (fun s => ?_)))
  split
  · refine sat_bind (under_unmap_buffers_mp hP _ _) (fun _ =>
      sat_bind (sat_emit (hP _ (by rfl))) (fun _ =>
        sat_bind (under_free_buffers_mmap hP _) (fun _ =>
          sat_bind (under_init_mmap_mp hP _) (fun x => ?_))))
    obtain ⟨bufs, n⟩ := x
    exact sat_bind (sat_modify (fun s => ⟨by simp [Frame], rfl, rfl⟩)) (fun _ =>
      under_start_capturing_mmap_mp hP _ _ _)
  · refine sat_bind (under_unmap_buffers hP _ _) (fun _ =>
      sat_bind (sat_emit (hP _ (by rfl))) (fun _ =>
        sat_bind (under_free_buffers_mmap hP _) (fun _ =>
          sat_bind (under_init_mmap hP _) (fun x => ?_))))
    obtain ⟨bufs, n⟩ := x
    exact sat_bind (sat_modify (fun s => ⟨by simp [Frame], rfl, rfl⟩)) (fun _ =>
      under_start_capturing_mmap hP _ _ _)

theorem under_handle_event_loop {P : Ev → Prop} (hP : ∀ e, Ev.under_loop e = true → P e)
    (n : Nat) : Sat (Mono P) (handle_event_loop n) := by
  induction n with
  | zero => exact sat_halt _
  | succ n ih =>
    unfold handle_event_loop
    refine sat_bind (sat_sys (fun r => hP _ (by rfl))) (fun ev => sat_ite ?_ (sat_pure _))
    refine sat_bind ?_ (fun _ => ih)
    split
    · exact under_handle_source_change hP
    · exact sat_emit (hP _ (by rfl))
    · exact sat_pure _

theorem under_handle_event {P : Ev → Prop} (hP : ∀ e, Ev.under_loop e = true → P e) :
    Sat (Mono P) handle_event :=
  sat_bind sat_getState (fun _ => under_handle_event_loop hP _)

theorem is_wait_of_under_loop {e : Ev} (h : Ev.under_loop e = true) : Ev.is_wait e = false := by
  cases e with
  | sys c r => cases c <;> simp_all [Ev.under_loop, Ev.is_wait]
  | _ => rfl

theorem quiet_service (type : v4l2_buf_type) {call : M Int}
    (h : Sat (Mono (fun e => Ev.is_wait e = false)) call) :
    Sat (Mono (fun e => Ev.is_wait e = false)) (service type call) :=
  sat_bind h (fun _ => sat_bind (sat_emit (by rfl)) (fun _ => sat_pure _))

theorem quiet_events_part (r : Resp) :
    Sat (Mono (fun e => Ev.is_wait e = false)) (events_part r) := by
  unfold events_part
  exact sat_bind (sat_ite (sat_bind (sat_emit (by rfl)) (fun _ =>
    under_handle_event (fun e he => is_wait_of_under_loop he))) (sat_pure _))
    (fun _ => sat_pure _)

theorem quiet_output_part (r : Resp) :
    Sat (Mono (fun e => Ev.is_wait e = false)) (output_part r) := by
  unfold output_part
  refine sat_bind (sat_ite (sat_bind (sat_emit (by rfl)) (fun _ =>
    sat_bind sat_getState (fun s => ?_))) (sat_pure _))
    (fun _ => sat_ite (sat_pure _) (quiet_events_part r))
  unfold output_call
  exact sat_ite
    (quiet_service _ (under_read_frame_mmap_mp (fun e he => is_wait_of_under_loop he) _ _ _))
    (quiet_service _ (under_read_frame (fun e he => is_wait_of_under_loop he) _ _ _))

theorem quiet_capture_part (r : Resp) :
    Sat (Mono (fun e => Ev.is_wait e = false)) (capture_part r) := by
  unfold capture_part
  refine sat_bind (sat_ite (sat_bind (sat_emit (by rfl)) (fun _ =>
    sat_bind sat_getState (fun s => ?_))) (sat_pure _))
    (fun _ => sat_ite (sat_pure _) (quiet_output_part r))
  unfold capture_call
  exact sat_ite
    (quiet_service _ (under_read_frame_mmap_mp (fun e he => is_wait_of_under_loop he) _ _ _))
    (quiet_service _ (under_read_frame (fun e he => is_wait_of_under_loop he) _ _ _))

/-- The ways one pass of the loop body of `mainloop` can go, by the answer of its
wait. -/
theorem mainloop_body_wait (s : State) :
    (s.script = [] ∧ mainloop_body s = Result.halt Halt.starved s) ∨
    ∃ r rest, s.script = r :: rest ∧
      ((r.ret = -1 ∧ r.errno = Errno.EINTR ∧
          mainloop_body s = Result.ok false (after_wait s r rest)) ∨
       (r.ret = -1 ∧ r.errno ≠ Errno.EINTR ∧
          mainloop_body s = Result.halt Halt.exit
            { after_wait s r rest with
              trace := (after_wait s r rest).trace ++ [Ev.log Msg.errno_exit] }) ∨
       (r.ret = 0 ∧
          mainloop_body s = Result.halt Halt.exit
            { after_wait s r rest with
              trace := (after_wait s r rest).trace ++ [Ev.log Msg.select_timeout] }) ∨
       (r.ret ≠ -1 ∧ r.ret ≠ 0 ∧ mainloop_body s = capture_part r (after_wait s r rest))) := by
  cases hs : s.script with
  | nil =>
    left
    refine ⟨rfl, ?_⟩
    rw [mainloop_body_eq, bind_apply]
    simp [M2M.sys, hs]
  | cons r rest =>
    right
    refine ⟨r, rest, rfl, ?_⟩
    by_cases h1 : r.ret = -1
    · by_cases hE : r.errno = Errno.EINTR
      · left
        refine ⟨h1, hE, ?_⟩
        rw [mainloop_body_eq, bind_apply]
        simp [M2M.sys, hs, ite_apply, h1, hE, pure_apply, after_wait]
      · right; left
        refine ⟨h1, hE, ?_⟩
        rw [mainloop_body_eq, bind_apply]
        simp [M2M.sys, hs, ite_apply, h1, hE, errno_exit_apply, after_wait]
    · by_cases h0 : r.ret = 0
      · right; right; left
        refine ⟨h0, ?_⟩
        rw [mainloop_body_eq, bind_apply]
        simp [M2M.sys, hs, ite_apply, h0, exit_with_apply, after_wait]
      · right; right; right
        refine ⟨h1, h0, ?_⟩
        rw [mainloop_body_eq, bind_apply]
        simp [M2M.sys, hs, ite_apply, h1, h0, after_wait]

theorem split_append {α : Type} {a b pre post : List α} {e : α}
    (h : a ++ b = pre ++ e :: post) :
    (∃ p, a = pre ++ e :: p ∧ post = p ++ b) ∨ (∃ q, pre = a ++ q ∧ b = q ++ e :: post) := by
  induction a generalizing pre with
  | nil => exact Or.inr ⟨pre, rfl, h⟩
  | cons x a ih =>
    cases pre with
    | nil =>
      simp only [List.cons_append, List.nil_append, List.cons.injEq] at h
      obtain ⟨hx, hr⟩ := h
      exact Or.inl ⟨a, by simp [hx], hr.symm⟩
    | cons y pre =>
      simp only [List.cons_append, List.cons.injEq] at h
      obtain ⟨hx, hr⟩ := h
      rcases ih hr with ⟨p, hp, hpost⟩ | ⟨q, hq, hb⟩
      · exact Or.inl ⟨p, by simp [hx, hp], hpost⟩
      · exact Or.inr ⟨q, by simp [hx, hq], hb⟩

theorem waits_nil (fin : Option Halt) : WaitsOK fin [] := by
  intro pre post rd wr ex a b r h
  simp at h

theorem waits_quiet (fin : Option Halt) {q : List Ev} (hq : ∀ e ∈ q, Ev.is_wait e = false) :
    WaitsOK fin q := by
  intro pre post rd wr ex a b r h
  have hm : Ev.sys (Call.select rd wr ex a b) r ∈ q := by
    rw [h]
    simp
  have := hq _ hm
  simp [Ev.is_wait] at this

/-- A trace that starts with a wait of `mainloop`. -/
theorem waits_cons {fin : Option Halt} {r : Resp} {t : List Ev} (ht : WaitsOK fin t)
    (h0 : r.ret = 0 → t = [Ev.log Msg.select_timeout] ∧ fin = some Halt.exit)
    (hE : r.ret = -1 → r.errno = Errno.EINTR →
      (t = [] ∧ fin = some Halt.starved) ∨
      ∃ (r2 : Resp) (post2 : List Ev), t = Ev.sys (Call.select true true true 10 0) r2 :: post2) :
    WaitsOK fin (Ev.sys (Call.select true true true 10 0) r :: t) := by
  intro pre post rd wr ex a b rr h
  cases pre with
  | nil =>
    simp only [List.nil_append, List.cons.injEq, Ev.sys.injEq, Call.select.injEq] at h
    obtain ⟨⟨⟨_, _, _, ha, hb⟩, hr⟩, hp⟩ := h
    subst hr hp
    exact ⟨⟨ha.symm, hb.symm⟩, h0, hE⟩
  | cons y pre =>
    simp only [List.cons_append, List.cons.injEq] at h
    exact ht pre post rd wr ex a b rr h.2

/-- Traces of two parts of a run, the first of which returned. -/
theorem waits_append {fin : Option Halt} {t1 t2 : List Ev} (h1 : WaitsOK none t1)
    (h2 : WaitsOK fin t2) : WaitsOK fin (t1 ++ t2) := by
  intro pre post rd wr ex a b r h
  rcases split_append h with ⟨p, hp, hpost⟩ | ⟨q, hq, hb⟩
  · obtain ⟨hten, hz, hi⟩ := h1 pre p rd wr ex a b r hp
    refine ⟨hten, ?_, ?_⟩
    · intro hr
      have := (hz hr).2
      simp at this
    · intro hr hE
      rcases hi hr hE with ⟨_, hf⟩ | ⟨r2, post2, hp2⟩
      · simp at hf
      · exact Or.inr ⟨r2, post2 ++ t2, by simp [hpost, hp2]⟩
  · exact h2 q post rd wr ex a b r hb

theorem mainloop_inner_succ (n : Nat) (s : State) :
    mainloop_inner (n + 1) s = match mainloop_body s with
      | Result.ok brk s1 => if brk = true then emit Ev.frame_done s1 else mainloop_inner n s1
      | Result.halt h s1 => Result.halt h s1 := by
  rw [mainloop_inner, bind_apply]
  cases mainloop_body s with
  | ok brk s1 => cases brk <;> rfl
  | halt h s1 => rfl

/-- An interrupted wait only moves the inner loop of `mainloop` to its next pass. -/
theorem mainloop_inner_interrupted {s : State} {r : Resp} {rest : List Resp}
    (hs : s.script = r :: rest) (h1 : r.ret = -1) (hE : r.errno = Errno.EINTR) (n : Nat) :
    mainloop_inner (n + 1) s = mainloop_inner n (after_wait s r rest) := by
  rcases mainloop_body_wait s with ⟨hs0, _⟩ | ⟨r', rest', hs', hcase⟩
  · rw [hs] at hs0
    cases hs0
  · rw [hs] at hs'
    cases hs'
    rcases hcase with ⟨_, _, hb⟩ | ⟨_, hE', _⟩ | ⟨h0, _⟩ | ⟨h1', _, _⟩
    · rw [mainloop_inner_succ, hb]
      simp
    · exact absurd hE hE'
    · omega
    · exact absurd h1 h1'

/-- What the inner loop of `mainloop` adds to the trace. -/
theorem mainloop_inner_waits (n : Nat) (s : State) :
    ∃ t, (mainloop_inner n s).state.trace = s.trace ++ t ∧
      WaitsOK (mainloop_inner n s).halted t ∧
      ((t = [] ∧ (mainloop_inner n s).halted = some Halt.starved) ∨
        ∃ (r2 : Resp) (post2 : List Ev),
          t = Ev.sys (Call.select true true true 10 0) r2 :: post2) := by
  induction n generalizing s with
  | zero =>
    exact ⟨[], by simp [mainloop_inner, halt_apply, Result.state], waits_nil _,
      Or.inl ⟨rfl, rfl⟩⟩
  | succ n ih =>
    rcases mainloop_body_wait s with ⟨hs, hb⟩ | ⟨r, rest, hs, hcase⟩
    · rw [mainloop_inner_succ, hb]
      exact ⟨[], by simp [Result.state], waits_nil _, Or.inl ⟨rfl, rfl⟩⟩
    · rcases hcase with ⟨h1, hE, hb⟩ | ⟨h1, hE, hb⟩ | ⟨h0, hb⟩ | ⟨h1, h0, hb⟩
      · obtain ⟨t, ht, hw, hst⟩ := ih (after_wait s r rest)
        rw [mainloop_inner_interrupted hs h1 hE]
        refine ⟨Ev.sys (Call.select true true true 10 0) r :: t, ?_,
          waits_cons hw (fun h => by omega) (fun _ _ => hst), Or.inr ⟨r, t, rfl⟩⟩
        rw [ht]
        simp [after_wait]
      · rw [mainloop_inner_succ, hb]
        refine ⟨[Ev.sys (Call.select true true true 10 0) r, Ev.log Msg.errno_exit], ?_,
          waits_cons (waits_quiet _ ?_) (fun h => by omega) (fun _ h => absurd h hE),
          Or.inr ⟨r, _, rfl⟩⟩
        · simp [Result.state, after_wait]
        · intro e he
          simp at he
          subst he
          rfl
      · rw [mainloop_inner_succ, hb]
        refine ⟨[Ev.sys (Call.select true true true 10 0) r, Ev.log Msg.select_timeout], ?_,
          waits_cons (waits_quiet _ ?_) (fun _ => ⟨rfl, rfl⟩) (fun h => by omega),
          Or.inr ⟨r, _, rfl⟩⟩
        · simp [Result.state, after_wait]
        · intro e he
          simp at he
          subst he
          rfl
      · obtain ⟨_, ⟨q, hq, hquiet⟩, _⟩ := quiet_capture_part r (after_wait s r rest)
        rw [mainloop_inner_succ, hb]
        cases hres : capture_part r (after_wait s r rest) with
        | halt h s1 =>
          rw [hres] at hq
          refine ⟨Ev.sys (Call.select true true true 10 0) r :: q, ?_,
            waits_cons (waits_quiet _ hquiet) (fun h => absurd h h0) (fun h => absurd h h1),
            Or.inr ⟨r, _, rfl⟩⟩
          simp only [Result.state] at hq ⊢
          rw [hq]
          simp [after_wait]
        | ok brk s1 =>
          rw [hres] at hq
          simp only [Result.state] at hq
          cases brk with
          | true =>
            refine ⟨Ev.sys (Call.select true true true 10 0) r :: (q ++ [Ev.frame_done]), ?_,
              waits_cons (waits_quiet _ ?_) (fun h => absurd h h0) (fun h => absurd h h1),
              Or.inr ⟨r, _, rfl⟩⟩
            · simp [emit_apply, Result.state, hq, after_wait]
            · intro e he
              simp only [List.mem_append, List.mem_singleton] at he
              rcases he with he | he
              · exact hquiet e he
              · subst he
                rfl
          | false =>
            obtain ⟨t, ht, hw, hst⟩ := ih s1
            refine ⟨Ev.sys (Call.select true true true 10 0) r :: (q ++ t), ?_,
              waits_cons (waits_append (waits_quiet _ hquiet) hw) (fun h => absurd h h0)
                (fun h => absurd h h1),
              Or.inr ⟨r, _, rfl⟩⟩
            simp only [Bool.false_eq_true, if_false]
            rw [ht, hq]
            simp [after_wait]

/-- What the outer loop of `mainloop` adds to the trace. -/
theorem mainloop_outer_waits (count : Nat) (s : State) :
    ∃ t, (mainloop_outer count s).state.trace = s.trace ++ t ∧
      WaitsOK (mainloop_outer count s).halted t := by
  induction count generalizing s with
  | zero => exact ⟨[], by simp [mainloop_outer, pure_apply, Result.state], waits_nil _⟩
  | succ count ih =>
    have hunf : mainloop_outer (count + 1) s =
        match mainloop_inner (s.script.length + 1) s with
        | Result.ok _ s1 => mainloop_outer count s1
        | Result.halt h s1 => Result.halt h s1 := by
      rw [mainloop_outer, bind_apply, getState_apply]
      dsimp only
      rw [bind_apply]
      cases mainloop_inner (s.script.length + 1) s <;> rfl
    obtain ⟨t1, ht1, hw1, _⟩ := mainloop_inner_waits (s.script.length + 1) s
    rw [hunf]
    cases hres : mainloop_inner (s.script.length + 1) s with
    | halt h s1 =>
      rw [hres] at ht1 hw1
      exact ⟨t1, ht1, hw1⟩
    | ok u s1 =>
      rw [hres] at ht1 hw1
      obtain ⟨t2, ht2, hw2⟩ := ih s1
      refine ⟨t1 ++ t2, ?_, waits_append hw1 hw2⟩
      simp only [Result.state] at ht1
      dsimp only
      rw [ht2, ht1, List.append_assoc]

/-- What `mainloop` adds to the trace. -/
theorem mainloop_waits (s : State) : WaitsOK (mainloop s).halted (added mainloop s) := by
  obtain ⟨t, ht, hw⟩ := mainloop_outer_waits (s.frame_count % 2 ^ 32).toNat s
  have heq : mainloop s = mainloop_outer (s.frame_count % 2 ^ 32).toNat s := rfl
  rw [added_eq (heq ▸ ht), heq]
  exact hw

/-- A run of `mainloop` whose budget is not used up and whose first wait is
interrupted is the run of `mainloop` from the state after that wait. -/
theorem mainloop_interrupted {s : State} {r : Resp} {rest : List Resp}
    (hs : s.script = r :: rest) (h1 : r.ret = -1) (hE : r.errno = Errno.EINTR)
    (hb : 0 < budget s) : mainloop s = mainloop (after_wait s r rest) := by
  have heq : ∀ x : State, mainloop x = mainloop_outer (budget x) x := fun _ => rfl
  have hbud : budget (after_wait s r rest) = budget s := rfl
  rw [heq, heq, hbud]
  obtain ⟨c, hc⟩ : ∃ c, budget s = c + 1 := ⟨budget s - 1, by omega⟩
  rw [hc]
  have hunf : ∀ x : State, mainloop_outer (c + 1) x =
      (mainloop_inner (x.script.length + 1) >>= fun _ => mainloop_outer c) x := fun _ => rfl
  rw [hunf, hunf, bind_apply, bind_apply, hs]
  have hlen : (after_wait s r rest).script.length = rest.length := rfl
  rw [hlen, List.length_cons, mainloop_inner_interrupted hs h1 hE]

/-- A run of `mainloop` whose budget is not used up and whose first wait returns 0
ends by `exit` right after the diagnostic. -/
theorem mainloop_timeout {s : State} {r : Resp} {rest : List Resp}
    (hs : s.script = r :: rest) (h0 : r.ret = 0) (hb : 0 < budget s) :
    mainloop s = Result.halt Halt.exit
      { after_wait s r rest with
        trace := (after_wait s r rest).trace ++ [Ev.log Msg.select_timeout] } := by
  have heq : ∀ x : State, mainloop x = mainloop_outer (budget x) x := fun _ => rfl
  rw [heq]
  obtain ⟨c, hc⟩ : ∃ c, budget s = c + 1 := ⟨budget s - 1, by omega⟩
  rw [hc]
  have hunf : ∀ x : State, mainloop_outer (c + 1) x =
      (mainloop_inner (x.script.length + 1) >>= fun _ => mainloop_outer c) x := fun _ => rfl
  rw [hunf, bind_apply, mainloop_inner_succ]
  rcases mainloop_body_wait s with ⟨hs0, _⟩ | ⟨r', rest', hs', hcase⟩
  · rw [hs] at hs0
    cases hs0
  · rw [hs] at hs'
    cases hs'
    rcases hcase with ⟨h1, _, _⟩ | ⟨h1, _, _⟩ | ⟨_, hbd⟩ | ⟨_, h0', _⟩
    · omega
    · omega
    · rw [hbd]
    · exact absurd h0 h0'

/-! ## Kinds of trace entries -/

theorem kind_of_callback_side {e : Ev} (h : Ev.callback_side e = true) :
    Ev.kind e ∈ [Kind.sink, Kind.source, Kind.diag] := by
  cases e with
  | log m => cases m <;> simp_all [Ev.callback_side, Ev.kind, Msg.is_mark]
  | _ => simp_all [Ev.callback_side, Ev.kind]

theorem kinds_checked {P : Ev → Prop} {K : List Kind} (hP : ∀ e, Ev.kind e ∈ K → P e)
    (c : Call) (hc : c.kind ∈ K) (hd : Kind.diag ∈ K) :
    Sat (Mono P) (do
      let r ← xioctl c
      if r.ret = -1 then errno_exit else pure ()) :=
  sat_bind (sat_xioctl (fun _ => hP _ hc)) (fun _ =>
    sat_ite (sat_errno_exit (hP _ hd)) (sat_pure _))

theorem kinds_requeue {P : Ev → Prop} (hP : ∀ e, Ev.kind e ∈ [Kind.qbuf, Kind.diag] → P e)
    (buf : v4l2_buffer) :
    Sat (Mono P) (do
      let r2 ← xioctl (Call.VIDIOC_QBUF buf)
      if r2.ret = -1 then errno_exit else pure (1 : Int)) :=
  sat_bind (sat_xioctl (fun _ => hP _ (by simp [Ev.kind, Call.kind, Msg.is_mark]))) (fun _ =>
    sat_ite (sat_errno_exit (hP _ (by simp [Ev.kind, Call.kind, Msg.is_mark]))) (sat_pure _))

theorem kinds_stop_capture {P : Ev → Prop}
    (hP : ∀ e, Ev.kind e ∈ [Kind.streamoff, Kind.diag] → P e)
    (t : v4l2_buf_type) : Sat (Mono P) (stop_capture t) := by
  intro s
  have h := fun c hc => kinds_checked hP c hc (by decide)
  unfold stop_capture
  rw [bind_apply]
  cases hmp : s.multi_planar <;> cases t <;>
    simp only [stream_type, hmp, if_true, Bool.false_eq_true, if_false] <;>
    exact h _ (by simp [Call.kind]) s

theorem kinds_unmap_buffers {P : Ev → Prop}
    (hP : ∀ e, Ev.kind e ∈ [Kind.munmap, Kind.diag] → P e)
    (buf : List buffer) (n : Nat) : Sat (Mono P) (unmap_buffers buf n) := by
  have hbody : ∀ a l : Nat, Sat (Mono P) (do
      let r ← sys (Call.munmap a l)
      if r.ret = -1 then errno_exit else pure ()) :=
    fun a l => sat_bind (sat_sys (fun r => hP (Ev.sys (Call.munmap a l) r) (by simp [Ev.kind, Call.kind])))
      (fun _ => sat_ite (sat_errno_exit (hP _ (by simp [Ev.kind, Call.kind, Msg.is_mark]))) (sat_pure _))
  unfold unmap_buffers
  exact sat_for_range (fun b => sat_bind (sat_at_index _ _) (fun e => hbody _ _)) n

theorem kinds_unmap_buffers_mp {P : Ev → Prop}
    (hP : ∀ e, Ev.kind e ∈ [Kind.munmap, Kind.diag] → P e)
    (buf : List buffer_mp) (n : Nat) : Sat (Mono P) (unmap_buffers_mp buf n) := by
  have hbody : ∀ a l : Nat, Sat (Mono P) (do
      let r ← sys (Call.munmap a l)
      if r.ret = -1 then errno_exit else pure ()) :=
    fun a l => sat_bind (sat_sys (fun r => hP (Ev.sys (Call.munmap a l) r) (by simp [Ev.kind, Call.kind])))
      (fun _ => sat_ite (sat_errno_exit (hP _ (by simp [Ev.kind, Call.kind, Msg.is_mark]))) (sat_pure _))
  unfold unmap_buffers_mp
  exact sat_for_range (fun b => sat_bind (sat_at_index _ _) (fun e =>
    sat_for_range (fun p => hbody _ _) _)) n

theorem kinds_free_buffers_mmap {P : Ev → Prop}
    (hP : ∀ e, Ev.kind e ∈ [Kind.reqbufs, Kind.diag] → P e)
    (type : v4l2_buf_type) : Sat (Mono P) (free_buffers_mmap type) := by
  unfold free_buffers_mmap
  exact sat_bind (sat_xioctl (fun r => hP _ (by simp [Ev.kind, Call.kind, Msg.is_mark]))) (fun _ =>
    sat_ite (sat_ite (sat_exit_with (hP _ (by simp [Ev.kind, Call.kind, Msg.is_mark]))) (sat_errno_exit (hP _ (by simp [Ev.kind, Call.kind, Msg.is_mark]))))
      (sat_pure _))

theorem kinds_init_mmap_loop {P : Ev → Prop}
    (hP : ∀ e, Ev.kind e ∈ [Kind.reqbufs, Kind.alloc, Kind.querybuf, Kind.mmap, Kind.diag] → P e)
    (type : v4l2_buf_type) (k b : Nat) (bufs : List buffer) :
    Sat (Mono P) (init_mmap_loop type k b bufs) := by
  induction k generalizing b bufs with
  | zero => exact sat_pure _
  | succ k ih =>
    unfold init_mmap_loop
    exact sat_bind (sat_xioctl (fun r => hP _ (by simp [Ev.kind, Call.kind, Msg.is_mark]))) (fun _ =>
      sat_ite (sat_errno_exit (hP _ (by simp [Ev.kind, Call.kind, Msg.is_mark])))
        (sat_bind (sat_sys (fun r => hP _ (by simp [Ev.kind, Call.kind, Msg.is_mark])))
        (fun _ => sat_ite (sat_errno_exit (hP _ (by simp [Ev.kind, Call.kind, Msg.is_mark]))) (ih _ _))))

theorem kinds_init_mmap {P : Ev → Prop}
    (hP : ∀ e, Ev.kind e ∈ [Kind.reqbufs, Kind.alloc, Kind.querybuf, Kind.mmap, Kind.diag] → P e)
    (type : v4l2_buf_type) : Sat (Mono P) (init_mmap type) := by
  unfold init_mmap
  refine sat_bind (sat_xioctl (fun r => hP _ (by simp [Ev.kind, Call.kind, Msg.is_mark]))) (fun _ =>
    sat_ite (sat_ite (sat_exit_with (hP _ (by simp [Ev.kind, Call.kind, Msg.is_mark]))) (sat_errno_exit (hP _ (by simp [Ev.kind, Call.kind, Msg.is_mark])))) ?_)
  dsimp only
  exact sat_ite (sat_exit_with (hP _ (by simp [Ev.kind, Call.kind, Msg.is_mark])))
    (sat_bind (sat_sys (fun r => hP _ (by simp [Ev.kind, Call.kind, Msg.is_mark])))
    (fun _ => sat_ite (sat_exit_with (hP _ (by simp [Ev.kind, Call.kind, Msg.is_mark])))
      (sat_bind (kinds_init_mmap_loop hP type _ _ _) (fun _ => sat_pure _))))

theorem kinds_init_mmap_mp_planes {P : Ev → Prop}
    (hP : ∀ e, Ev.kind e ∈ [Kind.reqbufs, Kind.alloc, Kind.querybuf, Kind.mmap, Kind.diag] → P e)
    (planes : List v4l2_plane) (k p : Nat) (e : buffer_mp) :
    Sat (Mono P) (init_mmap_mp_planes planes k p e) := by
  induction k generalizing p e with
  | zero => exact sat_pure _
  | succ k ih =>
    unfold init_mmap_mp_planes
    dsimp only
    exact sat_bind (sat_sys (fun r => hP _ (by simp [Ev.kind, Call.kind, Msg.is_mark]))) (fun _ =>
      sat_ite (sat_errno_exit (hP _ (by simp [Ev.kind, Call.kind, Msg.is_mark]))) (ih _ _))

theorem kinds_init_mmap_mp_loop {P : Ev → Prop}
    (hP : ∀ e, Ev.kind e ∈ [Kind.reqbufs, Kind.alloc, Kind.querybuf, Kind.mmap, Kind.diag] → P e)
    (type : v4l2_buf_type) (k b : Nat) (bufs : List buffer_mp) :
    Sat (Mono P) (init_mmap_mp_loop type k b bufs) := by
  induction k generalizing b bufs with
  | zero => exact sat_pure _
  | succ k ih =>
    unfold init_mmap_mp_loop
    exact sat_bind (sat_xioctl (fun r => hP _ (by simp [Ev.kind, Call.kind, Msg.is_mark]))) (fun _ =>
      sat_ite (sat_errno_exit (hP _ (by simp [Ev.kind, Call.kind, Msg.is_mark])))
        (sat_bind (kinds_init_mmap_mp_planes hP _ _ _ _) (fun _ => ih _ _)))

theorem kinds_init_mmap_mp {P : Ev → Prop}
    (hP : ∀ e, Ev.kind e ∈ [Kind.reqbufs, Kind.alloc, Kind.querybuf, Kind.mmap, Kind.diag] → P e)
    (type : v4l2_buf_type) : Sat (Mono P) (init_mmap_mp type) := by
  unfold init_mmap_mp
  refine sat_bind (sat_xioctl (fun r => hP _ (by simp [Ev.kind, Call.kind, Msg.is_mark]))) (fun _ =>
    sat_ite (sat_ite (sat_exit_with (hP _ (by simp [Ev.kind, Call.kind, Msg.is_mark]))) (sat_errno_exit (hP _ (by simp [Ev.kind, Call.kind, Msg.is_mark])))) ?_)
  dsimp only
  exact sat_ite (sat_exit_with (hP _ (by simp [Ev.kind, Call.kind, Msg.is_mark])))
    (sat_bind (sat_sys (fun r => hP _ (by simp [Ev.kind, Call.kind, Msg.is_mark])))
    (fun _ => sat_ite (sat_exit_with (hP _ (by simp [Ev.kind, Call.kind, Msg.is_mark])))
      (sat_bind (kinds_init_mmap_mp_loop hP type _ _ _) (fun _ => sat_pure _))))

theorem kinds_start_capturing_mmap {P : Ev → Prop}
    (hP : ∀ e, Ev.kind e ∈ [Kind.source, Kind.qbuf, Kind.streamon, Kind.diag] → P e)
    (type : v4l2_buf_type) (bufs : List buffer) (n : Nat) :
    Sat (Mono P) (start_capturing_mmap type bufs n) := by
  have hcb : ∀ e, Ev.callback_side e = true → Ev.kind e ≠ Kind.sink → P e := by
    intro e he hne
    have := kind_of_callback_side he
    simp only [List.mem_cons, List.mem_singleton, List.not_mem_nil, or_false] at this
    rcases this with h | h | h
    · exact absurd h hne
    · exact hP e (by simp [h])
    · exact hP e (by simp [h])
  have hsrc : ∀ b l u, Sat (Mono P) (supply_input b l u) := by
    intro b l u
    unfold supply_input
    refine sat_bind (sat_emit (hP _ (by simp [Ev.kind, Call.kind, Msg.is_mark]))) (fun _ =>
      sat_bind sat_getState (fun s => sat_ite ?_ (sat_pure _)))
    refine sat_bind (sat_fread _ _) (fun got =>
      sat_bind (sat_emit (hP _ ?_)) (fun _ => sat_pure _))
    split <;> simp [Ev.kind, Msg.is_mark]
  unfold start_capturing_mmap
  refine sat_bind (sat_for_range (fun i => ?_) n) (fun _ =>
    kinds_checked hP _ (by simp [Ev.kind, Call.kind, Msg.is_mark]) (by decide))
  exact sat_bind (sat_ite (sat_bind (sat_at_index _ _) (fun e => hsrc _ _ _)) (sat_pure _))
    (fun _ => kinds_checked hP _ (by simp [Ev.kind, Call.kind, Msg.is_mark]) (by decide))

theorem kinds_supply_input_by_au {P : Ev → Prop}
    (hP : ∀ e, Ev.kind e ∈ [Kind.source, Kind.qbuf, Kind.streamon, Kind.diag] → P e)
    (buf buf_len : Nat) : Sat (Mono P) (supply_input_by_au buf buf_len) := by
  unfold supply_input_by_au
  refine sat_bind (sat_emit (hP _ (by simp [Ev.kind, Call.kind, Msg.is_mark]))) (fun _ =>
    sat_bind sat_getState (fun s => sat_ite ?_ (sat_halt _)))
  refine sat_bind (sat_modify (fun s => ⟨by simp [Frame], rfl, rfl⟩)) (fun _ =>
    sat_bind (sat_fread _ _) (fun n => sat_bind sat_getState (fun s1 => ?_)))
  split
  · exact sat_halt _
  · exact sat_bind (sat_modify (fun s => ⟨by simp [Frame], rfl, rfl⟩)) (fun _ =>
      sat_bind (sat_modify (fun s => ⟨by simp [Frame], rfl, rfl⟩)) (fun _ =>
        sat_bind (sat_emit (hP _ (by simp [Ev.kind, Call.kind, Msg.is_mark]))) (fun _ => sat_pure _)))

theorem kinds_supply_input_mp_loop {P : Ev → Prop}
    (hP : ∀ e, Ev.kind e ∈ [Kind.source, Kind.qbuf, Kind.streamon, Kind.diag] → P e)
    (buf buf_len : List Nat) (k p tot : Nat) :
    Sat (Mono P) (supply_input_mp_loop buf buf_len k p tot) := by
  induction k generalizing p tot with
  | zero => exact sat_pure _
  | succ k ih =>
    unfold supply_input_mp_loop
    exact sat_bind (kinds_supply_input_by_au hP _ _) (fun _ => ih _ _)

theorem kinds_start_capturing_mmap_mp {P : Ev → Prop}
    (hP : ∀ e, Ev.kind e ∈ [Kind.source, Kind.qbuf, Kind.streamon, Kind.diag] → P e)
    (type : v4l2_buf_type) (bufs : List buffer_mp) (n : Nat) :
    Sat (Mono P) (start_capturing_mmap_mp type bufs n) := by
  unfold start_capturing_mmap_mp
  refine sat_bind (sat_for_range (fun i => ?_) n) (fun _ =>
    kinds_checked hP _ (by simp [Ev.kind, Call.kind, Msg.is_mark]) (by decide))
  exact sat_bind (sat_ite (sat_bind (sat_at_index _ _) (fun e =>
    kinds_supply_input_mp_loop hP _ _ _ _ _)) (sat_pure _))
    (fun _ => kinds_checked hP _ (by simp [Ev.kind, Call.kind, Msg.is_mark]) (by decide))

theorem kinds_handle_source_change {P : Ev → Prop}
    (hP : ∀ e, Ev.kind e ∈ Kind.reconfigure → P e) : Sat (Mono P) handle_source_change := by
  have h1 : ∀ e, Ev.kind e ∈ [Kind.streamoff, Kind.diag] → P e :=
    fun e he => hP e ((show [Kind.streamoff, Kind.diag] ⊆ Kind.reconfigure by decide) he)
  have h2 : ∀ e, Ev.kind e ∈ [Kind.munmap, Kind.diag] → P e :=
    fun e he => hP e ((show [Kind.munmap, Kind.diag] ⊆ Kind.reconfigure by decide) he)
  have h3 : ∀ e, Ev.kind e ∈ [Kind.reqbufs, Kind.diag] → P e :=
    fun e he => hP e ((show [Kind.reqbufs, Kind.diag] ⊆ Kind.reconfigure by decide) he)
  have h4 : ∀ e, Ev.kind e ∈
      [Kind.reqbufs, Kind.alloc, Kind.querybuf, Kind.mmap, Kind.diag] → P e :=
    fun e he => hP e ((show [Kind.reqbufs, Kind.alloc, Kind.querybuf, Kind.mmap, Kind.diag] ⊆
      Kind.reconfigure by decide) he)
  have h5 : ∀ e, Ev.kind e ∈ [Kind.source, Kind.qbuf, Kind.streamon, Kind.diag] → P e :=
    fun e he => hP e ((show [Kind.source, Kind.qbuf, Kind.streamon, Kind.diag] ⊆
      Kind.reconfigure by decide) he)
  unfold handle_source_change
  refine sat_bind (sat_emit (h1 _ (by simp [Ev.kind, Msg.is_mark]))) (fun _ =>
    sat_bind (kinds_stop_capture h1 _) (fun _ => sat_bind sat_getState (fun s => ?_)))
  split
  · refine sat_bind (kinds_unmap_buffers_mp h2 _ _) (fun _ =>
      sat_bind (sat_emit (h1 _ (by simp [Ev.kind, Msg.is_mark]))) (fun _ =>
        sat_bind (kinds_free_buffers_mmap h3 _) (fun _ =>
          sat_bind (kinds_init_mmap_mp h4 _) (fun x => ?_))))
    obtain ⟨bufs, n⟩ := x
    exact sat_bind (sat_modify (fun s => ⟨by simp [Frame], rfl, rfl⟩)) (fun _ =>
      kinds_start_capturing_mmap_mp h5 _ _ _)
  · refine sat_bind (kinds_unmap_buffers h2 _ _) (fun _ =>
      sat_bind (sat_emit (h1 _ (by simp [Ev.kind, Msg.is_mark]))) (fun _ =>
        sat_bind (kinds_free_buffers_mmap h3 _) (fun _ =>
          sat_bind (kinds_init_mmap h4 _) (fun x => ?_))))
    obtain ⟨bufs, n⟩ := x
    exact sat_bind (sat_modify (fun s => ⟨by simp [Frame], rfl, rfl⟩)) (fun _ =>
      kinds_start_capturing_mmap h5 _ _ _)

/-! ## Servicing the readiness classes -/

theorem steps_append (a b : List Ev) : steps (a ++ b) = steps a ++ steps b := by
  simp [steps]

theorem steps_interrupted {pre : List Ev} (h : ∀ e ∈ pre, Ev.interrupted e = true) :
    steps pre = [] := by
  simp only [steps, List.filterMap_eq_nil_iff]
  intro e he
  have := h e he
  cases e with
  | sys c r => simp [Ev.step?, this]
  | _ => rfl

theorem steps_sys {c : Call} {r : Resp} (h : (Ev.sys c r).interrupted = false) :
    steps [Ev.sys c r] = [(c, r)] := by
  simp [steps, Ev.step?, h]

theorem steps_emit_log (t : List Ev) (m : Msg) : steps (t ++ [Ev.log m]) = steps t := by
  simp [steps, Ev.step?]

theorem xioctl_steps {c : Call} {s : State} {r : Resp} {s' : State}
    (h : xioctl c s = Result.ok r s') (hc : c.returns_pointer = false) :
    s'.vars = s.vars ∧ steps s'.trace = steps s.trace ++ [(c, r)] := by
  obtain ⟨pre, hpre, hr, hv, ht⟩ := xioctl_ok h hc
  refine ⟨hv, ?_⟩
  rw [ht, steps_append, steps_append, steps_interrupted hpre, steps_sys]
  · simp
  · simp [Ev.interrupted, hr]

/-- What a call checked with `if (-1 == ...) errno_exit(...)` leaves when the run
goes on: the call and an answer that is not -1. -/
theorem checked_xioctl_steps {c : Call} {s s' : State}
    (h : (do
      let r ← xioctl c
      if r.ret = -1 then errno_exit else pure ()) s = Result.ok () s')
    (hc : c.returns_pointer = false) :
    s'.vars = s.vars ∧ ∃ r : Resp, r.ret ≠ -1 ∧ steps s'.trace = steps s.trace ++ [(c, r)] := by
  obtain ⟨r, s1, hx, h1⟩ := bind_eq_ok.mp h
  rw [ite_apply] at h1
  split at h1
  · simp [errno_exit_apply] at h1
  · rename_i hret
    simp only [pure_apply, Result.ok.injEq, true_and] at h1
    subst h1
    exact ⟨(xioctl_steps hx hc).1, r, hret, (xioctl_steps hx hc).2⟩

theorem checked_munmap_steps {a l : Nat} {s s' : State}
    (h : (do
      let r ← sys (Call.munmap a l)
      if r.ret = -1 then errno_exit else pure ()) s = Result.ok () s') :
    s'.vars = s.vars ∧
      ∃ r : Resp, r.ret ≠ -1 ∧ steps s'.trace = steps s.trace ++ [(Call.munmap a l, r)] := by
  obtain ⟨r, s1, hx, h1⟩ := bind_eq_ok.mp h
  rw [ite_apply] at h1
  split at h1
  · simp [errno_exit_apply] at h1
  · rename_i hret
    simp only [pure_apply, Result.ok.injEq, true_and] at h1
    subst h1
    obtain ⟨hv, ht⟩ := sys_ok hx
    exact ⟨hv, r, hret, by rw [ht, steps_append, steps_sys (interrupted_of_ret hret)]⟩

/-- A counted loop whose body makes the calls `g i`, one answer each. -/
theorem for_loop_steps {body : Nat → M Unit} {g : Nat → List Call}
    (hbody : ∀ i s s', body i s = Result.ok () s' →
      s'.vars = s.vars ∧ ∃ rs : List Resp, rs.length = (g i).length ∧
        (∀ r ∈ rs, r.ret ≠ -1) ∧ steps s'.trace = steps s.trace ++ (g i).zip rs)
    {k i : Nat} {s s' : State} (h : for_loop k i body s = Result.ok () s') :
    s'.vars = s.vars ∧ ∃ rs : List Resp,
      rs.length = ((List.range' i k).flatMap g).length ∧ (∀ r ∈ rs, r.ret ≠ -1) ∧
      steps s'.trace = steps s.trace ++ ((List.range' i k).flatMap g).zip rs := by
  induction k generalizing i s with
  | zero =>
    simp only [for_loop, pure_apply, Result.ok.injEq, true_and] at h
    subst h
    exact ⟨rfl, [], by simp, by simp, by simp⟩
  | succ k ih =>
    unfold for_loop at h
    obtain ⟨u, s1, hb, h1⟩ := bind_eq_ok.mp h
    obtain ⟨hv1, rs1, hl1, hr1, hc1⟩ := hbody i s s1 hb
    obtain ⟨hv2, rs2, hl2, hr2, hc2⟩ := ih h1
    refine ⟨hv2.trans hv1, rs1 ++ rs2, ?_, ?_, ?_⟩
    · simp [List.range'_succ, hl1, hl2]
    · intro r hr
      rcases List.mem_append.mp hr with h | h
      · exact hr1 r h
      · exact hr2 r h
    · rw [hc2, hc1, List.range'_succ, List.flatMap_cons, List.zip_append hl1.symm]
      simp

theorem unmap_loop_steps {buf : List buffer} {k i : Nat} {s s' : State}
    (h : for_loop k i (fun b => do
      let e ← at_index buf b
      let r ← sys (Call.munmap e.start e.length)
      if r.ret = -1 then errno_exit else pure ()) s = Result.ok () s') :
    s'.vars = s.vars ∧ ∃ rs : List Resp,
      rs.length = (((buf.drop i).take k).map (fun e => Call.munmap e.start e.length)).length ∧
      (∀ r ∈ rs, r.ret ≠ -1) ∧
      steps s'.trace = steps s.trace ++
        (((buf.drop i).take k).map (fun e => Call.munmap e.start e.length)).zip rs := by
  induction k generalizing i s with
  | zero =>
    simp only [for_loop, pure_apply, Result.ok.injEq, true_and] at h
    subst h
    exact ⟨rfl, [], by simp, by simp, by simp⟩
  | succ k ih =>
    unfold for_loop at h
    obtain ⟨u, s1, hb, h1⟩ := bind_eq_ok.mp h
    obtain ⟨e, s0, he, hb1⟩ := bind_eq_ok.mp hb
    obtain ⟨hget, hs0⟩ := at_index_ok he
    subst hs0
    obtain ⟨hv1, r, hr, hc1⟩ := checked_munmap_steps hb1
    obtain ⟨hv2, rs, hl2, hr2, hc2⟩ := ih h1
    have hlt : i < buf.length := by
      by_contra hge
      rw [List.getElem?_eq_none (by omega)] at hget
      cases hget
    have hdrop : buf.drop i = e :: buf.drop (i + 1) := by
      rw [List.drop_eq_getElem_cons hlt]
      rw [List.getElem?_eq_getElem hlt] at hget
      simp only [Option.some.injEq] at hget
      rw [hget]
    refine ⟨hv2.trans hv1, r :: rs, ?_, ?_, ?_⟩
    · rw [hdrop]
      simp only [List.take_succ_cons, List.map_cons, List.length_cons, hl2]
    · intro x hx
      rcases List.mem_cons.mp hx with rfl | hx
      · exact hr
      · exact hr2 x hx
    · rw [hc2, hc1, hdrop]
      simp

theorem unmap_buffers_steps {buf : List buffer} {n : Nat} {s s' : State}
    (h : unmap_buffers buf n s = Result.ok () s') :
    s'.vars = s.vars ∧ ∃ rs : List Resp,
      rs.length = ((buf.take n).map (fun e => Call.munmap e.start e.length)).length ∧
      (∀ r ∈ rs, r.ret ≠ -1) ∧
      steps s'.trace = steps s.trace ++
        ((buf.take n).map (fun e => Call.munmap e.start e.length)).zip rs := by
  have := @unmap_loop_steps buf n 0 s s' h
  simpa using this

theorem unmap_planes_steps {e : buffer_mp} {s s' : State}
    (h : for_range FMT_NUM_PLANES (fun p => do
      let r ← sys (Call.munmap (e.start.getD p 0) (e.length.getD p 0))
      if r.ret = -1 then errno_exit else pure ()) s = Result.ok () s') :
    s'.vars = s.vars ∧ ∃ rs : List Resp,
      rs.length = ((List.range FMT_NUM_PLANES).map (fun p =>
          Call.munmap (e.start.getD p 0) (e.length.getD p 0))).length ∧
      (∀ r ∈ rs, r.ret ≠ -1) ∧
      steps s'.trace = steps s.trace ++
        ((List.range FMT_NUM_PLANES).map (fun p =>
          Call.munmap (e.start.getD p 0) (e.length.getD p 0))).zip rs := by
  have := for_loop_steps (g := fun p => [Call.munmap (e.start.getD p 0) (e.length.getD p 0)])
    (fun p s s' hb => by
      obtain ⟨hv, r, hr, hc⟩ := checked_munmap_steps hb
      exact ⟨hv, [r], rfl, by simpa using hr, by simpa using hc⟩) h
  rw [flatMap_singleton_map, ← List.range_eq_range'] at this
  exact this

theorem unmap_mp_loop_steps {buf : List buffer_mp} {k i : Nat} {s s' : State}
    (h : for_loop k i (fun b => do
      let e ← at_index buf b
      for_range FMT_NUM_PLANES (fun p => do
        let r ← sys (Call.munmap (e.start.getD p 0) (e.length.getD p 0))
        if r.ret = -1 then errno_exit else pure ())) s = Result.ok () s') :
    s'.vars = s.vars ∧ ∃ rs : List Resp,
      rs.length = (((buf.drop i).take k).flatMap (fun e =>
          (List.range FMT_NUM_PLANES).map (fun p =>
            Call.munmap (e.start.getD p 0) (e.length.getD p 0)))).length ∧
      (∀ r ∈ rs, r.ret ≠ -1) ∧
      steps s'.trace = steps s.trace ++
        (((buf.drop i).take k).flatMap (fun e =>
          (List.range FMT_NUM_PLANES).map (fun p =>
            Call.munmap (e.start.getD p 0) (e.length.getD p 0)))).zip rs := by
  induction k generalizing i s with
  | zero =>
    simp only [for_loop, pure_apply, Result.ok.injEq, true_and] at h
    subst h
    exact ⟨rfl, [], by simp, by simp, by simp⟩
  | succ k ih =>
    unfold for_loop at h
    obtain ⟨u, s1, hb, h1⟩ := bind_eq_ok.mp h
    obtain ⟨e, s0, he, hb1⟩ := bind_eq_ok.mp hb
    obtain ⟨hget, hs0⟩ := at_index_ok he
    subst hs0
    obtain ⟨hv1, rs1, hl1, hr1, hc1⟩ := unmap_planes_steps hb1
    obtain ⟨hv2, rs2, hl2, hr2, hc2⟩ := ih h1
    have hlt : i < buf.length := by
      by_contra hge
      rw [List.getElem?_eq_none (by omega)] at hget
      cases hget
    have hdrop : buf.drop i = e :: buf.drop (i + 1) := by
      rw [List.drop_eq_getElem_cons hlt]
      rw [List.getElem?_eq_getElem hlt] at hget
      simp only [Option.some.injEq] at hget
      rw [hget]
    refine ⟨hv2.trans hv1, rs1 ++ rs2, ?_, ?_, ?_⟩
    · rw [hdrop]
      simp only [List.take_succ_cons, List.flatMap_cons, List.length_append, hl1, hl2]
    · intro x hx
      rcases List.mem_append.mp hx with hx | hx
      · exact hr1 x hx
      · exact hr2 x hx
    · rw [hc2, hc1, hdrop]
      simp only [List.take_succ_cons, List.flatMap_cons, List.append_assoc]
      rw [List.zip_append hl1.symm]

theorem unmap_buffers_mp_steps {buf : List buffer_mp} {n : Nat} {s s' : State}
    (h : unmap_buffers_mp buf n s = Result.ok () s') :
    s'.vars = s.vars ∧ ∃ rs : List Resp,
      rs.length = ((buf.take n).flatMap (fun e =>
          (List.range FMT_NUM_PLANES).map (fun p =>
            Call.munmap (e.start.getD p 0) (e.length.getD p 0)))).length ∧
      (∀ r ∈ rs, r.ret ≠ -1) ∧
      steps s'.trace = steps s.trace ++
        ((buf.take n).flatMap (fun e =>
          (List.range FMT_NUM_PLANES).map (fun p =>
            Call.munmap (e.start.getD p 0) (e.length.getD p 0)))).zip rs := by
  have := @unmap_mp_loop_steps buf n 0 s s' h
  simpa using this

theorem free_buffers_mmap_steps {type : v4l2_buf_type} {s s' : State}
    (h : free_buffers_mmap type s = Result.ok () s') :
    s'.vars = s.vars ∧ ∃ r : Resp, r.ret ≠ -1 ∧
      steps s'.trace = steps s.trace ++
        [(Call.VIDIOC_REQBUFS
          { count := 0, type := type, memory := v4l2_memory.V4L2_MEMORY_MMAP }, r)] := by
  unfold free_buffers_mmap at h
  obtain ⟨r, s1, hx, h1⟩ := bind_eq_ok.mp h
  rw [ite_apply] at h1
  split at h1
  · rw [ite_apply] at h1
    split at h1 <;> simp [exit_with_apply, errno_exit_apply] at h1
  · rename_i hret
    simp only [pure_apply, Result.ok.injEq, true_and] at h1
    subst h1
    exact ⟨(xioctl_steps hx rfl).1, r, hret, (xioctl_steps hx rfl).2⟩

theorem stop_capture_capture_steps {s s' : State}
    (h : stop_capture v4l2_buf_type.V4L2_BUF_TYPE_VIDEO_CAPTURE s = Result.ok () s') :
    s'.vars = s.vars ∧ ∃ r : Resp, r.ret ≠ -1 ∧
      steps s'.trace = steps s.trace ++ [(Call.VIDIOC_STREAMOFF (capture_type s), r)] := by
  unfold stop_capture at h
  rw [bind_apply, stream_type_capture] at h
  exact checked_xioctl_steps h rfl

theorem getD_filled {α : Type} (filled : List α) (k : Nat) (z : α) :
    (filled ++ List.replicate (k + 1) z).getD filled.length z = z := by
  rw [List.getD_eq_getElem?_getD, List.getElem?_append_right (le_refl _)]
  simp [List.replicate_succ]

/-- The mapping loop of `init_mmap`: the queries and mappings it makes, with
their answers, and the pool entries it fills in from them. -/
theorem init_mmap_loop_steps {type : v4l2_buf_type} {k : Nat} {filled : List buffer}
    {z : buffer} {s : State} {bufs' : List buffer} {s' : State}
    (h : init_mmap_loop type k filled.length (filled ++ List.replicate k z) s =
      Result.ok bufs' s') :
    s'.vars = s.vars ∧ ∃ d : List (Resp × Resp), d.length = k ∧
      (∀ x ∈ d, x.1.ret ≠ -1 ∧ x.2.addr ≠ MAP_FAILED) ∧
      steps s'.trace = steps s.trace ++ query_steps type false filled.length d ∧
      bufs' = filled ++ new_pool d := by
  induction k generalizing filled s with
  | zero =>
    simp only [init_mmap_loop, pure_apply, Result.ok.injEq] at h
    obtain ⟨hb, hs⟩ := h
    subst hs
    exact ⟨rfl, [], rfl, by simp, by simp [query_steps], by simp [← hb, new_pool]⟩
  | succ k ih =>
    unfold init_mmap_loop at h
    obtain ⟨r, s1, hx, h1⟩ := bind_eq_ok.mp h
    obtain ⟨hv1, hc1⟩ := xioctl_steps hx rfl
    rw [ite_apply] at h1
    split at h1
    · simp [errno_exit_apply] at h1
    · rename_i hret
      obtain ⟨m, s2, hm, h2⟩ := bind_eq_ok.mp h1
      obtain ⟨hv2, ht2⟩ := sys_ok hm
      rw [ite_apply] at h2
      split at h2
      · simp [errno_exit_apply] at h2
      · rename_i hmap
        have hset : (filled ++ List.replicate (k + 1) z).set filled.length
            { start := m.addr, length := r.length } =
            (filled ++ [{ start := m.addr, length := r.length }]) ++ List.replicate k z := by
          simp [List.replicate_succ, List.set_append]
        have hlen : filled.length + 1 =
            (filled ++ [({ start := m.addr, length := r.length } : buffer)]).length := by simp
        rw [hset, hlen] at h2
        obtain ⟨hv3, d, hd, hok, hc3, hb⟩ := ih h2
        refine ⟨(hv3.trans hv2).trans hv1, (r, m) :: d, by simp [hd], ?_, ?_, ?_⟩
        · intro x hx
          rcases List.mem_cons.mp hx with rfl | hx
          · exact ⟨hret, hmap⟩
          · exact hok x hx
        · rw [hc3, ht2, steps_append, hc1, steps_sys (by rfl)]
          simp [query_steps, map_step, mmap_buffer]
        · rw [hb]
          simp [new_pool]

/-- The queries and mappings `init_mmap` makes, with their answers: the count
of the pool is the count the device granted, and the pool is made of the
mappings. -/
theorem init_mmap_steps {type : v4l2_buf_type} {s : State} {bufs : List buffer} {n : Nat}
    {s' : State} (h : init_mmap type s = Result.ok (bufs, n) s') :
    s'.vars = s.vars ∧ ∃ (g a : Resp) (d : List (Resp × Resp)),
      g.ret ≠ -1 ∧ a.addr ≠ 0 ∧ n = g.count % 2 ^ 32 ∧ 2 ≤ n ∧ d.length = n ∧
      (∀ x ∈ d, x.1.ret ≠ -1 ∧ x.2.addr ≠ MAP_FAILED) ∧
      steps s'.trace = steps s.trace ++
        [(Call.VIDIOC_REQBUFS
           { count := 4, type := type, memory := v4l2_memory.V4L2_MEMORY_MMAP }, g),
         (Call.calloc n, a)] ++ query_steps type false 0 d ∧
      bufs = new_pool d := by
  unfold init_mmap at h
  obtain ⟨r, s1, hx, h1⟩ := bind_eq_ok.mp h
  obtain ⟨hv1, hc1⟩ := xioctl_steps hx rfl
  rw [ite_apply] at h1
  split at h1
  · rw [ite_apply] at h1
    split at h1 <;> simp [exit_with_apply, errno_exit_apply] at h1
  · rename_i hret
    rw [ite_apply] at h1
    split at h1
    · simp [exit_with_apply] at h1
    · rename_i hge
      obtain ⟨a, s2, ha, h2⟩ := bind_eq_ok.mp h1
      obtain ⟨hv2, ht2⟩ := sys_ok ha
      rw [ite_apply] at h2
      split at h2
      · simp [exit_with_apply] at h2
      · rename_i halloc
        obtain ⟨bufs', s3, hl, h3⟩ := bind_eq_ok.mp h2
        simp only [pure_apply, Result.ok.injEq, Prod.mk.injEq] at h3
        obtain ⟨⟨hb, hn⟩, hs3⟩ := h3
        subst hb hn hs3
        obtain ⟨hv3, d, hd, hok, hc3, hb⟩ :=
          @init_mmap_loop_steps type (r.count % 2 ^ 32) [] { start := 0, length := 0 } s2 _ _ hl
        refine ⟨(hv3.trans hv2).trans hv1, r, a, d, hret, halloc, rfl, by omega, hd, hok, ?_,
          by simpa using hb⟩
        rw [hc3, ht2, steps_append, hc1, steps_sys (by rfl)]
        simp

theorem init_mmap_mp_planes_step {planes : List v4l2_plane} {s : State} {e' : buffer_mp}
    {s' : State}
    (h : init_mmap_mp_planes planes FMT_NUM_PLANES 0
      { start := List.replicate FMT_NUM_PLANES 0, length := List.replicate FMT_NUM_PLANES 0 } s =
      Result.ok e' s') :
    s'.vars = s.vars ∧ ∃ m : Resp, m.addr ≠ MAP_FAILED ∧
      steps s'.trace = steps s.trace ++
        [(Call.mmap (planes.getD 0 {}).length (planes.getD 0 {}).mem_offset, m)] ∧
      e' = { start := [m.addr], length := [(planes.getD 0 {}).length] } := by
  simp only [FMT_NUM_PLANES] at h
  unfold init_mmap_mp_planes at h
  obtain ⟨m, s1, hm, h1⟩ := bind_eq_ok.mp h
  obtain ⟨hv1, ht1⟩ := sys_ok hm
  rw [ite_apply] at h1
  split at h1
  · simp [errno_exit_apply] at h1
  · rename_i hmap
    simp only [init_mmap_mp_planes, pure_apply, Result.ok.injEq] at h1
    obtain ⟨he, hs⟩ := h1
    subst hs
    refine ⟨hv1, m, hmap, ?_, ?_⟩
    · rw [ht1, steps_append, steps_sys (by rfl)]
    · rw [← he]
      simp

/-- The mapping loop of `init_mmap_mp`. -/
theorem init_mmap_mp_loop_steps {type : v4l2_buf_type} {k : Nat} {filled : List buffer_mp}
    {s : State} {bufs' : List buffer_mp} {s' : State}
    (h : init_mmap_mp_loop type k filled.length
      (filled ++ List.replicate k
        { start := List.replicate FMT_NUM_PLANES 0, length := List.replicate FMT_NUM_PLANES 0 })
      s = Result.ok bufs' s') :
    s'.vars = s.vars ∧ ∃ d : List (Resp × Resp), d.length = k ∧
      (∀ x ∈ d, x.1.ret ≠ -1 ∧ x.2.addr ≠ MAP_FAILED) ∧
      steps s'.trace = steps s.trace ++ query_steps type true filled.length d ∧
      bufs' = filled ++ new_pool_mp d := by
  induction k generalizing filled s with
  | zero =>
    simp only [init_mmap_mp_loop, pure_apply, Result.ok.injEq] at h
    obtain ⟨hb, hs⟩ := h
    subst hs
    exact ⟨rfl, [], rfl, by simp, by simp [query_steps], by simp [← hb, new_pool_mp]⟩
  | succ k ih =>
    unfold init_mmap_mp_loop at h
    obtain ⟨r, s1, hx, h1⟩ := bind_eq_ok.mp h
    obtain ⟨hv1, hc1⟩ := xioctl_steps hx rfl
    rw [ite_apply] at h1
    split at h1
    · simp [errno_exit_apply] at h1
    · rename_i hret
      obtain ⟨e, s2, hm, h2⟩ := bind_eq_ok.mp h1
      have hget := getD_filled filled k
        ({ start := List.replicate FMT_NUM_PLANES 0,
           length := List.replicate FMT_NUM_PLANES 0 } : buffer_mp)
      rw [hget] at hm
      obtain ⟨hv2, m, hmap, hc2, he⟩ := init_mmap_mp_planes_step hm
      have hset : (filled ++ List.replicate (k + 1)
          ({ start := List.replicate FMT_NUM_PLANES 0,
             length := List.replicate FMT_NUM_PLANES 0 } : buffer_mp)).set filled.length e =
          (filled ++ [e]) ++ List.replicate k
            { start := List.replicate FMT_NUM_PLANES 0,
              length := List.replicate FMT_NUM_PLANES 0 } := by
        simp [List.replicate_succ, List.set_append]
      have hlen : filled.length + 1 = (filled ++ [e]).length := by simp
      rw [hset, hlen] at h2
      obtain ⟨hv3, d, hd, hok, hc3, hb⟩ := ih h2
      refine ⟨(hv3.trans hv2).trans hv1, (r, m) :: d, by simp [hd], ?_, ?_, ?_⟩
      · intro x hx
        rcases List.mem_cons.mp hx with rfl | hx
        · exact ⟨hret, hmap⟩
        · exact hok x hx
      · rw [hc3, hc2, hc1]
        simp [query_steps, map_step, mmap_buffer]
      · rw [hb, he]
        simp [new_pool_mp]

theorem init_mmap_mp_steps {type : v4l2_buf_type} {s : State} {bufs : List buffer_mp}
    {n : Nat} {s' : State} (h : init_mmap_mp type s = Result.ok (bufs, n) s') :
    s'.vars = s.vars ∧ ∃ (g a : Resp) (d : List (Resp × Resp)),
      g.ret ≠ -1 ∧ a.addr ≠ 0 ∧ n = g.count % 2 ^ 32 ∧ 2 ≤ n ∧ d.length = n ∧
      (∀ x ∈ d, x.1.ret ≠ -1 ∧ x.2.addr ≠ MAP_FAILED) ∧
      steps s'.trace = steps s.trace ++
        [(Call.VIDIOC_REQBUFS
           { count := 4, type := type, memory := v4l2_memory.V4L2_MEMORY_MMAP }, g),
         (Call.calloc n, a)] ++ query_steps type true 0 d ∧
      bufs = new_pool_mp d := by
  unfold init_mmap_mp at h
  obtain ⟨r, s1, hx, h1⟩ := bind_eq_ok.mp h
  obtain ⟨hv1, hc1⟩ := xioctl_steps hx rfl
  rw [ite_apply] at h1
  split at h1
  · rw [ite_apply] at h1
    split at h1 <;> simp [exit_with_apply, errno_exit_apply] at h1
  · rename_i hret
    rw [ite_apply] at h1
    split at h1
    · simp [exit_with_apply] at h1
    · rename_i hge
      obtain ⟨a, s2, ha, h2⟩ := bind_eq_ok.mp h1
      obtain ⟨hv2, ht2⟩ := sys_ok ha
      rw [ite_apply] at h2
      split at h2
      · simp [exit_with_apply] at h2
      · rename_i halloc
        obtain ⟨bufs', s3, hl, h3⟩ := bind_eq_ok.mp h2
        simp only [pure_apply, Result.ok.injEq, Prod.mk.injEq] at h3
        obtain ⟨⟨hb, hn⟩, hs3⟩ := h3
        subst hb hn hs3
        obtain ⟨hv3, d, hd, hok, hc3, hb⟩ :=
          @init_mmap_mp_loop_steps type (r.count % 2 ^ 32) [] s2 _ _ hl
        refine ⟨(hv3.trans hv2).trans hv1, r, a, d, hret, halloc, rfl, by omega, hd, hok, ?_,
          by simpa using hb⟩
        rw [hc3, ht2, steps_append, hc1, steps_sys (by rfl)]
        simp

theorem start_capturing_mmap_capture_steps {bufs : List buffer} {n : Nat} {s s' : State}
    (h : start_capturing_mmap v4l2_buf_type.V4L2_BUF_TYPE_VIDEO_CAPTURE bufs n s =
      Result.ok () s') :
    s'.vars = s.vars ∧ ∃ (es : List Resp) (st : Resp), es.length = n ∧
      (∀ e ∈ es, e.ret ≠ -1) ∧ st.ret ≠ -1 ∧
      steps s'.trace = steps s.trace ++
        ((List.range n).map (fun i => Call.VIDIOC_QBUF
          (mmap_buffer v4l2_buf_type.V4L2_BUF_TYPE_VIDEO_CAPTURE false i))).zip es ++
        [(Call.VIDIOC_STREAMON v4l2_buf_type.V4L2_BUF_TYPE_VIDEO_CAPTURE, st)] := by
  unfold start_capturing_mmap at h
  obtain ⟨u, s1, hl, h1⟩ := bind_eq_ok.mp h
  obtain ⟨hv2, st, hst, hc2⟩ := checked_xioctl_steps h1 rfl
  have hl' := for_loop_steps (g := fun i => [Call.VIDIOC_QBUF
      { type := v4l2_buf_type.V4L2_BUF_TYPE_VIDEO_CAPTURE,
        memory := v4l2_memory.V4L2_MEMORY_MMAP, index := i }]) (by
    intro i sa sb hb
    rw [if_neg (by decide)] at hb
    obtain ⟨bu, sc, hpure, hb1⟩ := bind_eq_ok.mp hb
    simp only [pure_apply, Result.ok.injEq] at hpure
    obtain ⟨hbu, hsc⟩ := hpure
    subst hbu hsc
    obtain ⟨hv, r, hr, hc⟩ := checked_xioctl_steps hb1 rfl
    exact ⟨hv, [r], rfl, by simpa using hr, by simpa using hc⟩) hl
  obtain ⟨hv1, es, hlen, hes, hc1⟩ := hl'
  rw [flatMap_singleton_map, ← List.range_eq_range'] at hlen hc1
  refine ⟨hv2.trans hv1, es, st, by simpa using hlen, hes, hst, ?_⟩
  rw [hc2, hc1]
  simp [mmap_buffer]

theorem start_capturing_mmap_mp_capture_steps {bufs : List buffer_mp} {n : Nat}
    {s s' : State}
    (h : start_capturing_mmap_mp v4l2_buf_type.V4L2_BUF_TYPE_VIDEO_CAPTURE_MPLANE bufs n s =
      Result.ok () s') :
    s'.vars = s.vars ∧ ∃ (es : List Resp) (st : Resp), es.length = n ∧
      (∀ e ∈ es, e.ret ≠ -1) ∧ st.ret ≠ -1 ∧
      steps s'.trace = steps s.trace ++
        ((List.range n).map (fun i => Call.VIDIOC_QBUF
          (mmap_buffer v4l2_buf_type.V4L2_BUF_TYPE_VIDEO_CAPTURE_MPLANE true i))).zip es ++
        [(Call.VIDIOC_STREAMON v4l2_buf_type.V4L2_BUF_TYPE_VIDEO_CAPTURE_MPLANE, st)] := by
  unfold start_capturing_mmap_mp at h
  obtain ⟨u, s1, hl, h1⟩ := bind_eq_ok.mp h
  obtain ⟨hv2, st, hst, hc2⟩ := checked_xioctl_steps h1 rfl
  have hl' := for_loop_steps (g := fun i => [Call.VIDIOC_QBUF
      { type := v4l2_buf_type.V4L2_BUF_TYPE_VIDEO_CAPTURE_MPLANE,
        memory := v4l2_memory.V4L2_MEMORY_MMAP, index := i,
        length := FMT_NUM_PLANES, planes := List.replicate FMT_NUM_PLANES {} }]) (by
    intro i sa sb hb
    rw [if_neg (by decide)] at hb
    obtain ⟨bu, sc, hpure, hb1⟩ := bind_eq_ok.mp hb
    simp only [pure_apply, Result.ok.injEq] at hpure
    obtain ⟨hbu, hsc⟩ := hpure
    subst hbu hsc
    obtain ⟨hv, r, hr, hc⟩ := checked_xioctl_steps hb1 rfl
    exact ⟨hv, [r], rfl, by simpa using hr, by simpa using hc⟩) hl
  obtain ⟨hv1, es, hlen, hes, hc1⟩ := hl'
  rw [flatMap_singleton_map, ← List.range_eq_range'] at hlen hc1
  refine ⟨hv2.trans hv1, es, st, by simpa using hlen, hes, hst, ?_⟩
  rw [hc2, hc1]
  simp [mmap_buffer]

/-- One reconfiguration of the Capture stream that returns: the calls it made, with
the answers of the environment, and the pool it leaves. -/
theorem handle_source_change_steps {s s' : State}
    (h : handle_source_change s = Result.ok () s') :
    ∃ a : Answers, a.all_succeeded ∧ a.unmap.length = (release_calls s).length ∧
      a.described.length = a.granted ∧ a.enqueue.length = a.granted ∧ 2 ≤ a.granted ∧
      steps s'.trace = steps s.trace ++ reconfigure_steps s a ∧
      s'.n_buffers = a.granted ∧
      (if s.multi_planar then s'.buffers_mp = new_pool_mp a.described
       else s'.buffers = new_pool a.described) := by
  unfold handle_source_change at h
  obtain ⟨u1, s1, he1, h1⟩ := bind_eq_ok.mp h
  simp only [emit_apply, Result.ok.injEq, true_and] at he1
  obtain ⟨u2, s2, hstop, h2⟩ := bind_eq_ok.mp h1
  obtain ⟨hv2, a0, ha0, hc2⟩ := stop_capture_capture_steps hstop
  obtain ⟨sg, s2', hg, h3⟩ := bind_eq_ok.mp h2
  simp only [getState_apply, Result.ok.injEq] at hg
  obtain ⟨hsg, hs2'⟩ := hg
  subst hsg hs2'
  have hv1 : s1.vars = s.vars := by subst he1; rfl
  have hc1 : steps s1.trace = steps s.trace := by subst he1; exact steps_emit_log _ _
  have hmp : s2.multi_planar = s.multi_planar := by
    rw [(vars_eq hv2).2.2.2.2.2.2.2.2.1, (vars_eq hv1).2.2.2.2.2.2.2.2.1]
  have hct : capture_type s1 = capture_type s := by
    simp [capture_type, (vars_eq hv1).2.2.2.2.2.2.2.2.1]
  have hbufs : s2.buffers = s.buffers := by
    rw [(vars_eq hv2).2.1, (vars_eq hv1).2.1]
  have hbufs_mp : s2.buffers_mp = s.buffers_mp := by
    rw [(vars_eq hv2).2.2.2.1, (vars_eq hv1).2.2.2.1]
  have hnb : s2.n_buffers = s.n_buffers := by
    rw [(vars_eq hv2).2.2.2.2.2.1, (vars_eq hv1).2.2.2.2.2.1]
  rw [ite_apply] at h3
  cases hm : s.multi_planar with
  | true =>
    rw [hmp, hm] at h3
    simp only [if_true] at h3
    obtain ⟨u3, s3, hun, h4⟩ := bind_eq_ok.mp h3
    obtain ⟨hv3, us, hul, hus, hc3⟩ := unmap_buffers_mp_steps hun
    obtain ⟨u4, s4, he4, h5⟩ := bind_eq_ok.mp h4
    simp only [emit_apply, Result.ok.injEq, true_and] at he4
    have hc4 : steps s4.trace = steps s3.trace := by subst he4; exact steps_emit_log _ _
    obtain ⟨u5, s5, hfree, h6⟩ := bind_eq_ok.mp h5
    obtain ⟨hv5, a1, ha1, hc5⟩ := free_buffers_mmap_steps hfree
    obtain ⟨x, s6, hinit, h7⟩ := bind_eq_ok.mp h6
    obtain ⟨bufs, n⟩ := x
    obtain ⟨hv6, g, al, d, hg, hal, hn, hn2, hd, hdok, hc6, hpool⟩ := init_mmap_mp_steps hinit
    obtain ⟨u7, s7, hmod, h8⟩ := bind_eq_ok.mp h7
    simp only [modify_apply, Result.ok.injEq, true_and] at hmod
    obtain ⟨hv8, es, st, hel, hes, hst, hc8⟩ := start_capturing_mmap_mp_capture_steps h8
    refine ⟨⟨a0, us, a1, g, al, d, es, st⟩, ⟨ha0, hus, ha1, hg, hal, hdok, hes, hst⟩, ?_, ?_,
      ?_, ?_, ?_, ?_, ?_⟩
    · simpa [release_calls, hm, hbufs_mp, hnb] using hul
    · simp [Answers.granted, hd, hn]
    · simp [Answers.granted, hel, hn]
    · rw [hn] at hn2
      exact hn2
    · rw [hc8]
      subst hmod
      simp only [hc6, hc5, hc4, hc3, hc2, hc1, hct, hbufs_mp, hnb]
      simp [reconfigure_steps, release_calls, capture_type, hm, Answers.granted, hn]
    · rw [(vars_eq hv8).2.2.2.2.2.1]
      subst hmod
      simp [Answers.granted, hn]
    · simp only [if_true]
      rw [(vars_eq hv8).2.2.2.1]
      subst hmod
      exact hpool
  | false =>
    rw [hmp, hm] at h3
    simp only [Bool.false_eq_true, if_false] at h3
    obtain ⟨u3, s3, hun, h4⟩ := bind_eq_ok.mp h3
    obtain ⟨hv3, us, hul, hus, hc3⟩ := unmap_buffers_steps hun
    obtain ⟨u4, s4, he4, h5⟩ := bind_eq_ok.mp h4
    simp only [emit_apply, Result.ok.injEq, true_and] at he4
    have hc4 : steps s4.trace = steps s3.trace := by subst he4; exact steps_emit_log _ _
    obtain ⟨u5, s5, hfree, h6⟩ := bind_eq_ok.mp h5
    obtain ⟨hv5, a1, ha1, hc5⟩ := free_buffers_mmap_steps hfree
    obtain ⟨x, s6, hinit, h7⟩ := bind_eq_ok.mp h6
    obtain ⟨bufs, n⟩ := x
    obtain ⟨hv6, g, al, d, hg, hal, hn, hn2, hd, hdok, hc6, hpool⟩ := init_mmap_steps hinit
    obtain ⟨u7, s7, hmod, h8⟩ := bind_eq_ok.mp h7
    simp only [modify_apply, Result.ok.injEq, true_and] at hmod
    obtain ⟨hv8, es, st, hel, hes, hst, hc8⟩ := start_capturing_mmap_capture_steps h8
    refine ⟨⟨a0, us, a1, g, al, d, es, st⟩, ⟨ha0, hus, ha1, hg, hal, hdok, hes, hst⟩, ?_, ?_,
      ?_, ?_, ?_, ?_, ?_⟩
    · simpa [release_calls, hm, hbufs, hnb] using hul
    · simp [Answers.granted, hd, hn]
    · simp [Answers.granted, hel, hn]
    · rw [hn] at hn2
      exact hn2
    · rw [hc8]
      subst hmod
      simp only [hc6, hc5, hc4, hc3, hc2, hc1, hct, hbufs, hnb]
      simp [reconfigure_steps, release_calls, capture_type, hm, Answers.granted, hn]
    · rw [(vars_eq hv8).2.2.2.2.2.1]
      subst hmod
      simp [Answers.granted, hn]
    · simp only [Bool.false_eq_true, if_false]
      rw [(vars_eq hv8).2.1]
      subst hmod
      exact hpool

theorem calls_eq_steps (t : List Ev) : calls t = (steps t).map Prod.fst := by
  induction t with
  | nil => rfl
  | cons e t ih =>
    cases e with
    | sys c r =>
      by_cases hi : (Ev.sys c r).interrupted = true
      · simp [calls, steps, Ev.call?, Ev.step?, hi] at ih ⊢
        exact ih
      · simp [calls, steps, Ev.call?, Ev.step?, hi] at ih ⊢
        exact ih
    | _ =>
      simp [calls, steps, Ev.call?, Ev.step?] at ih ⊢
      exact ih

theorem query_steps_no_format (type : v4l2_buf_type) (mp : Bool) (b : Nat)
    (d : List (Resp × Resp)) : ∀ x ∈ query_steps type mp b d, x.1.is_format = false := by
  induction d generalizing b with
  | nil => simp [query_steps]
  | cons y d ih =>
    obtain ⟨q, m⟩ := y
    intro x hx
    simp only [query_steps, List.mem_cons] at hx
    rcases hx with rfl | rfl | hx
    · rfl
    · cases mp <;> rfl
    · exact ih _ x hx

theorem reconfigure_steps_no_format (s : State) (a : Answers) :
    (reconfigure_steps s a).all (fun x => !x.1.is_format) = true := by
  simp only [List.all_eq_true, Bool.not_eq_true']
  intro x hx
  simp only [reconfigure_steps, List.mem_append, List.mem_cons, List.mem_singleton,
    List.not_mem_nil, or_false] at hx
  rcases hx with ((((rfl | hrel) | (rfl | rfl | rfl)) | hq) | he) | rfl
  · rfl
  · have hmem := (List.of_mem_zip hrel).1
    simp only [release_calls] at hmem
    split at hmem
    · simp only [List.mem_flatMap, List.mem_map] at hmem
      obtain ⟨e, -, p, -, hp⟩ := hmem
      rw [← hp]
      rfl
    · simp only [List.mem_map] at hmem
      obtain ⟨e, -, hp⟩ := hmem
      rw [← hp]
      rfl
  · rfl
  · rfl
  · rfl
  · exact query_steps_no_format _ _ _ _ x hq
  · have hmem := (List.of_mem_zip he).1
    simp only [List.mem_map] at hmem
    obtain ⟨i, -, hp⟩ := hmem
    rw [← hp]
    rfl
  · rfl

theorem steps_added {α : Type} {m : M α} {s : State} {l : List (Call × Resp)}
    (hm : ∃ t, (m s).state.trace = s.trace ++ t)
    (h : steps (m s).state.trace = steps s.trace ++ l) : steps (added m s) = l := by
  obtain ⟨t, ht⟩ := hm
  rw [added_eq ht]
  rw [ht, steps_append] at h
  exact List.append_cancel_left h

/-! ## Mappings -/

theorem unmaps_of_all {known : List (Nat × Nat)} {t : List Ev}
    (h : ∀ e ∈ t, ∀ a l r, e = Ev.sys (Call.munmap a l) r → (a, l) ∈ known) :
    UnmapsOK known t := by
  intro pre post a l r ht
  exact Or.inl (h (Ev.sys (Call.munmap a l) r) (by rw [ht]; simp) a l r rfl)

theorem unmaps_append {known known2 : List (Nat × Nat)} {t1 t2 : List Ev}
    (h1 : UnmapsOK known t1) (h2 : UnmapsOK known2 t2)
    (hk : ∀ x ∈ known2, x ∈ known ∨ x ∈ t1.filterMap Ev.mapped) :
    UnmapsOK known (t1 ++ t2) := by
  intro pre post a l r ht
  rcases split_append ht with ⟨p, hp, -⟩ | ⟨q, hq, hb⟩
  · exact h1 pre p a l r hp
  · rcases h2 q post a l r hb with h | h
    · rcases hk _ h with h' | h'
      · exact Or.inl h'
      · exact Or.inr (by rw [hq, List.filterMap_append]; exact List.mem_append_left _ h')
    · exact Or.inr (by rw [hq, List.filterMap_append]; exact List.mem_append_right _ h)

theorem sat_for_loop_below {P : Ev → Prop} {body : Nat → M Unit} (k i : Nat)
    (h : ∀ j, i ≤ j → j < i + k → Sat (Mono P) (body j)) :
    Sat (Mono P) (for_loop k i body) := by
  induction k generalizing i with
  | zero => exact sat_pure _
  | succ k ih =>
    unfold for_loop
    exact sat_bind (h i (le_refl _) (by omega))
      (fun _ => ih (i + 1) (fun j h1 h2 => h j (by omega) (by omega)))

theorem sat_at_index_then {α β : Type} {P : Ev → Prop} {bufs : List α} {i : Nat}
    {f : α → M β} (h : ∀ e, bufs[i]? = some e → Sat (Mono P) (f e)) :
    Sat (Mono P) (at_index bufs i >>= f) := by
  intro s
  rw [bind_apply]
  unfold at_index
  cases hb : bufs[i]? with
  | none => exact mono_refl P s
  | some e => exact h e hb s

/-- The calls of `unmap_buffers` release entries of the pool it is given. -/
theorem unmap_buffers_args {P : Ev → Prop} (hd : ∀ e, Ev.kind e = Kind.diag → P e)
    (buf : List buffer) (n : Nat)
    (hu : ∀ e ∈ buf.take n, ∀ r, P (Ev.sys (Call.munmap e.start e.length) r)) :
    Sat (Mono P) (unmap_buffers buf n) := by
  unfold unmap_buffers for_range
  refine sat_for_loop_below n 0 (fun j _ hj => ?_)
  refine sat_at_index_then (fun e he => ?_)
  have hmem : e ∈ buf.take n := by
    rw [List.mem_iff_getElem?]
    exact ⟨j, by rw [List.getElem?_take]; simp [show j < n by omega, he]⟩
  exact sat_bind (sat_sys (fun r => hu e hmem r)) (fun _ =>
    sat_ite (sat_errno_exit (hd _ rfl)) (sat_pure _))

theorem unmap_buffers_mp_args {P : Ev → Prop} (hd : ∀ e, Ev.kind e = Kind.diag → P e)
    (buf : List buffer_mp) (n : Nat)
    (hu : ∀ e ∈ buf.take n, ∀ p, p < FMT_NUM_PLANES → ∀ r,
      P (Ev.sys (Call.munmap (e.start.getD p 0) (e.length.getD p 0)) r)) :
    Sat (Mono P) (unmap_buffers_mp buf n) := by
  unfold unmap_buffers_mp for_range
  refine sat_for_loop_below n 0 (fun j _ hj => ?_)
  refine sat_at_index_then (fun e he => ?_)
  have hmem : e ∈ buf.take n := by
    rw [List.mem_iff_getElem?]
    exact ⟨j, by rw [List.getElem?_take]; simp [show j < n by omega, he]⟩
  refine sat_for_loop_below _ 0 (fun p _ hp => ?_)
  exact sat_bind (sat_sys (fun r => hu e hmem p (by omega) r)) (fun _ =>
    sat_ite (sat_errno_exit (hd _ rfl)) (sat_pure _))

/-- What follows the stop in a reconfiguration adds no `munmap` but those of the
entries of the old pool. -/
theorem reconfigure_rest_unmaps (sg : State) :
    Sat (Mono (fun e => ∀ a l r, e = Ev.sys (Call.munmap a l) r → (a, l) ∈ capture_maps sg))
      (if sg.multi_planar = true then do
        unmap_buffers_mp sg.buffers_mp sg.n_buffers
        emit (Ev.log Msg.Unmapped_all_buffers)
        free_buffers_mmap v4l2_buf_type.V4L2_BUF_TYPE_VIDEO_CAPTURE_MPLANE
        let (bufs, n) ← init_mmap_mp v4l2_buf_type.V4L2_BUF_TYPE_VIDEO_CAPTURE_MPLANE
        modify (fun s1 => { s1 with buffers_mp := bufs, n_buffers := n })
        start_capturing_mmap_mp v4l2_buf_type.V4L2_BUF_TYPE_VIDEO_CAPTURE_MPLANE bufs n
      else do
        unmap_buffers sg.buffers sg.n_buffers
        emit (Ev.log Msg.Unmapped_all_buffers)
        free_buffers_mmap v4l2_buf_type.V4L2_BUF_TYPE_VIDEO_CAPTURE
        let (bufs, n) ← init_mmap v4l2_buf_type.V4L2_BUF_TYPE_VIDEO_CAPTURE
        modify (fun s1 => { s1 with buffers := bufs, n_buffers := n })
        start_capturing_mmap v4l2_buf_type.V4L2_BUF_TYPE_VIDEO_CAPTURE bufs n) := by
  have hk : ∀ (K : List Kind), Kind.munmap ∉ K → ∀ e, Ev.kind e ∈ K →
      ∀ a l r, e = Ev.sys (Call.munmap a l) r → (a, l) ∈ capture_maps sg := by
    intro K hK e he a l r heq
    subst heq
    exact absurd he hK
  have hd : ∀ e, Ev.kind e = Kind.diag →
      ∀ a l r, e = Ev.sys (Call.munmap a l) r → (a, l) ∈ capture_maps sg := by
    intro e he a l r heq
    subst heq
    cases he
  cases hmp : sg.multi_planar with
  | true =>
    simp only [if_true]
    refine sat_bind (unmap_buffers_mp_args hd _ _ ?_) (fun _ =>
      sat_bind (sat_emit (hd _ rfl)) (fun _ =>
        sat_bind (kinds_free_buffers_mmap (hk _ (by decide)) _) (fun _ =>
          sat_bind (kinds_init_mmap_mp (hk _ (by decide)) _) (fun x => ?_))))
    · intro e he p hp r a l r' heq
      simp only [Ev.sys.injEq, Call.munmap.injEq] at heq
      obtain ⟨⟨ha, hl⟩, -⟩ := heq
      simp only [capture_maps, hmp, if_true, pool_maps_mp, List.mem_flatMap, List.mem_map,
        List.mem_range]
      exact ⟨e, he, p, hp, by rw [ha, hl]⟩
    · obtain ⟨bufs, n⟩ := x
      exact sat_bind (sat_modify (fun s => ⟨by simp [Frame], rfl, rfl⟩)) (fun _ =>
        kinds_start_capturing_mmap_mp (hk _ (by decide)) _ _ _)
  | false =>
    simp only [Bool.false_eq_true, if_false]
    refine sat_bind (unmap_buffers_args hd _ _ ?_) (fun _ =>
      sat_bind (sat_emit (hd _ rfl)) (fun _ =>
        sat_bind (kinds_free_buffers_mmap (hk _ (by decide)) _) (fun _ =>
          sat_bind (kinds_init_mmap (hk _ (by decide)) _) (fun x => ?_))))
    · intro e he r a l r' heq
      simp only [Ev.sys.injEq, Call.munmap.injEq] at heq
      obtain ⟨⟨ha, hl⟩, -⟩ := heq
      simp only [capture_maps, hmp, Bool.false_eq_true, if_false, pool_maps, List.mem_map]
      exact ⟨e, he, by rw [ha, hl]⟩
    · obtain ⟨bufs, n⟩ := x
      exact sat_bind (sat_modify (fun s => ⟨by simp [Frame], rfl, rfl⟩)) (fun _ =>
        kinds_start_capturing_mmap (hk _ (by decide)) _ _ _)

theorem capture_maps_vars {s s' : State} (h : s'.vars = s.vars) :
    capture_maps s' = capture_maps s := by
  obtain ⟨-, h2, -, h4, -, h6, -, -, h9, -⟩ := vars_eq h
  simp [capture_maps, h2, h4, h6, h9]

/-- One reconfiguration, however it ends: every `munmap` it makes releases an
entry of the Capture pool it started with. -/
theorem handle_source_change_unmaps (s : State) :
    ∃ t, (handle_source_change s).state.trace = s.trace ++ t ∧
      ∀ e ∈ t, ∀ a l r, e = Ev.sys (Call.munmap a l) r → (a, l) ∈ capture_maps s := by
  have hk : ∀ (K : List Kind), Kind.munmap ∉ K → ∀ e, Ev.kind e ∈ K →
      ∀ a l r, e = Ev.sys (Call.munmap a l) r → (a, l) ∈ capture_maps s := by
    intro K hK e he a l r heq
    subst heq
    exact absurd he hK
  have hrun : handle_source_change s =
      (stop_capture v4l2_buf_type.V4L2_BUF_TYPE_VIDEO_CAPTURE >>= fun _ =>
        getState >>= fun sg =>
          if sg.multi_planar = true then do
            unmap_buffers_mp sg.buffers_mp sg.n_buffers
            emit (Ev.log Msg.Unmapped_all_buffers)
            free_buffers_mmap v4l2_buf_type.V4L2_BUF_TYPE_VIDEO_CAPTURE_MPLANE
            let (bufs, n) ← init_mmap_mp v4l2_buf_type.V4L2_BUF_TYPE_VIDEO_CAPTURE_MPLANE
            modify (fun s1 => { s1 with buffers_mp := bufs, n_buffers := n })
            start_capturing_mmap_mp v4l2_buf_type.V4L2_BUF_TYPE_VIDEO_CAPTURE_MPLANE bufs n
          else do
            unmap_buffers sg.buffers sg.n_buffers
            emit (Ev.log Msg.Unmapped_all_buffers)
            free_buffers_mmap v4l2_buf_type.V4L2_BUF_TYPE_VIDEO_CAPTURE
            let (bufs, n) ← init_mmap v4l2_buf_type.V4L2_BUF_TYPE_VIDEO_CAPTURE
            modify (fun s1 => { s1 with buffers := bufs, n_buffers := n })
            start_capturing_mmap v4l2_buf_type.V4L2_BUF_TYPE_VIDEO_CAPTURE bufs n)
        { s with trace := s.trace ++ [Ev.log Msg.Source_changed] } := rfl
  have h0 : Mono (fun e => ∀ a l r, e = Ev.sys (Call.munmap a l) r → (a, l) ∈ capture_maps s)
      s { s with trace := s.trace ++ [Ev.log Msg.Source_changed] } := by
    have := sat_emit (P := fun e => ∀ a l r, e = Ev.sys (Call.munmap a l) r →
      (a, l) ∈ capture_maps s) (e := Ev.log Msg.Source_changed)
      (by intro a l r h; cases h) s
    simpa [emit_apply, Result.state] using this
  have h1 := kinds_stop_capture (hk _ (by decide)) v4l2_buf_type.V4L2_BUF_TYPE_VIDEO_CAPTURE
    { s with trace := s.trace ++ [Ev.log Msg.Source_changed] }
  have hall : Mono (fun e => ∀ a l r, e = Ev.sys (Call.munmap a l) r →
      (a, l) ∈ capture_maps s) s (handle_source_change s).state := by
    rw [hrun, bind_apply]
    cases hstop : stop_capture v4l2_buf_type.V4L2_BUF_TYPE_VIDEO_CAPTURE
        { s with trace := s.trace ++ [Ev.log Msg.Source_changed] } with
    | halt e s2 =>
      rw [hstop] at h1
      exact mono_trans h0 h1
    | ok u s2 =>
      rw [hstop] at h1
      have hv : s2.vars = s.vars := (stop_capture_capture_calls hstop).1
      have hrest := reconfigure_rest_unmaps s2 s2
      rw [capture_maps_vars hv] at hrest
      dsimp only
      rw [bind_apply, getState_apply]
      exact mono_trans (mono_trans h0 h1) hrest
  obtain ⟨-, ⟨t, ht, hP⟩, -⟩ := hall
  exact ⟨t, ht, hP⟩

theorem mem_of_mem_steps {t : List Ev} {c : Call} {r : Resp} (h : (c, r) ∈ steps t) :
    Ev.sys c r ∈ t := by
  simp only [steps, List.mem_filterMap] at h
  obtain ⟨e, he, hs⟩ := h
  cases e with
  | sys c' r' =>
    simp only [Ev.step?] at hs
    split at hs
    · cases hs
    · simp only [Option.some.injEq, Prod.mk.injEq] at hs
      rw [← hs.1, ← hs.2]
      exact he
  | _ => simp [Ev.step?] at hs

theorem map_step_mem_query_steps (type : v4l2_buf_type) (mp : Bool) (b : Nat)
    (d : List (Resp × Resp)) {q m : Resp} (h : (q, m) ∈ d) :
    map_step mp q m ∈ query_steps type mp b d := by
  induction d generalizing b with
  | nil => cases h
  | cons y d ih =>
    obtain ⟨q', m'⟩ := y
    simp only [query_steps, List.mem_cons]
    rcases List.mem_cons.mp h with heq | h
    · simp only [Prod.mk.injEq] at heq
      rw [heq.1, heq.2]
      exact Or.inr (Or.inl rfl)
    · exact Or.inr (Or.inr (ih _ h))

theorem pool_maps_new_pool (d : List (Resp × Resp)) :
    pool_maps (new_pool d) d.length = d.map (fun x => (x.2.addr, x.1.length)) := by
  unfold pool_maps new_pool
  rw [List.take_of_length_le (by simp), List.map_map]
  rfl

theorem pool_maps_mp_new_pool (d : List (Resp × Resp)) :
    pool_maps_mp (new_pool_mp d) d.length =
      d.map (fun x => (x.2.addr, (x.1.planes.getD 0 {}).length)) := by
  unfold pool_maps_mp new_pool_mp
  rw [List.take_of_length_le (by simp)]
  induction d with
  | nil => rfl
  | cons x d ih =>
    rw [List.map_cons, List.flatMap_cons, ih]
    rfl

theorem capture_maps_new_pool {s : State} {d : List (Resp × Resp)}
    (hmp : s.multi_planar = false) (hb : s.buffers = new_pool d) (hn : s.n_buffers = d.length) :
    capture_maps s = d.map (fun x => (x.2.addr, x.1.length)) := by
  simp only [capture_maps, hmp, Bool.false_eq_true, if_false, hb, hn]
  exact pool_maps_new_pool d

theorem capture_maps_new_pool_mp {s : State} {d : List (Resp × Resp)}
    (hmp : s.multi_planar = true) (hb : s.buffers_mp = new_pool_mp d)
    (hn : s.n_buffers = d.length) :
    capture_maps s = d.map (fun x => (x.2.addr, (x.1.planes.getD 0 {}).length)) := by
  simp only [capture_maps, hmp, if_true, hb, hn]
  exact pool_maps_mp_new_pool d

/-- One reconfiguration that returns: every mapping of the Capture pool it leaves
was created by one of its `mmap` calls. -/
theorem handle_source_change_maps {s s' : State} (h : handle_source_change s = Result.ok () s')
    {t : List Ev} (ht : s'.trace = s.trace ++ t) :
    ∀ x ∈ capture_maps s', x ∈ t.filterMap Ev.mapped := by
  obtain ⟨a, hok, -, hd, -, -, hsteps, hn, hpool⟩ := handle_source_change_steps h
  have hfr : Frame s s' := by
    have := (kinds_handle_source_change (P := fun _ => True) (fun _ _ => trivial) s).1
    rw [h] at this
    exact this
  have hmp : s'.multi_planar = s.multi_planar := frame_multi_planar hfr
  have hst : steps t = reconfigure_steps s a := by
    rw [ht, steps_append] at hsteps
    exact List.append_cancel_left hsteps
  have hmem : ∀ q m, (q, m) ∈ a.described →
      Ev.sys (map_step s.multi_planar q m).1 (map_step s.multi_planar q m).2 ∈ t := by
    intro q m hqm
    apply mem_of_mem_steps
    rw [hst]
    simp only [reconfigure_steps, List.mem_append]
    exact Or.inl (Or.inl (Or.inr (map_step_mem_query_steps _ _ _ _ hqm)))
  have hnd : s'.n_buffers = a.described.length := by rw [hn, hd]
  intro x hx
  cases hm : s.multi_planar with
  | false =>
    rw [hm] at hpool hmem
    simp only [Bool.false_eq_true, if_false] at hpool
    rw [capture_maps_new_pool (hmp.trans hm) hpool hnd, List.mem_map] at hx
    obtain ⟨⟨q, m⟩, hqm, rfl⟩ := hx
    rw [List.mem_filterMap]
    refine ⟨_, hmem q m hqm, ?_⟩
    have := (hok.2.2.2.2.2.1 _ hqm).2
    simp [map_step, Ev.mapped, this]
  | true =>
    rw [hm] at hpool hmem
    simp only [if_true] at hpool
    rw [capture_maps_new_pool_mp (hmp.trans hm) hpool hnd, List.mem_map] at hx
    obtain ⟨⟨q, m⟩, hqm, rfl⟩ := hx
    rw [List.mem_filterMap]
    refine ⟨_, hmem q m hqm, ?_⟩
    have := (hok.2.2.2.2.2.1 _ hqm).2
    simp [map_step, Ev.mapped, this]

/-- The drain loop, however it ends: every `munmap` releases a mapping of the
Capture pool the loop started with or a mapping a reconfiguration of this
drain created before. -/
theorem handle_event_loop_unmaps (n : Nat) (s : State) :
    ∃ t, (handle_event_loop n s).state.trace = s.trace ++ t ∧ UnmapsOK (capture_maps s) t := by
  induction n generalizing s with
  | zero =>
    exact ⟨[], by simp [handle_event_loop, halt_apply, Result.state],
      unmaps_of_all (by simp)⟩
  | succ n ih =>
    unfold handle_event_loop
    rw [bind_apply]
    cases hscr : s.script with
    | nil =>
      exact ⟨[], by simp [M2M.sys, hscr, Result.state], unmaps_of_all (by simp)⟩
    | cons ev rest =>
      have hsys : sys Call.VIDIOC_DQEVENT s = Result.ok ev
          { s with script := rest, trace := s.trace ++ [Ev.sys Call.VIDIOC_DQEVENT ev] } := by
        simp [M2M.sys, hscr]
      rw [hsys]
      dsimp only
      have hone : UnmapsOK (capture_maps s) [Ev.sys Call.VIDIOC_DQEVENT ev] :=
        unmaps_of_all (by
          intro e he a l r heq
          simp only [List.mem_singleton] at he
          rw [he] at heq
          cases heq)
      by_cases h0 : ev.ret = 0
      · simp only [h0, if_true]
        rw [bind_apply]
        cases hty : ev.ev_type with
        | V4L2_EVENT_SOURCE_CHANGE =>
          dsimp only
          obtain ⟨t1, ht1, hu1⟩ := handle_source_change_unmaps
            { s with script := rest, trace := s.trace ++ [Ev.sys Call.VIDIOC_DQEVENT ev] }
          have hcm : capture_maps
              { s with script := rest, trace := s.trace ++ [Ev.sys Call.VIDIOC_DQEVENT ev] } =
              capture_maps s := rfl
          rw [hcm] at hu1
          cases hres : handle_source_change
              { s with script := rest, trace := s.trace ++ [Ev.sys Call.VIDIOC_DQEVENT ev] } with
          | halt e s2 =>
            rw [hres] at ht1
            simp only [Result.state] at ht1 ⊢
            refine ⟨Ev.sys Call.VIDIOC_DQEVENT ev :: t1, by rw [ht1]; simp, ?_⟩
            exact unmaps_append hone (unmaps_of_all hu1) (fun x hx => Or.inl hx)
          | ok u s2 =>
            rw [hres] at ht1
            simp only [Result.state] at ht1
            obtain ⟨t2, ht2, hu2⟩ := ih s2
            have hmaps := handle_source_change_maps hres ht1
            refine ⟨Ev.sys Call.VIDIOC_DQEVENT ev :: (t1 ++ t2),
              by rw [ht2, ht1]; simp, ?_⟩
            refine unmaps_append hone ?_ (fun x hx => Or.inl hx)
            exact unmaps_append (unmaps_of_all hu1) hu2 (fun x hx => Or.inr (hmaps x hx))
        | V4L2_EVENT_EOS =>
          dsimp only
          obtain ⟨t2, ht2, hu2⟩ := ih
            { s with script := rest,
                     trace := s.trace ++ [Ev.sys Call.VIDIOC_DQEVENT ev] ++ [Ev.log Msg.EOS] }
          refine ⟨Ev.sys Call.VIDIOC_DQEVENT ev :: Ev.log Msg.EOS :: t2, ?_, ?_⟩
          · simp only [emit_apply]
            rw [ht2]
            simp
          · have hcm : capture_maps
                { s with script := rest, trace := s.trace ++
                  [Ev.sys Call.VIDIOC_DQEVENT ev] ++ [Ev.log Msg.EOS] } = capture_maps s := rfl
            rw [hcm] at hu2
            have h2 : UnmapsOK (capture_maps s)
                ([Ev.sys Call.VIDIOC_DQEVENT ev, Ev.log Msg.EOS] ++ t2) :=
              unmaps_append (unmaps_of_all (by
                intro e he a l r heq
                simp only [List.mem_cons, List.mem_singleton, List.not_mem_nil,
                  or_false] at he
                rcases he with he | he <;> rw [he] at heq <;> cases heq)) hu2
                (fun x hx => Or.inl hx)
            simpa using h2
        | OTHER =>
          dsimp only
          obtain ⟨t2, ht2, hu2⟩ := ih
            { s with script := rest, trace := s.trace ++ [Ev.sys Call.VIDIOC_DQEVENT ev] }
          refine ⟨Ev.sys Call.VIDIOC_DQEVENT ev :: t2, ?_, ?_⟩
          · rw [ht2]
            simp
          · have hcm : capture_maps
                { s with script := rest, trace := s.trace ++
                  [Ev.sys Call.VIDIOC_DQEVENT ev] } = capture_maps s := rfl
            rw [hcm] at hu2
            exact unmaps_append hone hu2 (fun x hx => Or.inl hx)
      · simp only [h0, if_false, pure_apply, Result.state]
        exact ⟨[Ev.sys Call.VIDIOC_DQEVENT ev], rfl, hone⟩

theorem handle_event_unmaps (s : State) : UnmapsOK (capture_maps s) (added handle_event s) := by
  obtain ⟨t, ht, hu⟩ := handle_event_loop_unmaps (s.script.length + 1) s
  have heq : handle_event s = handle_event_loop (s.script.length + 1) s := rfl
  rw [added_eq (heq ▸ ht)]
  exact hu

/-! ## The claims -/

/-- C1 (evaluation at the failing input): with budget 1 in M2M mode, a run in which
only an Output service call succeeds ends normally: one outer iteration
completed and the budget is used up, although no Capture service call
succeeded and no frame was dequeued. -/
theorem C1_output_success_completes_iteration :
    (mainloop ex_output_only).isOk = true ∧
    (run_trace mainloop ex_output_only).countP Ev.is_frame_done = 1 ∧
    (run_trace mainloop ex_output_only).countP Ev.is_capture_success = 0 := by
  decide!

/-- Completed iterations of `mainloop` and successful service calls: an outer
iteration completes only when a service call returned non-zero, of the Capture
direction or of the Output direction.
For every script of device responses and however the run ends, the number of
completed outer iterations equals the number of successful Capture service calls
plus the number of successful Output service calls (so an event drain alone never
completes one); when the run ends normally that number is the budget.  Without
an Output pool no Output service call succeeds, and the completed iterations are
exactly the successful Capture service calls. -/
theorem iterations_count_successful_services (s : State) :
    ∃ t, (mainloop s).state.trace = s.trace ++ t ∧
      t.countP Ev.is_frame_done =
        t.countP Ev.is_capture_success + t.countP Ev.is_output_success ∧
      ((mainloop s).isOk = true → t.countP Ev.is_frame_done = budget s) ∧
      (s.n_buffers_out = 0 → s.buffers_out = [] →
        t.countP Ev.is_output_success = 0 ∧
        t.countP Ev.is_frame_done = t.countP Ev.is_capture_success) := by
  obtain ⟨t, ht, -, heq, hok, hout⟩ := mainloop_outer_counts (budget s) s
  have hm : mainloop s = mainloop_outer (budget s) s := rfl
  refine ⟨t, by rw [hm]; exact ht, heq, by rw [hm]; exact hok, ?_⟩
  intro hn hb
  have := hout hn hb
  exact ⟨this, by omega⟩

/-- The capture-only session with budget 3 ends normally after exactly three
successful Capture service calls. -/
theorem budget_three_successful_services :
    (mainloop ex_budget_three).isOk = true ∧ budget ex_budget_three = 3 ∧
    (run_trace mainloop ex_budget_three).countP Ev.is_capture_success = 3 ∧
    ∃ t, (mainloop ex_budget_three).state.trace = ex_budget_three.trace ++ t ∧
      t.countP Ev.is_frame_done =
        t.countP Ev.is_capture_success + t.countP Ev.is_output_success ∧
      ((mainloop ex_budget_three).isOk = true →
        t.countP Ev.is_frame_done = budget ex_budget_three) ∧
      (ex_budget_three.n_buffers_out = 0 → ex_budget_three.buffers_out = [] →
        t.countP Ev.is_output_success = 0 ∧
        t.countP Ev.is_frame_done = t.countP Ev.is_capture_success) :=
  ⟨by decide!, by decide!, by decide!, iterations_count_successful_services ex_budget_three⟩

/-- C2: a successful service call of a queue-based strategy (`read_frame` under
`IO_METHOD_MMAP` or `IO_METHOD_USERPTR`, `read_frame_mmap_mp`) adds exactly two
queue commands, the dequeue of a buffer and the enqueue of the same buffer on the
same stream.  In the streaming part of a session
(`start_capturing(); mainloop(); stop_capturing();`), for every script of device
responses and every buffer `i` of every stream `ty`: the buffer is never enqueued
while the device owns it, never dequeued while the application holds it, and
never with the application when a service call returns; and when the device keeps
its half of the protocol for this buffer (it hands the buffer back only while it
owns it), every queue command on the buffer is an arrow of the cycle
`Free → DeviceOwned → ApplicationOwned → DeviceOwned → …`. -/
theorem C2_dequeued_buffer_requeued (s : State) (ty : v4l2_buf_type) (i : Nat) :
    (∀ type bufs n x, s.io ≠ io_method.IO_METHOD_READ →
      (read_frame type bufs n s).value = some x → x ≠ 0 →
      ∃ j, protocol (added (read_frame type bufs n) s) =
        [Step.op (QOp.dequeue (read_frame_stream s type) j),
         Step.op (QOp.enqueue (read_frame_stream s type) j)]) ∧
    (∀ type bufs n x, (read_frame_mmap_mp type bufs n s).value = some x → x ≠ 0 →
      ∃ j, protocol (added (read_frame_mmap_mp type bufs n) s) =
        [Step.op (QOp.dequeue type j), Step.op (QOp.enqueue type j)]) ∧
    holds_throughout (Step.enqueue_allowed ty i) ty i Ownership.Free
      (protocol (added main_streaming s)) = true ∧
    holds_throughout (Step.single_hold ty i) ty i Ownership.Free
      (protocol (added main_streaming s)) = true ∧
    holds_throughout Step.released ty i Ownership.Free
      (protocol (added main_streaming s)) = true ∧
    (holds_throughout (Step.handed_back_owned ty i) ty i Ownership.Free
        (protocol (added main_streaming s)) = true →
      holds_throughout (Step.on_cycle ty i) ty i Ownership.Free
        (protocol (added main_streaming s)) = true) := by
  obtain ⟨t, a, c, ht, hp, ha, hc⟩ := main_streaming_protocol s
  have hsound := session_sound ty i ha hc
  rw [← hp, ← added_eq ht] at hsound
  have henq : holds_throughout (Step.enqueue_allowed ty i) ty i Ownership.Free
      (protocol (added main_streaming s)) = true :=
    holds_mono (fun o st h => by
      simp only [Step.sound, Bool.and_eq_true] at h
      exact h.1.1) ty i _ _ hsound
  refine ⟨?_, ?_, henq, ?_, ?_, ?_⟩
  · intro type bufs n x hio hv hx
    obtain ⟨t1, ht1, -, hok, -⟩ := read_frame_protocol type bufs n s
    rcases hok x _ (value_state hv) with h | h
    · rcases h.1 with h0 | h0
      · exact absurd h0 hx
      · exact absurd h0 hio
    · rw [added_eq ht1]
      exact h.2.2
  · intro type bufs n x hv hx
    obtain ⟨t1, ht1, -, hok, -⟩ := emits_read_frame_mmap_mp s.multi_planar type bufs n s rfl
    rcases hok x _ (value_state hv) with h | h
    · exact absurd h.1 hx
    · rw [added_eq ht1]
      exact h.2
  · exact holds_mono (fun o st h => by
      simp only [Step.sound, Bool.and_eq_true] at h
      exact h.1.2) ty i _ _ hsound
  · exact holds_mono (fun o st h => by
      simp only [Step.sound, Bool.and_eq_true] at h
      exact h.2) ty i _ _ hsound
  · intro hdev
    refine holds_and (fun o st h1 h2 => ?_) ty i _ _ henq hdev
    cases st with
    | returned => rfl
    | op q =>
      cases q with
      | enqueue t j => simpa [Step.on_cycle, Step.enqueue_allowed] using h1
      | dequeue t j => simpa [Step.on_cycle, Step.handed_back_owned] using h2
      | stop t => rfl

/-- C2 (witness): in the M2M session `ex_session` the run ends normally, the device
hands Capture buffer 1 back only while it owns it, and the commands on that
buffer follow the cycle; the successful Output service call of `ex_output_refill`
and the successful multi-planar Capture service call of `ex_mp_capture` each
dequeue buffer 1 and enqueue it again. -/
theorem C2_dequeued_buffer_requeued_witness :
    (main_streaming ex_session).isOk = true ∧
    protocol (added main_streaming ex_session) =
      [Step.op (QOp.enqueue v4l2_buf_type.V4L2_BUF_TYPE_VIDEO_CAPTURE 0),
       Step.op (QOp.enqueue v4l2_buf_type.V4L2_BUF_TYPE_VIDEO_CAPTURE 1),
       Step.op (QOp.enqueue v4l2_buf_type.V4L2_BUF_TYPE_VIDEO_OUTPUT 0),
       Step.op (QOp.enqueue v4l2_buf_type.V4L2_BUF_TYPE_VIDEO_OUTPUT 1),
       Step.op (QOp.dequeue v4l2_buf_type.V4L2_BUF_TYPE_VIDEO_CAPTURE 1),
       Step.op (QOp.enqueue v4l2_buf_type.V4L2_BUF_TYPE_VIDEO_CAPTURE 1),
       Step.returned,
       Step.op (QOp.dequeue v4l2_buf_type.V4L2_BUF_TYPE_VIDEO_OUTPUT 0),
       Step.op (QOp.enqueue v4l2_buf_type.V4L2_BUF_TYPE_VIDEO_OUTPUT 0),
       Step.returned,
       Step.op (QOp.stop v4l2_buf_type.V4L2_BUF_TYPE_VIDEO_CAPTURE),
       Step.op (QOp.stop v4l2_buf_type.V4L2_BUF_TYPE_VIDEO_OUTPUT)] ∧
    holds_throughout (Step.handed_back_owned v4l2_buf_type.V4L2_BUF_TYPE_VIDEO_CAPTURE 1)
      v4l2_buf_type.V4L2_BUF_TYPE_VIDEO_CAPTURE 1 Ownership.Free
      (protocol (added main_streaming ex_session)) = true ∧
    holds_throughout (Step.on_cycle v4l2_buf_type.V4L2_BUF_TYPE_VIDEO_CAPTURE 1)
      v4l2_buf_type.V4L2_BUF_TYPE_VIDEO_CAPTURE 1 Ownership.Free
      (protocol (added main_streaming ex_session)) = true ∧
    (∃ j, protocol (added (read_frame v4l2_buf_type.V4L2_BUF_TYPE_VIDEO_OUTPUT ex_pool_out 3)
        ex_output_refill) =
      [Step.op (QOp.dequeue v4l2_buf_type.V4L2_BUF_TYPE_VIDEO_OUTPUT j),
       Step.op (QOp.enqueue v4l2_buf_type.V4L2_BUF_TYPE_VIDEO_OUTPUT j)]) ∧
    (∃ j, protocol (added (read_frame_mmap_mp v4l2_buf_type.V4L2_BUF_TYPE_VIDEO_CAPTURE_MPLANE
        ex_pool_mp 2) ex_mp_capture) =
      [Step.op (QOp.dequeue v4l2_buf_type.V4L2_BUF_TYPE_VIDEO_CAPTURE_MPLANE j),
       Step.op (QOp.enqueue v4l2_buf_type.V4L2_BUF_TYPE_VIDEO_CAPTURE_MPLANE j)]) :=
  ⟨by decide!, by decide!, by decide!,
    (C2_dequeued_buffer_requeued ex_session v4l2_buf_type.V4L2_BUF_TYPE_VIDEO_CAPTURE
      1).2.2.2.2.2 (by decide!),
    (C2_dequeued_buffer_requeued ex_output_refill v4l2_buf_type.V4L2_BUF_TYPE_VIDEO_CAPTURE
      0).1 v4l2_buf_type.V4L2_BUF_TYPE_VIDEO_OUTPUT ex_pool_out 3 1 (by decide)
      (by decide!) (by decide),
    (C2_dequeued_buffer_requeued ex_mp_capture v4l2_buf_type.V4L2_BUF_TYPE_VIDEO_CAPTURE
      0).2.1 v4l2_buf_type.V4L2_BUF_TYPE_VIDEO_CAPTURE_MPLANE ex_pool_mp 2 1 (by decide!)
      (by decide)⟩

/-- C3 (evaluation at the failing input): in multi-planar mode the device reports
100 bytes in the plane of the dequeued Capture buffer, and `read_frame_mmap_mp`
hands the sink the plane's capacity of 8192 bytes. -/
theorem C3_sink_gets_capacity_mp :
    (read_frame_mmap_mp v4l2_buf_type.V4L2_BUF_TYPE_VIDEO_CAPTURE_MPLANE ex_pool_mp 2
        ex_mp_capture).value = some 1 ∧
    (run_trace (read_frame_mmap_mp v4l2_buf_type.V4L2_BUF_TYPE_VIDEO_CAPTURE_MPLANE
        ex_pool_mp 2) ex_mp_capture).filter Ev.is_sink = [Ev.process_image 16384 8192] := by
  decide!

/-- C4 (evaluation at the failing input): single-planar M2M start hands the
source the memory of the Capture pool (addresses 1000 and 2000, 64 bytes) for
Output buffers 0 and 1, and reads past the end of the Capture pool for Output
buffer 2. -/
theorem C4_output_filled_from_capture_pool :
    (run_trace start_capturing ex_m2m_start).filter Ev.is_source =
        [Ev.supply_input 1000 64, Ev.supply_input 2000 64] ∧
    (start_capturing ex_m2m_start).halted = some Halt.undefined := by
  decide!


/-- C5 (evaluation at the failing input): an M2M session under `IO_METHOD_MMAP` with
no input file open.  The Output service call `mainloop` makes dequeues Output
buffer 1, for which the device reports 17 bytes used, invokes the source, which
supplies nothing, and re-enqueues the buffer with `bytesused = 17`, the value
the dequeue left and not the number of bytes supplied.  Under
`IO_METHOD_USERPTR` the Output service call `mainloop` makes is given the null
Output pool with a count of 0: it dequeues from the Capture queue and stops on
its `assert`, so that no service of the Output direction can succeed. -/
theorem C5_output_refill_without_input_file :
    ex_no_input_file.in_fp = false ∧
    (read_frame v4l2_buf_type.V4L2_BUF_TYPE_VIDEO_OUTPUT ex_no_input_file.buffers_out
      ex_no_input_file.n_buffers_out ex_no_input_file).value = some 1 ∧
    run_trace (read_frame v4l2_buf_type.V4L2_BUF_TYPE_VIDEO_OUTPUT
        ex_no_input_file.buffers_out ex_no_input_file.n_buffers_out) ex_no_input_file =
      [Ev.sys (Call.VIDIOC_DQBUF { type := v4l2_buf_type.V4L2_BUF_TYPE_VIDEO_OUTPUT,
                                   memory := v4l2_memory.V4L2_MEMORY_MMAP })
         { index := 1, bytesused := 17 },
       Ev.supply_input 4000 32,
       Ev.sys (Call.VIDIOC_QBUF { type := v4l2_buf_type.V4L2_BUF_TYPE_VIDEO_OUTPUT,
                                  memory := v4l2_memory.V4L2_MEMORY_MMAP,
                                  index := 1, bytesused := 17 }) {}] ∧
    (read_frame v4l2_buf_type.V4L2_BUF_TYPE_VIDEO_OUTPUT ex_userptr_session.buffers_out
      ex_userptr_session.n_buffers_out ex_userptr_session).halted = some Halt.abort ∧
    run_trace (read_frame v4l2_buf_type.V4L2_BUF_TYPE_VIDEO_OUTPUT
        ex_userptr_session.buffers_out ex_userptr_session.n_buffers_out)
        ex_userptr_session =
      [Ev.sys (Call.VIDIOC_DQBUF { type := v4l2_buf_type.V4L2_BUF_TYPE_VIDEO_CAPTURE,
                                   memory := v4l2_memory.V4L2_MEMORY_USERPTR })
         { userptr := 1000, length := 64, bytesused := 10 }] := by
  decide!

/-- A successful service call of `read_frame` for the Output direction, for any
pool it is given.  Under `IO_METHOD_MMAP` it dequeues from the Output queue, invokes the
source `supply_input` (never the sink) on the memory and capacity of the dequeued
buffer, and re-enqueues that buffer on the Output queue; the `bytesused` it
enqueues is the number of bytes the source supplied when the input file is open,
and the value the device reported in the dequeue when it is not.  Under
`IO_METHOD_USERPTR` the call ignores the direction: it dequeues from the Capture
queue, invokes the sink, and re-enqueues on the Capture queue. -/
theorem output_service_actions (bufs : List buffer) (n : Nat) (s : State) (x : Int)
    (h : (read_frame v4l2_buf_type.V4L2_BUF_TYPE_VIDEO_OUTPUT bufs n s).value = some x)
    (hx : x ≠ 0) :
    (s.io = io_method.IO_METHOD_MMAP →
      ∃ r b r2, r.ret ≠ -1 ∧ r2.ret ≠ -1 ∧ r.index < n ∧ bufs[r.index]? = some b ∧
        actions (read_frame v4l2_buf_type.V4L2_BUF_TYPE_VIDEO_OUTPUT bufs n s).state.trace =
          actions s.trace ++
            [Ev.sys (Call.VIDIOC_DQBUF
               { type := v4l2_buf_type.V4L2_BUF_TYPE_VIDEO_OUTPUT,
                 memory := v4l2_memory.V4L2_MEMORY_MMAP }) r,
             Ev.supply_input b.start b.length,
             Ev.sys (Call.VIDIOC_QBUF
               { type := v4l2_buf_type.V4L2_BUF_TYPE_VIDEO_OUTPUT,
                 memory := v4l2_memory.V4L2_MEMORY_MMAP, index := r.index,
                 bytesused := if s.in_fp then supplied s b.length else r.bytesused,
                 length := r.length, offset := r.offset, userptr := r.userptr,
                 planes := r.planes }) r2]) ∧
    (s.io = io_method.IO_METHOD_USERPTR →
      ∃ r r2, r.ret ≠ -1 ∧ r2.ret ≠ -1 ∧
        actions (read_frame v4l2_buf_type.V4L2_BUF_TYPE_VIDEO_OUTPUT bufs n s).state.trace =
          actions s.trace ++
            [Ev.sys (Call.VIDIOC_DQBUF
               { type := v4l2_buf_type.V4L2_BUF_TYPE_VIDEO_CAPTURE,
                 memory := v4l2_memory.V4L2_MEMORY_USERPTR }) r,
             Ev.process_image r.userptr r.bytesused,
             Ev.sys (Call.VIDIOC_QBUF
               { type := v4l2_buf_type.V4L2_BUF_TYPE_VIDEO_CAPTURE,
                 memory := v4l2_memory.V4L2_MEMORY_USERPTR, index := r.index,
                 bytesused := r.bytesused, length := r.length, offset := r.offset,
                 userptr := r.userptr, planes := r.planes }) r2]) := by
  have hres := value_state h
  constructor
  · intro hio
    obtain ⟨pre1, r, b, pre2, r2, hpre1, hpre2, hret, hret2, hidx, hb, -, ht⟩ :=
      read_frame_mmap_ok hio hres hx
    refine ⟨r, b, r2, hret, hret2, hidx, hb, ?_⟩
    rw [ht]
    simp only [actions_append, actions_interrupted hpre1, actions_interrupted hpre2,
      actions_sys hret, actions_sys hret2, List.append_nil, List.append_assoc]
    have hne : ¬ (v4l2_buf_type.V4L2_BUF_TYPE_VIDEO_OUTPUT =
        v4l2_buf_type.V4L2_BUF_TYPE_VIDEO_CAPTURE) := by decide
    simp only [hne, if_false]
    cases hin : s.in_fp <;>
      simp [actions, Ev.interrupted, Ev.low, Ev.is_log]
  · intro hio
    obtain ⟨pre1, r, pre2, r2, hpre1, hpre2, hret, hret2, -, ht⟩ :=
      read_frame_userptr_ok hio hres hx
    refine ⟨r, r2, hret, hret2, ?_⟩
    rw [ht]
    simp only [actions_append, actions_interrupted hpre1, actions_interrupted hpre2,
      actions_sys hret, actions_sys hret2, List.append_nil, List.append_assoc]
    simp [actions, Ev.interrupted, Ev.low, Ev.is_log]

/-- Output service under `IO_METHOD_MMAP` with 10 bytes left in the
input file and a buffer of 32 bytes; the call returns 1 and enqueues the buffer
with `bytesused = 10`. -/
theorem output_service_refill :
    (read_frame v4l2_buf_type.V4L2_BUF_TYPE_VIDEO_OUTPUT ex_pool_out 3
      ex_output_refill).value = some 1 ∧ (1 : Int) ≠ 0 ∧
    ex_output_refill.io = io_method.IO_METHOD_MMAP ∧
    supplied ex_output_refill 32 = 10 ∧
    ∃ r b r2, r.ret ≠ -1 ∧ r2.ret ≠ -1 ∧ r.index < 3 ∧ ex_pool_out[r.index]? = some b ∧
      actions (read_frame v4l2_buf_type.V4L2_BUF_TYPE_VIDEO_OUTPUT ex_pool_out 3
        ex_output_refill).state.trace =
        actions ex_output_refill.trace ++
          [Ev.sys (Call.VIDIOC_DQBUF
             { type := v4l2_buf_type.V4L2_BUF_TYPE_VIDEO_OUTPUT,
               memory := v4l2_memory.V4L2_MEMORY_MMAP }) r,
           Ev.supply_input b.start b.length,
           Ev.sys (Call.VIDIOC_QBUF
             { type := v4l2_buf_type.V4L2_BUF_TYPE_VIDEO_OUTPUT,
               memory := v4l2_memory.V4L2_MEMORY_MMAP, index := r.index,
               bytesused :=
                 if ex_output_refill.in_fp then supplied ex_output_refill b.length
                 else r.bytesused,
               length := r.length, offset := r.offset, userptr := r.userptr,
               planes := r.planes }) r2] :=
  ⟨by decide!, by decide, by decide, by decide!,
    (output_service_actions ex_pool_out 3 ex_output_refill 1 (by decide!) (by decide)).1
      (by decide)⟩

/-- C6 (evaluation at the failing input): `init_userp` returns although the device
granted a single buffer, and its pool then holds 4 buffers, more than were
granted. -/
theorem C6_userp_ignores_grant :
    (init_userp 64 ex_userp_grant_one).isOk = true ∧
    (run_trace (init_userp 64) ex_userp_grant_one).head? =
      some (Ev.sys (Call.VIDIOC_REQBUFS
        { count := 4, type := v4l2_buf_type.V4L2_BUF_TYPE_VIDEO_CAPTURE,
          memory := v4l2_memory.V4L2_MEMORY_USERPTR }) { count := 1 }) ∧
    (init_userp 64 ex_userp_grant_one).state.n_buffers = 4 ∧
    (init_userp 64 ex_userp_grant_one).state.buffers.length = 4 := by
  decide!

/-- Pool negotiation by function: let `r` be the answer of the device to the buffer request of
`init_mmap` or `init_mmap_mp`, the call having succeeded, so that `r.count` is
the granted count.  If the granted count is below 2, both functions terminate the
run with `exit`.  If `init_mmap` (or `init_mmap_mp`) returns, its pool holds
exactly the granted number of buffers, and that number is at least 2.
`init_userp` does not look at the granted count: whenever it returns, its pool
holds exactly 4 buffers. -/
theorem pool_negotiation_by_function (type : v4l2_buf_type) (s : State) (r : Resp)
    (hreq : (xioctl (Call.VIDIOC_REQBUFS
      { count := 4, type := type, memory := v4l2_memory.V4L2_MEMORY_MMAP }) s).value = some r)
    (hok : r.ret ≠ -1) :
    (r.count % 2 ^ 32 < 2 →
      (init_mmap type s).halted = some Halt.exit ∧
      (init_mmap_mp type s).halted = some Halt.exit) ∧
    (∀ bufs n, (init_mmap type s).value = some (bufs, n) →
      n = r.count % 2 ^ 32 ∧ 2 ≤ n ∧ bufs.length = n) ∧
    (∀ bufs n, (init_mmap_mp type s).value = some (bufs, n) →
      n = r.count % 2 ^ 32 ∧ 2 ≤ n ∧ bufs.length = n) ∧
    (∀ size s0, (init_userp size s0).isOk = true →
      (init_userp size s0).state.n_buffers = 4 ∧
      (init_userp size s0).state.buffers.length = 4) := by
  obtain ⟨s1, hreq⟩ := value_eq_some.mp hreq
  refine ⟨fun hlt => ⟨(init_mmap_ok hreq hok).1 hlt, (init_mmap_mp_ok hreq hok).1 hlt⟩,
    (init_mmap_ok hreq hok).2, (init_mmap_mp_ok hreq hok).2, ?_⟩
  intro size s0 h
  cases hres : init_userp size s0 with
  | ok u s' => exact init_userp_ok hres
  | halt e s' => simp [hres, Result.isOk] at h

/-- Mapped negotiation in which the device grants two buffers, after one interrupted attempt;
`init_mmap` returns a pool of two. -/
theorem pool_negotiation_grant_two :
    (xioctl (Call.VIDIOC_REQBUFS
      { count := 4, type := v4l2_buf_type.V4L2_BUF_TYPE_VIDEO_CAPTURE,
        memory := v4l2_memory.V4L2_MEMORY_MMAP }) ex_grant_two).value = some { count := 2 } ∧
    ({ count := 2 } : Resp).ret ≠ -1 ∧
    (init_mmap v4l2_buf_type.V4L2_BUF_TYPE_VIDEO_CAPTURE ex_grant_two).value =
      some ([⟨7000, 128⟩, ⟨8000, 128⟩], 2) ∧
    (2 = ({ count := 2 } : Resp).count % 2 ^ 32 ∧ 2 ≤ 2 ∧
      ([⟨7000, 128⟩, ⟨8000, 128⟩] : List buffer).length = 2) :=
  ⟨by decide!, by decide, by decide!,
    (pool_negotiation_by_function v4l2_buf_type.V4L2_BUF_TYPE_VIDEO_CAPTURE ex_grant_two { count := 2 }
      (by decide!) (by decide)).2.1 _ _ (by decide!)⟩


/-- C7 (counterexample): `handle_event` handles a source change to the end, with
the Capture stream restarted on a fresh pool, without a single call of format
negotiation. -/
theorem C7_no_format_negotiation :
    (handle_event ex_source_change).isOk = true ∧
    (run_trace handle_event ex_source_change).head? =
      some (Ev.sys Call.VIDIOC_DQEVENT
        { ev_type := v4l2_event_type.V4L2_EVENT_SOURCE_CHANGE }) ∧
    (run_trace handle_event ex_source_change).any Ev.is_format = false ∧
    (handle_event ex_source_change).state.buffers = [⟨7000, 128⟩, ⟨8000, 128⟩] := by
  decide!

/-- C7 (amended): on a `V4L2_EVENT_SOURCE_CHANGE` event `handle_event` runs the
reconfiguration `handle_source_change` and goes on with the next event.  When
the reconfiguration returns, the calls it made that were not interrupted by a
signal are, in this order and each with the answer `a` records for it: stop
streaming on the Capture stream; unmap every plane of every buffer of the old
pool; retire the pool with a request of count 0; request a pool of 4; allocate
the array for the granted count, which is the count in the answer to that
request; query each granted buffer and map it with the length and the offset
its query returned; enqueue each of them; start streaming.  Every one of these
calls succeeded and none of them is a call of format negotiation.  Afterwards
the Capture pool's buffer count is the granted count, it is at least 2, and the
pool consists of the new mappings: entry `i` starts where the mapping of buffer
`i` returned and has the length its query returned. -/
theorem C7_source_change_reconfigures (s : State) (r : Resp) (rest : List Resp) (fuel : Nat)
    (h : (handle_source_change s).isOk = true) :
    handle_event_loop (fuel + 1) { s with script :=
        { r with ret := 0, ev_type := v4l2_event_type.V4L2_EVENT_SOURCE_CHANGE } :: rest } =
      (do handle_source_change; handle_event_loop fuel) { s with script := rest, trace :=
        s.trace ++ [Ev.sys Call.VIDIOC_DQEVENT
          { r with ret := 0, ev_type := v4l2_event_type.V4L2_EVENT_SOURCE_CHANGE }] } ∧
    ∃ a : Answers,
      steps (added handle_source_change s) = reconfigure_steps s a ∧
      a.all_succeeded ∧ a.unmap.length = (release_calls s).length ∧
      a.described.length = a.granted ∧ a.enqueue.length = a.granted ∧
      (reconfigure_steps s a).all (fun x => !x.1.is_format) = true ∧
      (handle_source_change s).state.n_buffers = a.granted ∧ 2 ≤ a.granted ∧
      (if s.multi_planar then
        (handle_source_change s).state.buffers_mp = new_pool_mp a.described
       else (handle_source_change s).state.buffers = new_pool a.described) := by
  constructor
  · simp [handle_event_loop, bind_apply, M2M.sys]
  · obtain ⟨a, hok, hu, hd, he, h2, hsteps, hn, hpool⟩ :=
      handle_source_change_steps (isOk_eq_ok h)
    have hmono := (kinds_handle_source_change (P := fun _ => True) (fun _ _ => trivial) s).2.1
    obtain ⟨t, ht, -⟩ := hmono
    exact ⟨a, steps_added ⟨t, ht⟩ hsteps, hok, hu, hd, he, reconfigure_steps_no_format s a, hn,
      h2, hpool⟩

/-- C7 (witness): a single-planar reconfiguration in which the device grants two
buffers of 128 bytes, at offsets 0 and 128, and maps them at 7000 and 8000. -/
theorem C7_source_change_reconfigures_witness :
    (handle_source_change ex_reconfigure).isOk = true ∧
    steps (added handle_source_change ex_reconfigure) =
      [(Call.VIDIOC_STREAMOFF v4l2_buf_type.V4L2_BUF_TYPE_VIDEO_CAPTURE, {}),
       (Call.munmap 1000 64, {}), (Call.munmap 2000 64, {}),
       (Call.VIDIOC_REQBUFS { count := 0, type := v4l2_buf_type.V4L2_BUF_TYPE_VIDEO_CAPTURE,
                              memory := v4l2_memory.V4L2_MEMORY_MMAP }, {}),
       (Call.VIDIOC_REQBUFS { count := 4, type := v4l2_buf_type.V4L2_BUF_TYPE_VIDEO_CAPTURE,
                              memory := v4l2_memory.V4L2_MEMORY_MMAP }, { count := 2 }),
       (Call.calloc 2, { addr := 8 }),
       (Call.VIDIOC_QUERYBUF { type := v4l2_buf_type.V4L2_BUF_TYPE_VIDEO_CAPTURE,
                               memory := v4l2_memory.V4L2_MEMORY_MMAP, index := 0 },
         { length := 128, offset := 0 }),
       (Call.mmap 128 0, { addr := 7000 }),
       (Call.VIDIOC_QUERYBUF { type := v4l2_buf_type.V4L2_BUF_TYPE_VIDEO_CAPTURE,
                               memory := v4l2_memory.V4L2_MEMORY_MMAP, index := 1 },
         { length := 128, offset := 128 }),
       (Call.mmap 128 128, { addr := 8000 }),
       (Call.VIDIOC_QBUF { type := v4l2_buf_type.V4L2_BUF_TYPE_VIDEO_CAPTURE,
                           memory := v4l2_memory.V4L2_MEMORY_MMAP, index := 0 }, {}),
       (Call.VIDIOC_QBUF { type := v4l2_buf_type.V4L2_BUF_TYPE_VIDEO_CAPTURE,
                           memory := v4l2_memory.V4L2_MEMORY_MMAP, index := 1 }, {}),
       (Call.VIDIOC_STREAMON v4l2_buf_type.V4L2_BUF_TYPE_VIDEO_CAPTURE, {})] ∧
    (handle_source_change ex_reconfigure).state.n_buffers = 2 ∧
    (handle_source_change ex_reconfigure).state.buffers = [⟨7000, 128⟩, ⟨8000, 128⟩] ∧
    ∃ a : Answers,
      steps (added handle_source_change ex_reconfigure) = reconfigure_steps ex_reconfigure a ∧
      a.all_succeeded ∧ a.unmap.length = (release_calls ex_reconfigure).length ∧
      a.described.length = a.granted ∧ a.enqueue.length = a.granted ∧
      (reconfigure_steps ex_reconfigure a).all (fun x => !x.1.is_format) = true ∧
      (handle_source_change ex_reconfigure).state.n_buffers = a.granted ∧ 2 ≤ a.granted ∧
      (if ex_reconfigure.multi_planar then
        (handle_source_change ex_reconfigure).state.buffers_mp = new_pool_mp a.described
       else (handle_source_change ex_reconfigure).state.buffers = new_pool a.described) :=
  ⟨by decide!, by decide!, by decide!, by decide!,
    (C7_source_change_reconfigures ex_reconfigure {} [] 0 (by decide!)).2⟩

/-- C8: `handle_event` leaves the Output stream untouched.  Whatever events are
pending and however the run ends, the Output pools and the Output buffer count
are what they were, and every entry the run adds to the trace is a diagnostic or
a call that does not address an Output stream type (so no stop, release,
request, enqueue or start command on it) and no callback invocation.  Every
`munmap` of the run releases a mapping of the Capture pool the run started with
or a mapping that an earlier `mmap` of the same run created; so no mapping of
the Output pool is released, unless it is one of those.  An `V4L2_EVENT_EOS`
event does nothing but use up the answer to the event dequeue and print a
diagnostic: handling it and what follows is handling what follows in a state
that differs only in the script and the trace. -/
theorem C8_handle_event_leaves_output_untouched (s : State) (r : Resp) (rest : List Resp) :
    ((handle_event s).state.buffers_out = s.buffers_out ∧
      (handle_event s).state.buffers_mp_out = s.buffers_mp_out ∧
      (handle_event s).state.n_buffers_out = s.n_buffers_out ∧
      ∃ t, (handle_event s).state.trace = s.trace ++ t ∧
        ∀ e ∈ t, (e.is_log = true ∨ ∃ c a, e = Ev.sys c a ∧ c.on_output = false)) ∧
    handle_event { s with script :=
        { r with ret := 0, ev_type := v4l2_event_type.V4L2_EVENT_EOS } :: rest } =
      handle_event { s with script := rest, trace := s.trace ++
        [Ev.sys Call.VIDIOC_DQEVENT
           { r with ret := 0, ev_type := v4l2_event_type.V4L2_EVENT_EOS },
         Ev.log Msg.EOS] } ∧
    (∀ (pre post : List Ev) (a l : Nat) (u : Resp),
      added handle_event s = pre ++ Ev.sys (Call.munmap a l) u :: post →
        (a, l) ∈ capture_maps s ∨ (a, l) ∈ pre.filterMap Ev.mapped) ∧
    (∀ x ∈ output_maps s, x ∉ capture_maps s →
      x ∉ (added handle_event s).filterMap Ev.mapped →
        x ∉ (added handle_event s).filterMap Ev.unmapped) := by
  refine ⟨?_, ?_, handle_event_unmaps s, ?_⟩
  · obtain ⟨hf, ⟨t, ht, hP⟩, -⟩ := sat_handle_event (P := fun e => Ev.capture_side e = true)
      (fun _ h => h) s
    refine ⟨hf.2.1, hf.2.2.1, hf.2.2.2.1, t, ht, ?_⟩
    intro e he
    have hc := hP e he
    cases e with
    | sys c a =>
      right
      refine ⟨c, a, rfl, ?_⟩
      cases c <;> simp_all [Ev.capture_side]
    | log m => left; rfl
    | _ => simp [Ev.capture_side] at hc
  · simp [handle_event, bind_apply, getState_apply, handle_event_loop, emit_apply, M2M.sys]
  · intro x hx hcap hmap hun
    obtain ⟨e, he, hu⟩ := List.mem_filterMap.mp hun
    obtain ⟨pre, post, hsplit⟩ := List.append_of_mem he
    cases e with
    | sys c u =>
      cases c with
      | munmap a l =>
        simp only [Ev.unmapped, Option.some.injEq] at hu
        subst hu
        rcases handle_event_unmaps s pre post a l u hsplit with h | h
        · exact hcap h
        · apply hmap
          rw [hsplit, List.filterMap_append]
          exact List.mem_append_left _ h
      | _ => simp [Ev.unmapped] at hu
    | _ => simp [Ev.unmapped] at hu

/-- C8 (witness): two source changes are pending.  The first reconfiguration
releases the two mappings of the Capture pool the drain started with, the second
the two mappings the first one created; the three mappings of the Output pool
are not released and the Output pool is what it was. -/
theorem C8_handle_event_leaves_output_untouched_witness :
    (handle_event ex_two_source_changes).isOk = true ∧
    capture_maps ex_two_source_changes = [(1000, 64), (2000, 64)] ∧
    output_maps ex_two_source_changes = [(3000, 32), (4000, 32), (5000, 32)] ∧
    (added handle_event ex_two_source_changes).filterMap Ev.unmapped =
      [(1000, 64), (2000, 64), (7000, 128), (8000, 128)] ∧
    (added handle_event ex_two_source_changes).filterMap Ev.mapped =
      [(7000, 128), (8000, 128), (9000, 256), (10000, 256)] ∧
    (handle_event ex_two_source_changes).state.buffers_out = ex_pool_out ∧
    (3000, 32) ∉ (added handle_event ex_two_source_changes).filterMap Ev.unmapped :=
  ⟨by decide!, by decide!, by decide!, by decide!, by decide!, by decide!,
    (C8_handle_event_leaves_output_untouched ex_two_source_changes {} []).2.2.2 (3000, 32)
      (by decide!) (by decide!) (by decide!)⟩

/-- C10 (evaluation at the failing input): with M2M disabled `mainloop` still
waits on writable readiness, and when the wait reports the device writable it
issues an Output-direction service call (a dequeue on the Output queue). -/
theorem C10_waits_on_writable_without_m2m :
    ex_capture_only.m2m_enabled = false ∧
    (mainloop ex_capture_only).isOk = true ∧
    Ev.sys (Call.select true true true 10 0) { ret := 1, wr := true } ∈
      run_trace mainloop ex_capture_only ∧
    Ev.sys (Call.VIDIOC_DQBUF { type := v4l2_buf_type.V4L2_BUF_TYPE_VIDEO_OUTPUT,
                                memory := v4l2_memory.V4L2_MEMORY_MMAP })
      { ret := -1, errno := Errno.EAGAIN } ∈ run_trace mainloop ex_capture_only ∧
    Ev.serviced v4l2_buf_type.V4L2_BUF_TYPE_VIDEO_OUTPUT 0 ∈
      run_trace mainloop ex_capture_only := by
  decide!

/-- C11: `read_frame` and `read_frame_mmap_mp` keep the contract of a service call,
in every state and for every script of device responses.  The call returns 0
exactly when the dequeue (under `IO_METHOD_READ`, the `read`) failed with
`EAGAIN`, and then the failed dequeue is all it did: no callback was invoked
and no enqueue was made.  It returns 1 exactly when the dequeue succeeded and
the re-enqueue succeeded (under `IO_METHOD_READ`, when the `read` succeeded).
It returns no other value.  When the dequeue failed with another error, or the
enqueue failed, the run ended with `exit`. -/
theorem C11_service_call_outcome (type : v4l2_buf_type) (bufs : List buffer)
    (bufs_mp : List buffer_mp) (n : Nat) (s : State) :
    ServiceContract (decide (s.io = io_method.IO_METHOD_READ)) (read_frame type bufs n s)
      (notes (added (read_frame type bufs n) s)) ∧
    ServiceContract false (read_frame_mmap_mp type bufs_mp n s)
      (notes (added (read_frame_mmap_mp type bufs_mp n) s)) := by
  constructor
  · obtain ⟨t, ht, hok, hhalt⟩ := read_frame_notes type bufs n s
    rw [added_eq ht]
    by_cases hio : s.io = io_method.IO_METHOD_READ
    · simp only [hio, if_true] at hok hhalt
      simp only [hio, decide_True]
      exact contract_of_read hok hhalt
    · simp only [hio, if_false] at hok hhalt
      simp only [hio, decide_False]
      exact contract_of_service hok hhalt
  · obtain ⟨t, ht, hok, hhalt⟩ := gives_read_frame_mmap_mp type bufs_mp n s
    rw [added_eq ht]
    exact contract_of_service hok hhalt

/-- C11 (witness): in `ex_not_ready` the dequeue says `EAGAIN` and `read_frame`
returns 0; in `ex_output_refill` dequeue and re-enqueue succeed and it returns 1;
in `ex_dequeue_eio` and `ex_enqueue_fails` a call fails otherwise and the run
ends with `exit`. -/
theorem C11_service_call_outcome_witness :
    (read_frame v4l2_buf_type.V4L2_BUF_TYPE_VIDEO_CAPTURE ex_pool 2 ex_not_ready).value =
      some 0 ∧
    notes (added (read_frame v4l2_buf_type.V4L2_BUF_TYPE_VIDEO_CAPTURE ex_pool 2)
      ex_not_ready) = [Note.dequeue { ret := -1, errno := Errno.EAGAIN }] ∧
    (read_frame v4l2_buf_type.V4L2_BUF_TYPE_VIDEO_OUTPUT ex_pool_out 3
      ex_output_refill).value = some 1 ∧
    (read_frame v4l2_buf_type.V4L2_BUF_TYPE_VIDEO_CAPTURE ex_pool 2 ex_dequeue_eio).halted =
      some Halt.exit ∧
    (read_frame v4l2_buf_type.V4L2_BUF_TYPE_VIDEO_CAPTURE ex_pool 2
      ex_enqueue_fails).halted = some Halt.exit :=
  ⟨(C11_service_call_outcome v4l2_buf_type.V4L2_BUF_TYPE_VIDEO_CAPTURE ex_pool [] 2
      ex_not_ready).1.1.mpr ⟨{ ret := -1, errno := Errno.EAGAIN }, by decide!, by decide,
        by decide⟩,
    by decide!,
    (C11_service_call_outcome v4l2_buf_type.V4L2_BUF_TYPE_VIDEO_OUTPUT ex_pool_out [] 3
      ex_output_refill).1.2.2.1.mpr ⟨{ index := 1, bytesused := 32 }, by decide!, by decide,
        Or.inr ⟨{}, by decide!, by decide⟩⟩,
    (C11_service_call_outcome v4l2_buf_type.V4L2_BUF_TYPE_VIDEO_CAPTURE ex_pool [] 2
      ex_dequeue_eio).1.2.2.2.2.1 { ret := -1, errno := Errno.EIO } (by decide!) (by decide)
        (by decide),
    (C11_service_call_outcome v4l2_buf_type.V4L2_BUF_TYPE_VIDEO_CAPTURE ex_pool [] 2
      ex_enqueue_fails).1.2.2.2.2.2 { ret := -1, errno := Errno.EINVAL } (by decide!)
        (by decide)⟩

/-- C12: under `IO_METHOD_USERPTR`, let the dequeue of `read_frame` succeed with
answer `r`, and let `i0` be the lowest index below `n_buffers` at which the pool
entry has the address and length of `r` (`i0 = n_buffers` when there is none).
When no pool entry matches, `read_frame` stops on its `assert` in the state the
dequeue left: the sink has not been invoked and nothing has been enqueued.
When one matches, the scan stops at `i0`, which is the lowest matching index,
and `read_frame` goes on from the state the dequeue left with the sink and the
re-enqueue. -/
theorem C12_userptr_consistency_check (type : v4l2_buf_type) (bufs : List buffer) (n : Nat)
    (s : State) (r : Resp) (hio : s.io = io_method.IO_METHOD_USERPTR)
    (hn : n ≤ bufs.length)
    (hdq : (xioctl (Call.VIDIOC_DQBUF userptr_request) s).value = some r)
    (hr : r.ret ≠ -1) :
    ((bufs.take n).findIdx (userptr_match r) = n ↔
      ∀ b ∈ bufs.take n, userptr_match r b = false) ∧
    ((bufs.take n).findIdx (userptr_match r) = n →
      read_frame type bufs n s =
        Result.halt Halt.abort (xioctl (Call.VIDIOC_DQBUF userptr_request) s).state) ∧
    ((bufs.take n).findIdx (userptr_match r) < n →
      (∃ b, bufs[(bufs.take n).findIdx (userptr_match r)]? = some b ∧
        userptr_match r b = true) ∧
      (∀ j b, j < (bufs.take n).findIdx (userptr_match r) → bufs[j]? = some b →
        userptr_match r b = false) ∧
      userptr_scan bufs r.userptr r.length n 0
          (xioctl (Call.VIDIOC_DQBUF userptr_request) s).state =
        Result.ok ((bufs.take n).findIdx (userptr_match r))
          (xioctl (Call.VIDIOC_DQBUF userptr_request) s).state ∧
      read_frame type bufs n s =
        read_frame_userptr_rest r (xioctl (Call.VIDIOC_DQBUF userptr_request) s).state) := by
  have hlen : (bufs.take n).length = n := by simp [hn]
  have hscan := userptr_scan_eq bufs r n 0
    (xioctl (Call.VIDIOC_DQBUF userptr_request) s).state (by omega)
  simp only [List.drop_zero, Nat.zero_add] at hscan
  have hrun : read_frame type bufs n s =
      (if (bufs.take n).findIdx (userptr_match r) < n then read_frame_userptr_rest r
        else halt Halt.abort) (xioctl (Call.VIDIOC_DQBUF userptr_request) s).state := by
    unfold read_frame
    rw [bind_apply, getState_apply]
    simp only [hio]
    have hx := value_state hdq
    simp only [userptr_request] at hx hscan ⊢
    rw [bind_apply, hx]
    simp only [hr, if_false, ite_apply]
    rw [bind_apply]
    simp only [v4l2_buffer.dequeued] at hscan ⊢
    rw [hscan]
    simp only [ite_apply]
    rfl
  refine ⟨?_, ?_, ?_⟩
  · have h := @List.findIdx_eq_length _ (userptr_match r) (bufs.take n)
    rw [hlen] at h
    simpa using h
  · intro h0
    rw [hrun, h0]
    simp [halt_apply]
  · intro hlt
    have hlt' : (bufs.take n).findIdx (userptr_match r) < (bufs.take n).length := by
      rw [hlen]
      exact hlt
    refine ⟨?_, ?_, hscan, ?_⟩
    · have hm := List.findIdx_getElem (w := hlt')
      refine ⟨(bufs.take n)[(bufs.take n).findIdx (userptr_match r)], ?_, hm⟩
      rw [List.getElem_take]
      exact List.getElem?_eq_getElem _
    · intro j b hj hb
      have hjn : j < (bufs.take n).length := by omega
      have hnot := List.not_of_lt_findIdx hj
      have hjb : (bufs.take n)[j] = b := by
        rw [List.getElem_take]
        have hjl : j < bufs.length := by omega
        rw [List.getElem?_eq_getElem hjl] at hb
        exact Option.some.inj hb
      rw [hjb] at hnot
      simpa using hnot
    · rw [hrun, if_pos hlt]

/-- C12 (witness): in `ex_userptr` the dequeue hands back the memory of pool entry
0 and `read_frame` goes on to the sink and the re-enqueue and returns 1; in
`ex_userptr_twice` two entries match and the scan stops at the first of them,
index 1; in `ex_userptr_stray` none matches and `read_frame` stops on its
`assert` right after the dequeue. -/
theorem C12_userptr_consistency_check_witness :
    (ex_userptr.io = io_method.IO_METHOD_USERPTR ∧ 2 ≤ ex_pool.length ∧
      (xioctl (Call.VIDIOC_DQBUF userptr_request) ex_userptr).value = some ex_userptr_answer ∧
      ex_userptr_answer.ret ≠ -1) ∧
    (ex_pool.take 2).findIdx (userptr_match ex_userptr_answer) = 0 ∧
    read_frame v4l2_buf_type.V4L2_BUF_TYPE_VIDEO_CAPTURE ex_pool 2 ex_userptr =
      read_frame_userptr_rest ex_userptr_answer
        (xioctl (Call.VIDIOC_DQBUF userptr_request) ex_userptr).state ∧
    (read_frame v4l2_buf_type.V4L2_BUF_TYPE_VIDEO_CAPTURE ex_pool 2 ex_userptr).value =
      some 1 ∧
    (ex_pool_twice.take 3).findIdx (userptr_match ex_userptr_twice_answer) = 1 ∧
    userptr_scan ex_pool_twice ex_userptr_twice_answer.userptr ex_userptr_twice_answer.length 3 0
        (xioctl (Call.VIDIOC_DQBUF userptr_request) ex_userptr_twice).state =
      Result.ok ((ex_pool_twice.take 3).findIdx (userptr_match ex_userptr_twice_answer))
        (xioctl (Call.VIDIOC_DQBUF userptr_request) ex_userptr_twice).state ∧
    (ex_pool.take 2).findIdx (userptr_match ex_userptr_stray_answer) = 2 ∧
    read_frame v4l2_buf_type.V4L2_BUF_TYPE_VIDEO_CAPTURE ex_pool 2 ex_userptr_stray =
      Result.halt Halt.abort
        (xioctl (Call.VIDIOC_DQBUF userptr_request) ex_userptr_stray).state ∧
    run_trace (read_frame v4l2_buf_type.V4L2_BUF_TYPE_VIDEO_CAPTURE ex_pool 2)
        ex_userptr_stray =
      [Ev.sys (Call.VIDIOC_DQBUF userptr_request) ex_userptr_stray_answer] :=
  ⟨⟨by decide!, by decide!, by decide!, by decide!⟩, by decide!,
    ((C12_userptr_consistency_check v4l2_buf_type.V4L2_BUF_TYPE_VIDEO_CAPTURE ex_pool 2
      ex_userptr ex_userptr_answer (by decide!) (by decide!) (by decide!)
      (by decide!)).2.2 (by decide!)).2.2.2,
    by decide!, by decide!,
    ((C12_userptr_consistency_check v4l2_buf_type.V4L2_BUF_TYPE_VIDEO_CAPTURE ex_pool_twice 3
      ex_userptr_twice ex_userptr_twice_answer (by decide!) (by decide!) (by decide!)
      (by decide!)).2.2 (by decide!)).2.2.1,
    by decide!,
    (C12_userptr_consistency_check v4l2_buf_type.V4L2_BUF_TYPE_VIDEO_CAPTURE ex_pool 2
      ex_userptr_stray ex_userptr_stray_answer (by decide!) (by decide!) (by decide!)
      (by decide!)).2.1 (by decide!),
    by decide!⟩


/-- C13: every readiness wait of a run of `mainloop` is a `select` with a timeout
of 10 seconds and 0 microseconds.  When a wait returns 0 (no class ready), the
only thing the run adds after it is the "select timeout" diagnostic and the run
ends by `exit`: no service call and no further wait.  When a wait is interrupted
by a signal (`-1` with `EINTR`), the next entry of the trace is the next wait,
or the run stops there because the environment has no further response: no
service call, no event drain and no completed frame lie in between.  In terms of
states: with a first wait that returns 0 and budget left, `mainloop` ends by
`exit` in the state after the wait and the diagnostic; with a first wait that
is interrupted, the inner loop goes to its next pass in the state after the
wait, that state has the same budget, and with budget left the run of
`mainloop` is the run of `mainloop` from that state. -/
theorem C13_readiness_wait (s : State) :
    (∀ (pre post : List Ev) (rd wr ex : Bool) (tv_sec tv_usec : Nat) (r : Resp),
      added mainloop s = pre ++ Ev.sys (Call.select rd wr ex tv_sec tv_usec) r :: post →
        (tv_sec = 10 ∧ tv_usec = 0) ∧
        (r.ret = 0 →
          post = [Ev.log Msg.select_timeout] ∧ (mainloop s).halted = some Halt.exit) ∧
        (r.ret = -1 → r.errno = Errno.EINTR →
          (post = [] ∧ (mainloop s).halted = some Halt.starved) ∨
          ∃ (r2 : Resp) (post2 : List Ev),
            post = Ev.sys (Call.select true true true 10 0) r2 :: post2)) ∧
    (∀ (r : Resp) (rest : List Resp), s.script = r :: rest →
      (r.ret = 0 → 0 < budget s →
        mainloop s = Result.halt Halt.exit
          { after_wait s r rest with
            trace := (after_wait s r rest).trace ++ [Ev.log Msg.select_timeout] }) ∧
      (r.ret = -1 → r.errno = Errno.EINTR →
        (∀ n, mainloop_inner (n + 1) s = mainloop_inner n (after_wait s r rest)) ∧
        budget (after_wait s r rest) = budget s ∧
        (0 < budget s → mainloop s = mainloop (after_wait s r rest)))) := by
  refine ⟨mainloop_waits s, ?_⟩
  intro r rest hs
  refine ⟨fun h0 hb => mainloop_timeout hs h0 hb, fun h1 hE => ⟨?_, rfl, ?_⟩⟩
  · exact fun n => mainloop_inner_interrupted hs h1 hE n
  · exact fun hb => mainloop_interrupted hs h1 hE hb

/-- C13 on two sessions with budget 1.  In the first the first wait is
interrupted: the next entry of the trace is the second wait, and the run is
the run from the state after the first wait.  In the second the first wait
returns 0: the run ends by `exit` after the diagnostic, with three responses
unused. -/
theorem C13_readiness_wait_witness :
    (added mainloop ex_wait_interrupted =
      [] ++ Ev.sys (Call.select true true true 10 0) { ret := -1, errno := Errno.EINTR } ::
        (added mainloop ex_wait_interrupted).drop 1) ∧
    (((added mainloop ex_wait_interrupted).drop 1 = [] ∧
        (mainloop ex_wait_interrupted).halted = some Halt.starved) ∨
      ∃ (r2 : Resp) (post2 : List Ev), (added mainloop ex_wait_interrupted).drop 1 =
        Ev.sys (Call.select true true true 10 0) r2 :: post2) ∧
    ((added mainloop ex_wait_interrupted).drop 1).head? =
      some (Ev.sys (Call.select true true true 10 0) { ret := 1, rd := true }) ∧
    mainloop ex_wait_interrupted =
      mainloop (after_wait ex_wait_interrupted { ret := -1, errno := Errno.EINTR }
        [{ ret := 1, rd := true }, { index := 0, bytesused := 5 }, {}]) ∧
    mainloop ex_wait_timeout = Result.halt Halt.exit
      { ex_wait_timeout with
        script := [{ ret := 1, rd := true }, { index := 0, bytesused := 5 }, {}],
        trace := [Ev.sys (Call.select true true true 10 0) { ret := 0 },
                  Ev.log Msg.select_timeout] } :=
  ⟨by decide!,
   ((C13_readiness_wait ex_wait_interrupted).1 [] _ true true true 10 0
     { ret := -1, errno := Errno.EINTR } (by decide!)).2.2
     rfl rfl,
   by decide!,
   (((C13_readiness_wait ex_wait_interrupted).2 _ _ rfl).2 rfl rfl).2.2 (by decide),
   ((C13_readiness_wait ex_wait_timeout).2 _ _ rfl).1 rfl (by decide)⟩

/-- C14 (evaluation at the failing input): stream start of an M2M session under
`IO_METHOD_MMAP`.  Multi-planar, with a source that holds a single access unit
of 7 bytes (less than a buffer): the Capture buffers are enqueued and the
Capture stream is started, the source is invoked on Output buffer 0, and the
run ends there in undefined behaviour; no Output buffer is enqueued and the
Output stream is not started.  The same with an empty source.  Single-planar,
with three Output buffers and two Capture buffers: two Output buffers are
enqueued, the run ends in undefined behaviour at the third, and the Output
stream is not started. -/
theorem C14_stream_start_fails_on_short_source :
    (start_capturing ex_mp_start_short).halted = some Halt.undefined ∧
    outline (run_trace start_capturing ex_mp_start_short) =
      [Item.call (Call.VIDIOC_QBUF (mmap_buffer
         v4l2_buf_type.V4L2_BUF_TYPE_VIDEO_CAPTURE_MPLANE true 0)),
       Item.call (Call.VIDIOC_QBUF (mmap_buffer
         v4l2_buf_type.V4L2_BUF_TYPE_VIDEO_CAPTURE_MPLANE true 1)),
       Item.call (Call.VIDIOC_STREAMON v4l2_buf_type.V4L2_BUF_TYPE_VIDEO_CAPTURE_MPLANE),
       Item.source 3000 16] ∧
    (start_capturing ex_mp_start_empty).halted = some Halt.undefined ∧
    (outline (run_trace start_capturing ex_mp_start_empty)).filter Item.on_output = [] ∧
    (start_capturing ex_m2m_start).halted = some Halt.undefined ∧
    ex_m2m_start.n_buffers_out = 3 ∧
    (outline (run_trace start_capturing ex_m2m_start)).filter Item.on_output =
      [Item.call (Call.VIDIOC_QBUF
         { type := v4l2_buf_type.V4L2_BUF_TYPE_VIDEO_OUTPUT,
           memory := v4l2_memory.V4L2_MEMORY_MMAP, index := 0, bytesused := 64 }),
       Item.call (Call.VIDIOC_QBUF
         { type := v4l2_buf_type.V4L2_BUF_TYPE_VIDEO_OUTPUT,
           memory := v4l2_memory.V4L2_MEMORY_MMAP, index := 1, bytesused := 36 })] := by
  decide!
/-- Stream start by function: when `start_capturing_mmap` or `start_capturing_mmap_mp` returns, what
it
did is, in this order and nothing else: for each buffer `0`, …, `n_bufs - 1` of
the pool it was given, for an Output type the invocation of the source on the
buffer and then, for every type, the `VIDIOC_QBUF` of the buffer; then the
`VIDIOC_STREAMON`.  So every index is enqueued exactly once, in increasing
order, and the stream is started exactly once, after all enqueues.  The
`bytesused` of an Output enqueue is the number of bytes the source supplied
(`start_plan`: what the input file had left, at most the capacity, 0 when no
file is open; `start_plan_mp`: the length of the access unit).  Under
`IO_METHOD_READ`, `start_capturing` makes no call at all. -/
theorem stream_start_by_function (type : v4l2_buf_type) (bufs : List buffer)
    (bufs_mp : List buffer_mp) (n : Nat) (s : State) :
    ((start_capturing_mmap type bufs n s).isOk = true →
      outline (added (start_capturing_mmap type bufs n) s) =
        start_plan type bufs s.in_fp s.in_file n 0 s.in_pos ++
          [Item.call (Call.VIDIOC_STREAMON type)] ∧
      (outline (added (start_capturing_mmap type bufs n) s)).filterMap Item.enqueued_index =
        List.range n ∧
      (outline (added (start_capturing_mmap type bufs n) s)).filter Item.is_streamon =
        [Item.call (Call.VIDIOC_STREAMON type)]) ∧
    ((start_capturing_mmap_mp type bufs_mp n s).isOk = true →
      outline (added (start_capturing_mmap_mp type bufs_mp n) s) =
        start_plan_mp type bufs_mp n 0 s ++ [Item.call (Call.VIDIOC_STREAMON type)] ∧
      (outline (added (start_capturing_mmap_mp type bufs_mp n) s)).filterMap
        Item.enqueued_index = List.range n ∧
      (outline (added (start_capturing_mmap_mp type bufs_mp n) s)).filter Item.is_streamon =
        [Item.call (Call.VIDIOC_STREAMON type)]) ∧
    (s.io = io_method.IO_METHOD_READ → start_capturing s = Result.ok () s) := by
  refine ⟨?_, ?_, ?_⟩
  · intro hok
    obtain ⟨t, ht, h1, h2, h3⟩ := start_capturing_mmap_outline (isOk_eq_ok hok)
    rw [added_eq ht]
    exact ⟨h1, h2, h3⟩
  · intro hok
    obtain ⟨t, ht, h1, h2, h3⟩ := start_capturing_mmap_mp_outline (isOk_eq_ok hok)
    rw [added_eq ht]
    exact ⟨h1, h2, h3⟩
  · intro hio
    simp [start_capturing, bind_apply, getState_apply, hio, pure_apply]

/-- Stream start with a source of 40 bytes, the three Output buffers of 32 bytes
are filled and enqueued in order with `bytesused` 32, 8 and 0, and the stream is
started after them; with the access units of `ex_two_aus`, the two multi-planar
Output buffers are enqueued with `bytesused` 7 and 6. -/
theorem stream_start_short_source :
    (start_capturing_mmap v4l2_buf_type.V4L2_BUF_TYPE_VIDEO_OUTPUT ex_pool_out 3
      ex_short_source).isOk = true ∧
    outline (added (start_capturing_mmap v4l2_buf_type.V4L2_BUF_TYPE_VIDEO_OUTPUT ex_pool_out 3)
        ex_short_source) =
      [Item.source 3000 32,
       Item.call (Call.VIDIOC_QBUF
         { type := v4l2_buf_type.V4L2_BUF_TYPE_VIDEO_OUTPUT,
           memory := v4l2_memory.V4L2_MEMORY_MMAP, index := 0, bytesused := 32 }),
       Item.source 4000 32,
       Item.call (Call.VIDIOC_QBUF
         { type := v4l2_buf_type.V4L2_BUF_TYPE_VIDEO_OUTPUT,
           memory := v4l2_memory.V4L2_MEMORY_MMAP, index := 1, bytesused := 8 }),
       Item.source 5000 32,
       Item.call (Call.VIDIOC_QBUF
         { type := v4l2_buf_type.V4L2_BUF_TYPE_VIDEO_OUTPUT,
           memory := v4l2_memory.V4L2_MEMORY_MMAP, index := 2, bytesused := 0 }),
       Item.call (Call.VIDIOC_STREAMON v4l2_buf_type.V4L2_BUF_TYPE_VIDEO_OUTPUT)] ∧
    (start_capturing_mmap_mp v4l2_buf_type.V4L2_BUF_TYPE_VIDEO_OUTPUT_MPLANE
      ex_two_aus.buffers_mp_out 2 ex_two_aus).isOk = true ∧
    outline (added (start_capturing_mmap_mp v4l2_buf_type.V4L2_BUF_TYPE_VIDEO_OUTPUT_MPLANE
        ex_two_aus.buffers_mp_out 2) ex_two_aus) =
      [Item.source 4096 16,
       Item.call (Call.VIDIOC_QBUF
         { type := v4l2_buf_type.V4L2_BUF_TYPE_VIDEO_OUTPUT_MPLANE,
           memory := v4l2_memory.V4L2_MEMORY_MMAP, index := 0, bytesused := 7,
           length := 1, planes := [{}] }),
       Item.source 8192 16,
       Item.call (Call.VIDIOC_QBUF
         { type := v4l2_buf_type.V4L2_BUF_TYPE_VIDEO_OUTPUT_MPLANE,
           memory := v4l2_memory.V4L2_MEMORY_MMAP, index := 1, bytesused := 6,
           length := 1, planes := [{}] }),
       Item.call (Call.VIDIOC_STREAMON v4l2_buf_type.V4L2_BUF_TYPE_VIDEO_OUTPUT_MPLANE)] ∧
    start_capturing { io := io_method.IO_METHOD_READ } =
      Result.ok () { io := io_method.IO_METHOD_READ } :=
  ⟨by decide!,
    ((stream_start_by_function v4l2_buf_type.V4L2_BUF_TYPE_VIDEO_OUTPUT ex_pool_out [] 3
      ex_short_source).1 (by decide!)).1.trans (by decide!),
    by decide!,
    ((stream_start_by_function v4l2_buf_type.V4L2_BUF_TYPE_VIDEO_OUTPUT_MPLANE []
      ex_two_aus.buffers_mp_out 2 ex_two_aus).2.1 (by decide!)).1.trans (by decide!),
    (stream_start_by_function v4l2_buf_type.V4L2_BUF_TYPE_VIDEO_CAPTURE [] [] 0
      { io := io_method.IO_METHOD_READ }).2.2 rfl⟩

/-- C15: the source of `ex_one_au` holds exactly one access unit of 1024 bytes (the
marker at offset 0, no marker after it) and the Output plane has a capacity of
1024 bytes, yet `supply_input_mp` does not complete: `memmem` finds no marker
after the first byte and the null result is used as the end of the access unit.
Whatever the 1024 bytes of the source, the memory and the capacity are, the fill
never reports `bytesused = 1024`. -/
theorem C15_one_access_unit_not_supplied :
    ex_one_au.in_file.length = 1024 ∧ occurs_at ex_one_au.in_file aud 0 = true ∧
    memmem (ex_one_au.in_file.drop 1) aud = none ∧
    (supply_input_mp [4096] [1024] ex_one_au).halted = some Halt.undefined ∧
    (supply_input_mp [4096] [1024] ex_one_au).value = none ∧
    (∀ (s : State) (buf buf_len : Nat), s.in_fp = true → s.in_file.length = 1024 →
      (supply_input_mp [buf] [buf_len] s).value ≠ some 1024) := by
  have hnone : memmem (au_haystack ex_one_au 4096 1024) aud = none := by decide!
  refine ⟨by decide!, by decide!, by decide!, ?_, ?_, ?_⟩
  · exact (supply_input_mp_value [4096] [1024] ex_one_au rfl).2 hnone
  · rw [(supply_input_mp_value [4096] [1024] ex_one_au rfl).1]
    simp only [List.getD_cons_zero] at hnone ⊢
    rw [hnone]
    rfl
  · intro s buf buf_len hfp hlen hv
    rw [(supply_input_mp_value [buf] [buf_len] s hfp).1] at hv
    simp only [List.getD_cons_zero] at hv
    cases hm : memmem (au_haystack s buf buf_len) aud with
    | none => simp [hm] at hv
    | some k =>
      have hb := memmem_bound hm
      have hl := au_haystack_length s buf buf_len
      have hr := (au_read_length_le s buf_len).1
      simp only [hm, Option.map_some', Option.some.injEq] at hv
      simp only [aud, List.length_cons, List.length_nil] at hb
      omega

/-- C16: the marker search of `supply_input_by_au` inspects the byte after the
bytes read.  In `ex_stale_nine` and `ex_stale_zero` the source and the six bytes
read are the same and hold no marker; the two states differ only in the byte of
memory after the bytes read (address 106, past the end of the six-byte buffer).
With 9 there the call reports an access unit of 2 bytes and advances the source
offset to 2; with 0 there `memmem` finds nothing. -/
theorem C16_marker_search_reads_past_bytes_read :
    au_read ex_stale_nine 6 = [5, 5, 0, 0, 0, 1] ∧
    au_read ex_stale_zero 6 = [5, 5, 0, 0, 0, 1] ∧
    memmem [5, 5, 0, 0, 0, 1] aud = none ∧
    ex_stale_nine.mem 106 = 9 ∧ ex_stale_zero.mem 106 = 0 ∧
    (supply_input_by_au 100 6 ex_stale_nine).value = some 2 ∧
    (supply_input_by_au 100 6 ex_stale_nine).state.f_offset = 2 ∧
    (supply_input_by_au 100 6 ex_stale_zero).halted = some Halt.undefined := by
  refine ⟨by decide!, by decide!, by decide!, by decide!, by decide!, by decide!, by decide!,
    by decide!⟩

/-- C17 (counterexample): width 2^30, height 4, bytesperline 1 and sizeimage 0 are
32-bit values for which neither `2 * width` nor `bytesperline * height`
overflows 32 bits, yet after the adjustment `sizeimage` is below
`bytesperline * height`: the adjusted `bytesperline` is 2^31 and its product with
`height` wraps to 0. -/
theorem C17_adjusted_stride_times_height_wraps :
    let pix : v4l2_pix_format :=
      { width := 2 ^ 30, height := 4, bytesperline := 1, sizeimage := 0 }
    pix.width < 2 ^ 32 ∧ pix.height < 2 ^ 32 ∧ pix.bytesperline < 2 ^ 32 ∧
    pix.sizeimage < 2 ^ 32 ∧ 2 * pix.width < 2 ^ 32 ∧ pix.bytesperline * pix.height < 2 ^ 32 ∧
    (paranoia_pix pix).bytesperline = 2 ^ 31 ∧ (paranoia_pix pix).sizeimage = 0 ∧
    ¬ ((paranoia_pix pix).sizeimage ≥ (paranoia_pix pix).bytesperline * pix.height) := by
  decide

/-- C17 (amended): the single-planar size adjustment never decreases
`bytesperline` or `sizeimage`, leaves `width` and `height` alone and is
idempotent; when `2 * width` and the adjusted `bytesperline` times `height` do
not overflow 32 bits it leaves `bytesperline ≥ 2 * width` and
`sizeimage ≥ bytesperline * height`; it changes nothing when both bounds already
hold.  In the multi-planar branch a plane whose `bytesperline` or `sizeimage`
is 0 keeps that field at 0. -/
theorem C17_size_adjustment (pix : v4l2_pix_format) (pix_mp : v4l2_pix_format_mplane) :
    pix.bytesperline ≤ (paranoia_pix pix).bytesperline ∧
    pix.sizeimage ≤ (paranoia_pix pix).sizeimage ∧
    (paranoia_pix pix).width = pix.width ∧ (paranoia_pix pix).height = pix.height ∧
    paranoia_pix (paranoia_pix pix) = paranoia_pix pix ∧
    (2 * pix.width < 2 ^ 32 → (paranoia_pix pix).bytesperline * pix.height < 2 ^ 32 →
      (paranoia_pix pix).bytesperline ≥ 2 * pix.width ∧
      (paranoia_pix pix).sizeimage ≥ (paranoia_pix pix).bytesperline * pix.height) ∧
    (pix.bytesperline ≥ 2 * pix.width → pix.sizeimage ≥ pix.bytesperline * pix.height →
      paranoia_pix pix = pix) ∧
    (paranoia_pix_mp pix_mp).plane_fmt.length = pix_mp.plane_fmt.length ∧
    (∀ (i : Nat) (p : v4l2_plane_pix_format), pix_mp.plane_fmt[i]? = some p →
      ∃ q : v4l2_plane_pix_format, (paranoia_pix_mp pix_mp).plane_fmt[i]? = some q ∧
        (p.bytesperline = 0 → q.bytesperline = 0) ∧ (p.sizeimage = 0 → q.sizeimage = 0)) := by
  refine ⟨?_, ?_, ?_, ?_, ?_, ?_, ?_, ?_, ?_⟩
  · rw [paranoia_pix_eq]
    exact Nat.le_max_left _ _
  · rw [paranoia_pix_eq]
    exact Nat.le_max_left _ _
  · rw [paranoia_pix_eq]
  · rw [paranoia_pix_eq]
  · rw [paranoia_pix_eq pix, paranoia_pix_eq]
    simp only [v4l2_pix_format.mk.injEq, true_and]
    have h1 : max (max pix.bytesperline ((pix.width * 2) % 2 ^ 32)) ((pix.width * 2) % 2 ^ 32) =
        max pix.bytesperline ((pix.width * 2) % 2 ^ 32) := by
      rw [Nat.max_assoc, Nat.max_self]
    rw [h1, Nat.max_assoc, Nat.max_self]
    exact ⟨rfl, rfl⟩
  · intro hw hh
    rw [paranoia_pix_eq] at hh ⊢
    simp only at hh ⊢
    have hm1 : (pix.width * 2) % 2 ^ 32 = 2 * pix.width := by
      rw [Nat.mod_eq_of_lt (by omega)]
      omega
    rw [hm1] at hh ⊢
    rw [Nat.mod_eq_of_lt hh]
    exact ⟨Nat.le_max_right _ _, Nat.le_max_right _ _⟩
  · intro hb hz
    rw [paranoia_pix_eq]
    have h1 : (pix.width * 2) % 2 ^ 32 ≤ pix.bytesperline := by
      have := Nat.mod_le (pix.width * 2) (2 ^ 32)
      omega
    rw [Nat.max_eq_left h1]
    have h2 : (pix.bytesperline * pix.height) % 2 ^ 32 ≤ pix.sizeimage :=
      Nat.le_trans (Nat.mod_le _ _) hz
    rw [Nat.max_eq_left h2]
  · simp only [paranoia_pix_mp, List.length_append, List.length_map, List.length_take,
      List.length_drop]
    omega
  · intro i p hp
    rw [paranoia_pix_mp_getElem pix_mp i p hp]
    refine ⟨_, rfl, ?_, ?_⟩
    · intro hb
      split_ifs
      · exact (paranoia_plane_zero _ _ p).1 hb
      · exact hb
    · intro hz
      split_ifs
      · exact (paranoia_plane_zero _ _ p).2 hz
      · exact hz

/-- C17 (witness): a 640 × 480 format that the driver left without stride and
size gets `bytesperline = 1280` and `sizeimage = 614400`, and both bounds hold. -/
theorem C17_size_adjustment_witness :
    paranoia_pix { width := 640, height := 480 } =
      { width := 640, height := 480, bytesperline := 1280, sizeimage := 614400 } ∧
    ((paranoia_pix { width := 640, height := 480 }).bytesperline ≥ 2 * 640 ∧
      (paranoia_pix { width := 640, height := 480 }).sizeimage ≥
        (paranoia_pix { width := 640, height := 480 }).bytesperline * 480) :=
  ⟨by decide, (C17_size_adjustment { width := 640, height := 480 } {}).2.2.2.2.2.1
    (by decide) (by decide)⟩

end M2M
